import Mathlib

/-! # eapaka_test: SQN replay store, EAP packet codec and AKA identity handling

A shallow embedding of the Go sources `sqnstore/store.go`,
`sqnstore/memory_store.go`, `sqnstore/file_store.go`, `eap/packet.go`,
`eap/policy.go`, `eap/peer.go`, `eapmethod/aka/aka.go`,
`radiusc/eap_message.go`, `radiusc/message_authenticator.go`,
`radiusc/mppe.go`, `testcase/case.go`, `config/config.go`,
`config/merge.go`, `app/builder.go` and the verdict and challenge case of
`app/runner.go`, followed by the properties proved about them.

Conventions of the embedding
* Go `uint8`, `uint16`, `uint64` values are natural numbers; a conversion or
  an operation that can wrap is written with an explicit `% 2 ^ w`.
* A Go function returning `(T, error)` returns `Except String T`.
* A method with a pointer receiver that mutates the receiver returns the new
  receiver next to its result.
* `[]byte` is `List Nat`; a `nil` slice and an empty slice are both `[]`.
-/

/-! ## Package time (standard library type used by the store) -/

namespace time

/-- Go `time.Time`: whole seconds, nanoseconds within the second and the zone
offset in seconds. The zero value is the zero `Time`. -/
structure Time where
  sec : Int
  nsec : Nat
  offset : Int
deriving DecidableEq

/-- The zero value `time.Time{}`. -/
def Time.zero : Time := ⟨0, 0, 0⟩

end time

/-! ## Package sqnstore (`sqnstore/store.go`) -/

namespace sqnstore

abbrev IndBits : Nat := 5
abbrev ArraySize : Nat := 1 <<< IndBits
abbrev SQNHexLen : Nat := 12
abbrev MaxSQN : Nat := (1 <<< 48) - 1
abbrev MaxSeq : Nat := MaxSQN >>> IndBits

/-- SubscriberState holds the per-IMSI SQN state tracked by the tool. -/
structure SubscriberState where
  SeqMS : Fin ArraySize → Nat
  SQNMS : Nat
  UpdatedAt : time.Time

/-- The Go zero value `var state SubscriberState`. -/
def SubscriberState.zero : SubscriberState :=
  { SeqMS := fun _ => 0, SQNMS := 0, UpdatedAt := time.Time.zero }

/-- SplitSQN breaks SQN into SEQ and IND (lower 5 bits). -/
def SplitSQN (sqn : Nat) : Except String (Nat × Nat) :=
  if sqn > MaxSQN then
    .error "sqnstore: sqn exceeds 48 bits"
  else
    let ind := (sqn &&& ((1 <<< IndBits) - 1)) % 2 ^ 8
    let seq := sqn >>> IndBits
    .ok (seq, ind)

/-- CombineSQN combines SEQ and IND into a 48-bit SQN. -/
def CombineSQN (seq : Nat) (ind : Nat) : Except String Nat :=
  if ind ≥ ArraySize then
    .error "sqnstore: ind out of range"
  else if seq > MaxSeq then
    .error "sqnstore: seq out of range"
  else
    let sqn := ((seq <<< IndBits) % 2 ^ 64) ||| ind
    .ok sqn

/-- AcceptSQN applies freshness rules and updates the state when accepted.
The receiver is returned next to the `(bool, error)` result. The index
expression `s.SeqMS[ind]` is bounds-checked as in Go; the out-of-range branch
is the run-time panic. -/
def SubscriberState.AcceptSQN (s : SubscriberState) (sqn : Nat) :
    SubscriberState × Except String Bool :=
  match SplitSQN sqn with
  | .error err => (s, .error err)
  | .ok (seq, ind) =>
    if h : ind < ArraySize then
      if seq > s.SeqMS ⟨ind, h⟩ then
        let s1 : SubscriberState := { s with SeqMS := Function.update s.SeqMS ⟨ind, h⟩ seq }
        let s2 : SubscriberState := if sqn > s1.SQNMS then { s1 with SQNMS := sqn } else s1
        (s2, .ok true)
      else
        (s, .ok false)
    else
      (s, .error "panic: index out of range")

/-- A sample state: bucket 1 holds SEQ 1, the last accepted SQN is 0x21. -/
def sampleState : SubscriberState :=
  { SeqMS := fun i => if i.val = 1 then 1 else 0, SQNMS := 0x21, UpdatedAt := time.Time.zero }

/-- A finite sequence of `AcceptSQN` calls on one state: the final state and
the result of every call, in call order. -/
def runAcceptSQN (s : SubscriberState) : List Nat → SubscriberState × List (Except String Bool)
  | [] => (s, [])
  | sqn :: rest =>
    let r := s.AcceptSQN sqn
    let rr := runAcceptSQN r.1 rest
    (rr.1, r.2 :: rr.2)

/-- The SQN values of a call sequence for which `AcceptSQN` returned true. -/
def acceptedSQNs (s : SubscriberState) : List Nat → List Nat
  | [] => []
  | sqn :: rest =>
    let r := s.AcceptSQN sqn
    match r.2 with
    | .ok true => sqn :: acceptedSQNs r.1 rest
    | _ => acceptedSQNs r.1 rest

/-- The SEQ parts (by `SplitSQN`) of those SQN values of a list whose IND is `i`. -/
def seqsWithInd (i : Nat) (sqns : List Nat) : List Nat :=
  sqns.filterMap fun sqn =>
    match SplitSQN sqn with
    | .ok (seq, ind) => if ind = i then some seq else none
    | .error _ => none

/-- Maximum of a list of naturals, 0 for the empty list. -/
def maxOr0 (l : List Nat) : Nat := l.foldr max 0

end sqnstore

/-! ## Package eap (`eap/packet.go`, `eap/peer.go`) -/

namespace eap

abbrev CodeRequest : Nat := 1
abbrev CodeResponse : Nat := 2
abbrev CodeSuccess : Nat := 3
abbrev CodeFailure : Nat := 4

abbrev TypeIdentity : Nat := 1
abbrev TypeAKA : Nat := 23
abbrev TypeAKAPrime : Nat := 50

/-- Packet represents an EAP packet. `Code`, `Identifier` and `Type` are
`uint8` fields, `TypeData` is a byte slice; the field `Type` is written
`Type_`, `Type` being reserved. -/
structure Packet where
  Code : Nat
  Identifier : Nat
  Type_ : Nat
  TypeData : List Nat
deriving DecidableEq

/-- Session holds outer/inner identity data for the current EAP session. -/
structure Session where
  OuterIdentity : String
  InnerIdentity : String
deriving DecidableEq

/-- Go `binary.BigEndian.Uint16` on the two bytes `b0 b1`:
`uint16(b1) | uint16(b0)<<8`. -/
def bigEndianUint16 (b0 b1 : Nat) : Nat :=
  (b1 % 2 ^ 16) ||| (((b0 % 2 ^ 16) <<< 8) % 2 ^ 16)

/-- Go `binary.BigEndian.PutUint16` of the `uint16` value `v`: the two bytes
`byte(v >> 8)`, `byte(v)`. -/
def bigEndianPutUint16 (v : Nat) : Nat × Nat :=
  ((v >>> 8) % 2 ^ 8, v % 2 ^ 8)

/-- Go builtin `copy(dst, src)`: the first `min (len dst) (len src)` elements
of `dst` are overwritten with those of `src`. -/
def copySlice (dst src : List Nat) : List Nat :=
  src.take dst.length ++ dst.drop src.length

/-- Parse decodes a raw EAP packet. Element reads use `getD`; every index read
is below the length checked before it. -/
def Parse (b : List Nat) : Except String Packet :=
  if b.length < 4 then
    .error "eap: packet too short"
  else
    let length := bigEndianUint16 (b.getD 2 0) (b.getD 3 0)
    if length < 4 then
      .error "eap: invalid length"
    else if length > b.length then
      .error "eap: length exceeds buffer"
    else
      let packet : Packet := { Code := b.getD 0 0, Identifier := b.getD 1 0, Type_ := 0, TypeData := [] }
      let payload := b.take length
      if packet.Code = CodeRequest ∨ packet.Code = CodeResponse then
        if payload.length < 5 then
          .error "eap: request/response missing type"
        else
          let packet : Packet := { packet with Type_ := payload.getD 4 0 }
          let packet : Packet :=
            if payload.length > 5 then { packet with TypeData := payload.drop 5 } else packet
          .ok packet
      else
        .ok packet

/-- Encode encodes the packet into raw bytes: a zeroed buffer of `length`
bytes is allocated and then written in place, statement by statement. -/
def Packet.Encode (p : Packet) : Except String (List Nat) :=
  let length := 4
  let length :=
    if p.Code = CodeRequest ∨ p.Code = CodeResponse then length + (1 + p.TypeData.length) else length
  let b := List.replicate length 0
  let b := b.set 0 p.Code
  let b := b.set 1 p.Identifier
  let be := bigEndianPutUint16 (length % 2 ^ 16)
  let b := (b.set 2 be.1).set 3 be.2
  let b :=
    if p.Code = CodeRequest ∨ p.Code = CodeResponse then
      let b := b.set 4 p.Type_
      b.take 5 ++ copySlice (b.drop 5) p.TypeData
    else b
  .ok b

/-- IsRequest returns true if the packet is an EAP-Request. -/
def Packet.IsRequest (p : Packet) : Bool := p.Code == CodeRequest

/-- IsResponse returns true if the packet is an EAP-Response. -/
def Packet.IsResponse (p : Packet) : Bool := p.Code == CodeResponse

/-- Every field of the packet fits its Go type: the three header fields are
`uint8` and every element of `TypeData` is a byte. -/
def Packet.IsBytes (p : Packet) : Prop :=
  p.Code < 256 ∧ p.Identifier < 256 ∧ p.Type_ < 256 ∧ ∀ x ∈ p.TypeData, x < 256

/-- The number of bytes `Encode` allocates for the packet. -/
def Packet.encodedLen (p : Packet) : Nat :=
  if p.Code = CodeRequest ∨ p.Code = CodeResponse then 5 + p.TypeData.length else 4

/-- Well-formed EAP packet: Code Request or Response with any Type and
TypeData, or Code Success or Failure with no Type and no TypeData; the total
encoded length is representable in 16 bits. -/
def Packet.WellFormed (p : Packet) : Prop :=
  ((p.Code = CodeRequest ∨ p.Code = CodeResponse) ∨
    ((p.Code = CodeSuccess ∨ p.Code = CodeFailure) ∧ p.Type_ = 0 ∧ p.TypeData = [])) ∧
  p.encodedLen < 2 ^ 16

/-- The declared length of a raw packet: bytes 2 and 3 read as a big-endian
16-bit number (0 for a missing byte). -/
def declaredLength (b : List Nat) : Nat := 256 * b.getD 2 0 + b.getD 3 0

/-- The Length field found in bytes 2..3 of an encoded packet. -/
def lengthField (raw : List Nat) : Nat := bigEndianUint16 (raw.getD 2 0) (raw.getD 3 0)

end eap

/-! ## Package eap: the peer (`eap/policy.go`, `eap/peer.go`) -/

namespace eap

/-- MethodMismatchPolicy defines how to handle method mismatches. -/
abbrev MethodMismatchPolicy : Type := String

def MethodMismatchStrict : MethodMismatchPolicy := "strict"
def MethodMismatchWarn : MethodMismatchPolicy := "warn"
def MethodMismatchAllow : MethodMismatchPolicy := "allow"

/-- MethodMismatchError indicates the received method type differs from
expected. -/
structure MethodMismatchError where
  Expected : Nat
  Received : Nat
  Policy : MethodMismatchPolicy
deriving DecidableEq

/-- A Go `error` value as the peer sees it: a message made by `fmt.Errorf`
(also every error a method returns) or a `*MethodMismatchError`. -/
inductive Error where
  | errorf (msg : String)
  | mismatch (e : MethodMismatchError)
deriving DecidableEq

/-- A call the peer makes on a collaborator: the warning sink with an error,
or the `Handle` of the method registered for a type, with the request and
the session it is given. `Peer.Handle` records them in call order. -/
inductive Call where
  | warn (err : Error)
  | handle (methodType : Nat) (req : Packet) (sess : Session)
deriving DecidableEq

/-- Go interface `Method`: `Type()` and `Handle(req, sess)`. The state a
method value can change (its own fields, a store) is the explicit value
`ω`; `Handle` receives the session behind the pointer and returns that
session and `ω` after the call next to its `(*Packet, error)` result. -/
structure Method (ω : Type) where
  Type_ : Nat
  Handle : Packet → Session → ω → (Session × ω) × Except Error (Option Packet)

/-- Peer handles EAP requests and dispatches to registered methods. A nil
`Session`, `ExpectedMethod` or `Warn` is `none`; `Methods` is the map from
the type byte, `none` for an absent key and for a nil value alike. -/
structure Peer (ω : Type) where
  Session : Option eap.Session
  Methods : Nat → Option (Method ω)
  MethodPolicy : MethodMismatchPolicy
  ExpectedMethod : Option Nat
  Warn : Option (Error → ω → ω)

/-- NewPeer creates a peer with the given session and methods; a nil method
(`none`) is skipped and a later method replaces an earlier one of the same
type. -/
def NewPeer {ω : Type} (sess : Option eap.Session) (methods : List (Option (Method ω))) :
    Peer ω :=
  { Session := sess
    Methods := methods.foldl
      (fun mp method =>
        match method with
        | some meth => fun t => if t = meth.Type_ then some meth else mp t
        | none => mp)
      (fun _ => none)
    MethodPolicy := ""
    ExpectedMethod := none
    Warn := none }

/-- Go conversion `[]byte(s)`: the UTF-8 bytes of the string. -/
def stringBytes (s : String) : List Nat :=
  (s.data.flatMap String.utf8EncodeChar).map UInt8.toNat

def identityResponse (identifier : Nat) (identity : String) : Except Error (Option Packet) :=
  if identity = "" then
    .error (.errorf "eap: outer identity is required")
  else
    .ok (some { Code := CodeResponse, Identifier := identifier, Type_ := TypeIdentity,
                TypeData := stringBytes identity })

/-- What a `Peer.Handle` call leaves and returns: the session behind the
peer (still `none` for a nil pointer), the state `ω`, the calls made on the
warning sink and on methods, and the `(*Packet, error)` result. -/
structure HandleOutcome (ω : Type) where
  session : Option eap.Session
  world : ω
  calls : List Call
  result : Except Error (Option Packet)

/-- The last statement of `Peer.Handle`, `return method.Handle(req, sess)`,
after the calls `calls` already made. -/
def Peer.invoke {ω : Type} (p : Peer ω) (method : Method ω) (req : Packet)
    (sess : eap.Session) (w : ω) (calls : List Call) : HandleOutcome ω :=
  let r := method.Handle req sess w
  { session := p.Session.map (fun _ => r.1.1)
    world := r.1.2
    calls := calls ++ [Call.handle req.Type_ req sess]
    result := r.2 }

/-- Handle processes a server request and returns the response, if any. A
nil receiver is `none`. -/
def Peer.Handle {ω : Type} (p : Option (Peer ω)) (req : Packet) (w : ω) : HandleOutcome ω :=
  match p with
  | none => ⟨none, w, [], .error (.errorf "eap: peer is nil")⟩
  | some p =>
    if req.Code = CodeSuccess ∨ req.Code = CodeFailure then
      ⟨p.Session, w, [], .ok none⟩
    else if req.Code ≠ CodeRequest then
      ⟨p.Session, w, [], .error (.errorf "eap: unsupported code")⟩
    else
      let sess : eap.Session :=
        match p.Session with
        | some s => s
        | none => { OuterIdentity := "", InnerIdentity := "" }
      if req.Type_ = TypeIdentity then
        ⟨p.Session, w, [], identityResponse req.Identifier sess.OuterIdentity⟩
      else
        match p.Methods req.Type_ with
        | none => ⟨p.Session, w, [], .error (.errorf "eap: unsupported method")⟩
        | some method =>
          match p.ExpectedMethod with
          | some expected =>
            if expected ≠ req.Type_ then
              let mismatch : MethodMismatchError :=
                { Expected := expected, Received := req.Type_, Policy := p.MethodPolicy }
              if p.MethodPolicy = MethodMismatchStrict then
                ⟨p.Session, w, [], .error (.mismatch mismatch)⟩
              else if p.MethodPolicy = MethodMismatchWarn then
                match p.Warn with
                | some warn =>
                  p.invoke method req sess (warn (.mismatch mismatch) w)
                    [Call.warn (.mismatch mismatch)]
                | none => p.invoke method req sess w []
              else
                p.invoke method req sess w []
            else
              p.invoke method req sess w []
          | none => p.invoke method req sess w []

/-- The outer identity `Peer.Handle` reads: that of the session of the peer,
and the empty string of the fresh session it works on when the peer has
none. -/
def Peer.outerIdentity {ω : Type} (p : Peer ω) : String :=
  match p.Session with
  | some s => s.OuterIdentity
  | none => ""

/-! ### Sample values for worked examples (the stub of `eap/peer_test.go`) -/

/-- The observable state of the tests: whether the stub method was called
and whether the warning callback ran. -/
structure StubWorld where
  called : Bool
  warned : Bool
deriving DecidableEq

/-- The test double `stubMethod`: it records the call and answers with a
Response of its own type. -/
def stubMethod (typeID : Nat) : Method StubWorld :=
  { Type_ := typeID
    Handle := fun req sess w =>
      ((sess, { w with called := true }),
       .ok (some { Code := CodeResponse, Identifier := req.Identifier, Type_ := typeID,
                   TypeData := [] })) }

/-- The peer of the mismatch tests: one AKA stub, AKA-prime pinned, the given
policy, a warning sink that sets `warned`. -/
def stubPeer (policy : MethodMismatchPolicy) : Peer StubWorld :=
  { NewPeer (some { OuterIdentity := "user", InnerIdentity := "" }) [some (stubMethod TypeAKA)] with
    ExpectedMethod := some TypeAKAPrime
    MethodPolicy := policy
    Warn := some (fun _ w => { w with warned := true }) }

/-- A peer with a stub registered under the Identity type byte. -/
def stubPeerIdentityType (policy : MethodMismatchPolicy) : Peer StubWorld :=
  { NewPeer (some { OuterIdentity := "user", InnerIdentity := "" })
      [some (stubMethod TypeIdentity)] with
    ExpectedMethod := some TypeAKAPrime
    MethodPolicy := policy
    Warn := some (fun _ w => { w with warned := true }) }

end eap

/-! ## The store interface (`sqnstore/file_store.go`) -/

namespace sqnstore

/-- Go interface `Store`. The content of the store (the map of the memory
store, the file of the file store) is an explicit value of type `σ`: `Load`
reads it, `Save` and `Reset` return the new content next to their `error`
(`none` is the nil error). `Load` returns `(state, found)` or an error. -/
structure Store (σ : Type) where
  Load : σ → String → Except String (SubscriberState × Bool)
  Save : σ → String → SubscriberState → σ × Option String
  Reset : σ → String → σ × Option String

/-! ### The memory store (`sqnstore/memory_store.go`) -/

/-- MemoryStore keeps SQN state in memory for a single process. The map
`data` is a function from the IMSI, `none` for an absent key; a nil map is
`none`. -/
structure MemoryStore where
  data : Option (String → Option SubscriberState)

/-- The store `NewMemoryStore` returns: an empty map. -/
def NewMemoryStore : MemoryStore := { data := some (fun _ => none) }

/-- `(*MemoryStore).Load`; a nil receiver is `none`. Reading an absent key,
or a nil map, gives the zero state and `false`. -/
def MemoryStore.Load (m : Option MemoryStore) (imsi : String) :
    Except String (SubscriberState × Bool) :=
  if imsi = "" then
    .error "sqnstore: imsi is required"
  else
    match m with
    | none => .error "sqnstore: store is nil"
    | some m =>
      match m.data with
      | none => .ok (SubscriberState.zero, false)
      | some data =>
        match data imsi with
        | some state => .ok (state, true)
        | none => .ok (SubscriberState.zero, false)

/-- `(*MemoryStore).Save`; the store after the call is returned next to the
error. -/
def MemoryStore.Save (m : Option MemoryStore) (imsi : String) (state : SubscriberState) :
    Option MemoryStore × Option String :=
  if imsi = "" then
    (m, some "sqnstore: imsi is required")
  else
    match m with
    | none => (none, some "sqnstore: store is nil")
    | some m =>
      let data : String → Option SubscriberState :=
        match m.data with
        | none => fun _ => none
        | some data => data
      (some { data := some (fun key => if key = imsi then some state else data key) }, none)

/-- `(*MemoryStore).Reset`; the store after the call is returned next to the
error. -/
def MemoryStore.Reset (m : Option MemoryStore) (imsi : String) :
    Option MemoryStore × Option String :=
  if imsi = "" then
    (m, some "sqnstore: imsi is required")
  else
    match m with
    | none => (none, some "sqnstore: store is nil")
    | some m =>
      match m.data with
      | none => (some m, none)
      | some data =>
        (some { data := some (fun key => if key = imsi then none else data key) }, none)

/-- The memory store as a `Store`: its content is the `*MemoryStore`. -/
def memoryStore : Store (Option MemoryStore) :=
  { Load := MemoryStore.Load, Save := MemoryStore.Save, Reset := MemoryStore.Reset }

end sqnstore

/-! ## External libraries go-eapaka and milenage

These packages are dependencies of the repository; their types are declared
here and their functions are parameters of the embedding (`aka.Lib`). -/

namespace eapaka

abbrev CodeRequest : Nat := 1
abbrev CodeResponse : Nat := 2

abbrev TypeAKA : Nat := 23
abbrev TypeAKAPrime : Nat := 50

abbrev SubtypeChallenge : Nat := 1
abbrev SubtypeAuthenticationReject : Nat := 2
abbrev SubtypeSynchronizationFailure : Nat := 4
abbrev SubtypeIdentity : Nat := 5

/-- Modelled from the spec: the attribute types of go-eapaka that the method
inspects or builds (section 3 of the specification); every other attribute
is `Other` with its type byte and value. -/
inductive Attribute where
  | AtRand (Rand : List Nat)
  | AtAutn (Autn : List Nat)
  | AtRes (Res : List Nat)
  | AtAuts (Auts : List Nat)
  | AtMac (MAC : List Nat)
  | AtIdentity (Identity : String)
  | AtKdfInput (NetworkName : String)
  | AtPermanentIdReq
  | AtAnyIdReq
  | AtFullauthIdReq
  | Other (attrType : Nat) (value : List Nat)
deriving DecidableEq

/-- Modelled from the spec: the go-eapaka packet, an EAP header with the AKA
Subtype and the attribute list. -/
structure Packet where
  Code : Nat
  Identifier : Nat
  Type_ : Nat
  Subtype : Nat
  Attributes : List Attribute
deriving DecidableEq

/-- Modelled from the spec: the key set returned by the go-eapaka key
derivation functions. -/
structure Keys where
  K_encr : List Nat
  K_aut : List Nat
  MSK : List Nat
  EMSK : List Nat
deriving DecidableEq

end eapaka

namespace milenage

/-- Modelled from the spec: the exported fields of `milenage.Milenage` that
the method reads or overwrites. -/
structure Milenage where
  K : List Nat
  OPc : List Nat
  RAND : List Nat
  SQN : List Nat
  AMF : List Nat
deriving DecidableEq

end milenage

/-! ## Package aka (`eapmethod/aka/aka.go`) -/

namespace aka

/-- The functions of go-eapaka and milenage called by the method, in call
notation of the source: `eapaka.Parse`, `(*Packet).Marshal`,
`(*Packet).VerifyMac`, `(*Packet).CalculateAndSetMac` (the packet with its
MAC set is returned), the three key derivations, `milenage.NewWithOPc` and
the `F2345`, `F1` and `GenerateAUTS` methods. -/
structure Lib where
  Parse : List Nat → Except String eapaka.Packet
  Marshal : eapaka.Packet → Except String (List Nat)
  VerifyMac : eapaka.Packet → List Nat → Except String Bool
  CalculateAndSetMac : eapaka.Packet → List Nat → Except String eapaka.Packet
  DeriveKeysAKA : String → List Nat → List Nat → eapaka.Keys
  DeriveCKPrimeIKPrime : List Nat → List Nat → String → List Nat × List Nat
  DeriveKeysAKAPrime : String → List Nat → List Nat → eapaka.Keys
  NewWithOPc : List Nat → List Nat → List Nat → Nat → Nat → milenage.Milenage
  F2345 : milenage.Milenage → Except String (List Nat × List Nat × List Nat × List Nat)
  F1 : milenage.Milenage → Except String (List Nat)
  GenerateAUTS : milenage.Milenage → Except String (List Nat)

/-- Options configures the EAP-AKA/AKA-prime method. A nil `SQNStore` and a
nil `OuterIdentityUpdateOnPermanentReq` are `none`. -/
structure Options (σ : Type) where
  MethodType : Nat
  IMSI : String
  KI : List Nat
  OPC : List Nat
  AMF : List Nat
  NetName : String
  Realm : String
  InitialSQN : Nat
  SQNStore : Option (sqnstore.Store σ)
  PermanentIDPolicy : String
  PermanentIdentityOverride : String
  OuterIdentityUpdateOnPermanentReq : Option Bool

/-- Method implements the EAP method for AKA and AKA-prime. -/
structure Method (σ : Type) where
  methodType : Nat
  imsi : String
  ki : List Nat
  opc : List Nat
  amf : Nat
  netName : String
  realm : String
  initialSQN : Nat
  store : Option (sqnstore.Store σ)
  permanentIDPolicy : String
  permanentIdentityOverride : String
  outerIdentityUpdateOnPermanentReq : Bool

def normalizePermanentPolicy (policy : String) : String :=
  if policy = "" then "always" else policy

def defaultOuterUpdate (value : Option Bool) : Bool :=
  match value with
  | none => true
  | some v => v

/-- New creates a new AKA/AKA-prime method handler. -/
def New {σ : Type} (opts : Options σ) : Except String (Method σ) :=
  if opts.MethodType ≠ eap.TypeAKA ∧ opts.MethodType ≠ eap.TypeAKAPrime then
    .error "aka: unsupported method type"
  else if opts.KI.length ≠ 16 then
    .error "aka: KI must be 16 bytes"
  else if opts.OPC.length ≠ 16 then
    .error "aka: OPC must be 16 bytes"
  else if opts.AMF.length ≠ 2 then
    .error "aka: AMF must be 2 bytes"
  else if opts.IMSI = "" then
    .error "aka: IMSI is required"
  else
    let amf := (((opts.AMF.getD 0 0 % 2 ^ 16) <<< 8) % 2 ^ 16) ||| (opts.AMF.getD 1 0 % 2 ^ 16)
    .ok {
      methodType := opts.MethodType
      imsi := opts.IMSI
      ki := opts.KI
      opc := opts.OPC
      amf := amf
      netName := opts.NetName
      realm := opts.Realm
      initialSQN := opts.InitialSQN
      store := opts.SQNStore
      permanentIDPolicy := normalizePermanentPolicy opts.PermanentIDPolicy
      permanentIdentityOverride := opts.PermanentIdentityOverride
      outerIdentityUpdateOnPermanentReq := defaultOuterUpdate opts.OuterIdentityUpdateOnPermanentReq }

/-- Type returns the EAP method type handled by this method. -/
def Method.Type_ {σ : Type} (m : Method σ) : Nat := m.methodType

def permanentPrefix (methodType : Nat) : String :=
  if methodType = eap.TypeAKA then "0"
  else if methodType = eap.TypeAKAPrime then "6"
  else ""

/-- The Go expression `identity[:1] == permanentPrefix(methodType)` on a
non-empty identity. The prefix is empty or one ASCII character, so the
one-byte slice equals it exactly when the first character does. -/
def isPermanentIdentity (identity : String) (methodType : Nat) : Bool :=
  if identity = "" then false
  else decide (String.mk (identity.data.take 1) = permanentPrefix methodType)

def Method.generatePermanentIdentity {σ : Type} (m : Method σ) : String :=
  let pfx := permanentPrefix m.methodType
  if m.realm = "" then pfx ++ m.imsi
  else pfx ++ m.imsi ++ "@" ++ m.realm

/-- The `(string, bool, error)` result is `Except String (String × Bool)`. -/
def Method.selectPermanentIdentity {σ : Type} (m : Method σ) (sess : eap.Session) :
    Except String (String × Bool) :=
  if m.permanentIDPolicy = "deny" then
    .ok ("", false)
  else if m.permanentIDPolicy = "conservative" then
    if isPermanentIdentity sess.InnerIdentity m.methodType then
      .ok (sess.InnerIdentity, true)
    else if isPermanentIdentity sess.OuterIdentity m.methodType then
      .ok (sess.OuterIdentity, true)
    else if m.permanentIdentityOverride ≠ "" then
      .ok (m.permanentIdentityOverride, true)
    else
      .ok ("", false)
  else if m.permanentIDPolicy = "always" then
    if m.permanentIdentityOverride ≠ "" then
      .ok (m.permanentIdentityOverride, true)
    else
      .ok (m.generatePermanentIdentity, true)
  else
    .error "aka: unsupported permanent_id_policy"

def hasPermanentIDReq (req : eapaka.Packet) : Bool :=
  req.Attributes.any fun attr =>
    match attr with
    | .AtPermanentIdReq => true
    | _ => false

def findMac (req : eapaka.Packet) : Option (List Nat) :=
  req.Attributes.findSome? fun attr =>
    match attr with
    | .AtMac mac => some mac
    | _ => none

def toEAPPacket (x : Lib) (pkt : eapaka.Packet) : Except String eap.Packet :=
  match x.Marshal pkt with
  | .error err => .error err
  | .ok raw =>
    match eap.Parse raw with
    | .error err => .error err
    | .ok eapPkt => .ok eapPkt

/-- The result is a pointer: `none` is the nil returned when the conversion
to an EAP packet fails. -/
def authenticationReject (x : Lib) (req : eapaka.Packet) : Option eap.Packet :=
  let resp : eapaka.Packet :=
    { Code := eapaka.CodeResponse, Identifier := req.Identifier, Type_ := req.Type_,
      Subtype := eapaka.SubtypeAuthenticationReject, Attributes := [] }
  match toEAPPacket x resp with
  | .error _ => none
  | .ok packet => some packet

def synchronizationFailure (x : Lib) (req : eapaka.Packet) (auts : List Nat) :
    Except String eap.Packet :=
  let resp : eapaka.Packet :=
    { Code := eapaka.CodeResponse, Identifier := req.Identifier, Type_ := req.Type_,
      Subtype := eapaka.SubtypeSynchronizationFailure, Attributes := [.AtAuts auts] }
  toEAPPacket x resp

/-- The identity response both branches of `handleIdentity` build. -/
def identityResponse (req : eapaka.Packet) (identity : String) : eapaka.Packet :=
  { Code := eapaka.CodeResponse, Identifier := req.Identifier, Type_ := req.Type_,
    Subtype := eapaka.SubtypeIdentity, Attributes := [.AtIdentity identity] }

/-- The session is behind a pointer: the session after the call is returned
next to the `(*eap.Packet, error)` result. -/
def Method.handleIdentity {σ : Type} (x : Lib) (m : Method σ) (req : eapaka.Packet)
    (sess : eap.Session) : eap.Session × Except String (Option eap.Packet) :=
  if hasPermanentIDReq req then
    match m.selectPermanentIdentity sess with
    | .error err => (sess, .error err)
    | .ok (permanent, ok) =>
      if !ok then
        (sess, .ok (authenticationReject x req))
      else
        let sess : eap.Session := { sess with InnerIdentity := permanent }
        let sess : eap.Session :=
          if m.outerIdentityUpdateOnPermanentReq then { sess with OuterIdentity := permanent }
          else sess
        (sess, (toEAPPacket x (identityResponse req permanent)).map some)
  else
    let inner := sess.InnerIdentity
    let inner := if inner = "" then sess.OuterIdentity else inner
    if inner = "" then
      (sess, .error "aka: inner identity is required")
    else
      (sess, (toEAPPacket x (identityResponse req inner)).map some)

/-- The loop over the attributes: a later AT_RAND, AT_AUTN or AT_KDF_INPUT
replaces an earlier one. -/
def Method.extractChallengeParams {σ : Type} (m : Method σ) (req : eapaka.Packet) :
    Except String (List Nat × List Nat × String) :=
  let acc := req.Attributes.foldl
    (fun (acc : List Nat × List Nat × String) attr =>
      match attr with
      | .AtRand r => (r, acc.2.1, acc.2.2)
      | .AtAutn a => (acc.1, a, acc.2.2)
      | .AtKdfInput n => (acc.1, acc.2.1, n)
      | _ => acc)
    ([], [], "")
  let rand := acc.1
  let autn := acc.2.1
  let netName := acc.2.2
  if rand.length ≠ 16 then
    .error "aka: AT_RAND is required"
  else if autn.length ≠ 16 then
    .error "aka: AT_AUTN is required"
  else if req.Type_ = eapaka.TypeAKAPrime then
    let netName := if netName = "" then m.netName else netName
    if netName = "" then
      .error "aka: net_name is required for AKA-prime"
    else
      .ok (rand, autn, netName)
  else
    .ok (rand, autn, netName)

def Method.computeVectors {σ : Type} (x : Lib) (m : Method σ) (rand : List Nat) :
    Except String (List Nat × List Nat × List Nat × List Nat) :=
  let mil := x.NewWithOPc m.ki m.opc rand 0 m.amf
  x.F2345 mil

def Method.deriveKAut {σ : Type} (x : Lib) (m : Method σ) (identity : String)
    (ck ik : List Nat) (netName : String) : Except String (List Nat) :=
  if m.methodType = eap.TypeAKA then
    let keys := x.DeriveKeysAKA identity ck ik
    .ok keys.K_aut
  else
    let primes := x.DeriveCKPrimeIKPrime ck ik netName
    let keys := x.DeriveKeysAKAPrime identity primes.1 primes.2
    .ok keys.K_aut

def decodeAutn (autn ak : List Nat) : Except String (List Nat × List Nat) :=
  if autn.length ≠ 16 then
    .error "aka: invalid AUTN length"
  else if ak.length ≠ 6 then
    .error "aka: invalid AK length"
  else
    let sqn := (List.range 6).map fun i => (autn.getD i 0) ^^^ (ak.getD i 0)
    let amf := (autn.drop 6).take 2
    .ok (sqn, amf)

def Method.amfBytes {σ : Type} (m : Method σ) : List Nat :=
  [(m.amf >>> 8) % 2 ^ 8, m.amf % 2 ^ 8]

def Method.verifyMacA {σ : Type} (x : Lib) (m : Method σ) (rand sqn amf autn : List Nat) :
    Except String Bool :=
  let mil := x.NewWithOPc m.ki m.opc rand 0 m.amf
  let mil : milenage.Milenage := { mil with SQN := eap.copySlice mil.SQN sqn }
  let mil : milenage.Milenage := { mil with AMF := eap.copySlice mil.AMF amf }
  match x.F1 mil with
  | .error err => .error err
  | .ok macA => .ok (decide (macA = (autn.drop 8).take 8))

def sqnBytesToUint64 (b : List Nat) : Except String Nat :=
  if b.length ≠ 6 then
    .error "aka: invalid SQN length"
  else
    .ok ((List.range 6).foldl (fun v i => ((v <<< 8) % 2 ^ 64) ||| (b.getD i 0)) 0)

/-- The zero state with, when `SplitSQN` succeeds, the bucket of the initial
SQN and `SQNMS` set. `SplitSQN` only returns an IND below `ArraySize`, so the
index write never panics. -/
def initialState (sqn : Nat) : sqnstore.SubscriberState :=
  let state := sqnstore.SubscriberState.zero
  match sqnstore.SplitSQN sqn with
  | .ok (seq, ind) =>
    if h : ind < sqnstore.ArraySize then
      { state with SeqMS := Function.update state.SeqMS ⟨ind, h⟩ seq, SQNMS := sqn }
    else state
  | .error _ => state

/-- The store content after the call is returned next to the result. -/
def Method.acceptSQN {σ : Type} (m : Method σ) (store : sqnstore.Store σ) (st : σ)
    (sqnBytes : List Nat) : σ × Except String Bool :=
  match sqnBytesToUint64 sqnBytes with
  | .error err => (st, .error err)
  | .ok sqnValue =>
    match store.Load st m.imsi with
    | .error err => (st, .error err)
    | .ok (state, ok) =>
      let state := if !ok then initialState m.initialSQN else state
      let r := state.AcceptSQN sqnValue
      match r.2 with
      | .error err => (st, .error err)
      | .ok accepted =>
        if accepted then
          match store.Save st m.imsi r.1 with
          | (st2, some err) => (st2, .error err)
          | (st2, none) => (st2, .ok accepted)
        else
          (st, .ok accepted)

def Method.generateAUTS {σ : Type} (x : Lib) (m : Method σ) (store : sqnstore.Store σ) (st : σ)
    (rand : List Nat) : Except String (List Nat) :=
  match store.Load st m.imsi with
  | .error err => .error err
  | .ok (state, ok) =>
    let state := if !ok then initialState m.initialSQN else state
    let mil := x.NewWithOPc m.ki m.opc rand state.SQNMS 0
    x.GenerateAUTS mil

/-- An error from `findMac`, from `VerifyMac` or a mismatch: `some` error. -/
def verifyRequestMac (x : Lib) (req : eapaka.Packet) (kAut : List Nat) : Option String :=
  match findMac req with
  | none => some "aka: AT_MAC missing"
  | some _ =>
    match x.VerifyMac req kAut with
    | .error err => some err
    | .ok ok => if !ok then some "aka: request MAC mismatch" else none

/-- The last step of `handleChallenge`: the Challenge response with AT_RES
and AT_MAC, its MAC computed by the library. -/
def challengeResponse (x : Lib) (req : eapaka.Packet) (res kAut : List Nat) :
    Except String (Option eap.Packet) :=
  let resp : eapaka.Packet :=
    { Code := eapaka.CodeResponse, Identifier := req.Identifier, Type_ := req.Type_,
      Subtype := eapaka.SubtypeChallenge,
      Attributes := [.AtRes res, .AtMac (List.replicate 16 0)] }
  match x.CalculateAndSetMac resp kAut with
  | .error err => .error err
  | .ok resp => (toEAPPacket x resp).map some

/-- The session is only read; the store content after the call is returned
next to the `(*eap.Packet, error)` result. -/
def Method.handleChallenge {σ : Type} (x : Lib) (m : Method σ) (req : eapaka.Packet)
    (sess : eap.Session) (st : σ) : σ × Except String (Option eap.Packet) :=
  match m.extractChallengeParams req with
  | .error err => (st, .error err)
  | .ok (rand, autn, netName) =>
    match m.computeVectors x rand with
    | .error err => (st, .error err)
    | .ok (res, ck, ik, ak) =>
      let identity := sess.InnerIdentity
      let identity := if identity = "" then sess.OuterIdentity else identity
      if identity = "" then
        (st, .error "aka: inner identity is required")
      else
        match m.deriveKAut x identity ck ik netName with
        | .error err => (st, .error err)
        | .ok kAut =>
          match verifyRequestMac x req kAut with
          | some _ => (st, .ok (authenticationReject x req))
          | none =>
            match decodeAutn autn ak with
            | .error err => (st, .error err)
            | .ok (sqnBytes, amf) =>
              if amf ≠ m.amfBytes then
                (st, .error "aka: amf mismatch")
              else
                match m.verifyMacA x rand sqnBytes amf autn with
                | .error err => (st, .error err)
                | .ok false => (st, .ok (authenticationReject x req))
                | .ok true =>
                  match m.store with
                  | some store =>
                    match m.acceptSQN store st sqnBytes with
                    | (st2, .error err) => (st2, .error err)
                    | (st2, .ok accepted) =>
                      if !accepted then
                        match m.generateAUTS x store st2 rand with
                        | .error err => (st2, .error err)
                        | .ok auts => (st2, (synchronizationFailure x req auts).map some)
                      else
                        (st2, challengeResponse x req res kAut)
                  | none => (st, challengeResponse x req res kAut)

/-- What a `Handle` call leaves and returns: the session behind the caller's
pointer (still `none` for a nil pointer), the store content and the
`(*eap.Packet, error)` result, `none` being the nil packet. -/
structure Outcome (σ : Type) where
  session : Option eap.Session
  store : σ
  result : Except String (Option eap.Packet)

/-- Handle processes EAP-Request/AKA(-prime) messages. A nil receiver and a
nil session pointer are `none`; for a nil session the handlers work on a
fresh empty session that the caller never sees. -/
def Method.Handle {σ : Type} (x : Lib) (m : Option (Method σ)) (req : eap.Packet)
    (sess : Option eap.Session) (st : σ) : Outcome σ :=
  match m with
  | none => ⟨sess, st, .error "aka: method is nil"⟩
  | some m =>
    match req.Encode with
    | .error err => ⟨sess, st, .error err⟩
    | .ok raw =>
      match x.Parse raw with
      | .error err => ⟨sess, st, .error err⟩
      | .ok akaReq =>
        if akaReq.Type_ ≠ m.methodType then
          ⟨sess, st, .error "aka: method type mismatch"⟩
        else
          let session : eap.Session :=
            match sess with
            | some s => s
            | none => { OuterIdentity := "", InnerIdentity := "" }
          if akaReq.Subtype = eapaka.SubtypeIdentity then
            let r := m.handleIdentity x akaReq session
            ⟨sess.map (fun _ => r.1), st, r.2⟩
          else if akaReq.Subtype = eapaka.SubtypeChallenge then
            let r := m.handleChallenge x akaReq session st
            ⟨sess, r.1, r.2⟩
          else
            ⟨sess, st, .error "aka: unsupported subtype"⟩

/-- The identity begins with the permanent prefix of the method type, "0"
for AKA and "6" for AKA-prime: it is that one-character string followed by
some rest. -/
def beginsWithPermanentPrefix (identity : String) (methodType : Nat) : Prop :=
  ∃ rest : String, identity = (if methodType = eap.TypeAKA then "0" else "6") ++ rest

/-- The Authentication-Reject packet: Code Response, the Identifier and Type
of the request, Subtype 2 and no attributes. -/
def rejectPacket (req : eapaka.Packet) : eapaka.Packet :=
  { Code := eapaka.CodeResponse, Identifier := req.Identifier, Type_ := req.Type_,
    Subtype := eapaka.SubtypeAuthenticationReject, Attributes := [] }

/-- The state the SQN check starts from: the loaded record, or the state
built from the configured initial SQN when no record exists. -/
def Method.baseState {σ : Type} (m : Method σ) (state : sqnstore.SubscriberState)
    (found : Bool) : sqnstore.SubscriberState :=
  if !found then initialState m.initialSQN else state

/-! ### Sample values for worked examples -/

/-- A small instance of the library interface: the codec reads and writes the
EAP header, the Subtype byte and two reserved bytes, and recognises a single
AT_PERMANENT_ID_REQ (type 10, length 1); the cryptographic functions return
fixed values. -/
def sampleLib : Lib :=
  { Parse := fun raw =>
      .ok { Code := raw.getD 0 0, Identifier := raw.getD 1 0, Type_ := raw.getD 4 0,
            Subtype := raw.getD 5 0,
            Attributes := if raw.drop 8 = [10, 1, 0, 0] then [.AtPermanentIdReq] else [] }
    Marshal := fun pkt => .ok [pkt.Code, pkt.Identifier, 0, 8, pkt.Type_, pkt.Subtype, 0, 0]
    VerifyMac := fun _ _ => .ok true
    CalculateAndSetMac := fun pkt _ => .ok pkt
    DeriveKeysAKA := fun _ _ _ => ⟨[], [], [], []⟩
    DeriveCKPrimeIKPrime := fun ck ik _ => (ck, ik)
    DeriveKeysAKAPrime := fun _ _ _ => ⟨[], [], [], []⟩
    NewWithOPc := fun k opc rand _ _ => ⟨k, opc, rand, List.replicate 6 0, List.replicate 2 0⟩
    F2345 := fun _ => .ok ([], [], [], List.replicate 6 0)
    F1 := fun _ => .ok (List.replicate 8 0)
    GenerateAUTS := fun _ => .ok (List.replicate 14 0) }

/-- The options of the test `TestBuildPeerPermanentOverride`: policy always,
an override identity and the outer-identity update switched off. -/
def sampleOptions : Options Unit :=
  { MethodType := eap.TypeAKA
    IMSI := "440100123456789"
    KI := List.replicate 16 0
    OPC := List.replicate 16 0
    AMF := [0x80, 0x00]
    NetName := "wlan.example"
    Realm := "wlan.example"
    InitialSQN := 0
    SQNStore := none
    PermanentIDPolicy := "always"
    PermanentIdentityOverride := "0440100123456789@wlan.example"
    OuterIdentityUpdateOnPermanentReq := some false }

/-- The method `New sampleOptions` returns. -/
def sampleMethod : Method Unit :=
  { methodType := eap.TypeAKA
    imsi := "440100123456789"
    ki := List.replicate 16 0
    opc := List.replicate 16 0
    amf := 0x8000
    netName := "wlan.example"
    realm := "wlan.example"
    initialSQN := 0
    store := none
    permanentIDPolicy := "always"
    permanentIdentityOverride := "0440100123456789@wlan.example"
    outerIdentityUpdateOnPermanentReq := false }

/-- The options of the test `TestHandlePermanentIDAlways`: no policy given
here, no override, a realm. -/
def sampleOptionsGenerated : Options Unit :=
  { sampleOptions with
    Realm := "wlan.mnc010.mcc440.3gppnetwork.org"
    PermanentIDPolicy := ""
    PermanentIdentityOverride := ""
    OuterIdentityUpdateOnPermanentReq := none }

/-- The method `New sampleOptionsGenerated` returns. -/
def sampleMethodGenerated : Method Unit :=
  { sampleMethod with
    realm := "wlan.mnc010.mcc440.3gppnetwork.org"
    permanentIDPolicy := "always"
    permanentIdentityOverride := ""
    outerIdentityUpdateOnPermanentReq := true }

/-- Options with policy conservative and no override. -/
def sampleOptionsConservative : Options Unit :=
  { sampleOptions with
    PermanentIDPolicy := "conservative"
    PermanentIdentityOverride := ""
    OuterIdentityUpdateOnPermanentReq := none }

/-- The method `New sampleOptionsConservative` returns. -/
def sampleMethodConservative : Method Unit :=
  { sampleMethod with
    permanentIDPolicy := "conservative"
    permanentIdentityOverride := ""
    outerIdentityUpdateOnPermanentReq := true }

/-- The method of the test `TestHandlePermanentIDDeny`. -/
def sampleMethodDeny : Method Unit :=
  { sampleMethod with permanentIDPolicy := "deny", permanentIdentityOverride := "" }

/-- A session whose outer identity is a permanent AKA identity. -/
def sampleSessionPermanentOuter : eap.Session :=
  { OuterIdentity := "0440100123456789@wlan.example", InnerIdentity := "2pseudonym@example" }

/-- An AKA Identity request (Identifier 4) carrying no attribute. -/
def sampleRequestPlain : eap.Packet :=
  { Code := eap.CodeRequest, Identifier := 4, Type_ := eap.TypeAKA, TypeData := [5, 0, 0] }

/-- A Challenge request as the sample library decodes it: AT_RAND, an
AT_AUTN whose first six bytes are the SQN 0x21 (the anonymity key of the
sample library is zero), whose AMF is 0x8000 and whose MAC-A is zero, and
AT_MAC. -/
def sampleChallenge : eapaka.Packet :=
  { Code := eapaka.CodeRequest, Identifier := 2, Type_ := eapaka.TypeAKA,
    Subtype := eapaka.SubtypeChallenge,
    Attributes :=
      [.AtRand (List.replicate 16 0),
       .AtAutn [0, 0, 0, 0, 0, 0x21, 0x80, 0x00, 0, 0, 0, 0, 0, 0, 0, 0],
       .AtMac (List.replicate 16 0)] }

/-- The sample library with a decoder that returns `sampleChallenge`. -/
def sampleLibChallenge : Lib :=
  { sampleLib with Parse := fun _ => .ok sampleChallenge }

/-- The EAP packet of the sample Challenge request. -/
def sampleChallengeRequest : eap.Packet :=
  { Code := eap.CodeRequest, Identifier := 2, Type_ := eap.TypeAKA, TypeData := [1, 0, 0] }

/-- The sample method with a memory store. -/
def sampleMethodStore : Method (Option sqnstore.MemoryStore) :=
  { methodType := eap.TypeAKA
    imsi := "440100123456789"
    ki := List.replicate 16 0
    opc := List.replicate 16 0
    amf := 0x8000
    netName := "wlan.example"
    realm := "wlan.example"
    initialSQN := 0
    store := some sqnstore.memoryStore
    permanentIDPolicy := "always"
    permanentIdentityOverride := ""
    outerIdentityUpdateOnPermanentReq := true }

/-- The sample library with a decoder that tells the two subtypes apart: a
raw packet whose Subtype byte is 1 is `sampleChallenge`, any other is the
packet of its header and Subtype with no attribute. -/
def sampleLibSession : Lib :=
  { sampleLib with
    Parse := fun raw =>
      if raw.getD 5 0 = eapaka.SubtypeChallenge then .ok sampleChallenge
      else
        .ok { Code := raw.getD 0 0, Identifier := raw.getD 1 0, Type_ := raw.getD 4 0,
              Subtype := raw.getD 5 0, Attributes := [] } }

/-- An AKA request (Identifier 5) of Subtype 13, Reauthentication, which the
method does not handle. -/
def sampleRequestReauth : eap.Packet :=
  { Code := eap.CodeRequest, Identifier := 5, Type_ := eap.TypeAKA, TypeData := [13, 0, 0] }

/-- An AKA Identity request (Identifier 1) carrying AT_PERMANENT_ID_REQ. -/
def sampleRequest : eap.Packet :=
  { Code := eap.CodeRequest, Identifier := 1, Type_ := eap.TypeAKA,
    TypeData := [5, 0, 0, 10, 1, 0, 0] }

/-- The session of the tests: a pseudonym as outer identity, no inner one. -/
def sampleSession : eap.Session :=
  { OuterIdentity := "2pseudonym@example", InnerIdentity := "" }

end aka

/-! ## External library layeh.com/radius

The packet and attribute types of the RADIUS library, with the container
operations on the attribute list that the client calls. The attribute list
is ordered; `Add` appends, `Del` removes every attribute of a type, `Set`
overwrites the first attribute of a type and removes the others. -/

namespace radius

/-- An attribute-value pair: the attribute type byte and the raw value. -/
structure AVP where
  Type_ : Nat
  Attribute : List Nat
deriving DecidableEq

/-- The ordered attribute list of a packet. -/
abbrev Attributes : Type := List AVP

/-- A RADIUS packet. -/
structure Packet where
  Code : Nat
  Identifier : Nat
  Authenticator : List Nat
  Secret : List Nat
  Attributes : Attributes
deriving DecidableEq

abbrev CodeAccessRequest : Nat := 1
abbrev CodeAccessAccept : Nat := 2
abbrev CodeAccessReject : Nat := 3
abbrev CodeAccessChallenge : Nat := 11

/-- `Attributes.Add`: the attribute is appended. -/
def Attributes.Add (a : Attributes) (key : Nat) (value : List Nat) : Attributes :=
  a ++ [{ Type_ := key, Attribute := value }]

/-- `Attributes.Del`: every attribute of the type is removed, the others keep
their order. -/
def Attributes.Del (a : Attributes) (key : Nat) : Attributes :=
  a.filter fun avp => avp.Type_ ≠ key

/-- The scan of `Attributes.Set`: the first attribute of the type gets the
value, every later one is removed; `found` tells whether one was met. -/
def Attributes.setScan (key : Nat) (value : List Nat) : Attributes → Bool → Attributes
  | [], _ => []
  | avp :: rest, found =>
    if avp.Type_ = key then
      if found then Attributes.setScan key value rest true
      else { Type_ := key, Attribute := value } :: Attributes.setScan key value rest true
    else avp :: Attributes.setScan key value rest found

/-- `Attributes.Set`: the scan, and the attribute appended when the type was
not present. -/
def Attributes.Set (a : Attributes) (key : Nat) (value : List Nat) : Attributes :=
  if a.any (fun avp => avp.Type_ = key) then Attributes.setScan key value a false
  else Attributes.Add a key value

/-- `radius.NewBytes`: a copy of the bytes as attribute value; more than 253
bytes are refused. -/
def NewBytes (b : List Nat) : Except String (List Nat) :=
  if b.length > 253 then .error "value too long" else .ok b

end radius

namespace rfc2865

abbrev ReplyMessage_Type : Nat := 18
abbrev VendorSpecific_Type : Nat := 26

end rfc2865

namespace rfc2869

abbrev EAPMessage_Type : Nat := 79
abbrev MessageAuthenticator_Type : Nat := 80

/-- `rfc2869.MessageAuthenticator_Set`: the value is made an attribute with
`NewBytes` and set on the packet; the packet after the call is returned next
to the error. -/
def MessageAuthenticator_Set (p : radius.Packet) (value : List Nat) :
    radius.Packet × Option String :=
  match radius.NewBytes value with
  | .error err => (p, some err)
  | .ok a =>
    ({ p with Attributes := radius.Attributes.Set p.Attributes MessageAuthenticator_Type a },
      none)

end rfc2869

/-! ## Package radiusc (`radiusc/eap_message.go`, `radiusc/message_authenticator.go`,
`radiusc/mppe.go`, `radiusc/client.go`) -/

namespace radiusc

abbrev maxEAPMessageChunk : Nat := 253

/-- The loop of `SplitEAPMessage`: while the payload is not empty, its first
`n` bytes, at most 253, are appended as a chunk and dropped. -/
def splitLoop (payload : List Nat) (chunks : List (List Nat)) : List (List Nat) :=
  if _h : payload.length > 0 then
    let n := if payload.length > maxEAPMessageChunk then maxEAPMessageChunk else payload.length
    splitLoop (payload.drop n) (chunks ++ [payload.take n])
  else
    chunks
termination_by payload.length
decreasing_by
  simp only [List.length_drop, maxEAPMessageChunk]
  split <;> omega

/-- SplitEAPMessage splits payload into RADIUS EAP-Message chunks. -/
def SplitEAPMessage (payload : List Nat) : List (List Nat) :=
  if payload.length = 0 then [] else splitLoop payload []

/-- JoinEAPMessage concatenates chunks into a single payload. -/
def JoinEAPMessage (chunks : List (List Nat)) : List Nat :=
  if chunks.length = 0 then [] else chunks.foldl (fun out chunk => out ++ chunk) []

/-- The loop of `AddEAPMessage` over the chunks: each chunk is made an
attribute and added; the first error ends the loop. -/
def addChunks (p : radius.Packet) : List (List Nat) → radius.Packet × Option String
  | [] => (p, none)
  | chunk :: rest =>
    match radius.NewBytes chunk with
    | .error err => (p, some err)
    | .ok attr =>
      addChunks
        { p with Attributes := radius.Attributes.Add p.Attributes rfc2869.EAPMessage_Type attr }
        rest

/-- AddEAPMessage appends EAP-Message attributes to the packet. A nil packet
is `none`; the packet after the call is returned next to the error. -/
def AddEAPMessage (p : Option radius.Packet) (payload : List Nat) :
    Option radius.Packet × Option String :=
  match p with
  | none => (none, some "radiusc: packet is nil")
  | some p =>
    if payload.length = 0 then
      (some p, some "radiusc: eap message is empty")
    else
      let p : radius.Packet :=
        { p with Attributes := radius.Attributes.Del p.Attributes rfc2869.EAPMessage_Type }
      let r := addChunks p (SplitEAPMessage payload)
      (some r.1, r.2)

/-- LookupEAPMessage concatenates EAP-Message attributes from the packet.
The `([]byte, bool, error)` result is `Except String (List Nat × Bool)`. -/
def LookupEAPMessage (p : Option radius.Packet) : Except String (List Nat × Bool) :=
  match p with
  | none => .error "radiusc: packet is nil"
  | some p =>
    let r := p.Attributes.foldl
      (fun (acc : List Nat × Bool) avp =>
        if avp.Type_ ≠ rfc2869.EAPMessage_Type then acc
        else (acc.1 ++ avp.Attribute, true))
      ([], false)
    if !r.2 then .ok ([], false) else .ok (r.1, true)

end radiusc

/-! ### Message-Authenticator and MS-MPPE keys -/

namespace radiusc

/-- The functions of layeh.com/radius and of the Go standard library called
by the client code, as parameters: `(*radius.Packet).MarshalBinary`, HMAC-MD5
of a message under a key (`hmac.New(md5.New, key)`, `Write`, `Sum(nil)`) and
`radius.VendorSpecific`, which splits a Vendor-Specific value into the vendor
identifier and the vendor data. -/
structure Lib where
  MarshalBinary : radius.Packet → Except String (List Nat)
  HmacMD5 : List Nat → List Nat → List Nat
  VendorSpecific : List Nat → Except String (Nat × List Nat)

/-- SetMessageAuthenticator computes and sets Message-Authenticator for the
packet. A nil packet is `none`; the packet after the call is returned next to
the error. `Write` on a hash never returns an error, so that branch of the
source is not taken. -/
def SetMessageAuthenticator (x : Lib) (p : Option radius.Packet) :
    Option radius.Packet × Option String :=
  match p with
  | none => (none, some "radiusc: packet is nil")
  | some p =>
    if p.Secret.length = 0 then
      (some p, some "radiusc: secret is required for message-authenticator")
    else
      let zero := List.replicate 16 0
      match rfc2869.MessageAuthenticator_Set p zero with
      | (p, some err) => (some p, some err)
      | (p, none) =>
        match x.MarshalBinary p with
        | .error err => (some p, some err)
        | .ok raw =>
          let sum := x.HmacMD5 p.Secret raw
          let r := rfc2869.MessageAuthenticator_Set p sum
          (some r.1, r.2)

abbrev vendorMicrosoftID : Nat := 311
abbrev msMPPERecvKeyType : Nat := 17
abbrev msMPPESendKeyType : Nat := 16

/-- MPPEKeys holds raw (encrypted) MS-MPPE key attributes. -/
structure MPPEKeys where
  SendKey : List Nat
  RecvKey : List Nat
  SendKeyPresent : Bool
  RecvKeyPresent : Bool
deriving DecidableEq

/-- The zero value `MPPEKeys{}`. -/
def MPPEKeys.zero : MPPEKeys :=
  { SendKey := [], RecvKey := [], SendKeyPresent := false, RecvKeyPresent := false }

structure vendorTLV where
  typ : Nat
  value : List Nat
deriving DecidableEq

/-- The loop of `parseVendorTLVs`: while bytes remain, one TLV is read from
the front, its length byte counting the two header bytes. -/
def parseVendorTLVsLoop (b : List Nat) (out : List vendorTLV) :
    Except String (List vendorTLV) :=
  if _h : b.length > 0 then
    if b.length < 2 then
      .error "radiusc: vendor tlv too short"
    else
      let length := b.getD 1 0
      if _h2 : length < 2 ∨ length > b.length then
        .error "radiusc: invalid vendor tlv length"
      else
        let value := eap.copySlice (List.replicate (length - 2) 0) ((b.take length).drop 2)
        parseVendorTLVsLoop (b.drop length) (out ++ [{ typ := b.getD 0 0, value := value }])
  else
    .ok out
termination_by b.length
decreasing_by
  simp only [List.length_drop]
  omega

def parseVendorTLVs (b : List Nat) : Except String (List vendorTLV) :=
  parseVendorTLVsLoop b []

/-- The inner loop of `ExtractMPPEKeys` over the TLVs of one attribute. -/
def applyTLVs (keys : MPPEKeys) (tlvs : List vendorTLV) : MPPEKeys :=
  tlvs.foldl
    (fun keys tlv =>
      if tlv.typ = msMPPESendKeyType then
        { keys with SendKey := tlv.value, SendKeyPresent := true }
      else if tlv.typ = msMPPERecvKeyType then
        { keys with RecvKey := tlv.value, RecvKeyPresent := true }
      else keys)
    keys

/-- The outer loop of `ExtractMPPEKeys` over the attributes; an error ends
the loop and is returned. -/
def extractLoop (x : Lib) : radius.Attributes → MPPEKeys → Except String MPPEKeys
  | [], keys => .ok keys
  | avp :: rest, keys =>
    if avp.Type_ ≠ rfc2865.VendorSpecific_Type then
      extractLoop x rest keys
    else
      match x.VendorSpecific avp.Attribute with
      | .error err => .error err
      | .ok (vendorID, value) =>
        if vendorID ≠ vendorMicrosoftID then
          extractLoop x rest keys
        else
          match parseVendorTLVs value with
          | .error err => .error err
          | .ok tlvs => extractLoop x rest (applyTLVs keys tlvs)

/-- ExtractMPPEKeys extracts raw MS-MPPE send/recv key attributes from the
packet. A nil packet is `none`. -/
def ExtractMPPEKeys (x : Lib) (p : Option radius.Packet) : Except String MPPEKeys :=
  match p with
  | none => .error "radiusc: packet is nil"
  | some p => extractLoop x p.Attributes MPPEKeys.zero

/-- Response wraps a RADIUS response with parsed fields. -/
structure Response where
  Code : Nat
  EAP : List Nat
  MPPE : MPPEKeys
  State : List Nat
  Packet : Option radius.Packet

/-- The sub-attributes of the vendor-311 Vendor-Specific attributes of an
attribute list, in order: those the library splits with vendor identifier
311 and whose vendor data is a sequence of TLVs. -/
def microsoftTLVs (x : Lib) (attrs : radius.Attributes) : List vendorTLV :=
  attrs.flatMap fun avp =>
    if avp.Type_ = rfc2865.VendorSpecific_Type then
      match x.VendorSpecific avp.Attribute with
      | .ok (vendorID, value) =>
        if vendorID = vendorMicrosoftID then
          match parseVendorTLVs value with
          | .ok tlvs => tlvs
          | .error _ => []
        else []
      | .error _ => []
    else []

/-- The Vendor-Specific attributes of the list are well formed: the library
splits each of them, and the vendor data of each vendor-311 attribute is a
sequence of TLVs. -/
def wellFormedVSAs (x : Lib) (attrs : radius.Attributes) : Prop :=
  ∀ avp ∈ attrs, avp.Type_ = rfc2865.VendorSpecific_Type →
    ∃ vendorID value, x.VendorSpecific avp.Attribute = .ok (vendorID, value) ∧
      (vendorID = vendorMicrosoftID → ∃ tlvs, parseVendorTLVs value = .ok tlvs)

/-- The attribute is a Vendor-Specific attribute that the library splits with
vendor identifier 311. -/
def isMicrosoftVSA (x : Lib) (avp : radius.AVP) : Bool :=
  decide (avp.Type_ = rfc2865.VendorSpecific_Type) &&
    match x.VendorSpecific avp.Attribute with
    | .ok (vendorID, _) => decide (vendorID = vendorMicrosoftID)
    | .error _ => false

/-- A small instance of the library interface: a packet is marshalled as its
code, identifier, and the type, length and value of each attribute; the MAC
is sixteen bytes made of the key length and the message length; a
Vendor-Specific value is four bytes of vendor identifier and the data. -/
def sampleLib : Lib :=
  { MarshalBinary := fun p =>
      .ok (p.Code :: p.Identifier ::
        p.Attributes.flatMap fun avp => avp.Type_ :: (avp.Attribute.length + 2) :: avp.Attribute)
    HmacMD5 := fun key msg => List.replicate 8 key.length ++ List.replicate 8 msg.length
    VendorSpecific := fun a =>
      if a.length < 5 then .error "invalid length"
      else
        .ok (((a.getD 0 0 * 256 + a.getD 1 0) * 256 + a.getD 2 0) * 256 + a.getD 3 0,
          a.drop 4) }

/-- An Access-Request with a User-Name, a stale Message-Authenticator and an
EAP-Message. -/
def samplePacket : radius.Packet :=
  { Code := radius.CodeAccessRequest, Identifier := 7, Authenticator := List.replicate 16 0,
    Secret := [115, 101, 99, 114, 101, 116],
    Attributes :=
      [{ Type_ := 1, Attribute := [117] }, { Type_ := 80, Attribute := [1, 2, 3] },
       { Type_ := 79, Attribute := [2, 0, 0, 4] }] }

/-- The Access-Accept of the test `TestExtractMPPEKeys`: one vendor-311
attribute with a send key and a receive key, after an attribute of another
vendor. -/
def sampleAccept : radius.Packet :=
  { Code := radius.CodeAccessAccept, Identifier := 7, Authenticator := List.replicate 16 0,
    Secret := [115, 101, 99, 114, 101, 116],
    Attributes :=
      [{ Type_ := 26, Attribute := [0, 0, 0, 9, 16, 3, 0xff] },
       { Type_ := 26,
         Attribute := [0, 0, 1, 55, 16, 6, 0x10, 0x20, 0x30, 0x40, 17, 5, 0xaa, 0xbb, 0xcc] }] }

end radiusc

/-! ## Package testcase (`testcase/case.go`) -/

namespace testcase

structure RadiusAttrs where
  NASIPAddress : String
  NASIdentifier : String
  CalledStationID : String
  CallingStationID : String
deriving DecidableEq

structure Radius where
  TimeoutMS : Option Int
  Retries : Option Int
  Attrs : RadiusAttrs
deriving DecidableEq

structure AKAPrime where
  NetName : String
deriving DecidableEq

structure EAP where
  MethodMismatchPolicy : String
  OuterIdentityUpdateOnPermanentReq : Option Bool
  PermanentIDPolicy : String
  PermanentIdentityOverride : String
  AKAPrime : AKAPrime
deriving DecidableEq

structure SQN where
  Reset : Bool
  Persist : Option Bool
deriving DecidableEq

structure MPPE where
  RequirePresent : Option Bool
  SendKey : String
  RecvKey : String
deriving DecidableEq

structure Expect where
  Result : String
  RejectHintContains : String
  MPPE : MPPE
deriving DecidableEq

structure Trace where
  Level : String
  UnsafeLog : Bool
  DumpEAPHex : Option Bool
  DumpRadiusAttrs : Option Bool
  SavePath : String
deriving DecidableEq

/-- Case represents a single test case session definition. A `*int` or
`*bool` field is an `Option`. -/
structure Case where
  Version : Int
  Name : String
  Description : String
  Identity : String
  Radius : Radius
  EAP : EAP
  SQN : SQN
  Expect : Expect
  Trace : Trace
deriving DecidableEq

/-- The zero value `Case{}`. -/
def Case.zero : Case :=
  { Version := 0, Name := "", Description := "", Identity := "",
    Radius :=
      { TimeoutMS := none, Retries := none,
        Attrs :=
          { NASIPAddress := "", NASIdentifier := "", CalledStationID := "",
            CallingStationID := "" } },
    EAP :=
      { MethodMismatchPolicy := "", OuterIdentityUpdateOnPermanentReq := none,
        PermanentIDPolicy := "", PermanentIdentityOverride := "",
        AKAPrime := { NetName := "" } },
    SQN := { Reset := false, Persist := none },
    Expect :=
      { Result := "", RejectHintContains := "",
        MPPE := { RequirePresent := none, SendKey := "", RecvKey := "" } },
    Trace :=
      { Level := "", UnsafeLog := false, DumpEAPHex := none, DumpRadiusAttrs := none,
        SavePath := "" } }

end testcase

/-! ## Package app (`app/runner.go`): the verdict -/

namespace strings

/-- Go `strings.Contains`: the substring stands at some position of the
string. Both strings are taken as character sequences; on UTF-8 text a
character sequence is contained exactly when its bytes are. -/
def Contains (s substr : String) : Bool :=
  s.data.tails.any fun t => substr.data.isPrefixOf t

end strings

namespace app

/-- RunError wraps an execution failure with its exit code. The wrapped
error is its message. -/
structure RunError where
  Code : Int
  Err : String
deriving DecidableEq

/-- The library functions called by the verdict, as parameters:
`rfc2865.ReplyMessage_GetString` on the packet pointer of the response, the
`%q` quoting of `fmt`, `hex.DecodeString` and
`base64.StdEncoding.DecodeString`. -/
structure Lib where
  ReplyMessage_GetString : Option radius.Packet → String
  Quote : String → String
  hexDecodeString : String → Except String (List Nat)
  base64DecodeString : String → Except String (List Nat)

/-- The function `fail`; the formatted message is passed whole. -/
def fail (code : Int) (message : String) : Int × Option RunError :=
  (code, some { Code := code, Err := "app: " ++ message })

/-- The function `wrap`; a nil `err` is `none`. -/
def wrap (code : Int) (err : Option String) (message : String) : Int × Option RunError :=
  match err with
  | none => fail code message
  | some err => (code, some { Code := code, Err := "app: " ++ message ++ ": " ++ err })

/-- The function `decodeKey`. The first four bytes of the value are `hex:`
(or `b64:`) exactly when its first four characters are, so the slices
`value[:4]` and `value[4:]` are taken on the characters. -/
def decodeKey (x : Lib) (value : String) : Except String (List Nat) :=
  if value.length ≥ 4 ∧ String.mk (value.data.take 4) = "hex:" then
    x.hexDecodeString (String.mk (value.data.drop 4))
  else if value.length ≥ 4 ∧ String.mk (value.data.take 4) = "b64:" then
    x.base64DecodeString (String.mk (value.data.drop 4))
  else
    .error "unsupported key encoding"

/-- The last block of `evaluateExpect`: the expected receive key, and the
final `return 0, nil`. The response pointer is dereferenced without a nil
check; `none` as result is the run-time panic on a nil response. -/
def expectRecvKey (x : Lib) (tc : testcase.Case) (resp : Option radiusc.Response) :
    Option (Int × Option RunError) :=
  if tc.Expect.MPPE.RecvKey ≠ "" then
    match decodeKey x tc.Expect.MPPE.RecvKey with
    | .error err => some (wrap 2 (some err) "decode expect.mppe.recv_key")
    | .ok value =>
      match resp with
      | none => none
      | some r =>
        if !r.MPPE.RecvKeyPresent || !decide (r.MPPE.RecvKey = value) then
          some (fail 1 "mppe recv_key mismatch")
        else
          some (0, none)
  else
    some (0, none)

/-- The block of `evaluateExpect` on the expected send key, followed by the
rest of the function. -/
def expectSendKey (x : Lib) (tc : testcase.Case) (resp : Option radiusc.Response) :
    Option (Int × Option RunError) :=
  if tc.Expect.MPPE.SendKey ≠ "" then
    match decodeKey x tc.Expect.MPPE.SendKey with
    | .error err => some (wrap 2 (some err) "decode expect.mppe.send_key")
    | .ok value =>
      match resp with
      | none => none
      | some r =>
        if !r.MPPE.SendKeyPresent || !decide (r.MPPE.SendKey = value) then
          some (fail 1 "mppe send_key mismatch")
        else
          expectRecvKey x tc resp
  else
    expectRecvKey x tc resp

/-- The block of `evaluateExpect` on the presence of the keys, followed by
the rest of the function. -/
def expectPresence (x : Lib) (tc : testcase.Case) (resp : Option radiusc.Response)
    (expectedAccept : Bool) : Option (Int × Option RunError) :=
  let requirePresent :=
    match tc.Expect.MPPE.RequirePresent with
    | some b => b
    | none => expectedAccept
  if requirePresent then
    match resp with
    | none => none
    | some r =>
      if !r.MPPE.SendKeyPresent || !r.MPPE.RecvKeyPresent then
        some (fail 1 "mppe keys missing")
      else
        expectSendKey x tc resp
  else
    expectSendKey x tc resp

/-- The function `evaluateExpect`: the comparison of the result and the
check of the reject hint, followed by the blocks above. -/
def evaluateExpect (x : Lib) (tc : testcase.Case) (resp : Option radiusc.Response)
    (accepted : Bool) : Option (Int × Option RunError) :=
  let expectedAccept := decide (tc.Expect.Result = "accept")
  let actual := if accepted then "accept" else "reject"
  if accepted ≠ expectedAccept then
    some (fail 1 ("expect result=" ++ tc.Expect.Result ++ " got=" ++ actual))
  else if !accepted && decide (tc.Expect.RejectHintContains ≠ "") then
    match resp with
    | none => none
    | some r =>
      let hint := x.ReplyMessage_GetString r.Packet
      if hint = "" then
        some (fail 1 "reject_hint_contains missing Reply-Message")
      else if !strings.Contains hint tc.Expect.RejectHintContains then
        some (fail 1 ("reject_hint_contains mismatch: want " ++
          x.Quote tc.Expect.RejectHintContains ++ " got " ++ x.Quote hint))
      else
        expectPresence x tc resp expectedAccept
  else
    expectPresence x tc resp expectedAccept

/-- The value of one hexadecimal digit. -/
def hexDigit (c : Char) : Option Nat :=
  if '0' ≤ c ∧ c ≤ '9' then some (c.toNat - 48)
  else if 'a' ≤ c ∧ c ≤ 'f' then some (c.toNat - 87)
  else if 'A' ≤ c ∧ c ≤ 'F' then some (c.toNat - 55)
  else none

/-- A decoder of hexadecimal text, two digits a byte. -/
def hexDecode : List Char → Except String (List Nat)
  | [] => .ok []
  | [_] => .error "encoding/hex: odd length hex string"
  | a :: b :: rest =>
    match hexDigit a, hexDigit b, hexDecode rest with
    | some hi, some lo, .ok out => .ok ((hi * 16 + lo) :: out)
    | some _, some _, .error err => .error err
    | _, _, _ => .error "encoding/hex: invalid byte"

/-- A small instance of the library interface: the Reply-Message is the
value of the first attribute of type 18 read as one character a byte and is
empty without such an attribute or without a packet, quoting puts the string
between two quotation marks, hexadecimal text is decoded two digits a byte,
and base64 text is refused. -/
def sampleLib : Lib :=
  { ReplyMessage_GetString := fun p =>
      match p with
      | none => ""
      | some p =>
        match p.Attributes.find? fun avp => avp.Type_ = rfc2865.ReplyMessage_Type with
        | none => ""
        | some avp => String.mk (avp.Attribute.map Char.ofNat)
    Quote := fun s => String.singleton (Char.ofNat 34) ++ s ++ String.singleton (Char.ofNat 34)
    hexDecodeString := fun s => hexDecode s.data
    base64DecodeString := fun _ => .error "illegal base64 data" }

/-- The response of the test `TestRejectHintContains`: an Access-Reject
whose Reply-Message is the text `user not allowed`. -/
def sampleReject : radiusc.Response :=
  { Code := radius.CodeAccessReject, EAP := [], MPPE := radiusc.MPPEKeys.zero, State := [],
    Packet := some
      { Code := radius.CodeAccessReject, Identifier := 0, Authenticator := List.replicate 16 0,
        Secret := [115, 101, 99, 114, 101, 116],
        Attributes :=
          [{ Type_ := rfc2865.ReplyMessage_Type,
             Attribute := [117, 115, 101, 114, 32, 110, 111, 116, 32, 97, 108, 108, 111, 119,
               101, 100] }] } }

/-- The case of the test `TestRejectHintContains`. -/
def sampleCaseReject : testcase.Case :=
  { testcase.Case.zero with
    Expect :=
      { Result := "reject", RejectHintContains := "not allowed",
        MPPE := { RequirePresent := none, SendKey := "", RecvKey := "" } } }

/-- A case that expects an accept and, by default, the keys. -/
def sampleCaseAccept : testcase.Case :=
  { testcase.Case.zero with
    Expect :=
      { Result := "accept", RejectHintContains := "",
        MPPE := { RequirePresent := none, SendKey := "", RecvKey := "" } } }

/-- An Access-Accept without keys. -/
def sampleAcceptNoKeys : radiusc.Response :=
  { Code := radius.CodeAccessAccept, EAP := [], MPPE := radiusc.MPPEKeys.zero, State := [],
    Packet := some
      { Code := radius.CodeAccessAccept, Identifier := 0, Authenticator := List.replicate 16 0,
        Secret := [115, 101, 99, 114, 101, 116], Attributes := [] } }

end app

namespace app

/-- The shape of a verdict: exit code 0 with a nil error, or exit code 1 or
2 with a `RunError` that carries the same code. -/
def isVerdict (res : Int × Option RunError) : Prop :=
  (res.1 = 0 ∧ res.2 = none) ∨ ((res.1 = 1 ∨ res.1 = 2) ∧ ∃ e, res.2 = some e ∧ e.Code = res.1)

/-- An expected key literal of the case is set and cannot be decoded. -/
def keyLiteralFails (x : Lib) (tc : testcase.Case) : Prop :=
  (tc.Expect.MPPE.SendKey ≠ "" ∧ ∃ err, decodeKey x tc.Expect.MPPE.SendKey = .error err) ∨
  (tc.Expect.MPPE.RecvKey ≠ "" ∧ ∃ err, decodeKey x tc.Expect.MPPE.RecvKey = .error err)

end app

/-! ## Package time: instants and the RFC 3339 layout -/

namespace time

/-- `Time.IsZero`: the instant is January 1, year 1, 00:00:00 UTC. -/
def Time.IsZero (t : Time) : Bool :=
  decide (t.sec = 0 ∧ t.nsec = 0)

/-- `Time.UTC`: the same instant with the location set to UTC. -/
def Time.UTC (t : Time) : Time :=
  { t with offset := 0 }

/-- `Time.Equal`: the two values are the same instant. -/
def Time.Equal (t u : Time) : Bool :=
  decide (t.sec = u.sec ∧ t.nsec = u.nsec)

/-- The layout-driven functions of the standard library, as parameters:
`t.Format(time.RFC3339)` and `time.Parse(time.RFC3339, s)`. -/
structure Lib where
  Format : Time → String
  Parse : String → Except String Time

/-- The instant, formatted in UTC, is a non-empty text that parses back to
the whole seconds of the instant in UTC: the layout has no field for the
fraction of a second. -/
def Lib.roundTrips (x : Lib) (t : Time) : Prop :=
  x.Format t.UTC ≠ "" ∧ x.Parse (x.Format t.UTC) = .ok { sec := t.sec, nsec := 0, offset := 0 }

/-- The decimal digits of a number, zero-padded to a width. -/
def appendInt (n width : Nat) : List Char :=
  let digits := Nat.toDigits 10 n
  List.replicate (width - digits.length) '0' ++ digits

/-- The civil date `(year, month, day)` of a day number counted from
January 1, year 1. -/
def civilFromDays (days : Int) : Int × Nat × Nat :=
  let z := days + 306
  let era := z / 146097
  let doe := (z % 146097).toNat
  let yoe := (doe - doe / 1460 + doe / 36524 - doe / 146096) / 365
  let doy := doe - (365 * yoe + yoe / 4 - yoe / 100)
  let mp := (5 * doy + 2) / 153
  let d := doy - (153 * mp + 2) / 5 + 1
  let m := if mp < 10 then mp + 3 else mp - 9
  let y := (yoe : Int) + era * 400
  (if m ≤ 2 then y + 1 else y, m, d)

/-- The day number, counted from January 1, year 1, of a civil date. -/
def daysFromCivil (year : Int) (m d : Nat) : Int :=
  let y := if m ≤ 2 then year - 1 else year
  let era := y / 400
  let yoe := (y % 400).toNat
  let doy := (153 * (if m > 2 then m - 3 else m + 9) + 2) / 5 + d - 1
  let doe := yoe * 365 + yoe / 4 - yoe / 100 + doy
  era * 146097 + (doe : Int) - 306

/-- The number of days of a month. -/
def daysIn (year : Int) (m : Nat) : Nat :=
  if m = 2 then
    if year % 4 = 0 ∧ (year % 100 ≠ 0 ∨ year % 400 = 0) then 29 else 28
  else if m = 4 ∨ m = 6 ∨ m = 9 ∨ m = 11 then 30
  else 31

/-- The text of an instant in the RFC 3339 layout, in the location of the
value: date, `T`, time of day without fraction, and `Z` or the numeric
offset. -/
def formatRFC3339 (t : Time) : String :=
  let loc := t.sec + t.offset
  let date := civilFromDays (loc / 86400)
  let rem := (loc % 86400).toNat
  let year :=
    if date.1 < 0 then '-' :: appendInt date.1.natAbs 4 else appendInt date.1.toNat 4
  let zone :=
    if t.offset = 0 then ['Z']
    else
      (if t.offset < 0 then '-' else '+') ::
        (appendInt (t.offset.natAbs / 3600) 2 ++ ':' ::
          appendInt (t.offset.natAbs % 3600 / 60) 2)
  String.mk (year ++ '-' :: appendInt date.2.1 2 ++ '-' :: appendInt date.2.2 2 ++
    'T' :: appendInt (rem / 3600) 2 ++ ':' :: appendInt (rem % 3600 / 60) 2 ++
    ':' :: appendInt (rem % 60) 2 ++ zone)

/-- The value of a run of decimal digits. -/
def parseDigits (cs : List Char) : Option Nat :=
  cs.foldl
    (fun acc c =>
      match acc with
      | some n => if '0' ≤ c ∧ c ≤ '9' then some (n * 10 + (c.toNat - 48)) else none
      | none => none)
    (some 0)

/-- The numeric zone of the RFC 3339 layout: `Z`, or a sign, two digits of
hours, a colon and two digits of minutes; the result is the offset in
seconds. -/
def parseZone (cs : List Char) : Option Int :=
  match cs with
  | ['Z'] => some 0
  | [s, h1, h2, ':', m1, m2] =>
    match parseDigits [h1, h2], parseDigits [m1, m2] with
    | some h, some m =>
      if h < 24 ∧ m < 60 then
        if s = '+' then some ((h * 3600 + m * 60 : Nat) : Int)
        else if s = '-' then some (-((h * 3600 + m * 60 : Nat) : Int))
        else none
      else none
    | _, _ => none
  | _ => none

/-- A reader of the RFC 3339 layout without fraction: four digits of year,
month, day, `T`, hour, minute, second, and the zone. -/
def parseRFC3339 (s : String) : Except String Time :=
  match s.data with
  | y1 :: y2 :: y3 :: y4 :: '-' :: mo1 :: mo2 :: '-' :: d1 :: d2 :: 'T' ::
      h1 :: h2 :: ':' :: mi1 :: mi2 :: ':' :: s1 :: s2 :: zone =>
    match parseDigits [y1, y2, y3, y4], parseDigits [mo1, mo2], parseDigits [d1, d2],
      parseDigits [h1, h2], parseDigits [mi1, mi2], parseDigits [s1, s2], parseZone zone with
    | some y, some mo, some d, some h, some mi, some sc, some off =>
      if 1 ≤ mo ∧ mo ≤ 12 ∧ 1 ≤ d ∧ d ≤ daysIn y mo ∧ h < 24 ∧ mi < 60 ∧ sc < 60 then
        .ok
          { sec := daysFromCivil y mo d * 86400 + ((h * 3600 + mi * 60 + sc : Nat) : Int) - off,
            nsec := 0, offset := off }
      else
        .error "parsing time: out of range"
    | _, _, _, _, _, _, _ => .error "parsing time: cannot parse"
  | _ => .error "parsing time: cannot parse"

/-- An instance of the layout functions: the RFC 3339 texts without a
fraction of a second. -/
def rfc3339 : Lib :=
  { Format := formatRFC3339, Parse := parseRFC3339 }

end time

/-! ## Package sqnstore: SQN text form and the file store
(`sqnstore/store.go`, `sqnstore/file_store.go`) -/

namespace sqnstore

/-- The lower-case hexadecimal digit of a value below 16. -/
def hexChar (d : Nat) : Char :=
  if d < 10 then Char.ofNat (48 + d) else Char.ofNat (87 + d)

/-- The value of a hexadecimal digit, of either case. -/
def hexValue (c : Char) : Option Nat :=
  if '0' ≤ c ∧ c ≤ '9' then some (c.toNat - 48)
  else if 'a' ≤ c ∧ c ≤ 'f' then some (c.toNat - 87)
  else if 'A' ≤ c ∧ c ≤ 'F' then some (c.toNat - 55)
  else none

/-- `strconv.ParseUint(s, 16, 64)`: the value of a non-empty run of
hexadecimal digits that fits 64 bits; `none` is the error. -/
def parseUintHex (cs : List Char) : Option Nat :=
  if cs = [] then none
  else
    match cs.foldl
      (fun acc c =>
        match acc, hexValue c with
        | some n, some d => some (n * 16 + d)
        | _, _ => none)
      (some 0) with
    | some v => if v < 2 ^ 64 then some v else none
    | none => none

/-- ParseSQNHex parses a 12-hex-digit SQN string. `len(s)` is the length
in bytes. -/
def ParseSQNHex (s : String) : Except String Nat :=
  if s.utf8ByteSize ≠ SQNHexLen then
    .error "sqnstore: sqn hex length must be 12"
  else
    match parseUintHex s.data with
    | none => .error "sqnstore: invalid sqn hex"
    | some v =>
      if v > MaxSQN then
        .error "sqnstore: sqn exceeds 48 bits"
      else
        .ok v

/-- FormatSQNHex returns a zero-padded 12-hex-digit SQN string. The text
`%012x` of a value of at most 48 bits is its twelve hexadecimal digits, the
most significant first. -/
def FormatSQNHex (sqn : Nat) : Except String String :=
  if sqn > MaxSQN then
    .error "sqnstore: sqn exceeds 48 bits"
  else
    .ok (String.mk ((List.range SQNHexLen).map fun i =>
      hexChar (sqn / 16 ^ (SQNHexLen - 1 - i) % 16)))

abbrev storeVersion : Int := 1

structure subscriberJSON where
  SeqMS : List Nat
  SQNMSHex : String
  UpdatedAt : String
deriving DecidableEq

/-- The document of the store file. The map `Subscribers` is a function from
the IMSI, `none` for an absent key; a nil map is `none`. -/
structure fileData where
  Version : Int
  IndBits : Int
  ArraySize : Int
  Subscribers : Option (String → Option subscriberJSON)

def newFileData : fileData :=
  { Version := storeVersion, IndBits := IndBits, ArraySize := ArraySize,
    Subscribers := some fun _ => none }

/-- What a path of the file system holds, as `os.ReadFile` and
`json.Unmarshal` see it: no file, a file that cannot be read, a content that
is refused by `json.Unmarshal`, or a content that `json.Unmarshal` decodes,
over the fresh document of `newFileData`, into the given document. The JSON
text is represented by the document it decodes to; the text written by
`json.MarshalIndent` for a document decodes to that document. -/
inductive File where
  | absent
  | unreadable (err : String)
  | malformed (err : String)
  | document (data : fileData)

/-- The file system and the wall clock: the files by path, the error, if
any, that writing and renaming a temporary file to a path meets, and the
value of `time.Now()`. -/
structure Disk where
  files : String → File
  writeError : String → Option String
  now : time.Time

/-- FileStore: the path and the optional clock; `Now` is the value the
clock function returns, `none` for a nil function. The receiver of the
methods is not nil. -/
structure FileStore where
  Path : String
  Now : Option time.Time

def FileStore.loadFile (fs : FileStore) (w : Disk) : Except String fileData :=
  match w.files fs.Path with
  | .absent => .ok newFileData
  | .unreadable err => .error err
  | .malformed err => .error err
  | .document data =>
    if data.Version ≠ storeVersion then
      .error "sqnstore: unsupported store version"
    else if data.IndBits ≠ IndBits ∨ data.ArraySize ≠ ArraySize then
      .error "sqnstore: store shape mismatch"
    else
      match data.Subscribers with
      | none => .ok { data with Subscribers := some fun _ => none }
      | some _ => .ok data

/-- `saveFile`: the document is written to a temporary file that is renamed
to the path; on an error the file at the path is unchanged. The disk after
the call is returned next to the error. -/
def FileStore.saveFile (fs : FileStore) (data : fileData) (w : Disk) : Disk × Option String :=
  let data : fileData :=
    match data.Subscribers with
    | none => { data with Subscribers := some fun _ => none }
    | some _ => data
  match w.writeError fs.Path with
  | some err => (w, some err)
  | none =>
    ({ w with files := fun path => if path = fs.Path then .document data else w.files path },
      none)

def subscriberJSON.toState (x : time.Lib) (s : subscriberJSON) : Except String SubscriberState :=
  if s.SeqMS.length ≠ ArraySize then
    .error "sqnstore: seqms length must be 32"
  else
    let seqs : Fin ArraySize → Nat := fun i => s.SeqMS.getD i.val 0
    match ParseSQNHex s.SQNMSHex with
    | .error err => .error err
    | .ok sqn =>
      if s.UpdatedAt ≠ "" then
        match x.Parse s.UpdatedAt with
        | .error err => .error ("sqnstore: invalid updated_at: " ++ err)
        | .ok updatedAt => .ok { SeqMS := seqs, SQNMS := sqn, UpdatedAt := updatedAt }
      else
        .ok { SeqMS := seqs, SQNMS := sqn, UpdatedAt := time.Time.zero }

def fromState (x : time.Lib) (state : SubscriberState) : Except String subscriberJSON :=
  match FormatSQNHex state.SQNMS with
  | .error err => .error err
  | .ok sqnHex =>
    let updated := if !state.UpdatedAt.IsZero then x.Format state.UpdatedAt.UTC else ""
    let seqms := List.ofFn state.SeqMS
    .ok { SeqMS := seqms, SQNMSHex := sqnHex, UpdatedAt := updated }

def FileStore.Load (x : time.Lib) (fs : FileStore) (w : Disk) (imsi : String) :
    Except String (SubscriberState × Bool) :=
  if imsi = "" then
    .error "sqnstore: imsi is required"
  else
    match fs.loadFile w with
    | .error err => .error err
    | .ok data =>
      match data.Subscribers.bind fun m => m imsi with
      | none => .ok (SubscriberState.zero, false)
      | some rec =>
        match rec.toState x with
        | .error err => .error err
        | .ok state => .ok (state, true)

/-- The clock of a `Save`: the `Now` function of the store when set, else
`time.Now`. -/
def FileStore.clock (fs : FileStore) (w : Disk) : time.Time :=
  match fs.Now with
  | some t => t
  | none => w.now

/-- `(*FileStore).Save`; the disk after the call is returned next to the
error. The assignment to an entry of a nil map is the run-time panic. -/
def FileStore.Save (x : time.Lib) (fs : FileStore) (w : Disk) (imsi : String)
    (state : SubscriberState) : Disk × Option String :=
  if imsi = "" then
    (w, some "sqnstore: imsi is required")
  else
    match fs.loadFile w with
    | .error err => (w, some err)
    | .ok data =>
      let state : SubscriberState := { state with UpdatedAt := fs.clock w }
      match fromState x state with
      | .error err => (w, some err)
      | .ok rec =>
        match data.Subscribers with
        | none => (w, some "panic: assignment to entry in nil map")
        | some m =>
          fs.saveFile
            { data with Subscribers := some fun key => if key = imsi then some rec else m key }
            w

/-- `(*FileStore).Reset`; the disk after the call is returned next to the
error. -/
def FileStore.Reset (fs : FileStore) (w : Disk) (imsi : String) : Disk × Option String :=
  if imsi = "" then
    (w, some "sqnstore: imsi is required")
  else
    match fs.loadFile w with
    | .error err => (w, some err)
    | .ok data =>
      fs.saveFile
        { data with
          Subscribers := data.Subscribers.map fun m key => if key = imsi then none else m key }
        w

/-- The file store as a `Store`: its content is the disk. -/
def fileStore (x : time.Lib) (fs : FileStore) : Store Disk :=
  { Load := FileStore.Load x fs, Save := FileStore.Save x fs, Reset := FileStore.Reset fs }

/-- A disk without files on which writing succeeds; the wall clock shows
2025-01-02T03:04:05.5Z. -/
def emptyDisk : Disk :=
  { files := fun _ => .absent, writeError := fun _ => none,
    now := { sec := 63871383845, nsec := 500000000, offset := 0 } }

/-- The store of the test `TestFileStoreSaveLoadRoundTrip`: the clock is
fixed at 2025-01-02T03:04:05Z. -/
def sampleFileStore : FileStore :=
  { Path := "sqn.json", Now := some { sec := 63871383845, nsec := 0, offset := 0 } }

/-- A store on the same path without a clock function. -/
def sampleFileStoreWallClock : FileStore :=
  { Path := "sqn.json", Now := none }

/-- The state of the test: `SeqMS[3] = 7`, `SQNMS = 0x1234`. -/
def sampleStateSaved : SubscriberState :=
  { SeqMS := fun i => if i.val = 3 then 7 else 0, SQNMS := 0x1234,
    UpdatedAt := time.Time.zero }

end sqnstore

/-! ### Sample values and call sequences for the stores -/

namespace sqnstore

/-- A disk whose store file holds a document of version 2. -/
def corruptDisk : Disk :=
  { emptyDisk with
    files := fun path =>
      if path = "sqn.json" then .document { newFileData with Version := 2 } else .absent }

/-- A disk whose store file holds a record with three sequence numbers. -/
def shortRecordDisk : Disk :=
  { emptyDisk with
    files := fun path =>
      if path = "sqn.json" then
        .document
          { newFileData with
            Subscribers := some fun key =>
              if key = "440100123456789" then
                some { SeqMS := [1, 2, 3], SQNMSHex := "000000001234", UpdatedAt := "" }
              else none }
      else .absent }

/-- A call on a store. -/
inductive Op where
  | load (imsi : String)
  | save (imsi : String) (state : SubscriberState)
  | reset (imsi : String)

/-- What a call on a store returns: the `(state, found, error)` of `Load` or
the `error` of `Save` and `Reset`. -/
inductive Obs where
  | loaded (r : Except String (SubscriberState × Bool))
  | done (err : Option String)

/-- One call on a store: the content after the call and what the call
returned. -/
def stepStore {σ : Type} (st : Store σ) (c : σ) : Op → σ × Obs
  | .load imsi => (c, .loaded (st.Load c imsi))
  | .save imsi state => let r := st.Save c imsi state; (r.1, .done r.2)
  | .reset imsi => let r := st.Reset c imsi; (r.1, .done r.2)

/-- A sequence of calls on a store: the content after the last call and what
every call returned, in call order. -/
def runStore {σ : Type} (st : Store σ) (c : σ) : List Op → σ × List Obs
  | [] => (c, [])
  | op :: rest =>
    let r := stepStore st c op
    let rr := runStore st r.1 rest
    (rr.1, r.2 :: rr.2)

/-- Two calls returned alike up to the time stamp: both failed, or both
succeeded and, for a `Load`, with the same found flag, the same 32 SeqMS
entries and the same SQNMS. -/
def Obs.agree : Obs → Obs → Prop
  | .loaded (.ok (s, found)), .loaded (.ok (s', found')) =>
    found = found' ∧ s.SeqMS = s'.SeqMS ∧ s.SQNMS = s'.SQNMS
  | .loaded (.error _), .loaded (.error _) => True
  | .done none, .done none => True
  | .done (some _), .done (some _) => True
  | _, _ => False

/-- Every state saved by a sequence of calls has an SQNMS of at most 48
bits. -/
def savesWithin48 : List Op → Prop
  | [] => True
  | .save _ state :: rest => state.SQNMS ≤ MaxSQN ∧ savesWithin48 rest
  | _ :: rest => savesWithin48 rest

/-- The memory store and the disk hold the same subscribers, with the same
SeqMS and SQNMS: the memory store has a map, writing the file of the store
meets no error, the clock of the store is zero or round-trips through the
layout, and the file loads to a document whose records are those of the
map. -/
def sameRecords (x : time.Lib) (fs : FileStore) (m : Option MemoryStore) (w : Disk) : Prop :=
  w.writeError fs.Path = none ∧
  ((fs.clock w).IsZero = true ∨ x.roundTrips (fs.clock w)) ∧
  ∃ mm fd fm, m = some { data := some mm } ∧ fs.loadFile w = .ok fd ∧
    fd.Subscribers = some fm ∧
    ∀ imsi,
      (mm imsi = none ∧ fm imsi = none) ∨
      ∃ s rec s', mm imsi = some s ∧ fm imsi = some rec ∧ rec.toState x = .ok s' ∧
        s'.SeqMS = s.SeqMS ∧ s'.SQNMS = s.SQNMS

end sqnstore

/-! ## Package config (`config/config.go`, `config/merge.go`) and the
validation of a testcase (`testcase/case.go`) -/

namespace unicode

/-- Go `unicode.IsSpace`: the white space characters of Unicode. -/
def IsSpace (c : Char) : Bool :=
  decide (c.toNat ∈ [0x09, 0x0a, 0x0b, 0x0c, 0x0d, 0x20, 0x85, 0xa0, 0x1680, 0x2028, 0x2029,
    0x202f, 0x205f, 0x3000]) || decide (0x2000 ≤ c.toNat ∧ c.toNat ≤ 0x200a)

end unicode

namespace strings

/-- Go `strings.TrimSpace`: the string without its leading and trailing
white space. -/
def TrimSpace (s : String) : String :=
  String.mk ((s.data.dropWhile unicode.IsSpace).reverse.dropWhile unicode.IsSpace).reverse

/-- Go `strings.HasPrefix`: the string begins with the given text. -/
def HasPrefix (s pre : String) : Bool :=
  pre.data.isPrefixOf s.data

end strings

namespace testcase

def hasKeyPrefix (v : String) : Bool :=
  strings.HasPrefix v "hex:" || strings.HasPrefix v "b64:"

/-- The loop of `isOneOf` over the allowed values. -/
def isOneOf (value : String) : List String → Bool
  | [] => false
  | v :: rest => if value = v then true else isOneOf value rest

/-- Validate checks the schema constraints; the nil error is `none`. -/
def Case.Validate (c : Case) : Option String :=
  if c.Version ≠ 1 then
    some "testcase: version must be 1"
  else if strings.TrimSpace c.Identity = "" then
    some "testcase: identity is required"
  else if ¬ (c.Expect.Result = "accept" ∨ c.Expect.Result = "reject") then
    some "testcase: expect.result must be accept or reject"
  else if c.EAP.MethodMismatchPolicy ≠ "" ∧
      !isOneOf c.EAP.MethodMismatchPolicy ["strict", "warn", "allow"] then
    some "testcase: eap.method_mismatch_policy must be strict, warn, or allow"
  else if c.EAP.PermanentIDPolicy ≠ "" ∧
      !isOneOf c.EAP.PermanentIDPolicy ["always", "conservative", "deny"] then
    some "testcase: eap.permanent_id_policy must be always, conservative, or deny"
  else if c.Trace.Level ≠ "" ∧ !isOneOf c.Trace.Level ["normal", "verbose"] then
    some "testcase: trace.level must be normal or verbose"
  else if c.Expect.MPPE.SendKey ≠ "" ∧ !hasKeyPrefix c.Expect.MPPE.SendKey then
    some "testcase: expect.mppe.send_key must start with hex: or b64:"
  else if c.Expect.MPPE.RecvKey ≠ "" ∧ !hasKeyPrefix c.Expect.MPPE.RecvKey then
    some "testcase: expect.mppe.recv_key must start with hex: or b64:"
  else
    none

/-- The case of the test `TestLoadBytesValid`. -/
def sampleCaseValid : Case :=
  { Case.zero with
    Version := 1, Name := "success_aka",
    Identity := "0440100123456789@wlan.mnc010.mcc440.3gppnetwork.org",
    Expect :=
      { Result := "accept", RejectHintContains := "",
        MPPE := { RequirePresent := some true, SendKey := "", RecvKey := "" } } }

end testcase

namespace config

structure RadiusConfig where
  ServerAddr : String
  Secret : String
  TimeoutMS : Int
  Retries : Int
deriving DecidableEq

structure RadiusAttrs where
  NASIPAddress : String
  NASIdentifier : String
  CalledStationID : String
  CallingStationID : String
deriving DecidableEq

structure AKAPrimeConfig where
  NetName : String
deriving DecidableEq

structure EAPConfig where
  MethodMismatchPolicy : String
  OuterIdentityUpdateOnPermanentReq : Option Bool
  PermanentIDPolicy : String
  AKAPrime : AKAPrimeConfig
deriving DecidableEq

structure IdentityConfig where
  Realm : String
deriving DecidableEq

structure SIMConfig where
  IMSI : String
  KI : String
  OPC : String
  AMF : String
  SQNInitialHex : String
deriving DecidableEq

structure SQNStoreConfig where
  Mode : String
  Path : String
deriving DecidableEq

/-- Config represents the tool configuration loaded from YAML. -/
structure Config where
  Radius : RadiusConfig
  RadiusAttrs : RadiusAttrs
  EAP : EAPConfig
  Identity : IdentityConfig
  SIM : SIMConfig
  SQNStore : SQNStoreConfig
deriving DecidableEq

/-- ApplyTestcase overrides config values using the optional fields of a
testcase. -/
def ApplyTestcase (base : Config) (tc : testcase.Case) : Config :=
  let out := base
  let out : Config :=
    match tc.Radius.TimeoutMS with
    | some v => { out with Radius := { out.Radius with TimeoutMS := v } }
    | none => out
  let out : Config :=
    match tc.Radius.Retries with
    | some v => { out with Radius := { out.Radius with Retries := v } }
    | none => out
  let out : Config :=
    if tc.Radius.Attrs.NASIPAddress ≠ "" then
      { out with RadiusAttrs := { out.RadiusAttrs with NASIPAddress := tc.Radius.Attrs.NASIPAddress } }
    else out
  let out : Config :=
    if tc.Radius.Attrs.NASIdentifier ≠ "" then
      { out with
        RadiusAttrs := { out.RadiusAttrs with NASIdentifier := tc.Radius.Attrs.NASIdentifier } }
    else out
  let out : Config :=
    if tc.Radius.Attrs.CalledStationID ≠ "" then
      { out with
        RadiusAttrs :=
          { out.RadiusAttrs with CalledStationID := tc.Radius.Attrs.CalledStationID } }
    else out
  let out : Config :=
    if tc.Radius.Attrs.CallingStationID ≠ "" then
      { out with
        RadiusAttrs :=
          { out.RadiusAttrs with CallingStationID := tc.Radius.Attrs.CallingStationID } }
    else out
  let out : Config :=
    if tc.EAP.MethodMismatchPolicy ≠ "" then
      { out with EAP := { out.EAP with MethodMismatchPolicy := tc.EAP.MethodMismatchPolicy } }
    else out
  let out : Config :=
    match tc.EAP.OuterIdentityUpdateOnPermanentReq with
    | some v => { out with EAP := { out.EAP with OuterIdentityUpdateOnPermanentReq := some v } }
    | none => out
  let out : Config :=
    if tc.EAP.PermanentIDPolicy ≠ "" then
      { out with EAP := { out.EAP with PermanentIDPolicy := tc.EAP.PermanentIDPolicy } }
    else out
  let out : Config :=
    if tc.EAP.AKAPrime.NetName ≠ "" then
      { out with
        EAP := { out.EAP with AKAPrime := { out.EAP.AKAPrime with NetName := tc.EAP.AKAPrime.NetName } } }
    else out
  out

/-- The function `validateHexLen`; the nil error is `none`. `len(value)` is
the length in bytes. The message comes without the label, which the caller
puts in front. -/
def validateHexLen (value : String) (expected : Nat) : Option String :=
  let value := strings.TrimSpace value
  if value = "" then
    some "is required"
  else if value.utf8ByteSize ≠ expected then
    some ("must be " ++ toString expected ++ " hex chars")
  else if value.utf8ByteSize % 2 ≠ 0 then
    some "must be even-length hex"
  else if value.data.all fun r =>
      decide ('0' ≤ r ∧ r ≤ '9') || decide ('a' ≤ r ∧ r ≤ 'f') || decide ('A' ≤ r ∧ r ≤ 'F') then
    none
  else
    some "must be hex"

/-- Validate checks required fields and basic format constraints; the nil
error is `none`. -/
def Config.Validate (c : Config) : Option String :=
  if strings.TrimSpace c.Radius.ServerAddr = "" then
    some "config: radius.server_addr is required"
  else if strings.TrimSpace c.Radius.Secret = "" then
    some "config: radius.secret is required"
  else if strings.TrimSpace c.SIM.IMSI = "" then
    some "config: sim.imsi is required"
  else
    match validateHexLen c.SIM.KI 32 with
    | some err => some ("config: sim.ki " ++ err)
    | none =>
      match validateHexLen c.SIM.OPC 32 with
      | some err => some ("config: sim.opc " ++ err)
      | none =>
        match validateHexLen c.SIM.AMF 4 with
        | some err => some ("config: sim.amf " ++ err)
        | none =>
          match validateHexLen c.SIM.SQNInitialHex 12 with
          | some err => some ("config: sim.sqn_initial_hex " ++ err)
          | none =>
            if ¬ (c.SQNStore.Mode = "memory" ∨ c.SQNStore.Mode = "file") then
              some "config: sqn_store.mode must be memory or file"
            else if c.SQNStore.Mode = "file" ∧ strings.TrimSpace c.SQNStore.Path = "" then
              some "config: sqn_store.path is required for file mode"
            else if !testcase.isOneOf c.EAP.MethodMismatchPolicy ["strict", "warn", "allow"] then
              some "config: eap.method_mismatch_policy must be strict, warn, or allow"
            else if !testcase.isOneOf c.EAP.PermanentIDPolicy
                ["always", "conservative", "deny"] then
              some "config: eap.permanent_id_policy must be always, conservative, or deny"
            else
              none

/-- The base configuration of the test `TestApplyTestcaseOverrides`, with
SIM material. -/
def sampleConfig : Config :=
  { Radius := { ServerAddr := "127.0.0.1:1812", Secret := "secret", TimeoutMS := 1000,
                Retries := 3 },
    RadiusAttrs := { NASIPAddress := "", NASIdentifier := "nas-base", CalledStationID := "",
                     CallingStationID := "" },
    EAP := { MethodMismatchPolicy := "warn", OuterIdentityUpdateOnPermanentReq := some true,
             PermanentIDPolicy := "always", AKAPrime := { NetName := "" } },
    Identity := { Realm := "example.org" },
    SIM := { IMSI := "440100123456789", KI := "00112233445566778899aabbccddeeff",
             OPC := "0102030405060708090a0b0c0d0e0f10", AMF := "8000",
             SQNInitialHex := "000000000001" },
    SQNStore := { Mode := "memory", Path := "" } }

/-- The same configuration with a space in front of the KI. -/
def sampleConfigPaddedKI : Config :=
  { sampleConfig with
    SIM := { sampleConfig.SIM with KI := " 00112233445566778899aabbccddeeff" } }

end config

namespace radiusc

/-- The helper `makeTLV` of the tests: a buffer of `2 + len(value)` bytes
holding the type byte, the length byte `byte(len(out))` and the value. -/
def makeTLV (typ : Nat) (value : List Nat) : List Nat :=
  [typ, (2 + value.length) % 2 ^ 8] ++ value

/-- The encoding of a list of TLVs: each one through `makeTLV`, in order. -/
def encodeTLVs (tlvs : List vendorTLV) : List Nat :=
  tlvs.flatMap fun tlv => makeTLV tlv.typ tlv.value

end radiusc

/-! ## Package app (`app/builder.go`) and the challenge case of the runner -/

namespace eap

/-- The text `Error()` of an error value of the peer. -/
def Error.message : Error → String
  | .errorf msg => msg
  | .mismatch e =>
    "eap: method mismatch expected=" ++ toString e.Expected ++ " received=" ++
      toString e.Received ++ " policy=" ++ e.Policy

end eap

namespace app

/-- The function `decodeHex`. -/
def decodeHex (x : Lib) (label value : String) (expected : Nat) : Except String (List Nat) :=
  match x.hexDecodeString value with
  | .error err => .error ("app: invalid " ++ label ++ " hex: " ++ err)
  | .ok b =>
    if b.length ≠ expected then
      .error ("app: " ++ label ++ " must be " ++ toString expected ++ " bytes")
    else
      .ok b

/-- A `*aka.Method` as a value of the interface `eap.Method`: `Type()` and
`Handle(req, sess)` of the method, the session pointer being not nil. The
state the method can change is the content of its store. -/
def akaMethod {σ : Type} (ax : aka.Lib) (m : aka.Method σ) : eap.Method σ :=
  { Type_ := m.Type_
    Handle := fun req sess st =>
      let r := aka.Method.Handle ax (some m) req (some sess) st
      ((match r.session with
        | some s => s
        | none => sess, r.store),
       match r.result with
       | .ok p => .ok p
       | .error msg => .error (.errorf msg)) }

/-- BuildPeer constructs the EAP peer and AKA/AKA-prime methods from
config/testcase. A nil store is `none`. -/
def BuildPeer {σ : Type} (x : Lib) (ax : aka.Lib) (cfg : config.Config) (tc : testcase.Case)
    (store : Option (sqnstore.Store σ)) : Except String (eap.Peer σ) :=
  let merged := config.ApplyTestcase cfg tc
  match decodeHex x "ki" merged.SIM.KI 16 with
  | .error err => .error err
  | .ok ki =>
    match decodeHex x "opc" merged.SIM.OPC 16 with
    | .error err => .error err
    | .ok opc =>
      match decodeHex x "amf" merged.SIM.AMF 2 with
      | .error err => .error err
      | .ok amf =>
        match sqnstore.ParseSQNHex merged.SIM.SQNInitialHex with
        | .error err => .error err
        | .ok sqnInitial =>
          let permanentPolicy := merged.EAP.PermanentIDPolicy
          let outerUpdate := merged.EAP.OuterIdentityUpdateOnPermanentReq
          let permanentOverride := tc.EAP.PermanentIdentityOverride
          match aka.New
            { MethodType := eap.TypeAKA
              IMSI := merged.SIM.IMSI
              KI := ki
              OPC := opc
              AMF := amf
              NetName := ""
              Realm := merged.Identity.Realm
              InitialSQN := sqnInitial
              SQNStore := store
              PermanentIDPolicy := permanentPolicy
              PermanentIdentityOverride := permanentOverride
              OuterIdentityUpdateOnPermanentReq := outerUpdate } with
          | .error err => .error err
          | .ok akaM =>
            match aka.New
              { MethodType := eap.TypeAKAPrime
                IMSI := merged.SIM.IMSI
                KI := ki
                OPC := opc
                AMF := amf
                NetName := merged.EAP.AKAPrime.NetName
                Realm := merged.Identity.Realm
                InitialSQN := sqnInitial
                SQNStore := store
                PermanentIDPolicy := permanentPolicy
                PermanentIdentityOverride := permanentOverride
                OuterIdentityUpdateOnPermanentReq := outerUpdate } with
            | .error err => .error err
            | .ok akaPrimeM =>
              let session : eap.Session := { OuterIdentity := tc.Identity, InnerIdentity := "" }
              let peer : eap.Peer σ :=
                eap.NewPeer (some session)
                  [some (akaMethod ax akaM), some (akaMethod ax akaPrimeM)]
              let peer : eap.Peer σ :=
                if merged.EAP.MethodMismatchPolicy ≠ "" then
                  { peer with MethodPolicy := merged.EAP.MethodMismatchPolicy }
                else peer
              .ok peer

/-- The case `radius.CodeAccessChallenge` of the loop of `RunCase`, on the
EAP message of the response: the session and the state after the request
was handled, and either the verdict `RunCase` returns with (`Except.error`)
or the response packet the loop goes on with. -/
def challengeStep {ω : Type} (peer : eap.Peer ω) (eapMessage : List Nat) (w : ω) :
    (Option eap.Session × ω) × Except (Int × Option RunError) eap.Packet :=
  if eapMessage.length = 0 then
    ((peer.Session, w), .error (fail 2 "missing EAP-Message in Access-Challenge"))
  else
    match eap.Parse eapMessage with
    | .error err => ((peer.Session, w), .error (wrap 2 (some err) "parse EAP request"))
    | .ok reqPkt =>
      let out := eap.Peer.Handle (some peer) reqPkt w
      match out.result with
      | .error (.mismatch e) =>
        ((out.session, out.world),
          .error (wrap 1 (some (eap.Error.message (.mismatch e))) "method mismatch"))
      | .error (.errorf msg) =>
        ((out.session, out.world), .error (wrap 2 (some msg) "handle EAP request"))
      | .ok none => ((out.session, out.world), .error (fail 2 "no response for challenge"))
      | .ok (some nextResp) => ((out.session, out.world), .ok nextResp)

/-- The character is a hexadecimal digit, as `validateHexLen` tests it. -/
def isHexChar (r : Char) : Bool :=
  decide ('0' ≤ r ∧ r ≤ '9') || decide ('a' ≤ r ∧ r ≤ 'f') || decide ('A' ≤ r ∧ r ≤ 'F')

/-- The contract of `hex.DecodeString` used below: a text of an even number
of hexadecimal digits decodes to half as many bytes. -/
def Lib.decodesHex (x : Lib) : Prop :=
  ∀ s : String, s.length % 2 = 0 → (∀ c ∈ s.data, isHexChar c = true) →
    ∃ b, x.hexDecodeString s = .ok b ∧ b.length = s.length / 2

/-- The contract of `hex.DecodeString` on a text with an odd number of
characters: it returns an error. -/
def Lib.refusesOddHex (x : Lib) : Prop :=
  ∀ s : String, s.length % 2 = 1 → ∃ err, x.hexDecodeString s = .error err

/-- The case of the test `TestBuildPeerPermanentOverride`. -/
def sampleCaseOverride : testcase.Case :=
  { testcase.Case.zero with
    Version := 1, Identity := "2pseudonym@example",
    EAP :=
      { MethodMismatchPolicy := "", OuterIdentityUpdateOnPermanentReq := some false,
        PermanentIDPolicy := "always",
        PermanentIdentityOverride := "0440100123456789@wlan.example",
        AKAPrime := { NetName := "" } },
    Expect :=
      { Result := "accept", RejectHintContains := "",
        MPPE := { RequirePresent := none, SendKey := "", RecvKey := "" } } }

end app

/-! ## Properties of the SQN algebra and of `AcceptSQN` -/

namespace sqnstore

theorem SplitSQN_ok (sqn : Nat) (h : sqn ≤ MaxSQN) :
    SplitSQN sqn = .ok (sqn / 32, sqn % 32) := by
  have h1 : ¬ sqn > MaxSQN := by omega
  have h2 : sqn &&& ((1 <<< IndBits) - 1) = sqn % 32 := by
    have := Nat.and_pow_two_sub_one_eq_mod sqn 5
    simpa using this
  have h3 : sqn % 32 % 2 ^ 8 = sqn % 32 := by omega
  simp only [SplitSQN, h1, if_false, h2, h3, Nat.shiftRight_eq_div_pow]
  rfl

theorem SplitSQN_error (sqn : Nat) (h : MaxSQN < sqn) :
    SplitSQN sqn = .error "sqnstore: sqn exceeds 48 bits" := by
  have h1 : sqn > MaxSQN := h
  simp only [SplitSQN, h1, if_true]

theorem SplitSQN_inv (sqn seq ind : Nat) (h : SplitSQN sqn = .ok (seq, ind)) :
    sqn ≤ MaxSQN ∧ seq = sqn / 32 ∧ ind = sqn % 32 := by
  by_cases hle : sqn ≤ MaxSQN
  · rw [SplitSQN_ok sqn hle] at h
    simp only [Except.ok.injEq, Prod.mk.injEq] at h
    exact ⟨hle, h.1.symm, h.2.symm⟩
  · rw [SplitSQN_error sqn (by omega)] at h
    cases h

theorem mod32_lt (sqn : Nat) : sqn % 32 < ArraySize :=
  Nat.mod_lt sqn (by decide)

theorem AcceptSQN_too_large (s : SubscriberState) (sqn : Nat) (h : MaxSQN < sqn) :
    s.AcceptSQN sqn = (s, .error "sqnstore: sqn exceeds 48 bits") := by
  simp only [SubscriberState.AcceptSQN, SplitSQN_error sqn h]

theorem AcceptSQN_stale (s : SubscriberState) (sqn : Nat) (h : sqn ≤ MaxSQN)
    (hle : sqn / 32 ≤ s.SeqMS ⟨sqn % 32, mod32_lt sqn⟩) :
    s.AcceptSQN sqn = (s, .ok false) := by
  have hnot : ¬ sqn / 32 > s.SeqMS ⟨sqn % 32, mod32_lt sqn⟩ := by omega
  simp only [SubscriberState.AcceptSQN, SplitSQN_ok sqn h, mod32_lt sqn, dite_true, hnot,
    if_false]

theorem AcceptSQN_fresh (s : SubscriberState) (sqn : Nat) (h : sqn ≤ MaxSQN)
    (hgt : s.SeqMS ⟨sqn % 32, mod32_lt sqn⟩ < sqn / 32) :
    s.AcceptSQN sqn =
      ({ SeqMS := Function.update s.SeqMS ⟨sqn % 32, mod32_lt sqn⟩ (sqn / 32),
         SQNMS := max s.SQNMS sqn,
         UpdatedAt := s.UpdatedAt }, .ok true) := by
  have hgt2 : sqn / 32 > s.SeqMS ⟨sqn % 32, mod32_lt sqn⟩ := hgt
  simp only [SubscriberState.AcceptSQN, SplitSQN_ok sqn h, mod32_lt sqn, dite_true, hgt2,
    if_true]
  by_cases hq : sqn > s.SQNMS
  · have : max s.SQNMS sqn = sqn := by omega
    simp only [hq, if_true, this]
  · have : max s.SQNMS sqn = s.SQNMS := by omega
    simp only [hq, if_false, this]

theorem MaxSeq_eq : MaxSeq = 8796093022207 := by decide

theorem MaxSQN_eq : MaxSQN = 281474976710655 := by decide

theorem CombineSQN_div_mod (sqn : Nat) (h : sqn ≤ MaxSQN) :
    CombineSQN (sqn / 32) (sqn % 32) = .ok sqn := by
  have hm : sqn % 32 < 32 := Nat.mod_lt sqn (by decide)
  have h1 : ¬ sqn % 32 ≥ ArraySize := by
    have : ArraySize = 32 := by decide
    omega
  have h2 : ¬ sqn / 32 > MaxSeq := by
    have e1 := MaxSeq_eq
    have e2 := MaxSQN_eq
    omega
  have h3 : (sqn / 32) <<< IndBits = 2 ^ 5 * (sqn / 32) := by
    rw [Nat.shiftLeft_eq, Nat.mul_comm]
  have h4 : 2 ^ 5 * (sqn / 32) % 2 ^ 64 = 2 ^ 5 * (sqn / 32) := by
    have e2 := MaxSQN_eq
    apply Nat.mod_eq_of_lt
    omega
  have h5 : 2 ^ 5 * (sqn / 32) ||| sqn % 32 = sqn := by
    rw [← Nat.mul_add_lt_is_or (by omega) (sqn / 32)]
    omega
  simp only [CombineSQN, h1, h2, if_false, h3, h4, h5]

/-- C1: for every state `s` and every `sqn ≤ 2^48-1` that `SplitSQN` splits
into `(seq, ind)` with `seq ≤ s.SeqMS[ind]`, `AcceptSQN` returns false with no
error and the state it leaves is `s` itself (all 32 `SeqMS` entries, `SQNMS`
and `UpdatedAt`). -/
theorem AcceptSQN_stale_rejected (s : SubscriberState) (sqn seq ind : Nat)
    (hsqn : sqn ≤ MaxSQN) (hsplit : SplitSQN sqn = .ok (seq, ind))
    (hstale : ∃ h : ind < ArraySize, seq ≤ s.SeqMS ⟨ind, h⟩) :
    s.AcceptSQN sqn = (s, .ok false) := by
  obtain ⟨_, hseq, hind⟩ := SplitSQN_inv sqn seq ind hsplit
  subst hseq hind
  obtain ⟨_, hle⟩ := hstale
  exact AcceptSQN_stale s sqn hsqn hle

theorem AcceptSQN_stale_rejected_witness :
    sampleState.AcceptSQN 0x21 = (sampleState, .ok false) :=
  AcceptSQN_stale_rejected sampleState 0x21 1 1 (by decide) (by rfl) ⟨by decide, by decide⟩

/-- C2: for every state `s` and every `sqn ≤ 2^48-1` that `SplitSQN` splits
into `(seq, ind)` with `seq > s.SeqMS[ind]`, `AcceptSQN` returns true with no
error, and afterwards `SeqMS[ind] = seq` and `SQNMS = max (previous SQNMS) sqn`;
moreover every other `SeqMS` entry and `UpdatedAt` keep their value. -/
theorem AcceptSQN_fresh_accepted (s : SubscriberState) (sqn seq ind : Nat)
    (hsqn : sqn ≤ MaxSQN) (hsplit : SplitSQN sqn = .ok (seq, ind))
    (hfresh : ∃ h : ind < ArraySize, seq > s.SeqMS ⟨ind, h⟩) :
    (s.AcceptSQN sqn).2 = .ok true ∧
    (∃ h : ind < ArraySize, (s.AcceptSQN sqn).1.SeqMS ⟨ind, h⟩ = seq) ∧
    (s.AcceptSQN sqn).1.SQNMS = max s.SQNMS sqn ∧
    (∀ j : Fin ArraySize, j.val ≠ ind → (s.AcceptSQN sqn).1.SeqMS j = s.SeqMS j) ∧
    (s.AcceptSQN sqn).1.UpdatedAt = s.UpdatedAt := by
  obtain ⟨_, hseq, hind⟩ := SplitSQN_inv sqn seq ind hsplit
  subst hseq hind
  obtain ⟨_, hgt⟩ := hfresh
  rw [AcceptSQN_fresh s sqn hsqn hgt]
  refine ⟨rfl, ⟨mod32_lt sqn, ?_⟩, rfl, ?_, rfl⟩
  · simp only [Function.update_same]
  · intro j hj
    have hne : j ≠ ⟨sqn % 32, mod32_lt sqn⟩ := by
      intro hEq
      exact hj (by rw [hEq])
    simp only [Function.update_noteq hne]

theorem AcceptSQN_fresh_accepted_witness :
    (SubscriberState.zero.AcceptSQN 0x21).2 = .ok true ∧
    (∃ h : 1 < ArraySize, (SubscriberState.zero.AcceptSQN 0x21).1.SeqMS ⟨1, h⟩ = 1) ∧
    (SubscriberState.zero.AcceptSQN 0x21).1.SQNMS = max SubscriberState.zero.SQNMS 0x21 ∧
    (∀ j : Fin ArraySize, j.val ≠ 1 →
      (SubscriberState.zero.AcceptSQN 0x21).1.SeqMS j = SubscriberState.zero.SeqMS j) ∧
    (SubscriberState.zero.AcceptSQN 0x21).1.UpdatedAt = SubscriberState.zero.UpdatedAt :=
  AcceptSQN_fresh_accepted SubscriberState.zero 0x21 1 1 (by decide) (by rfl)
    ⟨by decide, by decide⟩

/-- C5: for every `sqn ≤ 2^48-1`, `SplitSQN sqn` succeeds with some
`(seq, ind)`, `CombineSQN seq ind` succeeds, and its result is `sqn`. -/
theorem CombineSQN_SplitSQN (sqn : Nat) (hsqn : sqn ≤ MaxSQN) :
    ∃ seq ind, SplitSQN sqn = .ok (seq, ind) ∧ CombineSQN seq ind = .ok sqn :=
  ⟨sqn / 32, sqn % 32, SplitSQN_ok sqn hsqn, CombineSQN_div_mod sqn hsqn⟩

theorem CombineSQN_SplitSQN_witness :
    ∃ seq ind, SplitSQN 0xabcdef = .ok (seq, ind) ∧ CombineSQN seq ind = .ok 0xabcdef :=
  CombineSQN_SplitSQN 0xabcdef (by decide)

/-- The three outcomes of one `AcceptSQN` call. -/
theorem AcceptSQN_cases (s : SubscriberState) (sqn : Nat) :
    (MaxSQN < sqn ∧ s.AcceptSQN sqn = (s, .error "sqnstore: sqn exceeds 48 bits")) ∨
    (sqn ≤ MaxSQN ∧ sqn / 32 ≤ s.SeqMS ⟨sqn % 32, mod32_lt sqn⟩ ∧
      s.AcceptSQN sqn = (s, .ok false)) ∨
    (sqn ≤ MaxSQN ∧ s.SeqMS ⟨sqn % 32, mod32_lt sqn⟩ < sqn / 32 ∧
      s.AcceptSQN sqn =
        ({ SeqMS := Function.update s.SeqMS ⟨sqn % 32, mod32_lt sqn⟩ (sqn / 32),
           SQNMS := max s.SQNMS sqn,
           UpdatedAt := s.UpdatedAt }, .ok true)) := by
  by_cases h : sqn ≤ MaxSQN
  · by_cases hle : sqn / 32 ≤ s.SeqMS ⟨sqn % 32, mod32_lt sqn⟩
    · exact Or.inr (Or.inl ⟨h, hle, AcceptSQN_stale s sqn h hle⟩)
    · have hgt : s.SeqMS ⟨sqn % 32, mod32_lt sqn⟩ < sqn / 32 := by omega
      exact Or.inr (Or.inr ⟨h, hgt, AcceptSQN_fresh s sqn h hgt⟩)
  · have hgt : MaxSQN < sqn := by omega
    exact Or.inl ⟨hgt, AcceptSQN_too_large s sqn hgt⟩

/-- No call lowers a bucket. -/
theorem AcceptSQN_mono (s : SubscriberState) (sqn : Nat) (i : Fin ArraySize) :
    s.SeqMS i ≤ (s.AcceptSQN sqn).1.SeqMS i := by
  rcases AcceptSQN_cases s sqn with ⟨_, h⟩ | ⟨_, _, h⟩ | ⟨_, hgt, h⟩
  · rw [h]
  · rw [h]
  · rw [h]
    by_cases hi : i = ⟨sqn % 32, mod32_lt sqn⟩
    · subst hi
      simp only [Function.update_same]
      omega
    · simp only [Function.update_noteq hi]
      exact Nat.le_refl _

/-- After an accepting call the bucket of the accepted SQN holds its SEQ. -/
theorem AcceptSQN_true_bucket (s : SubscriberState) (sqn : Nat)
    (h : (s.AcceptSQN sqn).2 = .ok true) :
    sqn ≤ MaxSQN ∧ sqn / 32 ≤ (s.AcceptSQN sqn).1.SeqMS ⟨sqn % 32, mod32_lt sqn⟩ := by
  rcases AcceptSQN_cases s sqn with ⟨_, h1⟩ | ⟨_, _, h1⟩ | ⟨hle, _, h1⟩
  · rw [h1] at h
    cases h
  · rw [h1] at h
    cases h
  · rw [h1]
    refine ⟨hle, ?_⟩
    simp only [Function.update_same]
    exact Nat.le_refl _

/-- Once a bucket has reached the SEQ of `sqn`, every later call with `sqn`
returns false, whatever calls come in between. -/
theorem runAcceptSQN_stale (l : List Nat) (s : SubscriberState) (sqn : Nat)
    (hsqn : sqn ≤ MaxSQN) (hle : sqn / 32 ≤ s.SeqMS ⟨sqn % 32, mod32_lt sqn⟩)
    (j : Nat) (hj : l[j]? = some sqn) :
    (runAcceptSQN s l).2[j]? = some (.ok false) := by
  induction l generalizing s j with
  | nil => simp at hj
  | cons q rest ih =>
    cases j with
    | zero =>
      simp only [List.getElem?_cons_zero, Option.some.injEq] at hj
      subst hj
      simp only [runAcceptSQN, List.getElem?_cons_zero, AcceptSQN_stale s q hsqn hle]
    | succ j =>
      simp only [List.getElem?_cons_succ] at hj
      simp only [runAcceptSQN, List.getElem?_cons_succ]
      exact ih (s.AcceptSQN q).1 (Nat.le_trans hle (AcceptSQN_mono s q _)) j hj

/-- C3: for every initial state and every finite sequence of `AcceptSQN`
calls on it, no SQN value is accepted twice: if call number `i` returned true,
every later call `j` with the same SQN value returns false. -/
theorem AcceptSQN_no_double_accept (s : SubscriberState) (sqns : List Nat) (i j : Nat)
    (hij : i < j) (hsame : sqns[i]? = sqns[j]?)
    (hacc : (runAcceptSQN s sqns).2[i]? = some (.ok true)) :
    (runAcceptSQN s sqns).2[j]? = some (.ok false) := by
  induction sqns generalizing s i j with
  | nil => simp [runAcceptSQN] at hacc
  | cons q rest ih =>
    cases j with
    | zero => omega
    | succ j =>
      cases i with
      | zero =>
        simp only [runAcceptSQN, List.getElem?_cons_zero, Option.some.injEq] at hacc
        simp only [List.getElem?_cons_zero, List.getElem?_cons_succ] at hsame
        obtain ⟨hq, hb⟩ := AcceptSQN_true_bucket s q hacc
        simp only [runAcceptSQN, List.getElem?_cons_succ]
        exact runAcceptSQN_stale rest (s.AcceptSQN q).1 q hq hb j hsame.symm
      | succ i =>
        simp only [runAcceptSQN, List.getElem?_cons_succ] at hacc
        simp only [List.getElem?_cons_succ] at hsame
        simp only [runAcceptSQN, List.getElem?_cons_succ]
        exact ih (s.AcceptSQN q).1 i j (by omega) hsame hacc

theorem AcceptSQN_no_double_accept_witness :
    (runAcceptSQN SubscriberState.zero [0x21, 0x41, 0x22, 0x21]).2[3]? = some (.ok false) :=
  AcceptSQN_no_double_accept SubscriberState.zero [0x21, 0x41, 0x22, 0x21] 0 3
    (by decide) (by decide) (by rfl)

theorem seqsWithInd_cons (i q : Nat) (rest : List Nat) (hq : q ≤ MaxSQN) :
    seqsWithInd i (q :: rest) =
      if q % 32 = i then q / 32 :: seqsWithInd i rest else seqsWithInd i rest := by
  simp only [seqsWithInd, List.filterMap_cons, SplitSQN_ok q hq]
  by_cases h : q % 32 = i
  · simp only [h, if_true]
  · simp only [h, if_false]

/-- From any state: a bucket ends at the larger of its initial value and the
largest SEQ accepted for it. -/
theorem runAcceptSQN_bucket (l : List Nat) (s : SubscriberState) (i : Fin ArraySize) :
    (runAcceptSQN s l).1.SeqMS i = max (s.SeqMS i) (maxOr0 (seqsWithInd i.val (acceptedSQNs s l))) := by
  induction l generalizing s with
  | nil => simp [runAcceptSQN, acceptedSQNs, seqsWithInd, maxOr0]
  | cons q rest ih =>
    simp only [runAcceptSQN, acceptedSQNs]
    rw [ih]
    rcases AcceptSQN_cases s q with ⟨_, h⟩ | ⟨_, _, h⟩ | ⟨hq, hgt, h⟩
    · rw [h]
    · rw [h]
    · rw [h]
      simp only [seqsWithInd_cons i.val q _ hq]
      rw [Function.update_apply]
      by_cases hv : q % 32 = i.val
      · have hi : i = ⟨q % 32, mod32_lt q⟩ := Fin.ext hv.symm
        have hgt2 : s.SeqMS i < q / 32 := by
          rw [hi]
          exact hgt
        rw [if_pos hi, if_pos hv]
        simp only [maxOr0, List.foldr_cons]
        omega
      · have hi : ¬ i = ⟨q % 32, mod32_lt q⟩ := by
          intro hEq
          exact hv (by rw [hEq])
        rw [if_neg hi, if_neg hv]

/-- C4: starting from the zero state, after any finite sequence of
`AcceptSQN` calls, every `SeqMS[i]` (i in 0..31) equals the maximum SEQ over
the accepted SQN values whose IND is `i`, and 0 when there is none. -/
theorem SeqMS_eq_max_accepted (sqns : List Nat) (i : Fin ArraySize) :
    (runAcceptSQN SubscriberState.zero sqns).1.SeqMS i =
      maxOr0 (seqsWithInd i.val (acceptedSQNs SubscriberState.zero sqns)) := by
  rw [runAcceptSQN_bucket]
  simp [SubscriberState.zero]

end sqnstore

/-! ## Properties of the EAP packet codec -/

namespace eap

theorem bigEndianUint16_eq (b0 b1 : Nat) (h0 : b0 < 256) (h1 : b1 < 256) :
    bigEndianUint16 b0 b1 = 256 * b0 + b1 := by
  have e1 : b1 % 2 ^ 16 = b1 := Nat.mod_eq_of_lt (by omega)
  have e0 : b0 % 2 ^ 16 = b0 := Nat.mod_eq_of_lt (by omega)
  have e2 : (b0 <<< 8) % 2 ^ 16 = 2 ^ 8 * b0 := by
    rw [Nat.shiftLeft_eq, Nat.mul_comm]
    exact Nat.mod_eq_of_lt (by omega)
  have hlt : b1 < 2 ^ 8 := by omega
  rw [bigEndianUint16, e1, e0, e2, Nat.lor_comm, ← Nat.mul_add_lt_is_or hlt b0]

theorem bigEndianUint16_put (v : Nat) (hv : v < 2 ^ 16) :
    bigEndianUint16 (bigEndianPutUint16 v).1 (bigEndianPutUint16 v).2 = v := by
  have h0 : (v >>> 8) % 2 ^ 8 < 256 := by omega
  have h1 : v % 2 ^ 8 < 256 := by omega
  simp only [bigEndianPutUint16]
  rw [bigEndianUint16_eq _ _ h0 h1, Nat.shiftRight_eq_div_pow]
  omega

theorem Encode_reqresp (p : Packet) (h : p.Code = CodeRequest ∨ p.Code = CodeResponse) :
    p.Encode = .ok (p.Code :: p.Identifier ::
      (bigEndianPutUint16 ((5 + p.TypeData.length) % 2 ^ 16)).1 ::
      (bigEndianPutUint16 ((5 + p.TypeData.length) % 2 ^ 16)).2 ::
      p.Type_ :: p.TypeData) := by
  have e : 4 + (1 + p.TypeData.length) = p.TypeData.length + 5 := by omega
  have e2 : 5 + p.TypeData.length = p.TypeData.length + 5 := by omega
  simp only [Packet.Encode, h, if_true, e, e2, List.replicate_succ, List.set_cons_zero,
    List.set_cons_succ, List.take_succ_cons, List.take_zero, List.drop_succ_cons, List.drop_zero,
    copySlice, List.length_replicate, List.take_length, List.append_nil,
    List.cons_append, List.nil_append]
  have e3 : List.drop p.TypeData.length (List.replicate p.TypeData.length 0) = [] :=
    List.drop_eq_nil_of_le (by simp)
  rw [e3, List.append_nil]

theorem Encode_other (p : Packet) (h : ¬ (p.Code = CodeRequest ∨ p.Code = CodeResponse)) :
    p.Encode = .ok [p.Code, p.Identifier, (bigEndianPutUint16 (4 % 2 ^ 16)).1,
      (bigEndianPutUint16 (4 % 2 ^ 16)).2] := by
  simp only [Packet.Encode, h, if_false, List.replicate_succ, List.replicate_zero,
    List.set_cons_zero, List.set_cons_succ]

theorem Parse_of_header (raw : List Nat) (c i hi lo t : Nat) (td : List Nat)
    (hraw : raw = c :: i :: hi :: lo :: t :: td)
    (hc : c = CodeRequest ∨ c = CodeResponse)
    (hL : bigEndianUint16 hi lo = 5 + td.length) :
    Parse raw = .ok { Code := c, Identifier := i, Type_ := t, TypeData := td } := by
  have hlen : raw.length = 5 + td.length := by
    rw [hraw]
    simp only [List.length_cons]
    omega
  have htake : raw.take (5 + td.length) = raw := by
    rw [← hlen]
    exact List.take_length raw
  have g0 : raw.getD 0 0 = c := by rw [hraw]; rfl
  have g1 : raw.getD 1 0 = i := by rw [hraw]; rfl
  have g2 : raw.getD 2 0 = hi := by rw [hraw]; rfl
  have g3 : raw.getD 3 0 = lo := by rw [hraw]; rfl
  have g4 : raw.getD 4 0 = t := by rw [hraw]; rfl
  have g5 : raw.drop 5 = td := by rw [hraw]; rfl
  have n0 : ¬ 5 + td.length < 4 := by omega
  have n2 : ¬ 5 + td.length > 5 + td.length := by omega
  have n3 : ¬ 5 + td.length < 5 := by omega
  simp only [Parse, hlen, g0, g1, g2, g3, hL, htake, g4, g5, n0, n2, n3, hc, if_false, if_true]
  by_cases hn : 5 + td.length > 5
  · simp only [hn, if_true]
  · have htd : td = [] := List.eq_nil_of_length_eq_zero (by omega)
    subst htd
    simp only [List.length_nil, Nat.add_zero, gt_iff_lt, Nat.lt_irrefl, if_false]

theorem Parse_reqresp_bytes (c i t : Nat) (td : List Nat)
    (hc : c = CodeRequest ∨ c = CodeResponse) (hlen : 5 + td.length < 2 ^ 16) :
    Parse (c :: i :: (bigEndianPutUint16 (5 + td.length)).1 ::
      (bigEndianPutUint16 (5 + td.length)).2 :: t :: td) =
      .ok { Code := c, Identifier := i, Type_ := t, TypeData := td } :=
  Parse_of_header _ c i _ _ t td rfl hc (bigEndianUint16_put (5 + td.length) hlen)

theorem Parse_header_only (c i : Nat) (hc : ¬ (c = CodeRequest ∨ c = CodeResponse)) :
    Parse [c, i, (bigEndianPutUint16 4).1, (bigEndianPutUint16 4).2] =
      .ok { Code := c, Identifier := i, Type_ := 0, TypeData := [] } := by
  have hL := bigEndianUint16_put 4 (by decide)
  simp only [Parse, List.length_cons, List.length_nil, List.getD_cons_zero, List.getD_cons_succ,
    hL, hc, if_false]
  simp

/-- C6: for every well-formed EAP packet `p` (Code Request or Response with
any Type and TypeData; Code Success or Failure with no Type and no TypeData;
encoded length below 2^16), `Encode` succeeds and `Parse` of the encoding
succeeds and returns `p`: same Code, Identifier, Type and TypeData. -/
theorem Parse_Encode_roundtrip (p : Packet) (hwf : p.WellFormed) :
    ∃ raw, p.Encode = .ok raw ∧ Parse raw = .ok p := by
  obtain ⟨hkind, hlen⟩ := hwf
  by_cases hc : p.Code = CodeRequest ∨ p.Code = CodeResponse
  · simp only [Packet.encodedLen, hc, if_true] at hlen
    refine ⟨_, Encode_reqresp p hc, ?_⟩
    rw [Nat.mod_eq_of_lt hlen]
    exact Parse_reqresp_bytes p.Code p.Identifier p.Type_ p.TypeData hc hlen
  · rcases hkind with h | ⟨_, ht, htd⟩
    · exact absurd h hc
    · refine ⟨_, Encode_other p hc, ?_⟩
      rw [Nat.mod_eq_of_lt (by decide : 4 < 2 ^ 16), Parse_header_only p.Code p.Identifier hc]
      cases p
      simp only at ht htd
      subst ht htd
      rfl

theorem Parse_Encode_roundtrip_witness :
    ∃ raw, (Packet.mk CodeRequest 7 TypeIdentity [117, 115, 101, 114]).Encode = .ok raw ∧
      Parse raw = .ok (Packet.mk CodeRequest 7 TypeIdentity [117, 115, 101, 114]) :=
  Parse_Encode_roundtrip (Packet.mk CodeRequest 7 TypeIdentity [117, 115, 101, 114])
    ⟨Or.inl (Or.inl rfl), by decide⟩

theorem getD_byte (b : List Nat) (hb : ∀ x ∈ b, x < 256) (n : Nat) : b.getD n 0 < 256 := by
  by_cases h : n < b.length
  · rw [List.getD_eq_getElem b 0 h]
    exact hb _ (List.getElem_mem h)
  · rw [List.getD_eq_default b 0 (by omega)]
    decide

theorem lengthField_eq_declaredLength (b : List Nat) (hb : ∀ x ∈ b, x < 256) :
    lengthField b = declaredLength b :=
  bigEndianUint16_eq _ _ (getD_byte b hb 2) (getD_byte b hb 3)

/-- `Parse` written over the declared length, with the four rejections in
source order. -/
theorem Parse_eq (b : List Nat) :
    Parse b =
      if b.length < 4 then .error "eap: packet too short"
      else if lengthField b < 4 then .error "eap: invalid length"
      else if lengthField b > b.length then .error "eap: length exceeds buffer"
      else if b.getD 0 0 = CodeRequest ∨ b.getD 0 0 = CodeResponse then
        if lengthField b < 5 then .error "eap: request/response missing type"
        else .ok { Code := b.getD 0 0, Identifier := b.getD 1 0,
                   Type_ := (b.take (lengthField b)).getD 4 0,
                   TypeData := if lengthField b > 5 then (b.take (lengthField b)).drop 5 else [] }
      else .ok { Code := b.getD 0 0, Identifier := b.getD 1 0, Type_ := 0, TypeData := [] } := by
  simp only [Parse, lengthField]
  by_cases h1 : b.length < 4
  · simp only [h1, if_true]
  · simp only [h1, if_false]
    by_cases h2 : bigEndianUint16 (b.getD 2 0) (b.getD 3 0) < 4
    · simp only [h2, if_true]
    · simp only [h2, if_false]
      by_cases h3 : bigEndianUint16 (b.getD 2 0) (b.getD 3 0) > b.length
      · simp only [h3, if_true]
      · simp only [h3, if_false]
        have hmin : min (bigEndianUint16 (b.getD 2 0) (b.getD 3 0)) b.length =
            bigEndianUint16 (b.getD 2 0) (b.getD 3 0) := by omega
        by_cases h4 : b.getD 0 0 = CodeRequest ∨ b.getD 0 0 = CodeResponse
        · simp only [h4, if_true, List.length_take, hmin]
          by_cases h5 : bigEndianUint16 (b.getD 2 0) (b.getD 3 0) < 5
          · simp only [h5, if_true]
          · simp only [h5, if_false]
            by_cases h6 : bigEndianUint16 (b.getD 2 0) (b.getD 3 0) > 5
            · simp only [h6, if_true]
            · simp only [h6, if_false]
        · simp only [h4, if_false]

/-- C7: `Parse b` returns an error whenever `len b < 4`, or the declared
length (big-endian bytes 2..3) is below 4, or it exceeds `len b`, or the Code
is Request or Response and the declared length is exactly 4; on every other
byte string it succeeds. -/
theorem Parse_error_iff (b : List Nat) (hb : ∀ x ∈ b, x < 256) :
    ((b.length < 4 ∨ declaredLength b < 4 ∨ declaredLength b > b.length ∨
        ((b.getD 0 0 = CodeRequest ∨ b.getD 0 0 = CodeResponse) ∧ declaredLength b = 4)) →
      ∃ e, Parse b = .error e) ∧
    (¬ (b.length < 4 ∨ declaredLength b < 4 ∨ declaredLength b > b.length ∨
        ((b.getD 0 0 = CodeRequest ∨ b.getD 0 0 = CodeResponse) ∧ declaredLength b = 4)) →
      ∃ p, Parse b = .ok p) := by
  rw [← lengthField_eq_declaredLength b hb, Parse_eq]
  constructor
  · intro h
    by_cases h1 : b.length < 4
    · exact ⟨_, by rw [if_pos h1]⟩
    · rw [if_neg h1]
      by_cases h2 : lengthField b < 4
      · exact ⟨_, by rw [if_pos h2]⟩
      · rw [if_neg h2]
        by_cases h3 : lengthField b > b.length
        · exact ⟨_, by rw [if_pos h3]⟩
        · rw [if_neg h3]
          rcases h with h | h | h | ⟨hc, h4⟩
          · exact absurd h h1
          · exact absurd h h2
          · exact absurd h h3
          · rw [if_pos hc, if_pos (by omega)]
            exact ⟨_, rfl⟩
  · intro h
    have h1 : ¬ b.length < 4 := fun x => h (Or.inl x)
    have h2 : ¬ lengthField b < 4 := fun x => h (Or.inr (Or.inl x))
    have h3 : ¬ lengthField b > b.length := fun x => h (Or.inr (Or.inr (Or.inl x)))
    rw [if_neg h1, if_neg h2, if_neg h3]
    by_cases hc : b.getD 0 0 = CodeRequest ∨ b.getD 0 0 = CodeResponse
    · have h5 : ¬ lengthField b < 5 := by
        intro x
        exact h (Or.inr (Or.inr (Or.inr ⟨hc, by omega⟩)))
      rw [if_pos hc, if_neg h5]
      exact ⟨_, rfl⟩
    · rw [if_neg hc]
      exact ⟨_, rfl⟩

theorem Parse_error_iff_witness :
    ∃ e, Parse [0x01, 0x01, 0x00, 0x02] = .error e :=
  (Parse_error_iff [0x01, 0x01, 0x00, 0x02] (by decide)).1 (Or.inr (Or.inl (by decide)))

theorem bigEndianUint16_put_mod (n : Nat) :
    bigEndianUint16 (bigEndianPutUint16 (n % 2 ^ 16)).1 (bigEndianPutUint16 (n % 2 ^ 16)).2 =
      n % 2 ^ 16 :=
  bigEndianUint16_put (n % 2 ^ 16) (Nat.mod_lt n (by decide))

/-- `Encode` never fails; it returns `encodedLen` bytes whose Length field is
that number reduced modulo 2^16. -/
theorem Encode_lengthField (p : Packet) :
    ∃ raw, p.Encode = .ok raw ∧ raw.length = p.encodedLen ∧
      lengthField raw = p.encodedLen % 2 ^ 16 := by
  by_cases hc : p.Code = CodeRequest ∨ p.Code = CodeResponse
  · refine ⟨_, Encode_reqresp p hc, ?_, ?_⟩
    · simp only [Packet.encodedLen, hc, if_true, List.length_cons]
      omega
    · simp only [Packet.encodedLen, hc, if_true, lengthField, List.getD_cons_zero,
        List.getD_cons_succ]
      exact bigEndianUint16_put_mod _
  · refine ⟨_, Encode_other p hc, ?_, ?_⟩
    · simp only [Packet.encodedLen, hc, if_false, List.length_cons, List.length_nil]
    · simp only [Packet.encodedLen, hc, if_false, lengthField, List.getD_cons_zero,
        List.getD_cons_succ]
      exact bigEndianUint16_put_mod _

theorem Encode_wraps_of_length (td : List Nat) (htd : td.length = 65531) :
    ∃ raw, (Packet.mk CodeRequest 0 TypeIdentity td).Encode = .ok raw ∧
      raw.length = 65536 ∧ lengthField raw = 0 ∧ lengthField raw ≠ raw.length := by
  obtain ⟨raw, h1, h2, h3⟩ := Encode_lengthField (Packet.mk CodeRequest 0 TypeIdentity td)
  have e : (Packet.mk CodeRequest 0 TypeIdentity td).encodedLen = 65536 := by
    unfold Packet.encodedLen
    rw [if_pos (Or.inl rfl)]
    show 5 + td.length = 65536
    omega
  rw [e] at h2 h3
  refine ⟨raw, h1, h2, h3, ?_⟩
  rw [h2, h3]
  decide

/-- C8 fails as stated: a Request with 65531 bytes of TypeData encodes to
65536 bytes whose Length field is 0. -/
theorem Encode_lengthField_wraps :
    ∃ raw, (Packet.mk CodeRequest 0 TypeIdentity (List.replicate 65531 0)).Encode = .ok raw ∧
      raw.length = 65536 ∧ lengthField raw = 0 ∧ lengthField raw ≠ raw.length :=
  Encode_wraps_of_length (List.replicate 65531 0) (List.length_replicate 65531 0)

/-- C8 (amended): for every packet whose encoded size (4 bytes, plus
1 + len TypeData for Request or Response) is at most 65535, `Encode` succeeds
and the big-endian Length field in bytes 2..3 of the result equals the number
of bytes returned. -/
theorem Encode_lengthField_eq_length (p : Packet) (hlen : p.encodedLen ≤ 65535) :
    ∃ raw, p.Encode = .ok raw ∧ lengthField raw = raw.length := by
  obtain ⟨raw, h1, h2, h3⟩ := Encode_lengthField p
  refine ⟨raw, h1, ?_⟩
  rw [h3, h2]
  exact Nat.mod_eq_of_lt (by omega)

theorem Encode_lengthField_eq_length_witness :
    ∃ raw, (Packet.mk CodeRequest 7 TypeIdentity [117, 115, 101, 114]).Encode = .ok raw ∧
      lengthField raw = raw.length :=
  Encode_lengthField_eq_length (Packet.mk CodeRequest 7 TypeIdentity [117, 115, 101, 114])
    (by decide)

end eap

/-! ## Properties of the AKA identity handling -/

namespace aka

theorem New_ok_fields {σ : Type} (opts : Options σ) (m : Method σ) (h : New opts = .ok m) :
    (opts.MethodType = eap.TypeAKA ∨ opts.MethodType = eap.TypeAKAPrime) ∧
    m.methodType = opts.MethodType ∧ m.imsi = opts.IMSI ∧ m.realm = opts.Realm ∧
    m.permanentIDPolicy = normalizePermanentPolicy opts.PermanentIDPolicy ∧
    m.permanentIdentityOverride = opts.PermanentIdentityOverride ∧
    m.outerIdentityUpdateOnPermanentReq =
      defaultOuterUpdate opts.OuterIdentityUpdateOnPermanentReq := by
  unfold New at h
  split_ifs at h with h1 h2 h3 h4 h5
  simp only [Except.ok.injEq] at h
  subst h
  refine ⟨?_, rfl, rfl, rfl, rfl, rfl, rfl⟩
  by_cases ha : opts.MethodType = eap.TypeAKA
  · exact Or.inl ha
  · by_cases hb : opts.MethodType = eap.TypeAKAPrime
    · exact Or.inr hb
    · exact absurd ⟨ha, hb⟩ h1

theorem normalizePermanentPolicy_always (policy : String)
    (h : policy = "always" ∨ policy = "") : normalizePermanentPolicy policy = "always" := by
  rcases h with h | h
  · subst h
    rfl
  · subst h
    rfl

theorem permanentPrefix_eq (methodType : Nat)
    (h : methodType = eap.TypeAKA ∨ methodType = eap.TypeAKAPrime) :
    permanentPrefix methodType = if methodType = eap.TypeAKA then "0" else "6" := by
  rcases h with h | h
  · subst h
    rfl
  · subst h
    rfl

/-- Under policy always the selection is the override when it is non-empty
and the generated identity otherwise; it never fails. -/
theorem selectPermanentIdentity_of_always {σ : Type} (m : Method σ) (sess : eap.Session)
    (hpol : m.permanentIDPolicy = "always") :
    m.selectPermanentIdentity sess =
      .ok (if m.permanentIdentityOverride ≠ "" then m.permanentIdentityOverride
           else m.generatePermanentIdentity, true) := by
  have n1 : ¬ ("always" = "deny") := by decide
  have n2 : ¬ ("always" = "conservative") := by decide
  simp only [Method.selectPermanentIdentity, hpol, n1, n2, if_false, if_true]
  by_cases ho : m.permanentIdentityOverride ≠ ""
  · rw [if_pos ho, if_pos ho]
  · rw [if_neg ho, if_neg ho]

/-- C10: under permanent-ID policy always, which is also the policy of a
method built with no policy given, the identity selected for a permanent-ID
request is the override when it is non-empty; otherwise it is
prefix + IMSI + "@" + realm, or prefix + IMSI when the realm is empty, the
prefix being "0" for AKA and "6" for AKA-prime; the selection reports success
(ok = true, no error) for every session. -/
theorem selectPermanentIdentity_always {σ : Type} (opts : Options σ) (m : Method σ)
    (sess : eap.Session) (hnew : New opts = .ok m)
    (hpol : opts.PermanentIDPolicy = "always" ∨ opts.PermanentIDPolicy = "") :
    m.selectPermanentIdentity sess =
      .ok (if opts.PermanentIdentityOverride ≠ "" then opts.PermanentIdentityOverride
           else if opts.Realm = "" then
             (if opts.MethodType = eap.TypeAKA then "0" else "6") ++ opts.IMSI
           else
             (if opts.MethodType = eap.TypeAKA then "0" else "6") ++ opts.IMSI ++ "@" ++
               opts.Realm,
           true) := by
  obtain ⟨hkind, hty, himsi, hrealm, hp, hov, _⟩ := New_ok_fields opts m hnew
  rw [normalizePermanentPolicy_always _ hpol] at hp
  rw [selectPermanentIdentity_of_always m sess hp]
  simp only [Method.generatePermanentIdentity, hty, himsi, hrealm, hov,
    permanentPrefix_eq opts.MethodType hkind]

theorem selectPermanentIdentity_always_witness :
    sampleMethodGenerated.selectPermanentIdentity sampleSession =
      .ok (if sampleOptionsGenerated.PermanentIdentityOverride ≠ "" then
             sampleOptionsGenerated.PermanentIdentityOverride
           else if sampleOptionsGenerated.Realm = "" then
             (if sampleOptionsGenerated.MethodType = eap.TypeAKA then "0" else "6") ++
               sampleOptionsGenerated.IMSI
           else
             (if sampleOptionsGenerated.MethodType = eap.TypeAKA then "0" else "6") ++
               sampleOptionsGenerated.IMSI ++ "@" ++ sampleOptionsGenerated.Realm,
           true) :=
  selectPermanentIdentity_always sampleOptionsGenerated sampleMethodGenerated sampleSession
    (by rfl) (Or.inr rfl)

/-- The generated identity of the test `TestHandlePermanentIDAlways`. -/
theorem selectPermanentIdentity_generated_value :
    sampleMethodGenerated.selectPermanentIdentity sampleSession =
      .ok ("0440100123456789@wlan.mnc010.mcc440.3gppnetwork.org", true) := by
  rfl

/-- `handleIdentity` on a request with AT_PERMANENT_ID_REQ for which the
identity `P` is selected. -/
theorem handleIdentity_permanent {σ : Type} (x : Lib) (m : Method σ) (req : eapaka.Packet)
    (sess : eap.Session) (P : String)
    (hperm : hasPermanentIDReq req = true)
    (hsel : m.selectPermanentIdentity sess = .ok (P, true)) :
    m.handleIdentity x req sess =
      ({ InnerIdentity := P,
         OuterIdentity := if m.outerIdentityUpdateOnPermanentReq then P else sess.OuterIdentity },
       (toEAPPacket x (identityResponse req P)).map some) := by
  simp only [Method.handleIdentity, hperm, if_true, hsel, Bool.not_true, Bool.false_eq_true,
    if_false]
  cases m.outerIdentityUpdateOnPermanentReq <;> rfl

/-- C9: for an AKA/AKA-prime Identity request (as parsed by the library from
the encoded request) that contains AT_PERMANENT_ID_REQ and for which the
permanent identity `P` is selected, `Handle` sets the session's inner
identity to `P`, sets the outer identity to `P` when the outer-update flag is
true and leaves it unchanged when the flag is false, leaves the store alone,
and returns the EAP form of the response packet with Code Response, the
request's Identifier and Type, Subtype Identity and the single attribute
AT_IDENTITY carrying `P`; the flag of a method built by `New` is the given
option, and true when the option is not specified. -/
theorem Handle_permanent_id_request {σ : Type} (x : Lib) (m : Method σ) (req : eap.Packet)
    (sess : eap.Session) (st : σ) (raw : List Nat) (akaReq : eapaka.Packet) (P : String)
    (henc : req.Encode = .ok raw) (hparse : x.Parse raw = .ok akaReq)
    (htype : akaReq.Type_ = m.methodType)
    (hsub : akaReq.Subtype = eapaka.SubtypeIdentity)
    (hperm : hasPermanentIDReq akaReq = true)
    (hsel : m.selectPermanentIdentity sess = .ok (P, true)) :
    (Method.Handle x (some m) req (some sess) st).session =
      some { InnerIdentity := P,
             OuterIdentity :=
               if m.outerIdentityUpdateOnPermanentReq then P else sess.OuterIdentity } ∧
    (Method.Handle x (some m) req (some sess) st).store = st ∧
    (Method.Handle x (some m) req (some sess) st).result =
      (toEAPPacket x
        { Code := eapaka.CodeResponse, Identifier := akaReq.Identifier, Type_ := akaReq.Type_,
          Subtype := eapaka.SubtypeIdentity, Attributes := [.AtIdentity P] }).map some ∧
    (∀ opts : Options σ, New opts = .ok m →
      m.outerIdentityUpdateOnPermanentReq =
        match opts.OuterIdentityUpdateOnPermanentReq with
        | some flag => flag
        | none => true) := by
  have hne : ¬ akaReq.Type_ ≠ m.methodType := fun h => h htype
  have hH : Method.Handle x (some m) req (some sess) st =
      ⟨some (m.handleIdentity x akaReq sess).1, st, (m.handleIdentity x akaReq sess).2⟩ := by
    simp only [Method.Handle, henc, hparse, hne, if_false, hsub, if_true, Option.map_some']
  rw [hH, handleIdentity_permanent x m akaReq sess P hperm hsel]
  refine ⟨rfl, rfl, rfl, ?_⟩
  intro opts hnew
  obtain ⟨_, _, _, _, _, _, hflag⟩ := New_ok_fields opts m hnew
  rw [hflag]
  cases opts.OuterIdentityUpdateOnPermanentReq <;> rfl

theorem Handle_permanent_id_request_witness :
    (Method.Handle sampleLib (some sampleMethod) sampleRequest (some sampleSession) ()).session =
      some { InnerIdentity := "0440100123456789@wlan.example",
             OuterIdentity :=
               if sampleMethod.outerIdentityUpdateOnPermanentReq then
                 "0440100123456789@wlan.example"
               else sampleSession.OuterIdentity } ∧
    (Method.Handle sampleLib (some sampleMethod) sampleRequest (some sampleSession) ()).store
      = () ∧
    (Method.Handle sampleLib (some sampleMethod) sampleRequest (some sampleSession) ()).result =
      (toEAPPacket sampleLib
        { Code := eapaka.CodeResponse, Identifier := 1, Type_ := eap.TypeAKA,
          Subtype := eapaka.SubtypeIdentity,
          Attributes := [.AtIdentity "0440100123456789@wlan.example"] }).map some ∧
    (∀ opts : Options Unit, New opts = .ok sampleMethod →
      sampleMethod.outerIdentityUpdateOnPermanentReq =
        match opts.OuterIdentityUpdateOnPermanentReq with
        | some flag => flag
        | none => true) :=
  Handle_permanent_id_request sampleLib sampleMethod sampleRequest sampleSession ()
    [1, 1, 0, 12, 23, 5, 0, 0, 10, 1, 0, 0]
    { Code := 1, Identifier := 1, Type_ := 23, Subtype := 5, Attributes := [.AtPermanentIdReq] }
    "0440100123456789@wlan.example" (by rfl) (by rfl) (by rfl) (by rfl) (by rfl) (by rfl)

/-- Scenario S1 of the specification, evaluated: the session afterwards has
the override as inner identity and its outer identity unchanged. -/
theorem Handle_permanent_override_session :
    (Method.Handle sampleLib (some sampleMethod) sampleRequest (some sampleSession) ()).session =
      some { InnerIdentity := "0440100123456789@wlan.example",
             OuterIdentity := "2pseudonym@example" } := by
  rfl

end aka

/-! ## Properties of the peer dispatcher -/

namespace eap

/-- `Peer.Handle` on a Request whose type is not Identity and has a
registered method: only the mismatch handling is left to decide. -/
theorem Handle_registered {ω : Type} (p : Peer ω) (req : Packet) (w : ω) (method : Method ω)
    (hcode : req.Code = CodeRequest) (hid : req.Type_ ≠ TypeIdentity)
    (hreg : p.Methods req.Type_ = some method) :
    Peer.Handle (some p) req w =
      match p.ExpectedMethod with
      | some expected =>
        if expected ≠ req.Type_ then
          if p.MethodPolicy = MethodMismatchStrict then
            ⟨p.Session, w, [],
              .error (.mismatch ⟨expected, req.Type_, p.MethodPolicy⟩)⟩
          else if p.MethodPolicy = MethodMismatchWarn then
            match p.Warn with
            | some warn =>
              p.invoke method req
                (match p.Session with
                  | some s => s
                  | none => { OuterIdentity := "", InnerIdentity := "" })
                (warn (.mismatch ⟨expected, req.Type_, p.MethodPolicy⟩) w)
                [Call.warn (.mismatch ⟨expected, req.Type_, p.MethodPolicy⟩)]
            | none =>
              p.invoke method req
                (match p.Session with
                  | some s => s
                  | none => { OuterIdentity := "", InnerIdentity := "" }) w []
          else
            p.invoke method req
              (match p.Session with
                | some s => s
                | none => { OuterIdentity := "", InnerIdentity := "" }) w []
        else
          p.invoke method req
            (match p.Session with
              | some s => s
              | none => { OuterIdentity := "", InnerIdentity := "" }) w []
      | none =>
        p.invoke method req
          (match p.Session with
            | some s => s
            | none => { OuterIdentity := "", InnerIdentity := "" }) w [] := by
  have h1 : ¬ (req.Code = CodeSuccess ∨ req.Code = CodeFailure) := by
    rw [hcode]
    decide
  have h2 : ¬ req.Code ≠ CodeRequest := fun h => h hcode
  simp only [Peer.Handle, h1, h2, hid, if_false, hreg]

/-- C14 fails as stated when the registered type is the Identity type byte:
with AKA-prime pinned and policy strict, a Request of type 1 is answered with
the identity response, not with a mismatch error. -/
theorem Handle_strict_identity_type_no_mismatch :
    (stubPeerIdentityType MethodMismatchStrict).Methods TypeIdentity =
      some (stubMethod TypeIdentity) ∧
    (stubPeerIdentityType MethodMismatchStrict).ExpectedMethod = some TypeAKAPrime ∧
    TypeIdentity ≠ TypeAKAPrime ∧
    (Peer.Handle (some (stubPeerIdentityType MethodMismatchStrict))
        { Code := CodeRequest, Identifier := 1, Type_ := TypeIdentity, TypeData := [] }
        { called := false, warned := false }).result =
      .ok (some { Code := CodeResponse, Identifier := 1, Type_ := TypeIdentity,
                  TypeData := [117, 115, 101, 114] }) := by
  refine ⟨rfl, rfl, by decide, ?_⟩
  rfl

/-- C14 (amended): for every peer with an expected method `e` pinned and
policy strict, and every Request whose Type `t` is not Identity (1) and has a
registered method, with `t ≠ e`, `Peer.Handle` returns no response and the
mismatch error with Expected = e, Received = t; no call is made on the method
or on the warning sink, and the session and the method state are unchanged. -/
theorem Handle_mismatch_strict {ω : Type} (p : Peer ω) (req : Packet) (w : ω) (e : Nat)
    (method : Method ω)
    (hcode : req.Code = CodeRequest) (hid : req.Type_ ≠ TypeIdentity)
    (hreg : p.Methods req.Type_ = some method)
    (hexp : p.ExpectedMethod = some e) (hne : req.Type_ ≠ e)
    (hpol : p.MethodPolicy = MethodMismatchStrict) :
    Peer.Handle (some p) req w =
      ⟨p.Session, w, [],
        .error (.mismatch { Expected := e, Received := req.Type_,
                            Policy := MethodMismatchStrict })⟩ := by
  have hne2 : e ≠ req.Type_ := fun h => hne h.symm
  rw [Handle_registered p req w method hcode hid hreg, hexp]
  simp only [hne2, ne_eq, not_false_eq_true, if_true, hpol]

theorem Handle_mismatch_strict_witness :
    Peer.Handle (some (stubPeer MethodMismatchStrict))
        { Code := CodeRequest, Identifier := 1, Type_ := TypeAKA, TypeData := [] }
        { called := false, warned := false } =
      ⟨(stubPeer MethodMismatchStrict).Session, { called := false, warned := false }, [],
        .error (.mismatch { Expected := TypeAKAPrime, Received := TypeAKA,
                            Policy := MethodMismatchStrict })⟩ :=
  Handle_mismatch_strict (stubPeer MethodMismatchStrict)
    { Code := CodeRequest, Identifier := 1, Type_ := TypeAKA, TypeData := [] }
    { called := false, warned := false } TypeAKAPrime (stubMethod TypeAKA)
    rfl (by decide) rfl rfl (by decide) rfl

/-- C15 fails as stated when the registered type is the Identity type byte:
with AKA-prime pinned and policy warn, a Request of type 1 reaches neither
the warning sink nor the registered method. -/
theorem Handle_warn_identity_type_no_calls :
    (stubPeerIdentityType MethodMismatchWarn).Methods TypeIdentity =
      some (stubMethod TypeIdentity) ∧
    (stubPeerIdentityType MethodMismatchWarn).ExpectedMethod = some TypeAKAPrime ∧
    TypeIdentity ≠ TypeAKAPrime ∧
    (Peer.Handle (some (stubPeerIdentityType MethodMismatchWarn))
        { Code := CodeRequest, Identifier := 1, Type_ := TypeIdentity, TypeData := [] }
        { called := false, warned := false }).calls = [] ∧
    (Peer.Handle (some (stubPeerIdentityType MethodMismatchWarn))
        { Code := CodeRequest, Identifier := 1, Type_ := TypeIdentity, TypeData := [] }
        { called := false, warned := false }).world = { called := false, warned := false } := by
  refine ⟨rfl, rfl, by decide, ?_, ?_⟩
  · rfl
  · rfl

/-- C15 (amended): for every peer with an expected method `e` pinned and
policy warn, and every Request whose Type `t` is not Identity (1) and has a
registered method, with `t ≠ e`, `Peer.Handle` calls the warning sink exactly
once with the mismatch error when a sink is set (and not at all otherwise),
then calls the registered method once with the request and the session, and
returns exactly the response and error of that call. -/
theorem Handle_mismatch_warn {ω : Type} (p : Peer ω) (req : Packet) (w : ω) (e : Nat)
    (method : Method ω)
    (hcode : req.Code = CodeRequest) (hid : req.Type_ ≠ TypeIdentity)
    (hreg : p.Methods req.Type_ = some method)
    (hexp : p.ExpectedMethod = some e) (hne : req.Type_ ≠ e)
    (hpol : p.MethodPolicy = MethodMismatchWarn) :
    Peer.Handle (some p) req w =
      { session := p.Session.map (fun _ =>
          (method.Handle req
            (match p.Session with
              | some s => s
              | none => { OuterIdentity := "", InnerIdentity := "" })
            (match p.Warn with
              | some warn =>
                warn (.mismatch { Expected := e, Received := req.Type_,
                                  Policy := MethodMismatchWarn }) w
              | none => w)).1.1)
        world :=
          (method.Handle req
            (match p.Session with
              | some s => s
              | none => { OuterIdentity := "", InnerIdentity := "" })
            (match p.Warn with
              | some warn =>
                warn (.mismatch { Expected := e, Received := req.Type_,
                                  Policy := MethodMismatchWarn }) w
              | none => w)).1.2
        calls :=
          (match p.Warn with
            | some _ =>
              [Call.warn (.mismatch { Expected := e, Received := req.Type_,
                                      Policy := MethodMismatchWarn })]
            | none => []) ++
          [Call.handle req.Type_ req
            (match p.Session with
              | some s => s
              | none => { OuterIdentity := "", InnerIdentity := "" })]
        result :=
          (method.Handle req
            (match p.Session with
              | some s => s
              | none => { OuterIdentity := "", InnerIdentity := "" })
            (match p.Warn with
              | some warn =>
                warn (.mismatch { Expected := e, Received := req.Type_,
                                  Policy := MethodMismatchWarn }) w
              | none => w)).2 } := by
  have hne2 : e ≠ req.Type_ := fun h => hne h.symm
  have hns : ¬ (MethodMismatchWarn = MethodMismatchStrict) := by decide
  rw [Handle_registered p req w method hcode hid hreg, hexp]
  simp only [hne2, ne_eq, not_false_eq_true, if_true, hpol, hns, if_false]
  cases p.Warn <;> rfl

theorem Handle_mismatch_warn_witness :
    Peer.Handle (some (stubPeer MethodMismatchWarn))
        { Code := CodeRequest, Identifier := 1, Type_ := TypeAKA, TypeData := [] }
        { called := false, warned := false } =
      { session := some { OuterIdentity := "user", InnerIdentity := "" }
        world := { called := true, warned := true }
        calls :=
          [Call.warn (.mismatch { Expected := TypeAKAPrime, Received := TypeAKA,
                                  Policy := MethodMismatchWarn }),
           Call.handle TypeAKA
             { Code := CodeRequest, Identifier := 1, Type_ := TypeAKA, TypeData := [] }
             { OuterIdentity := "user", InnerIdentity := "" }]
        result :=
          .ok (some { Code := CodeResponse, Identifier := 1, Type_ := TypeAKA,
                      TypeData := [] }) } :=
  Handle_mismatch_warn (stubPeer MethodMismatchWarn)
    { Code := CodeRequest, Identifier := 1, Type_ := TypeAKA, TypeData := [] }
    { called := false, warned := false } TypeAKAPrime (stubMethod TypeAKA)
    rfl (by decide) rfl rfl (by decide) rfl

theorem Handle_identity_eq {ω : Type} (p : Peer ω) (req : Packet) (w : ω)
    (hcode : req.Code = CodeRequest) (htype : req.Type_ = TypeIdentity) :
    Peer.Handle (some p) req w =
      ⟨p.Session, w, [], identityResponse req.Identifier p.outerIdentity⟩ := by
  have h1 : ¬ (req.Code = CodeSuccess ∨ req.Code = CodeFailure) := by
    rw [hcode]
    decide
  have h2 : ¬ req.Code ≠ CodeRequest := fun h => h hcode
  simp only [Peer.Handle, h1, h2, htype, if_false, if_true, Peer.outerIdentity]
  cases p.Session <;> rfl

/-- C16: for every Request with Type = Identity (1), `Peer.Handle` returns a
packet with Code Response, the request Identifier, Type Identity and TypeData
equal to the bytes of the session outer identity; it returns an error, and no
response, exactly when the outer identity is empty (as it is for a peer
without session); no method and no warning sink is called, and the session
and the method state are unchanged. -/
theorem Handle_identity_request {ω : Type} (p : Peer ω) (req : Packet) (w : ω)
    (hcode : req.Code = CodeRequest) (htype : req.Type_ = TypeIdentity) :
    (Peer.Handle (some p) req w).session = p.Session ∧
    (Peer.Handle (some p) req w).world = w ∧
    (Peer.Handle (some p) req w).calls = [] ∧
    (p.outerIdentity ≠ "" →
      (Peer.Handle (some p) req w).result =
        .ok (some { Code := CodeResponse, Identifier := req.Identifier, Type_ := TypeIdentity,
                    TypeData := stringBytes p.outerIdentity })) ∧
    (p.outerIdentity = "" →
      (Peer.Handle (some p) req w).result = .error (.errorf "eap: outer identity is required")) ∧
    ((∃ err, (Peer.Handle (some p) req w).result = .error err) ↔ p.outerIdentity = "") := by
  rw [Handle_identity_eq p req w hcode htype]
  refine ⟨rfl, rfl, rfl, ?_, ?_, ?_⟩
  · intro h
    simp only [identityResponse, h, if_false]
  · intro h
    simp only [identityResponse, h, if_true]
  · constructor
    · rintro ⟨err, herr⟩
      by_cases h : p.outerIdentity = ""
      · exact h
      · simp only [identityResponse, h, if_false] at herr
        cases herr
    · intro h
      exact ⟨.errorf "eap: outer identity is required",
        by simp only [identityResponse, h, if_true]⟩

theorem Handle_identity_request_witness :
    (Peer.Handle (some (stubPeer MethodMismatchStrict))
        { Code := CodeRequest, Identifier := 9, Type_ := TypeIdentity, TypeData := [] }
        { called := false, warned := false }).result =
      .ok (some { Code := CodeResponse, Identifier := 9, Type_ := TypeIdentity,
                  TypeData := stringBytes (stubPeer MethodMismatchStrict).outerIdentity }) :=
  (Handle_identity_request (stubPeer MethodMismatchStrict)
    { Code := CodeRequest, Identifier := 9, Type_ := TypeIdentity, TypeData := [] }
    { called := false, warned := false } rfl rfl).2.2.2.1 (by decide)

/-- The bytes of the identity response of the test `TestHandleIdentity`. -/
theorem stringBytes_user_example :
    stringBytes "user@example" =
      [117, 115, 101, 114, 64, 101, 120, 97, 109, 112, 108, 101] := by
  rfl

/-- C17: for every Request whose Type is neither Identity nor the type of a
registered method, `Peer.Handle` returns an error and no response, whatever
expected method is pinned and whatever the mismatch policy and warning sink
are; nothing is called and nothing changes. -/
theorem Handle_unsupported_method {ω : Type} (p : Peer ω) (req : Packet) (w : ω)
    (hcode : req.Code = CodeRequest) (hid : req.Type_ ≠ TypeIdentity)
    (hreg : p.Methods req.Type_ = none) :
    Peer.Handle (some p) req w =
      ⟨p.Session, w, [], .error (.errorf "eap: unsupported method")⟩ := by
  have h1 : ¬ (req.Code = CodeSuccess ∨ req.Code = CodeFailure) := by
    rw [hcode]
    decide
  have h2 : ¬ req.Code ≠ CodeRequest := fun h => h hcode
  simp only [Peer.Handle, h1, h2, hid, if_false, hreg]

theorem Handle_unsupported_method_witness :
    Peer.Handle (some (stubPeer MethodMismatchStrict))
        { Code := CodeRequest, Identifier := 1, Type_ := TypeAKAPrime, TypeData := [] }
        { called := false, warned := false } =
      ⟨(stubPeer MethodMismatchStrict).Session, { called := false, warned := false }, [],
        .error (.errorf "eap: unsupported method")⟩ :=
  Handle_unsupported_method (stubPeer MethodMismatchStrict)
    { Code := CodeRequest, Identifier := 1, Type_ := TypeAKAPrime, TypeData := [] }
    { called := false, warned := false } rfl (by decide) rfl

/-- C18: for every packet with Code Success (3) or Failure (4), `Peer.Handle`
returns no response and no error, calls no method and no warning sink, and
changes nothing, whatever the session of the peer is; for every Code other
than Request, Success and Failure it returns an error and no response. -/
theorem Handle_terminal_codes {ω : Type} (p : Peer ω) (req : Packet) (w : ω) :
    ((req.Code = CodeSuccess ∨ req.Code = CodeFailure) →
      ∀ sess : Option Session,
        Peer.Handle (some { p with Session := sess }) req w = ⟨sess, w, [], .ok none⟩) ∧
    (req.Code ≠ CodeRequest → req.Code ≠ CodeSuccess → req.Code ≠ CodeFailure →
      Peer.Handle (some p) req w =
        ⟨p.Session, w, [], .error (.errorf "eap: unsupported code")⟩) := by
  constructor
  · intro h sess
    simp only [Peer.Handle, h, if_true]
  · intro h1 h2 h3
    have h4 : ¬ (req.Code = CodeSuccess ∨ req.Code = CodeFailure) := by
      rintro (h | h)
      · exact h2 h
      · exact h3 h
    simp only [Peer.Handle, h4, if_false, h1, ne_eq, not_false_eq_true, if_true]

theorem Handle_terminal_codes_witness :
    Peer.Handle (some { stubPeer MethodMismatchStrict with Session := none })
        { Code := CodeSuccess, Identifier := 1, Type_ := 0, TypeData := [] }
        { called := false, warned := false } =
      ⟨none, { called := false, warned := false }, [], .ok none⟩ :=
  (Handle_terminal_codes (stubPeer MethodMismatchStrict)
    { Code := CodeSuccess, Identifier := 1, Type_ := 0, TypeData := [] }
    { called := false, warned := false }).1 (Or.inl rfl) none

end eap

/-! ## Properties of the AKA identity handling, continued -/

namespace aka

/-- `Handle` on a request that the library parses as an Identity request of
the method type runs `handleIdentity` on the session. -/
theorem Handle_identity_dispatch {σ : Type} (x : Lib) (m : Method σ) (req : eap.Packet)
    (sess : eap.Session) (st : σ) (raw : List Nat) (akaReq : eapaka.Packet)
    (henc : req.Encode = .ok raw) (hparse : x.Parse raw = .ok akaReq)
    (htype : akaReq.Type_ = m.methodType)
    (hsub : akaReq.Subtype = eapaka.SubtypeIdentity) :
    Method.Handle x (some m) req (some sess) st =
      ⟨some (m.handleIdentity x akaReq sess).1, st, (m.handleIdentity x akaReq sess).2⟩ := by
  have hne : ¬ akaReq.Type_ ≠ m.methodType := fun h => h htype
  simp only [Method.Handle, henc, hparse, hne, if_false, hsub, if_true, Option.map_some']

theorem string_take_one_iff (identity : String) (c : Char) :
    (identity ≠ "" ∧ String.mk (identity.data.take 1) = String.mk [c]) ↔
      ∃ rest : String, identity = String.mk [c] ++ rest := by
  constructor
  · rintro ⟨hne, h⟩
    cases identity with
    | mk data =>
      cases data with
      | nil => exact absurd rfl hne
      | cons d tl =>
        have hd : [d] = [c] := congrArg String.data h
        have hdc : d = c := List.head_eq_of_cons_eq hd
        subst hdc
        exact ⟨String.mk tl, rfl⟩
  · rintro ⟨rest, h⟩
    subst h
    constructor
    · intro hEq
      have := congrArg String.data hEq
      simp at this
    · rfl

theorem isPermanentIdentity_iff (identity : String) (methodType : Nat)
    (h : methodType = eap.TypeAKA ∨ methodType = eap.TypeAKAPrime) :
    isPermanentIdentity identity methodType = true ↔
      beginsWithPermanentPrefix identity methodType := by
  have key : ∀ c : Char, permanentPrefix methodType = String.mk [c] →
      (if methodType = eap.TypeAKA then "0" else "6") = String.mk [c] →
      (isPermanentIdentity identity methodType = true ↔
        beginsWithPermanentPrefix identity methodType) := by
    intro c hp hq
    unfold beginsWithPermanentPrefix
    rw [hq, ← string_take_one_iff identity c]
    unfold isPermanentIdentity
    rw [hp]
    by_cases he : identity = ""
    · simp [he]
    · simp [he]
  rcases h with h | h
  · subst h
    exact key (Char.ofNat 48) rfl rfl
  · subst h
    exact key (Char.ofNat 54) rfl rfl

theorem selectPermanentIdentity_of_conservative {σ : Type} (m : Method σ) (sess : eap.Session)
    (hpol : m.permanentIDPolicy = "conservative") :
    m.selectPermanentIdentity sess =
      if isPermanentIdentity sess.InnerIdentity m.methodType then
        .ok (sess.InnerIdentity, true)
      else if isPermanentIdentity sess.OuterIdentity m.methodType then
        .ok (sess.OuterIdentity, true)
      else if m.permanentIdentityOverride ≠ "" then
        .ok (m.permanentIdentityOverride, true)
      else
        .ok ("", false) := by
  have n1 : ¬ ("conservative" = "deny") := by decide
  simp only [Method.selectPermanentIdentity, hpol, n1, if_false, if_true]

theorem handleIdentity_not_selected {σ : Type} (x : Lib) (m : Method σ) (req : eapaka.Packet)
    (sess : eap.Session) (ident : String)
    (hperm : hasPermanentIDReq req = true)
    (hsel : m.selectPermanentIdentity sess = .ok (ident, false)) :
    m.handleIdentity x req sess =
      (sess, .ok (match toEAPPacket x (rejectPacket req) with
                  | .ok pkt => some pkt
                  | .error _ => none)) := by
  simp only [Method.handleIdentity, hperm, if_true, hsel, Bool.not_false, authenticationReject,
    rejectPacket]
  cases toEAPPacket x
    { Code := eapaka.CodeResponse, Identifier := req.Identifier, Type_ := req.Type_,
      Subtype := eapaka.SubtypeAuthenticationReject, Attributes := [] } <;> rfl

/-- C11: under permanent-ID policy conservative the identity selected for a
permanent-ID request is the session inner identity if it begins with the
permanent prefix of the method ("0" for AKA, "6" for AKA-prime); else the
session outer identity if it begins with that prefix; else the override if it
is non-empty; else none is selected, and then `Handle` answers the request
with the Authentication-Reject packet and leaves the session unchanged. -/
theorem selectPermanentIdentity_conservative {σ : Type} (x : Lib) (opts : Options σ)
    (m : Method σ) (sess : eap.Session) (hnew : New opts = .ok m)
    (hpol : opts.PermanentIDPolicy = "conservative") :
    (beginsWithPermanentPrefix sess.InnerIdentity opts.MethodType →
      m.selectPermanentIdentity sess = .ok (sess.InnerIdentity, true)) ∧
    (¬ beginsWithPermanentPrefix sess.InnerIdentity opts.MethodType →
      beginsWithPermanentPrefix sess.OuterIdentity opts.MethodType →
      m.selectPermanentIdentity sess = .ok (sess.OuterIdentity, true)) ∧
    (¬ beginsWithPermanentPrefix sess.InnerIdentity opts.MethodType →
      ¬ beginsWithPermanentPrefix sess.OuterIdentity opts.MethodType →
      opts.PermanentIdentityOverride ≠ "" →
      m.selectPermanentIdentity sess = .ok (opts.PermanentIdentityOverride, true)) ∧
    (¬ beginsWithPermanentPrefix sess.InnerIdentity opts.MethodType →
      ¬ beginsWithPermanentPrefix sess.OuterIdentity opts.MethodType →
      opts.PermanentIdentityOverride = "" →
      m.selectPermanentIdentity sess = .ok ("", false) ∧
      ∀ (req : eap.Packet) (st : σ) (raw : List Nat) (akaReq : eapaka.Packet),
        req.Encode = .ok raw → x.Parse raw = .ok akaReq →
        akaReq.Type_ = m.methodType → akaReq.Subtype = eapaka.SubtypeIdentity →
        hasPermanentIDReq akaReq = true →
        Method.Handle x (some m) req (some sess) st =
          ⟨some sess, st,
            .ok (match toEAPPacket x (rejectPacket akaReq) with
                 | .ok pkt => some pkt
                 | .error _ => none)⟩) := by
  obtain ⟨hkind, hty, _, _, hp, hov, _⟩ := New_ok_fields opts m hnew
  have hp2 : m.permanentIDPolicy = "conservative" := by
    rw [hp, hpol]
    rfl
  have hkind2 : m.methodType = eap.TypeAKA ∨ m.methodType = eap.TypeAKAPrime := by
    rw [hty]
    exact hkind
  have hin := isPermanentIdentity_iff sess.InnerIdentity m.methodType hkind2
  have hout := isPermanentIdentity_iff sess.OuterIdentity m.methodType hkind2
  rw [hty] at hin hout
  rw [selectPermanentIdentity_of_conservative m sess hp2, hov, hty]
  refine ⟨?_, ?_, ?_, ?_⟩
  · intro h1
    rw [if_pos (hin.mpr h1)]
  · intro h1 h2
    rw [if_neg (fun h => h1 (hin.mp h)), if_pos (hout.mpr h2)]
  · intro h1 h2 h3
    rw [if_neg (fun h => h1 (hin.mp h)), if_neg (fun h => h2 (hout.mp h)), if_pos h3]
  · intro h1 h2 h3
    have hsel : m.selectPermanentIdentity sess = .ok ("", false) := by
      rw [selectPermanentIdentity_of_conservative m sess hp2, hov, hty,
        if_neg (fun h => h1 (hin.mp h)), if_neg (fun h => h2 (hout.mp h)),
        if_neg (fun h => h h3)]
    rw [if_neg (fun h => h1 (hin.mp h)), if_neg (fun h => h2 (hout.mp h)),
      if_neg (fun h => h h3)]
    refine ⟨rfl, ?_⟩
    intro req st raw akaReq henc hparse htype hsub hperm
    rw [Handle_identity_dispatch x m req sess st raw akaReq henc hparse
      (htype.trans hty.symm) hsub, handleIdentity_not_selected x m akaReq sess "" hperm hsel]

theorem selectPermanentIdentity_conservative_witness :
    sampleMethodConservative.selectPermanentIdentity sampleSessionPermanentOuter =
      .ok (sampleSessionPermanentOuter.OuterIdentity, true) :=
  (selectPermanentIdentity_conservative sampleLib sampleOptionsConservative
    sampleMethodConservative sampleSessionPermanentOuter (by rfl) rfl).2.1
    (by
      rintro ⟨rest, h⟩
      have hd := congrArg String.data h
      have hb : ("2pseudonym@example" : String).data.head? = some (Char.ofNat 48) := by
        have e : sampleSessionPermanentOuter.InnerIdentity = "2pseudonym@example" := rfl
        rw [← e, hd]
        rfl
      exact absurd hb (by decide))
    ⟨"440100123456789@wlan.example", by rfl⟩

/-- C12: under permanent-ID policy deny, for every Identity request containing
AT_PERMANENT_ID_REQ and every session (also none), `Handle` returns without
error the Authentication-Reject response (Code Response, the Identifier and
Type of the request, Subtype 2, no attributes, in its EAP form) and leaves
the session, inner and outer identity, and the store unchanged. -/
theorem Handle_permanent_id_deny {σ : Type} (x : Lib) (m : Method σ) (req : eap.Packet)
    (sess : Option eap.Session) (st : σ) (raw : List Nat) (akaReq : eapaka.Packet)
    (henc : req.Encode = .ok raw) (hparse : x.Parse raw = .ok akaReq)
    (htype : akaReq.Type_ = m.methodType)
    (hsub : akaReq.Subtype = eapaka.SubtypeIdentity)
    (hperm : hasPermanentIDReq akaReq = true)
    (hpol : m.permanentIDPolicy = "deny") :
    Method.Handle x (some m) req sess st =
      ⟨sess, st,
        .ok (match toEAPPacket x
                { Code := eapaka.CodeResponse, Identifier := akaReq.Identifier,
                  Type_ := akaReq.Type_, Subtype := 2, Attributes := [] } with
             | .ok pkt => some pkt
             | .error _ => none)⟩ := by
  have hne : ¬ akaReq.Type_ ≠ m.methodType := fun h => h htype
  have hsel : ∀ s : eap.Session, m.selectPermanentIdentity s = .ok ("", false) := by
    intro s
    simp only [Method.selectPermanentIdentity, hpol, if_true]
  simp only [Method.Handle, henc, hparse, hne, if_false, hsub, if_true]
  cases sess with
  | none =>
    rw [handleIdentity_not_selected x m akaReq _ "" hperm (hsel _)]
    rfl
  | some s =>
    rw [handleIdentity_not_selected x m akaReq s "" hperm (hsel s)]
    rfl

theorem Handle_permanent_id_deny_witness :
    Method.Handle sampleLib (some sampleMethodDeny) sampleRequest (some sampleSession) () =
      ⟨some sampleSession, (),
        .ok (match toEAPPacket sampleLib
                { Code := eapaka.CodeResponse, Identifier := 1,
                  Type_ := 23, Subtype := 2, Attributes := [] } with
             | .ok pkt => some pkt
             | .error _ => none)⟩ :=
  Handle_permanent_id_deny sampleLib sampleMethodDeny sampleRequest (some sampleSession) ()
    [1, 1, 0, 12, 23, 5, 0, 0, 10, 1, 0, 0]
    { Code := 1, Identifier := 1, Type_ := 23, Subtype := 5, Attributes := [.AtPermanentIdReq] }
    (by rfl) (by rfl) (by rfl) (by rfl) (by rfl) (by rfl)

/-- `handleIdentity` on a request without AT_PERMANENT_ID_REQ. -/
theorem handleIdentity_plain {σ : Type} (x : Lib) (m : Method σ) (req : eapaka.Packet)
    (sess : eap.Session) (hperm : hasPermanentIDReq req = false) :
    m.handleIdentity x req sess =
      (sess,
        if sess.InnerIdentity = "" ∧ sess.OuterIdentity = "" then
          .error "aka: inner identity is required"
        else
          (toEAPPacket x (identityResponse req
            (if sess.InnerIdentity ≠ "" then sess.InnerIdentity else sess.OuterIdentity))).map
              some) := by
  simp only [Method.handleIdentity, hperm, Bool.false_eq_true, if_false]
  by_cases hi : sess.InnerIdentity = ""
  · by_cases ho : sess.OuterIdentity = ""
    · simp only [hi, ho, if_true, and_self]
    · simp only [hi, ho, if_true, if_false, and_false, ne_eq, not_true_eq_false]
  · simp only [hi, if_false, false_and, ne_eq, not_false_eq_true, if_true]

/-- C13: for every AKA/AKA-prime Identity request (as parsed by the library)
that does not contain AT_PERMANENT_ID_REQ, `Handle` leaves the session and
the store unchanged; when the inner and the outer identity are both empty it
returns the error that an identity is required and no response; otherwise it
returns the EAP form of the response packet with the single attribute
AT_IDENTITY carrying the inner identity if that is non-empty and the outer
identity otherwise, so that, the wire encoding of that packet succeeding, an
error is returned exactly when both identities are empty. -/
theorem Handle_identity_no_permanent_req {σ : Type} (x : Lib) (m : Method σ)
    (req : eap.Packet) (sess : eap.Session) (st : σ) (raw : List Nat)
    (akaReq : eapaka.Packet)
    (henc : req.Encode = .ok raw) (hparse : x.Parse raw = .ok akaReq)
    (htype : akaReq.Type_ = m.methodType)
    (hsub : akaReq.Subtype = eapaka.SubtypeIdentity)
    (hperm : hasPermanentIDReq akaReq = false) :
    (Method.Handle x (some m) req (some sess) st).session = some sess ∧
    (Method.Handle x (some m) req (some sess) st).store = st ∧
    (sess.InnerIdentity = "" ∧ sess.OuterIdentity = "" →
      (Method.Handle x (some m) req (some sess) st).result =
        .error "aka: inner identity is required") ∧
    (¬ (sess.InnerIdentity = "" ∧ sess.OuterIdentity = "") →
      (Method.Handle x (some m) req (some sess) st).result =
        (toEAPPacket x
          { Code := eapaka.CodeResponse, Identifier := akaReq.Identifier,
            Type_ := akaReq.Type_, Subtype := eapaka.SubtypeIdentity,
            Attributes := [.AtIdentity
              (if sess.InnerIdentity ≠ "" then sess.InnerIdentity
               else sess.OuterIdentity)] }).map some) ∧
    ((∃ pkt, toEAPPacket x
          { Code := eapaka.CodeResponse, Identifier := akaReq.Identifier,
            Type_ := akaReq.Type_, Subtype := eapaka.SubtypeIdentity,
            Attributes := [.AtIdentity
              (if sess.InnerIdentity ≠ "" then sess.InnerIdentity
               else sess.OuterIdentity)] } = .ok pkt) →
      ((∃ err, (Method.Handle x (some m) req (some sess) st).result = .error err) ↔
        (sess.InnerIdentity = "" ∧ sess.OuterIdentity = ""))) := by
  rw [Handle_identity_dispatch x m req sess st raw akaReq henc hparse htype hsub,
    handleIdentity_plain x m akaReq sess hperm]
  refine ⟨rfl, rfl, ?_, ?_, ?_⟩
  · intro h
    simp only [h, and_self, if_true]
  · intro h
    simp only [h, if_false, identityResponse]
  · rintro ⟨pkt, hpkt⟩
    constructor
    · rintro ⟨err, herr⟩
      by_cases h : sess.InnerIdentity = "" ∧ sess.OuterIdentity = ""
      · exact h
      · simp only [h, if_false, identityResponse, hpkt] at herr
        cases herr
    · intro h
      exact ⟨"aka: inner identity is required", by simp only [h, and_self, if_true]⟩

theorem Handle_identity_no_permanent_req_witness :
    (Method.Handle sampleLib (some sampleMethod) sampleRequestPlain (some sampleSession)
        ()).result =
      (toEAPPacket sampleLib
        { Code := eapaka.CodeResponse, Identifier := 4,
          Type_ := 23, Subtype := eapaka.SubtypeIdentity,
          Attributes := [.AtIdentity
            (if sampleSession.InnerIdentity ≠ "" then sampleSession.InnerIdentity
             else sampleSession.OuterIdentity)] }).map some :=
  (Handle_identity_no_permanent_req sampleLib sampleMethod sampleRequestPlain sampleSession ()
    [1, 4, 0, 8, 23, 5, 0, 0]
    { Code := 1, Identifier := 4, Type_ := 23, Subtype := 5, Attributes := [] }
    (by rfl) (by rfl) (by rfl) (by rfl) (by rfl)).2.2.2.1 (by decide)


/-! ## Properties of the AKA challenge handling -/

theorem New_ok_store {σ : Type} (opts : Options σ) (m : Method σ) (h : New opts = .ok m) :
    m.store = opts.SQNStore := by
  unfold New at h
  split_ifs at h with h1 h2 h3 h4 h5
  simp only [Except.ok.injEq] at h
  subst h
  rfl

/-- Without a store `handleChallenge` leaves the store content alone and
returns an error, the reject or the challenge response. -/
theorem handleChallenge_forms_no_store {σ : Type} (x : Lib) (m : Method σ)
    (req : eapaka.Packet) (sess : eap.Session) (st : σ) (hstore : m.store = none) :
    (m.handleChallenge x req sess st).1 = st ∧
    ((∃ err, (m.handleChallenge x req sess st).2 = .error err) ∨
      (m.handleChallenge x req sess st).2 = .ok (authenticationReject x req) ∨
      (∃ res kAut, (m.handleChallenge x req sess st).2 = challengeResponse x req res kAut)) := by
  unfold Method.handleChallenge
  simp only [hstore]
  repeat' split
  all_goals first
    | exact ⟨rfl, Or.inl ⟨_, rfl⟩⟩
    | exact ⟨rfl, Or.inr (Or.inl rfl)⟩
    | exact ⟨rfl, Or.inr (Or.inr ⟨_, _, rfl⟩)⟩

/-- `handleIdentity` never touches the store and returns an error, the reject
or an identity response. -/
theorem handleIdentity_forms {σ : Type} (x : Lib) (m : Method σ) (req : eapaka.Packet)
    (sess : eap.Session) :
    (∃ err, (m.handleIdentity x req sess).2 = .error err) ∨
    (m.handleIdentity x req sess).2 = .ok (authenticationReject x req) ∨
    (∃ ident, (m.handleIdentity x req sess).2 =
      (toEAPPacket x (identityResponse req ident)).map some) := by
  by_cases hperm : hasPermanentIDReq req = true
  · cases hsel : m.selectPermanentIdentity sess with
    | error err =>
      refine Or.inl ⟨err, ?_⟩
      simp only [Method.handleIdentity, hperm, if_true, hsel]
    | ok r =>
      obtain ⟨ident, ok⟩ := r
      cases ok with
      | false =>
        refine Or.inr (Or.inl ?_)
        simp only [Method.handleIdentity, hperm, if_true, hsel, Bool.not_false]
      | true =>
        refine Or.inr (Or.inr ⟨ident, ?_⟩)
        rw [handleIdentity_permanent x m req sess ident hperm hsel]
  · have hperm2 : hasPermanentIDReq req = false := by
      cases h : hasPermanentIDReq req
      · rfl
      · exact absurd h hperm
    rw [handleIdentity_plain x m req sess hperm2]
    by_cases hboth : sess.InnerIdentity = "" ∧ sess.OuterIdentity = ""
    · rw [if_pos hboth]
      exact Or.inl ⟨_, rfl⟩
    · rw [if_neg hboth]
      exact Or.inr (Or.inr ⟨_, rfl⟩)

/-- The responses of a method without store: `Handle` leaves the store
content alone and returns an error, the reject, an identity response or the
challenge response, each for the request as parsed by the library. -/
theorem Handle_forms_no_store {σ : Type} (x : Lib) (m : Method σ) (req : eap.Packet)
    (sess : Option eap.Session) (st : σ) (hstore : m.store = none) :
    (Method.Handle x (some m) req sess st).store = st ∧
    ((∃ err, (Method.Handle x (some m) req sess st).result = .error err) ∨
      ∃ akaReq : eapaka.Packet,
        (Method.Handle x (some m) req sess st).result = .ok (authenticationReject x akaReq) ∨
        (∃ ident, (Method.Handle x (some m) req sess st).result =
          (toEAPPacket x (identityResponse akaReq ident)).map some) ∨
        (∃ res kAut, (Method.Handle x (some m) req sess st).result =
          challengeResponse x akaReq res kAut)) := by
  unfold Method.Handle
  simp only
  split
  · exact ⟨rfl, Or.inl ⟨_, rfl⟩⟩
  · split
    · exact ⟨rfl, Or.inl ⟨_, rfl⟩⟩
    · rename_i akaReq _
      split
      · exact ⟨rfl, Or.inl ⟨_, rfl⟩⟩
      · split
        · refine ⟨rfl, ?_⟩
          rcases handleIdentity_forms x m akaReq
              (match sess with
                | some s => s
                | none => { OuterIdentity := "", InnerIdentity := "" }) with h | h | h
          · exact Or.inl h
          · exact Or.inr ⟨akaReq, Or.inl h⟩
          · exact Or.inr ⟨akaReq, Or.inr (Or.inl h)⟩
        · split
          · obtain ⟨h1, h2⟩ := handleChallenge_forms_no_store x m akaReq
              (match sess with
                | some s => s
                | none => { OuterIdentity := "", InnerIdentity := "" }) st hstore
            refine ⟨h1, ?_⟩
            rcases h2 with h | h | h
            · exact Or.inl h
            · exact Or.inr ⟨akaReq, Or.inl h⟩
            · exact Or.inr ⟨akaReq, Or.inr (Or.inr h)⟩
          · exact ⟨rfl, Or.inl ⟨_, rfl⟩⟩

/-- A challenge that passes the request MAC, AMF and MAC-A checks, handled
without store: the SQN is not looked at and the challenge response is
returned. -/
theorem handleChallenge_verified_no_store {σ : Type} (x : Lib) (m : Method σ)
    (req : eapaka.Packet) (sess : eap.Session) (st : σ)
    (rand autn : List Nat) (netName : String) (res ck ik ak kAut sqnBytes amf : List Nat)
    (hstore : m.store = none)
    (hparams : m.extractChallengeParams req = .ok (rand, autn, netName))
    (hvec : m.computeVectors x rand = .ok (res, ck, ik, ak))
    (hident : (if sess.InnerIdentity = "" then sess.OuterIdentity else sess.InnerIdentity) ≠ "")
    (hkaut : m.deriveKAut x
      (if sess.InnerIdentity = "" then sess.OuterIdentity else sess.InnerIdentity)
      ck ik netName = .ok kAut)
    (hreqmac : verifyRequestMac x req kAut = none)
    (hautn : decodeAutn autn ak = .ok (sqnBytes, amf))
    (hamf : amf = m.amfBytes)
    (hmaca : m.verifyMacA x rand sqnBytes amf autn = .ok true) :
    m.handleChallenge x req sess st = (st, challengeResponse x req res kAut) := by
  have hamf2 : ¬ amf ≠ m.amfBytes := fun h => h hamf
  simp only [Method.handleChallenge, hparams, hvec, hident, if_false, hkaut, hreqmac, hautn,
    hamf2, hmaca, hstore]

/-- `Handle` on a request that the library parses as a Challenge request of
the method type runs `handleChallenge`; the session is only read. -/
theorem Handle_challenge_dispatch {σ : Type} (x : Lib) (m : Method σ) (req : eap.Packet)
    (sess : eap.Session) (st : σ) (raw : List Nat) (akaReq : eapaka.Packet)
    (henc : req.Encode = .ok raw) (hparse : x.Parse raw = .ok akaReq)
    (htype : akaReq.Type_ = m.methodType)
    (hsub : akaReq.Subtype = eapaka.SubtypeChallenge) :
    Method.Handle x (some m) req (some sess) st =
      ⟨some sess, (m.handleChallenge x akaReq sess st).1,
        (m.handleChallenge x akaReq sess st).2⟩ := by
  have hne : ¬ akaReq.Type_ ≠ m.methodType := fun h => h htype
  have hni : ¬ (eapaka.SubtypeChallenge = eapaka.SubtypeIdentity) := by decide
  simp only [Method.Handle, henc, hparse, hne, if_false, hsub, hni, if_true]

theorem toEAPPacket_of_reject {x : Lib} {req : eapaka.Packet} {pkt : eap.Packet}
    (h : authenticationReject x req = some pkt) :
    toEAPPacket x (rejectPacket req) = .ok pkt := by
  unfold authenticationReject at h
  simp only at h
  unfold rejectPacket
  split at h
  · cases h
  · rename_i heq
    simp only [Option.some.injEq] at h
    rw [← h]
    exact heq

theorem toEAPPacket_of_map_some {x : Lib} {p : eapaka.Packet} {pkt : eap.Packet}
    (h : (toEAPPacket x p).map some = .ok (some pkt)) : toEAPPacket x p = .ok pkt := by
  cases hp : toEAPPacket x p with
  | error err =>
    rw [hp] at h
    cases h
  | ok q =>
    rw [hp] at h
    simp only [Except.map, Except.ok.injEq, Option.some.injEq] at h
    rw [h]

/-- C19: for a method constructed without an SQN store, for every request and
every session, `Handle` leaves the store content alone and every response it
returns is the EAP form of an AKA packet whose Subtype is not
Synchronization-Failure (4), the library MAC routine keeping the Subtype of
the packet it signs; and a challenge whose request MAC, AMF and MAC-A verify
is answered with the Challenge response, whatever SQN bytes the AUTN
decodes to. -/
theorem Handle_no_store_never_sync_failure {σ : Type} (x : Lib) (opts : Options σ)
    (m : Method σ) (req : eap.Packet) (sess : Option eap.Session) (st : σ)
    (hnew : New opts = .ok m) (hstore : opts.SQNStore = none)
    (hsign : ∀ p k p2, x.CalculateAndSetMac p k = .ok p2 → p2.Subtype = p.Subtype) :
    (Method.Handle x (some m) req sess st).store = st ∧
    (∀ pkt, (Method.Handle x (some m) req sess st).result = .ok (some pkt) →
      ∃ p : eapaka.Packet, toEAPPacket x p = .ok pkt ∧
        p.Subtype ≠ eapaka.SubtypeSynchronizationFailure) ∧
    (∀ (s : eap.Session) (raw : List Nat) (akaReq : eapaka.Packet) (rand autn : List Nat)
        (netName : String) (res ck ik ak kAut sqnBytes amf : List Nat),
      req.Encode = .ok raw → x.Parse raw = .ok akaReq →
      akaReq.Type_ = m.methodType → akaReq.Subtype = eapaka.SubtypeChallenge →
      m.extractChallengeParams akaReq = .ok (rand, autn, netName) →
      m.computeVectors x rand = .ok (res, ck, ik, ak) →
      (if s.InnerIdentity = "" then s.OuterIdentity else s.InnerIdentity) ≠ "" →
      m.deriveKAut x (if s.InnerIdentity = "" then s.OuterIdentity else s.InnerIdentity)
        ck ik netName = .ok kAut →
      verifyRequestMac x akaReq kAut = none →
      decodeAutn autn ak = .ok (sqnBytes, amf) →
      amf = m.amfBytes →
      m.verifyMacA x rand sqnBytes amf autn = .ok true →
      Method.Handle x (some m) req (some s) st =
        ⟨some s, st, challengeResponse x akaReq res kAut⟩) := by
  have hst : m.store = none := by
    rw [New_ok_store opts m hnew, hstore]
  obtain ⟨h1, h2⟩ := Handle_forms_no_store x m req sess st hst
  refine ⟨h1, ?_, ?_⟩
  · intro pkt hpkt
    rcases h2 with ⟨err, h⟩ | ⟨akaReq, h | ⟨ident, h⟩ | ⟨res, kAut, h⟩⟩
    · rw [h] at hpkt
      cases hpkt
    · rw [h] at hpkt
      simp only [Except.ok.injEq] at hpkt
      refine ⟨rejectPacket akaReq, toEAPPacket_of_reject hpkt, ?_⟩
      show eapaka.SubtypeAuthenticationReject ≠ eapaka.SubtypeSynchronizationFailure
      decide
    · rw [h] at hpkt
      refine ⟨identityResponse akaReq ident, toEAPPacket_of_map_some hpkt, ?_⟩
      show eapaka.SubtypeIdentity ≠ eapaka.SubtypeSynchronizationFailure
      decide
    · rw [h] at hpkt
      unfold challengeResponse at hpkt
      simp only at hpkt
      split at hpkt
      · cases hpkt
      · rename_i resp hresp
        refine ⟨resp, toEAPPacket_of_map_some hpkt, ?_⟩
        rw [hsign _ _ _ hresp]
        show eapaka.SubtypeChallenge ≠ eapaka.SubtypeSynchronizationFailure
        decide
  · intro s raw akaReq rand autn netName res ck ik ak kAut sqnBytes amf henc hparse htype hsub
      hparams hvec hident hkaut hreqmac hautn hamf hmaca
    rw [Handle_challenge_dispatch x m req s st raw akaReq henc hparse htype hsub,
      handleChallenge_verified_no_store x m akaReq s st rand autn netName res ck ik ak kAut
        sqnBytes amf hst hparams hvec hident hkaut hreqmac hautn hamf hmaca]

theorem Handle_no_store_never_sync_failure_witness :
    Method.Handle sampleLibChallenge (some sampleMethod) sampleChallengeRequest
        (some sampleSession) () =
      ⟨some sampleSession, (), challengeResponse sampleLibChallenge sampleChallenge [] []⟩ :=
  (Handle_no_store_never_sync_failure sampleLibChallenge sampleOptions sampleMethod
    sampleChallengeRequest (some sampleSession) () (by rfl) rfl
    (by
      intro p k p2 h
      have h2 : p = p2 := Except.ok.inj h
      rw [h2])).2.2
    sampleSession [1, 2, 0, 8, 23, 1, 0, 0] sampleChallenge (List.replicate 16 0)
    [0, 0, 0, 0, 0, 0x21, 0x80, 0x00, 0, 0, 0, 0, 0, 0, 0, 0] "" [] [] []
    (List.replicate 6 0) [] [0, 0, 0, 0, 0, 0x21] [0x80, 0x00]
    (by rfl) (by rfl) (by rfl) (by rfl) (by rfl) (by rfl) (by decide) (by rfl) (by rfl)
    (by rfl) (by rfl) (by rfl)

theorem shift_or_lt (v c n : Nat) (hv : v < 2 ^ n) (hc : c < 256) (hn : n + 8 ≤ 64) :
    ((v <<< 8) % 2 ^ 64) ||| c < 2 ^ (n + 8) := by
  have h1 : v <<< 8 = v * 2 ^ 8 := Nat.shiftLeft_eq v 8
  have h2 : v * 2 ^ 8 < 2 ^ (n + 8) := by
    rw [Nat.pow_add]
    exact Nat.mul_lt_mul_of_pos_right hv (by decide)
  have h3 : 2 ^ (n + 8) ≤ 2 ^ 64 := Nat.pow_le_pow_right (by decide) hn
  have h4 : (v <<< 8) % 2 ^ 64 = v * 2 ^ 8 := by
    rw [h1]
    exact Nat.mod_eq_of_lt (Nat.lt_of_lt_of_le h2 h3)
  have h5 : c < 2 ^ (n + 8) :=
    Nat.lt_of_lt_of_le hc (Nat.pow_le_pow_right (by decide) (by omega) : 2 ^ 8 ≤ 2 ^ (n + 8))
  rw [h4]
  exact Nat.or_lt_two_pow h2 h5

/-- Six bytes always convert to an SQN within 48 bits. -/
theorem sqnBytesToUint64_ok (b : List Nat) (hlen : b.length = 6) (hb : ∀ c ∈ b, c < 256) :
    ∃ sqn, sqnBytesToUint64 b = .ok sqn ∧ sqn ≤ sqnstore.MaxSQN := by
  have hlen2 : ¬ b.length ≠ 6 := fun h => h hlen
  have hr : List.range 6 = [0, 1, 2, 3, 4, 5] := by decide
  have g : ∀ i, b.getD i 0 < 256 := eap.getD_byte b hb
  have hconv : sqnBytesToUint64 b =
      .ok ((List.range 6).foldl (fun v i => ((v <<< 8) % 2 ^ 64) ||| (b.getD i 0)) 0) := by
    simp only [sqnBytesToUint64, hlen2, if_false]
  refine ⟨_, hconv, ?_⟩
  simp only [hr, List.foldl_cons, List.foldl_nil]
  have s1 := shift_or_lt 0 (b.getD 0 0) 0 (by decide) (g 0) (by decide)
  have s2 := shift_or_lt _ (b.getD 1 0) _ s1 (g 1) (by decide)
  have s3 := shift_or_lt _ (b.getD 2 0) _ s2 (g 2) (by decide)
  have s4 := shift_or_lt _ (b.getD 3 0) _ s3 (g 3) (by decide)
  have s5 := shift_or_lt _ (b.getD 4 0) _ s4 (g 4) (by decide)
  have s6 := shift_or_lt _ (b.getD 5 0) _ s5 (g 5) (by decide)
  have e := sqnstore.MaxSQN_eq
  have e48 : (2 : Nat) ^ (0 + 8 + 8 + 8 + 8 + 8 + 8) = 281474976710656 := by decide
  rw [e48] at s6
  omega

/-- `acceptSQN` once the bytes are converted and the record is loaded. -/
theorem acceptSQN_eq {σ : Type} (m : Method σ) (store : sqnstore.Store σ) (st : σ)
    (sqnBytes : List Nat) (sqn : Nat) (state : sqnstore.SubscriberState) (found : Bool)
    (hconv : sqnBytesToUint64 sqnBytes = .ok sqn)
    (hload : store.Load st m.imsi = .ok (state, found)) :
    m.acceptSQN store st sqnBytes =
      match ((m.baseState state found).AcceptSQN sqn).2 with
      | .error err => (st, .error err)
      | .ok accepted =>
        if accepted then
          match store.Save st m.imsi ((m.baseState state found).AcceptSQN sqn).1 with
          | (st2, some err) => (st2, .error err)
          | (st2, none) => (st2, .ok accepted)
        else
          (st, .ok accepted) := by
  simp only [Method.acceptSQN, hconv, hload, Method.baseState]

/-- A challenge that passes the request MAC, AMF and MAC-A checks, handled
with a store: the SQN check runs first and decides what is returned. -/
theorem handleChallenge_verified_store {σ : Type} (x : Lib) (m : Method σ)
    (store : sqnstore.Store σ) (req : eapaka.Packet) (sess : eap.Session) (st : σ)
    (rand autn : List Nat) (netName : String) (res ck ik ak kAut sqnBytes amf : List Nat)
    (hstore : m.store = some store)
    (hparams : m.extractChallengeParams req = .ok (rand, autn, netName))
    (hvec : m.computeVectors x rand = .ok (res, ck, ik, ak))
    (hident : (if sess.InnerIdentity = "" then sess.OuterIdentity else sess.InnerIdentity) ≠ "")
    (hkaut : m.deriveKAut x
      (if sess.InnerIdentity = "" then sess.OuterIdentity else sess.InnerIdentity)
      ck ik netName = .ok kAut)
    (hreqmac : verifyRequestMac x req kAut = none)
    (hautn : decodeAutn autn ak = .ok (sqnBytes, amf))
    (hamf : amf = m.amfBytes)
    (hmaca : m.verifyMacA x rand sqnBytes amf autn = .ok true) :
    m.handleChallenge x req sess st =
      match m.acceptSQN store st sqnBytes with
      | (st2, .error err) => (st2, .error err)
      | (st2, .ok accepted) =>
        if !accepted then
          match m.generateAUTS x store st2 rand with
          | .error err => (st2, .error err)
          | .ok auts => (st2, (synchronizationFailure x req auts).map some)
        else
          (st2, challengeResponse x req res kAut) := by
  have hamf2 : ¬ amf ≠ m.amfBytes := fun h => h hamf
  simp only [Method.handleChallenge, hparams, hvec, hident, if_false, hkaut, hreqmac, hautn,
    hamf2, hmaca, hstore]

/-- C20: in the SQN check of a challenge, for every store content and every
received 6-byte SQN, with `base` the loaded state (or the state built from
the configured initial SQN when no record exists) and `(updated, verdict)`
the outcome of `AcceptSQN` on it: the verdict is true or false, never an
error; if it is true, `Save` is called with `updated` for the IMSI, and
`acceptSQN` returns true only with the store content `Save` left and no Save
error, so that a store that returns what was saved holds the record
`updated`, while a failed Save yields its error; if it is false, the store
content is unchanged. For a challenge that passes the MAC, AMF and MAC-A
checks, `handleChallenge` builds the Challenge response only on the store
content left by the successful Save, returns the Save error instead of a
response, and leaves the content unchanged for a stale SQN. -/
theorem acceptSQN_saves_before_reply {σ : Type} (x : Lib) (m : Method σ)
    (store : sqnstore.Store σ) (st : σ) (sqnBytes : List Nat) (sqn : Nat)
    (state base updated : sqnstore.SubscriberState) (found : Bool)
    (verdict : Except String Bool)
    (hlen : sqnBytes.length = 6) (hbytes : ∀ c ∈ sqnBytes, c < 256)
    (hconv : sqnBytesToUint64 sqnBytes = .ok sqn)
    (hload : store.Load st m.imsi = .ok (state, found))
    (hbase : base = if found then state else initialState m.initialSQN)
    (hacc : base.AcceptSQN sqn = (updated, verdict)) :
    (verdict = .ok true ∨ verdict = .ok false) ∧
    (verdict = .ok true → ∀ st2, store.Save st m.imsi updated = (st2, none) →
      m.acceptSQN store st sqnBytes = (st2, .ok true)) ∧
    (verdict = .ok true → ∀ st2 err, store.Save st m.imsi updated = (st2, some err) →
      m.acceptSQN store st sqnBytes = (st2, .error err)) ∧
    (verdict = .ok false → m.acceptSQN store st sqnBytes = (st, .ok false)) ∧
    ((∀ c i s c2, store.Save c i s = (c2, none) → store.Load c2 i = .ok (s, true)) →
      ∀ st2, m.acceptSQN store st sqnBytes = (st2, .ok true) →
        store.Load st2 m.imsi = .ok (updated, true)) ∧
    (∀ (req : eapaka.Packet) (sess : eap.Session) (rand autn : List Nat) (netName : String)
        (res ck ik ak kAut amf : List Nat),
      m.store = some store →
      m.extractChallengeParams req = .ok (rand, autn, netName) →
      m.computeVectors x rand = .ok (res, ck, ik, ak) →
      (if sess.InnerIdentity = "" then sess.OuterIdentity else sess.InnerIdentity) ≠ "" →
      m.deriveKAut x (if sess.InnerIdentity = "" then sess.OuterIdentity else sess.InnerIdentity)
        ck ik netName = .ok kAut →
      verifyRequestMac x req kAut = none →
      decodeAutn autn ak = .ok (sqnBytes, amf) →
      amf = m.amfBytes →
      m.verifyMacA x rand sqnBytes amf autn = .ok true →
      (verdict = .ok true → ∀ st2, store.Save st m.imsi updated = (st2, none) →
        m.handleChallenge x req sess st = (st2, challengeResponse x req res kAut)) ∧
      (verdict = .ok true → ∀ st2 err, store.Save st m.imsi updated = (st2, some err) →
        m.handleChallenge x req sess st = (st2, .error err)) ∧
      (verdict = .ok false → (m.handleChallenge x req sess st).1 = st)) := by
  have hbase2 : m.baseState state found = base := by
    rw [hbase]
    cases found <;> rfl
  have hA := acceptSQN_eq m store st sqnBytes sqn state found hconv hload
  rw [hbase2, hacc] at hA
  simp only at hA
  have hfresh : verdict = .ok true → ∀ st2, store.Save st m.imsi updated = (st2, none) →
      m.acceptSQN store st sqnBytes = (st2, .ok true) := by
    intro hv st2 hs
    rw [hA, hv]
    simp only [if_true, hs]
  have hfail : verdict = .ok true → ∀ st2 err, store.Save st m.imsi updated = (st2, some err) →
      m.acceptSQN store st sqnBytes = (st2, .error err) := by
    intro hv st2 err hs
    rw [hA, hv]
    simp only [if_true, hs]
  have hstale : verdict = .ok false → m.acceptSQN store st sqnBytes = (st, .ok false) := by
    intro hv
    rw [hA, hv]
    simp only [Bool.false_eq_true, if_false]
  have htwo : verdict = .ok true ∨ verdict = .ok false := by
    obtain ⟨sqn2, hc2, hle⟩ := sqnBytesToUint64_ok sqnBytes hlen hbytes
    rw [hconv] at hc2
    have hs : sqn = sqn2 := Except.ok.inj hc2
    subst hs
    rcases sqnstore.AcceptSQN_cases base sqn with ⟨hgt, _⟩ | ⟨_, _, h⟩ | ⟨_, _, h⟩
    · omega
    · rw [hacc] at h
      exact Or.inr (congrArg Prod.snd h)
    · rw [hacc] at h
      exact Or.inl (congrArg Prod.snd h)
  refine ⟨htwo, hfresh, hfail, hstale, ?_, ?_⟩
  · intro hlaw st2 hres
    rcases htwo with hv | hv
    · cases hs : store.Save st m.imsi updated with
      | mk c2 e =>
        cases e with
        | none =>
          have h1 := hfresh hv c2 hs
          rw [h1] at hres
          have h2 : c2 = st2 := congrArg Prod.fst hres
          rw [← h2]
          exact hlaw st m.imsi updated c2 hs
        | some err =>
          have h1 := hfail hv c2 err hs
          rw [h1] at hres
          have h2 := congrArg Prod.snd hres
          cases h2
    · rw [hstale hv] at hres
      have h2 := congrArg Prod.snd hres
      simp at h2
  · intro req sess rand autn netName res ck ik ak kAut amf hstore hparams hvec hident hkaut
      hreqmac hautn hamf hmaca
    have hC := handleChallenge_verified_store x m store req sess st rand autn netName res ck ik
      ak kAut sqnBytes amf hstore hparams hvec hident hkaut hreqmac hautn hamf hmaca
    refine ⟨?_, ?_, ?_⟩
    · intro hv st2 hs
      rw [hC, hfresh hv st2 hs]
      rfl
    · intro hv st2 err hs
      rw [hC, hfail hv st2 err hs]
    · intro hv
      rw [hC, hstale hv]
      simp only [Bool.not_false, if_true]
      cases m.generateAUTS x store st rand <;> rfl

/-- The memory store returns what was saved. -/
theorem memoryStore_load_after_save (c : Option sqnstore.MemoryStore) (i : String)
    (s : sqnstore.SubscriberState) (c2 : Option sqnstore.MemoryStore)
    (h : sqnstore.memoryStore.Save c i s = (c2, none)) :
    sqnstore.memoryStore.Load c2 i = .ok (s, true) := by
  simp only [sqnstore.memoryStore, sqnstore.MemoryStore.Save] at h
  by_cases hi : i = ""
  · simp only [hi, if_true, Prod.mk.injEq] at h
    exact absurd h.2 (by simp)
  · simp only [hi, if_false] at h
    cases c with
    | none =>
      simp only [Prod.mk.injEq] at h
      exact absurd h.2 (by simp)
    | some mem =>
      simp only [Prod.mk.injEq, and_true] at h
      subst h
      simp only [sqnstore.memoryStore, sqnstore.MemoryStore.Load, hi, if_false, if_true]

theorem acceptSQN_saves_before_reply_witness :
    sampleMethodStore.acceptSQN sqnstore.memoryStore (some sqnstore.NewMemoryStore)
        [0, 0, 0, 0, 0, 0x21] =
      ((sqnstore.memoryStore.Save (some sqnstore.NewMemoryStore) "440100123456789"
          ((initialState 0).AcceptSQN 0x21).1).1, .ok true) ∧
    sqnstore.memoryStore.Load
        (sampleMethodStore.acceptSQN sqnstore.memoryStore (some sqnstore.NewMemoryStore)
          [0, 0, 0, 0, 0, 0x21]).1 "440100123456789" =
      .ok (((initialState 0).AcceptSQN 0x21).1, true) :=
  ⟨(acceptSQN_saves_before_reply sampleLib sampleMethodStore sqnstore.memoryStore
      (some sqnstore.NewMemoryStore) [0, 0, 0, 0, 0, 0x21] 0x21 sqnstore.SubscriberState.zero
      (initialState 0) ((initialState 0).AcceptSQN 0x21).1 false (.ok true)
      (by rfl) (by decide) (by rfl) (by rfl) (by rfl) (by rfl)).2.1 rfl _ rfl,
   (acceptSQN_saves_before_reply sampleLib sampleMethodStore sqnstore.memoryStore
      (some sqnstore.NewMemoryStore) [0, 0, 0, 0, 0, 0x21] 0x21 sqnstore.SubscriberState.zero
      (initialState 0) ((initialState 0).AcceptSQN 0x21).1 false (.ok true)
      (by rfl) (by decide) (by rfl) (by rfl) (by rfl) (by rfl)).2.2.2.2.1
      memoryStore_load_after_save _ rfl⟩

end aka

/-! ## Properties of the AKA method: subtype dispatch and construction -/

namespace aka

/-- C21 fails as stated: after the sample Challenge request has been
answered with a Challenge response, the Identity request handled by the same
method on the same session is answered with an Identity response, not with
an error. -/
theorem Handle_identity_after_challenge_answered :
    (Method.Handle sampleLibSession (some sampleMethod) sampleChallengeRequest
        (some sampleSession) ()).result =
      .ok (some { Code := eap.CodeResponse, Identifier := 2, Type_ := eap.TypeAKA,
                  TypeData := [eapaka.SubtypeChallenge, 0, 0] }) ∧
    (Method.Handle sampleLibSession (some sampleMethod) sampleRequestPlain
        (Method.Handle sampleLibSession (some sampleMethod) sampleChallengeRequest
          (some sampleSession) ()).session
        (Method.Handle sampleLibSession (some sampleMethod) sampleChallengeRequest
          (some sampleSession) ()).store).result =
      .ok (some { Code := eap.CodeResponse, Identifier := 4, Type_ := eap.TypeAKA,
                  TypeData := [eapaka.SubtypeIdentity, 0, 0] }) := by
  constructor
  · rfl
  · rfl

/-- `Handle` on a request whose Subtype is neither Identity nor Challenge. -/
theorem Handle_unsupported_subtype {σ : Type} (x : Lib) (m : Method σ) (req : eap.Packet)
    (sess : Option eap.Session) (st : σ) (raw : List Nat) (akaReq : eapaka.Packet)
    (henc : req.Encode = .ok raw) (hparse : x.Parse raw = .ok akaReq)
    (htype : akaReq.Type_ = m.methodType)
    (hni : akaReq.Subtype ≠ eapaka.SubtypeIdentity)
    (hnc : akaReq.Subtype ≠ eapaka.SubtypeChallenge) :
    Method.Handle x (some m) req sess st = ⟨sess, st, .error "aka: unsupported subtype"⟩ := by
  have hne : ¬ akaReq.Type_ ≠ m.methodType := fun h => h htype
  simp only [Method.Handle, henc, hparse, hne, if_false, hni, hnc]

/-- C21 (amended): `Handle` keeps no record of the subtypes it has answered.
After a Challenge-subtype request has been handled, which leaves the session
as it was, a subsequent Identity-subtype request handled by the same method
and session gets exactly the outcome of the Identity sub-handler on that
session; the unsupported-subtype error, with no response and nothing
changed, is returned only for a Subtype other than Identity and Challenge. -/
theorem Handle_identity_after_challenge {σ : Type} (x : Lib) (m : Method σ)
    (req1 req2 : eap.Packet) (sess : eap.Session) (st : σ) (raw1 raw2 : List Nat)
    (akaReq1 akaReq2 : eapaka.Packet)
    (henc1 : req1.Encode = .ok raw1) (hparse1 : x.Parse raw1 = .ok akaReq1)
    (htype1 : akaReq1.Type_ = m.methodType)
    (hsub1 : akaReq1.Subtype = eapaka.SubtypeChallenge)
    (henc2 : req2.Encode = .ok raw2) (hparse2 : x.Parse raw2 = .ok akaReq2)
    (htype2 : akaReq2.Type_ = m.methodType)
    (hsub2 : akaReq2.Subtype = eapaka.SubtypeIdentity) :
    (Method.Handle x (some m) req1 (some sess) st).session = some sess ∧
    Method.Handle x (some m) req2 (Method.Handle x (some m) req1 (some sess) st).session
        (Method.Handle x (some m) req1 (some sess) st).store =
      ⟨some (m.handleIdentity x akaReq2 sess).1,
        (Method.Handle x (some m) req1 (some sess) st).store,
        (m.handleIdentity x akaReq2 sess).2⟩ ∧
    (∀ (req : eap.Packet) (s : Option eap.Session) (c : σ) (raw : List Nat)
        (akaReq : eapaka.Packet),
      req.Encode = .ok raw → x.Parse raw = .ok akaReq → akaReq.Type_ = m.methodType →
      akaReq.Subtype ≠ eapaka.SubtypeIdentity → akaReq.Subtype ≠ eapaka.SubtypeChallenge →
      Method.Handle x (some m) req s c = ⟨s, c, .error "aka: unsupported subtype"⟩) := by
  have h1 := Handle_challenge_dispatch x m req1 sess st raw1 akaReq1 henc1 hparse1 htype1 hsub1
  refine ⟨by rw [h1], ?_, ?_⟩
  · rw [h1]
    exact Handle_identity_dispatch x m req2 sess _ raw2 akaReq2 henc2 hparse2 htype2 hsub2
  · intro req s c raw akaReq henc hparse htype hni hnc
    exact Handle_unsupported_subtype x m req s c raw akaReq henc hparse htype hni hnc

theorem Handle_identity_after_challenge_witness :
    Method.Handle sampleLibSession (some sampleMethod) sampleRequestReauth
        (some sampleSession) () =
      ⟨some sampleSession, (), .error "aka: unsupported subtype"⟩ :=
  (Handle_identity_after_challenge sampleLibSession sampleMethod sampleChallengeRequest
    sampleRequestPlain sampleSession () [1, 2, 0, 8, 23, 1, 0, 0] [1, 4, 0, 8, 23, 5, 0, 0]
    sampleChallenge
    { Code := 1, Identifier := 4, Type_ := 23, Subtype := 5, Attributes := [] }
    (by rfl) (by rfl) (by rfl) (by rfl) (by rfl) (by rfl) (by rfl) (by rfl)).2.2
    sampleRequestReauth (some sampleSession) () [1, 5, 0, 8, 23, 13, 0, 0]
    { Code := 1, Identifier := 5, Type_ := 23, Subtype := 13, Attributes := [] }
    (by rfl) (by rfl) (by rfl) (by decide) (by decide)

/-- C22: `New` succeeds exactly when the method type is AKA (23) or
AKA-prime (50), KI has 16 bytes, OPC has 16 bytes, AMF has 2 bytes and the
IMSI is non-empty; on success `Type()` of the method is the given method
type; otherwise `New` returns an error and no method. -/
theorem New_succeeds_iff {σ : Type} (opts : Options σ) :
    (((opts.MethodType = eap.TypeAKA ∨ opts.MethodType = eap.TypeAKAPrime) ∧
        opts.KI.length = 16 ∧ opts.OPC.length = 16 ∧ opts.AMF.length = 2 ∧ opts.IMSI ≠ "") →
      ∃ m, New opts = .ok m ∧ m.Type_ = opts.MethodType) ∧
    (¬ ((opts.MethodType = eap.TypeAKA ∨ opts.MethodType = eap.TypeAKAPrime) ∧
        opts.KI.length = 16 ∧ opts.OPC.length = 16 ∧ opts.AMF.length = 2 ∧ opts.IMSI ≠ "") →
      ∃ err, New opts = .error err) ∧
    ((∃ m, New opts = .ok m) ↔
      ((opts.MethodType = eap.TypeAKA ∨ opts.MethodType = eap.TypeAKAPrime) ∧
        opts.KI.length = 16 ∧ opts.OPC.length = 16 ∧ opts.AMF.length = 2 ∧ opts.IMSI ≠ "")) := by
  have hok : ((opts.MethodType = eap.TypeAKA ∨ opts.MethodType = eap.TypeAKAPrime) ∧
        opts.KI.length = 16 ∧ opts.OPC.length = 16 ∧ opts.AMF.length = 2 ∧ opts.IMSI ≠ "") →
      ∃ m, New opts = .ok m ∧ m.Type_ = opts.MethodType := by
    rintro ⟨h1, h2, h3, h4, h5⟩
    have n1 : ¬ (opts.MethodType ≠ eap.TypeAKA ∧ opts.MethodType ≠ eap.TypeAKAPrime) := by
      rintro ⟨ha, hb⟩
      rcases h1 with h | h
      · exact ha h
      · exact hb h
    have n2 : ¬ opts.KI.length ≠ 16 := fun h => h h2
    have n3 : ¬ opts.OPC.length ≠ 16 := fun h => h h3
    have n4 : ¬ opts.AMF.length ≠ 2 := fun h => h h4
    have n5 : ¬ opts.IMSI = "" := h5
    unfold New
    rw [if_neg n1, if_neg n2, if_neg n3, if_neg n4, if_neg n5]
    exact ⟨_, rfl, rfl⟩
  have herr : ¬ ((opts.MethodType = eap.TypeAKA ∨ opts.MethodType = eap.TypeAKAPrime) ∧
        opts.KI.length = 16 ∧ opts.OPC.length = 16 ∧ opts.AMF.length = 2 ∧ opts.IMSI ≠ "") →
      ∃ err, New opts = .error err := by
    intro hc
    unfold New
    split_ifs with h1 h2 h3 h4 h5
    · exact ⟨_, rfl⟩
    · exact ⟨_, rfl⟩
    · exact ⟨_, rfl⟩
    · exact ⟨_, rfl⟩
    · exact ⟨_, rfl⟩
    · exfalso
      apply hc
      refine ⟨?_, ?_, ?_, ?_, h5⟩
      · by_cases ha : opts.MethodType = eap.TypeAKA
        · exact Or.inl ha
        · by_cases hb : opts.MethodType = eap.TypeAKAPrime
          · exact Or.inr hb
          · exact absurd ⟨ha, hb⟩ h1
      · exact Classical.not_not.mp h2
      · exact Classical.not_not.mp h3
      · exact Classical.not_not.mp h4
  refine ⟨hok, herr, ?_, ?_⟩
  · rintro ⟨m, hm⟩
    by_contra hc
    obtain ⟨err, he⟩ := herr hc
    rw [hm] at he
    cases he
  · intro hc
    obtain ⟨m, hm, _⟩ := hok hc
    exact ⟨m, hm⟩

theorem New_succeeds_iff_witness :
    ∃ m, New sampleOptions = .ok m ∧ m.Type_ = sampleOptions.MethodType :=
  (New_succeeds_iff sampleOptions).1
    ⟨Or.inl rfl, by decide, by decide, by decide, by decide⟩

end aka

/-! ## Properties of the RADIUS EAP-Message fragmentation -/

namespace radiusc

theorem splitLoop_nil (chunks : List (List Nat)) : splitLoop [] chunks = chunks := by
  rw [splitLoop]
  simp

theorem splitLoop_short (payload : List Nat) (chunks : List (List Nat))
    (h0 : 0 < payload.length) (h : payload.length ≤ 253) :
    splitLoop payload chunks = chunks ++ [payload] := by
  have hn : ¬ payload.length > maxEAPMessageChunk := by
    show ¬ payload.length > 253
    omega
  rw [splitLoop]
  simp only [gt_iff_lt, h0, ↓reduceDIte, hn, if_false, List.take_length]
  rw [List.drop_length, splitLoop_nil]

theorem splitLoop_long (payload : List Nat) (chunks : List (List Nat))
    (h : 253 < payload.length) :
    splitLoop payload chunks = splitLoop (payload.drop 253) (chunks ++ [payload.take 253]) := by
  have h0 : 0 < payload.length := by omega
  have hn : payload.length > maxEAPMessageChunk := h
  rw [splitLoop]
  simp only [gt_iff_lt, h0, ↓reduceDIte, hn, if_true]

theorem splitLoop_acc (n : Nat) : ∀ (payload : List Nat) (chunks : List (List Nat)),
    payload.length ≤ n → splitLoop payload chunks = chunks ++ splitLoop payload [] := by
  induction n with
  | zero =>
    intro payload chunks h
    have hp : payload = [] := List.eq_nil_of_length_eq_zero (by omega)
    subst hp
    rw [splitLoop_nil, splitLoop_nil, List.append_nil]
  | succ n ih =>
    intro payload chunks h
    by_cases h0 : payload.length = 0
    · have hp : payload = [] := List.eq_nil_of_length_eq_zero h0
      subst hp
      rw [splitLoop_nil, splitLoop_nil, List.append_nil]
    · by_cases hs : payload.length ≤ 253
      · rw [splitLoop_short payload chunks (by omega) hs,
          splitLoop_short payload [] (by omega) hs, List.nil_append]
      · have hl : 253 < payload.length := by omega
        have hd : (payload.drop 253).length ≤ n := by
          rw [List.length_drop]
          omega
        rw [splitLoop_long payload chunks hl, splitLoop_long payload [] hl,
          ih (payload.drop 253) (chunks ++ [payload.take 253]) hd,
          ih (payload.drop 253) ([] ++ [payload.take 253]) hd, List.nil_append,
          List.append_assoc]

/-- The loop, one chunk at a time: a non-empty payload gives its first 253
bytes (all of it, if shorter) followed by the chunks of the rest. -/
theorem splitLoop_cons (payload : List Nat) (h : payload ≠ []) :
    splitLoop payload [] = payload.take 253 :: splitLoop (payload.drop 253) [] := by
  have h0 : 0 < payload.length := List.length_pos.mpr h
  by_cases hs : payload.length ≤ 253
  · rw [splitLoop_short payload [] h0 hs, List.take_of_length_le hs,
      List.drop_eq_nil_of_le hs, splitLoop_nil, List.nil_append]
  · have hl : 253 < payload.length := by omega
    rw [splitLoop_long payload [] hl,
      splitLoop_acc (payload.drop 253).length (payload.drop 253) _ (Nat.le_refl _),
      List.nil_append, List.singleton_append]

theorem SplitEAPMessage_eq (payload : List Nat) : SplitEAPMessage payload = splitLoop payload [] := by
  unfold SplitEAPMessage
  by_cases h : payload.length = 0
  · have hp : payload = [] := List.eq_nil_of_length_eq_zero h
    subst hp
    rw [splitLoop_nil]
    rfl
  · rw [if_neg h]

theorem foldl_append_acc (chunks : List (List Nat)) (acc : List Nat) :
    chunks.foldl (fun out chunk => out ++ chunk) acc =
      acc ++ chunks.foldl (fun out chunk => out ++ chunk) [] := by
  induction chunks generalizing acc with
  | nil => simp
  | cons c cs ih =>
    simp only [List.foldl_cons, List.nil_append]
    rw [ih (acc ++ c), ih c, List.append_assoc]

theorem JoinEAPMessage_cons (c : List Nat) (cs : List (List Nat)) :
    JoinEAPMessage (c :: cs) = c ++ JoinEAPMessage cs := by
  unfold JoinEAPMessage
  have h1 : ¬ (c :: cs).length = 0 := by simp
  rw [if_neg h1, List.foldl_cons, List.nil_append, foldl_append_acc cs c]
  by_cases h2 : cs.length = 0
  · have hp : cs = [] := List.eq_nil_of_length_eq_zero h2
    subst hp
    simp
  · rw [if_neg h2]

theorem Join_splitLoop (n : Nat) : ∀ payload : List Nat, payload.length ≤ n →
    JoinEAPMessage (splitLoop payload []) = payload := by
  induction n with
  | zero =>
    intro payload h
    have hp : payload = [] := List.eq_nil_of_length_eq_zero (by omega)
    subst hp
    rw [splitLoop_nil]
    rfl
  | succ n ih =>
    intro payload h
    by_cases hp : payload = []
    · subst hp
      rw [splitLoop_nil]
      rfl
    · have h0 : 0 < payload.length := List.length_pos.mpr hp
      have hd : (payload.drop 253).length ≤ n := by
        rw [List.length_drop]
        omega
      rw [splitLoop_cons payload hp, JoinEAPMessage_cons, ih (payload.drop 253) hd,
        List.take_append_drop]

theorem splitLoop_chunks (n : Nat) : ∀ payload : List Nat, payload.length ≤ n →
    ∀ chunk ∈ splitLoop payload [], chunk ≠ [] ∧ chunk.length ≤ 253 := by
  induction n with
  | zero =>
    intro payload h chunk hc
    have hp : payload = [] := List.eq_nil_of_length_eq_zero (by omega)
    subst hp
    rw [splitLoop_nil] at hc
    cases hc
  | succ n ih =>
    intro payload h chunk hc
    by_cases hp : payload = []
    · subst hp
      rw [splitLoop_nil] at hc
      cases hc
    · have h0 : 0 < payload.length := List.length_pos.mpr hp
      have hd : (payload.drop 253).length ≤ n := by
        rw [List.length_drop]
        omega
      rw [splitLoop_cons payload hp, List.mem_cons] at hc
      rcases hc with hc | hc
      · subst hc
        constructor
        · intro he
          have hl := congrArg List.length he
          rw [List.length_take, List.length_nil] at hl
          omega
        · rw [List.length_take]
          omega
      · exact ih (payload.drop 253) hd chunk hc

theorem splitLoop_getElem (i : Nat) : ∀ payload : List Nat, i * 253 < payload.length →
    (splitLoop payload [])[i]? = some ((payload.drop (i * 253)).take 253) := by
  induction i with
  | zero =>
    intro payload h
    have hp : payload ≠ [] := by
      intro he
      subst he
      simp at h
    rw [splitLoop_cons payload hp]
    simp
  | succ i ih =>
    intro payload h
    have hp : payload ≠ [] := by
      intro he
      subst he
      simp at h
    have hd : i * 253 < (payload.drop 253).length := by
      rw [List.length_drop]
      omega
    rw [splitLoop_cons payload hp, List.getElem?_cons_succ, ih (payload.drop 253) hd,
      List.drop_drop]
    have e : 253 + i * 253 = (i + 1) * 253 := by omega
    rw [e]

theorem splitLoop_length (n : Nat) : ∀ payload : List Nat, payload.length ≤ n →
    (splitLoop payload []).length = (payload.length + 252) / 253 := by
  induction n with
  | zero =>
    intro payload h
    have hp : payload = [] := List.eq_nil_of_length_eq_zero (by omega)
    subst hp
    rw [splitLoop_nil]
    rfl
  | succ n ih =>
    intro payload h
    by_cases hp : payload = []
    · subst hp
      rw [splitLoop_nil]
      rfl
    · have h0 : 0 < payload.length := List.length_pos.mpr hp
      have hd : (payload.drop 253).length ≤ n := by
        rw [List.length_drop]
        omega
      rw [splitLoop_cons payload hp, List.length_cons, ih (payload.drop 253) hd,
        List.length_drop]
      omega

/-- C23: for every byte payload, joining the chunks of `SplitEAPMessage`
gives the payload back byte for byte; every chunk is non-empty and has at
most 253 bytes; the chunks are the consecutive 253-byte pieces of the payload
in payload order, chunk `i` being bytes `253 i` up to `253 (i + 1)`, and there
are as many as the payload needs; a 600-byte payload gives chunks of 253, 253
and 94 bytes. -/
theorem Join_Split_roundtrip (payload : List Nat) :
    JoinEAPMessage (SplitEAPMessage payload) = payload ∧
    (∀ chunk ∈ SplitEAPMessage payload, chunk ≠ [] ∧ chunk.length ≤ 253) ∧
    (SplitEAPMessage payload).length = (payload.length + 252) / 253 ∧
    (∀ i, i * 253 < payload.length →
      (SplitEAPMessage payload)[i]? = some ((payload.drop (i * 253)).take 253)) ∧
    (payload.length = 600 → (SplitEAPMessage payload).map List.length = [253, 253, 94]) := by
  rw [SplitEAPMessage_eq]
  refine ⟨Join_splitLoop _ payload (Nat.le_refl _), splitLoop_chunks _ payload (Nat.le_refl _),
    splitLoop_length _ payload (Nat.le_refl _), fun i h => splitLoop_getElem i payload h, ?_⟩
  intro h600
  have hl := splitLoop_length _ payload (Nat.le_refl _)
  rw [h600] at hl
  have g0 := splitLoop_getElem 0 payload (by omega)
  have g1 := splitLoop_getElem 1 payload (by omega)
  have g2 := splitLoop_getElem 2 payload (by omega)
  generalize splitLoop payload [] = cs at hl g0 g1 g2
  match cs, hl, g0, g1, g2 with
  | [a, b, c], _, g0, g1, g2 =>
    simp only [List.getElem?_cons_zero, List.getElem?_cons_succ, Option.some.injEq] at g0 g1 g2
    subst g0 g1 g2
    simp only [List.map_cons, List.map_nil, List.length_take, List.length_drop, h600]
    rfl

theorem Join_Split_roundtrip_witness :
    (SplitEAPMessage (List.replicate 600 7)).map List.length = [253, 253, 94] :=
  (Join_Split_roundtrip (List.replicate 600 7)).2.2.2.2 (List.length_replicate 600 7)

end radiusc

/-! ## Properties of the EAP-Message attributes of a packet -/

namespace radiusc

/-- The values of the EAP-Message attributes of an attribute list, in
attribute order. -/
theorem lookup_fold (attrs : radius.Attributes) (acc : List Nat) (found : Bool) :
    attrs.foldl
      (fun (acc : List Nat × Bool) avp =>
        if avp.Type_ ≠ rfc2869.EAPMessage_Type then acc
        else (acc.1 ++ avp.Attribute, true))
      (acc, found) =
    (acc ++ ((attrs.filter (fun avp => avp.Type_ = rfc2869.EAPMessage_Type)).map
        (fun avp => avp.Attribute)).flatten,
      found || attrs.any (fun avp => avp.Type_ = rfc2869.EAPMessage_Type)) := by
  induction attrs generalizing acc found with
  | nil => simp
  | cons avp rest ih =>
    by_cases h : avp.Type_ = rfc2869.EAPMessage_Type
    · simp only [List.foldl_cons, h, ne_eq, not_true_eq_false, if_false]
      rw [ih]
      simp [h]
    · simp only [List.foldl_cons, h, ne_eq, not_false_eq_true, if_true]
      rw [ih]
      simp [h]

theorem LookupEAPMessage_eq (p : radius.Packet) :
    LookupEAPMessage (some p) =
      .ok (((p.Attributes.filter (fun avp => avp.Type_ = rfc2869.EAPMessage_Type)).map
          (fun avp => avp.Attribute)).flatten,
        p.Attributes.any (fun avp => avp.Type_ = rfc2869.EAPMessage_Type)) := by
  unfold LookupEAPMessage
  simp only [lookup_fold, List.nil_append, Bool.false_or]
  cases h : p.Attributes.any (fun avp => avp.Type_ = rfc2869.EAPMessage_Type)
  · have hf : p.Attributes.filter (fun avp => avp.Type_ = rfc2869.EAPMessage_Type) = [] := by
      rw [List.filter_eq_nil_iff]
      intro a ha hta
      have : p.Attributes.any (fun avp => avp.Type_ = rfc2869.EAPMessage_Type) = true :=
        List.any_eq_true.mpr ⟨a, ha, hta⟩
      rw [h] at this
      cases this
    simp [hf]
  · simp

theorem addChunks_ok (chunks : List (List Nat)) (p : radius.Packet)
    (h : ∀ chunk ∈ chunks, chunk.length ≤ 253) :
    addChunks p chunks =
      ({ p with Attributes := p.Attributes ++
          chunks.map (fun chunk => { Type_ := rfc2869.EAPMessage_Type, Attribute := chunk }) },
        none) := by
  induction chunks generalizing p with
  | nil => simp [addChunks]
  | cons c cs ih =>
    have hc : ¬ c.length > 253 := by
      have := h c (List.mem_cons_self c cs)
      omega
    simp only [addChunks, radius.NewBytes, hc, if_false]
    rw [ih _ (fun chunk hm => h chunk (List.mem_cons_of_mem c hm))]
    simp [radius.Attributes.Add]

theorem flatten_eq_Join (chunks : List (List Nat)) : chunks.flatten = JoinEAPMessage chunks := by
  induction chunks with
  | nil => rfl
  | cons c cs ih => rw [JoinEAPMessage_cons, List.flatten_cons, ih]

/-- C24: `LookupEAPMessage` returns the concatenation, in attribute order, of
the values of all EAP-Message attributes of the packet, with found = true
exactly when the packet has such an attribute (and no bytes otherwise);
hence, for every packet, whatever EAP-Message attributes it carried, and
every non-empty payload, `AddEAPMessage` succeeds, leaves the other
attributes in place followed by the chunks of the payload, and
`LookupEAPMessage` on the packet then returns exactly the payload. -/
theorem Lookup_after_Add (p : radius.Packet) (payload : List Nat) :
    LookupEAPMessage (some p) =
      .ok (((p.Attributes.filter (fun avp => avp.Type_ = rfc2869.EAPMessage_Type)).map
          (fun avp => avp.Attribute)).flatten,
        p.Attributes.any (fun avp => avp.Type_ = rfc2869.EAPMessage_Type)) ∧
    ((∃ out, LookupEAPMessage (some p) = .ok (out, true)) ↔
      ∃ avp ∈ p.Attributes, avp.Type_ = rfc2869.EAPMessage_Type) ∧
    (payload ≠ [] →
      AddEAPMessage (some p) payload =
        (some { p with Attributes :=
            (List.filter (fun avp => avp.Type_ ≠ rfc2869.EAPMessage_Type) p.Attributes ++
              List.map
                (fun chunk => { Type_ := rfc2869.EAPMessage_Type, Attribute := chunk })
                (SplitEAPMessage payload)) },
          none) ∧
      LookupEAPMessage (AddEAPMessage (some p) payload).1 = .ok (payload, true)) := by
  refine ⟨LookupEAPMessage_eq p, ?_, ?_⟩
  · rw [LookupEAPMessage_eq]
    constructor
    · rintro ⟨out, h⟩
      simp only [Except.ok.injEq, Prod.mk.injEq] at h
      obtain ⟨a, ha, hta⟩ := List.any_eq_true.mp h.2
      exact ⟨a, ha, by simpa using hta⟩
    · rintro ⟨a, ha, hta⟩
      have : p.Attributes.any (fun avp => avp.Type_ = rfc2869.EAPMessage_Type) = true :=
        List.any_eq_true.mpr ⟨a, ha, by simpa using hta⟩
      exact ⟨_, by rw [this]⟩
  · intro hne
    have hlen : ¬ payload.length = 0 := by
      intro h0
      exact hne (List.eq_nil_of_length_eq_zero h0)
    have hchunks := (Join_Split_roundtrip payload).2.1
    have hadd : AddEAPMessage (some p) payload =
        (some { p with Attributes :=
            (List.filter (fun avp => avp.Type_ ≠ rfc2869.EAPMessage_Type) p.Attributes ++
              List.map
                (fun chunk => { Type_ := rfc2869.EAPMessage_Type, Attribute := chunk })
                (SplitEAPMessage payload)) },
          none) := by
      simp only [AddEAPMessage, hlen, if_false]
      rw [addChunks_ok _ _ (fun chunk hm => (hchunks chunk hm).2)]
      rfl
    refine ⟨hadd, ?_⟩
    rw [hadd, LookupEAPMessage_eq]
    have hsplit : SplitEAPMessage payload ≠ [] := by
      intro he
      have := (Join_Split_roundtrip payload).1
      rw [he] at this
      exact hne this.symm
    have hf : (p.Attributes.filter (fun avp => avp.Type_ ≠ rfc2869.EAPMessage_Type) ++
        (SplitEAPMessage payload).map
          (fun chunk => ({ Type_ := rfc2869.EAPMessage_Type, Attribute := chunk } : radius.AVP))).filter
          (fun avp => avp.Type_ = rfc2869.EAPMessage_Type) =
        (SplitEAPMessage payload).map
          (fun chunk => { Type_ := rfc2869.EAPMessage_Type, Attribute := chunk }) := by
      rw [List.filter_append, List.filter_filter]
      have h1 : p.Attributes.filter (fun a =>
          (decide (a.Type_ = rfc2869.EAPMessage_Type) &&
            decide (a.Type_ ≠ rfc2869.EAPMessage_Type))) = [] := by
        rw [List.filter_eq_nil_iff]
        intro a _
        by_cases h : a.Type_ = rfc2869.EAPMessage_Type <;> simp [h]
      rw [h1, List.nil_append, List.filter_eq_self]
      intro a ha
      obtain ⟨chunk, _, hc⟩ := List.mem_map.mp ha
      rw [← hc]
      simp
    have hany : (p.Attributes.filter (fun avp => avp.Type_ ≠ rfc2869.EAPMessage_Type) ++
        (SplitEAPMessage payload).map
          (fun chunk => ({ Type_ := rfc2869.EAPMessage_Type, Attribute := chunk } : radius.AVP))).any
          (fun avp => avp.Type_ = rfc2869.EAPMessage_Type) = true := by
      obtain ⟨c, cs, hcs⟩ := List.exists_cons_of_ne_nil hsplit
      rw [hcs]
      simp
    simp only [hf, hany, List.map_map]
    have hm : (List.map ((fun avp : radius.AVP => avp.Attribute) ∘
        fun chunk => ({ Type_ := rfc2869.EAPMessage_Type, Attribute := chunk } : radius.AVP))
        (SplitEAPMessage payload)) = SplitEAPMessage payload := by
      have : ((fun avp : radius.AVP => avp.Attribute) ∘
          fun chunk => ({ Type_ := rfc2869.EAPMessage_Type, Attribute := chunk } : radius.AVP)) =
          id := rfl
      rw [this, List.map_id]
    rw [hm, flatten_eq_Join, (Join_Split_roundtrip payload).1]

theorem Lookup_after_Add_witness :
    LookupEAPMessage
        (AddEAPMessage
          (some { Code := radius.CodeAccessRequest, Identifier := 0, Authenticator := [],
                  Secret := [115], Attributes := [{ Type_ := 79, Attribute := [9, 9] }] })
          [1, 2, 3, 4]).1 =
      .ok ([1, 2, 3, 4], true) :=
  ((Lookup_after_Add
    { Code := radius.CodeAccessRequest, Identifier := 0, Authenticator := [],
      Secret := [115], Attributes := [{ Type_ := 79, Attribute := [9, 9] }] }
    [1, 2, 3, 4]).2.2 (by decide)).2

end radiusc
/-! ## Properties of the Message-Authenticator computation -/

namespace radiusc

theorem setScan_found (key : Nat) (v : List Nat) (a : radius.Attributes) :
    radius.Attributes.setScan key v a true = a.filter fun avp => avp.Type_ ≠ key := by
  induction a with
  | nil => rfl
  | cons avp rest ih =>
    by_cases h : avp.Type_ = key
    · simp [radius.Attributes.setScan, h, ih]
    · simp [radius.Attributes.setScan, h, ih]

theorem filter_keyless (key : Nat) (a : radius.Attributes)
    (h : ∀ avp ∈ a, avp.Type_ ≠ key) :
    (a.filter fun avp => avp.Type_ ≠ key) = a := by
  rw [List.filter_eq_self]
  intro avp ha
  simpa using h avp ha

theorem setScan_keyless_prefix (key : Nat) (v : List Nat) (pre rest : radius.Attributes)
    (found : Bool) (h : ∀ avp ∈ pre, avp.Type_ ≠ key) :
    radius.Attributes.setScan key v (pre ++ rest) found =
      pre ++ radius.Attributes.setScan key v rest found := by
  induction pre with
  | nil => rfl
  | cons avp pre ih =>
    have h1 : avp.Type_ ≠ key := h avp (List.mem_cons_self _ _)
    have h2 : ∀ avp ∈ pre, avp.Type_ ≠ key := fun x hx => h x (List.mem_cons_of_mem _ hx)
    simp [radius.Attributes.setScan, h1, ih h2]

/-- The shape of `Attributes.Set`: the attribute of the type stands once,
between two parts that are free of the type and do not depend on the value. -/
theorem Set_shape (key : Nat) (a : radius.Attributes) :
    ∃ pre post : radius.Attributes,
      (∀ avp ∈ pre, avp.Type_ ≠ key) ∧ (∀ avp ∈ post, avp.Type_ ≠ key) ∧
      (a.filter fun avp => avp.Type_ ≠ key) = pre ++ post ∧
      ∀ v, radius.Attributes.Set a key v = pre ++ { Type_ := key, Attribute := v } :: post := by
  induction a with
  | nil =>
    exact ⟨[], [], by simp, by simp, rfl, fun v => rfl⟩
  | cons avp rest ih =>
    obtain ⟨pre, post, hpre, hpost, hfil, hset⟩ := ih
    by_cases h : avp.Type_ = key
    · refine ⟨[], rest.filter (fun x => x.Type_ ≠ key), by simp, ?_, ?_, ?_⟩
      · intro x hx
        simpa using (List.mem_filter.mp hx).2
      · simp [List.filter_cons, h]
      · intro v
        simp [radius.Attributes.Set, radius.Attributes.setScan, h, setScan_found]
    · refine ⟨avp :: pre, post, ?_, hpost, ?_, ?_⟩
      · intro x hx
        rcases List.mem_cons.mp hx with hx | hx
        · rw [hx]; exact h
        · exact hpre x hx
      · simp [List.filter_cons, h, ← hfil]
      · intro v
        have hv := hset v
        unfold radius.Attributes.Set at hv ⊢
        by_cases hany : rest.any (fun x => decide (x.Type_ = key)) = true
        · rw [if_pos hany] at hv
          have : (avp :: rest).any (fun x => decide (x.Type_ = key)) = true := by
            simp only [List.any_cons, hany, Bool.or_true]
          rw [if_pos this]
          simp [radius.Attributes.setScan, h, hv]
        · rw [if_neg hany] at hv
          have : ¬ (avp :: rest).any (fun x => decide (x.Type_ = key)) = true := by
            simp only [List.any_cons, Bool.or_eq_true, decide_eq_true_eq]
            rintro (h' | h')
            · exact h h'
            · exact hany h'
          rw [if_neg this]
          simp only [radius.Attributes.Add] at hv ⊢
          simp [hv]

/-- Setting the attribute on a list of that shape replaces the value. -/
theorem Set_on_shape (key : Nat) (pre post : radius.Attributes) (v w : List Nat)
    (hpre : ∀ avp ∈ pre, avp.Type_ ≠ key) (hpost : ∀ avp ∈ post, avp.Type_ ≠ key) :
    radius.Attributes.Set (pre ++ { Type_ := key, Attribute := v } :: post) key w =
      pre ++ { Type_ := key, Attribute := w } :: post := by
  unfold radius.Attributes.Set
  have hany : (pre ++ ({ Type_ := key, Attribute := v } : radius.AVP) :: post).any
      (fun x => decide (x.Type_ = key)) = true := by
    simp
  rw [if_pos hany, setScan_keyless_prefix key w pre _ false hpre]
  simp only [radius.Attributes.setScan, if_true, setScan_found, filter_keyless key post hpost]
  simp

theorem filter_shape (key : Nat) (pre post : radius.Attributes) (v : List Nat)
    (hpre : ∀ avp ∈ pre, avp.Type_ ≠ key) (hpost : ∀ avp ∈ post, avp.Type_ ≠ key) :
    (pre ++ ({ Type_ := key, Attribute := v } : radius.AVP) :: post).filter
      (fun avp => avp.Type_ = key) = [{ Type_ := key, Attribute := v }] := by
  have h1 : pre.filter (fun avp => decide (avp.Type_ = key)) = [] := by
    rw [List.filter_eq_nil_iff]
    intro x hx
    simpa using hpre x hx
  have h2 : post.filter (fun avp => decide (avp.Type_ = key)) = [] := by
    rw [List.filter_eq_nil_iff]
    intro x hx
    simpa using hpost x hx
  simp [List.filter_append, List.filter_cons, h1, h2]

theorem map_shape (key : Nat) (pre post : radius.Attributes) (v w : List Nat)
    (hpre : ∀ avp ∈ pre, avp.Type_ ≠ key) (hpost : ∀ avp ∈ post, avp.Type_ ≠ key) :
    (pre ++ ({ Type_ := key, Attribute := v } : radius.AVP) :: post).map
      (fun avp => if avp.Type_ = key then { avp with Attribute := w } else avp) =
      pre ++ { Type_ := key, Attribute := w } :: post := by
  have h1 : ∀ l : radius.Attributes, (∀ avp ∈ l, avp.Type_ ≠ key) →
      l.map (fun avp => if avp.Type_ = key then { avp with Attribute := w } else avp) = l := by
    intro l hl
    conv_rhs => rw [← List.map_id l]
    apply List.map_congr_left
    intro x hx
    simp [hl x hx]
  simp [List.map_append, h1 pre hpre, h1 post hpost]

/-- C25: when `SetMessageAuthenticator` succeeds on a packet, the packet
afterwards differs from the one before in its attributes only, it carries
exactly one Message-Authenticator attribute, and the value of that attribute
is the HMAC-MD5, under the shared secret, of the marshalled bytes of the same
packet with the Message-Authenticator value replaced by 16 zero bytes; the
value has 16 bytes when the MAC function yields 16 bytes. -/
theorem SetMessageAuthenticator_value (x : Lib) (p q : radius.Packet)
    (h : SetMessageAuthenticator x (some p) = (some q, none)) :
    ∃ mac raw,
      q = { p with Attributes := q.Attributes } ∧
      q.Attributes.filter (fun avp => avp.Type_ = rfc2869.MessageAuthenticator_Type) =
        [{ Type_ := rfc2869.MessageAuthenticator_Type, Attribute := mac }] ∧
      x.MarshalBinary
        { q with Attributes := q.Attributes.map fun avp =>
            if avp.Type_ = rfc2869.MessageAuthenticator_Type then
              { avp with Attribute := List.replicate 16 0 }
            else avp } = .ok raw ∧
      mac = x.HmacMD5 q.Secret raw ∧
      ((∀ key msg, (x.HmacMD5 key msg).length = 16) → mac.length = 16) ∧
      (q.Attributes.filter fun avp => avp.Type_ ≠ rfc2869.MessageAuthenticator_Type) =
        p.Attributes.filter fun avp => avp.Type_ ≠ rfc2869.MessageAuthenticator_Type := by
  obtain ⟨pre, post, hpre, hpost, hfil, hset⟩ :=
    Set_shape rfc2869.MessageAuthenticator_Type p.Attributes
  unfold SetMessageAuthenticator at h
  simp only at h
  by_cases hs : p.Secret.length = 0
  · rw [if_pos hs] at h
    simp at h
  rw [if_neg hs] at h
  have hz : rfc2869.MessageAuthenticator_Set p (List.replicate 16 0) =
      ({ p with Attributes := pre ++
          { Type_ := rfc2869.MessageAuthenticator_Type, Attribute := List.replicate 16 0 } ::
            post }, none) := by
    unfold rfc2869.MessageAuthenticator_Set radius.NewBytes
    rw [if_neg (by simp)]
    simp only [hset]
  rw [hz] at h
  simp only at h
  cases hm : x.MarshalBinary { p with Attributes := pre ++
      { Type_ := rfc2869.MessageAuthenticator_Type, Attribute := List.replicate 16 0 } ::
        post } with
  | error e =>
    rw [hm] at h
    simp at h
  | ok raw =>
    rw [hm] at h
    simp only at h
    by_cases hl : (x.HmacMD5 p.Secret raw).length > 253
    · unfold rfc2869.MessageAuthenticator_Set radius.NewBytes at h
      rw [if_pos hl] at h
      simp at h
    · unfold rfc2869.MessageAuthenticator_Set radius.NewBytes at h
      rw [if_neg hl] at h
      simp only [Set_on_shape _ pre post _ _ hpre hpost, Prod.mk.injEq, Option.some.injEq,
        and_true] at h
      subst h
      refine ⟨x.HmacMD5 p.Secret raw, raw, rfl, ?_, ?_, rfl, ?_, ?_⟩
      · exact filter_shape _ pre post _ hpre hpost
      · simp only [map_shape _ pre post _ _ hpre hpost]
        exact hm
      · intro h16
        exact h16 _ _
      · rw [hfil]
        show (pre ++ (radius.AVP.mk rfc2869.MessageAuthenticator_Type
          (x.HmacMD5 p.Secret raw)) :: post).filter
            (fun avp => avp.Type_ ≠ rfc2869.MessageAuthenticator_Type) = pre ++ post
        rw [List.filter_append, List.filter_cons, filter_keyless _ pre hpre,
          filter_keyless _ post hpost]
        simp

theorem SetMessageAuthenticator_value_witness :
    ∃ q, SetMessageAuthenticator sampleLib (some samplePacket) = (some q, none) ∧
      ∃ mac raw,
        q = { samplePacket with Attributes := q.Attributes } ∧
        q.Attributes.filter (fun avp => avp.Type_ = rfc2869.MessageAuthenticator_Type) =
          [{ Type_ := rfc2869.MessageAuthenticator_Type, Attribute := mac }] ∧
        sampleLib.MarshalBinary
          { q with Attributes := q.Attributes.map fun avp =>
              if avp.Type_ = rfc2869.MessageAuthenticator_Type then
                { avp with Attribute := List.replicate 16 0 }
              else avp } = .ok raw ∧
        mac = sampleLib.HmacMD5 q.Secret raw ∧
        ((∀ key msg, (sampleLib.HmacMD5 key msg).length = 16) → mac.length = 16) ∧
        (q.Attributes.filter fun avp => avp.Type_ ≠ rfc2869.MessageAuthenticator_Type) =
          samplePacket.Attributes.filter fun avp =>
            avp.Type_ ≠ rfc2869.MessageAuthenticator_Type :=
  ⟨{ samplePacket with
      Attributes :=
        [{ Type_ := 1, Attribute := [117] },
         { Type_ := 80, Attribute := [6, 6, 6, 6, 6, 6, 6, 6, 29, 29, 29, 29, 29, 29, 29, 29] },
         { Type_ := 79, Attribute := [2, 0, 0, 4] }] },
    rfl, SetMessageAuthenticator_value sampleLib samplePacket _ rfl⟩

end radiusc
/-! ## Properties of the MS-MPPE key extraction -/

namespace radiusc

theorem parseLoop_nil (out : List vendorTLV) : parseVendorTLVsLoop [] out = .ok out := by
  rw [parseVendorTLVsLoop]
  simp

theorem parseLoop_short (b : List Nat) (out : List vendorTLV) (h : b.length = 1) :
    parseVendorTLVsLoop b out = .error "radiusc: vendor tlv too short" := by
  rw [parseVendorTLVsLoop]
  simp [h]

theorem parseLoop_invalid (b : List Nat) (out : List vendorTLV) (h : 2 ≤ b.length)
    (hl : b.getD 1 0 < 2 ∨ b.getD 1 0 > b.length) :
    parseVendorTLVsLoop b out = .error "radiusc: invalid vendor tlv length" := by
  have h0 : b.length > 0 := by omega
  have h1 : ¬ b.length < 2 := by omega
  rw [parseVendorTLVsLoop]
  simp only [h0, ↓reduceDIte, h1, if_false, hl]

theorem parseLoop_step (b : List Nat) (out : List vendorTLV) (h2 : 2 ≤ b.getD 1 0)
    (hl : b.getD 1 0 ≤ b.length) :
    parseVendorTLVsLoop b out =
      parseVendorTLVsLoop (b.drop (b.getD 1 0))
        (out ++ [{ typ := b.getD 0 0, value := (b.take (b.getD 1 0)).drop 2 }]) := by
  have h0 : b.length > 0 := by omega
  have h1 : ¬ b.length < 2 := by omega
  have h3 : ¬ (b.getD 1 0 < 2 ∨ b.getD 1 0 > b.length) := by omega
  have hc : eap.copySlice (List.replicate (b.getD 1 0 - 2) 0) ((b.take (b.getD 1 0)).drop 2) =
      (b.take (b.getD 1 0)).drop 2 := by
    have hlen : ((b.take (b.getD 1 0)).drop 2).length = b.getD 1 0 - 2 := by
      rw [List.length_drop, List.length_take, Nat.min_eq_left hl]
    have e1 : ((b.take (b.getD 1 0)).drop 2).take (b.getD 1 0 - 2) =
        (b.take (b.getD 1 0)).drop 2 := List.take_of_length_le (by omega)
    have e2 : (List.replicate (b.getD 1 0 - 2) 0).drop ((b.take (b.getD 1 0)).drop 2).length =
        [] := List.drop_eq_nil_of_le (by rw [List.length_replicate]; omega)
    unfold eap.copySlice
    rw [List.length_replicate, e1, e2, List.append_nil]
  rw [parseVendorTLVsLoop]
  simp only [h0, ↓reduceDIte, h1, if_false, h3, hc]

theorem parseLoop_acc (n : Nat) : ∀ (b : List Nat) (out : List vendorTLV),
    b.length ≤ n →
    parseVendorTLVsLoop b out = (parseVendorTLVsLoop b []).map fun l => out ++ l := by
  induction n with
  | zero =>
    intro b out h
    have hb : b = [] := List.eq_nil_of_length_eq_zero (by omega)
    subst hb
    rw [parseLoop_nil, parseLoop_nil]
    simp [Except.map]
  | succ n ih =>
    intro b out h
    by_cases h0 : b.length = 0
    · have hb : b = [] := List.eq_nil_of_length_eq_zero h0
      subst hb
      rw [parseLoop_nil, parseLoop_nil]
      simp [Except.map]
    · by_cases h1 : b.length = 1
      · rw [parseLoop_short b out h1, parseLoop_short b [] h1]
        rfl
      · by_cases hl : b.getD 1 0 < 2 ∨ b.getD 1 0 > b.length
        · rw [parseLoop_invalid b out (by omega) hl, parseLoop_invalid b [] (by omega) hl]
          rfl
        · have hd : (b.drop (b.getD 1 0)).length ≤ n := by
            rw [List.length_drop]
            omega
          rw [parseLoop_step b out (by omega) (by omega),
            parseLoop_step b [] (by omega) (by omega), ih _ _ hd, ih _ ([] ++ _) hd]
          cases parseVendorTLVsLoop (b.drop (b.getD 1 0)) [] with
          | error e => rfl
          | ok l => simp [Except.map]

/-- One TLV in front of a sequence of TLVs: type byte, length byte counting
the two header bytes, value bytes. -/
theorem parseVendorTLVs_cons (t : Nat) (v rest : List Nat) (tlvs : List vendorTLV)
    (h : parseVendorTLVs rest = .ok tlvs) :
    parseVendorTLVs (t :: (v.length + 2) :: (v ++ rest)) =
      .ok ({ typ := t, value := v } :: tlvs) := by
  unfold parseVendorTLVs at h ⊢
  have hg1 : (t :: (v.length + 2) :: (v ++ rest)).getD 1 0 = v.length + 2 := rfl
  have hg0 : (t :: (v.length + 2) :: (v ++ rest)).getD 0 0 = t := rfl
  rw [parseLoop_step _ _ (by rw [hg1]; omega) (by rw [hg1]; simp), hg1, hg0]
  have hd : (t :: (v.length + 2) :: (v ++ rest)).drop (v.length + 2) = rest := by
    simp [List.drop_succ_cons]
  have ht : ((t :: (v.length + 2) :: (v ++ rest)).take (v.length + 2)).drop 2 = v := by
    simp [List.take_succ_cons]
  rw [hd, ht, parseLoop_acc rest.length rest _ (Nat.le_refl _), h]
  rfl

theorem applyTLVs_append (keys : MPPEKeys) (a b : List vendorTLV) :
    applyTLVs keys (a ++ b) = applyTLVs (applyTLVs keys a) b := by
  unfold applyTLVs
  rw [List.foldl_append]

/-- The outer loop on well-formed attributes: the TLVs of the vendor-311
attributes are applied in order. -/
theorem extractLoop_eq (x : Lib) (attrs : radius.Attributes) (hwf : wellFormedVSAs x attrs) :
    ∀ keys, extractLoop x attrs keys = .ok (applyTLVs keys (microsoftTLVs x attrs)) := by
  induction attrs with
  | nil =>
    intro keys
    rfl
  | cons avp rest ih =>
    intro keys
    have hrest : wellFormedVSAs x rest := fun a ha => hwf a (List.mem_cons_of_mem _ ha)
    have hh : microsoftTLVs x (avp :: rest) = microsoftTLVs x [avp] ++ microsoftTLVs x rest := by
      simp [microsoftTLVs, List.flatMap_cons]
    rw [hh, applyTLVs_append]
    by_cases ht : avp.Type_ = rfc2865.VendorSpecific_Type
    · obtain ⟨vendorID, value, hv, hp⟩ := hwf avp (List.mem_cons_self _ _) ht
      by_cases hm : vendorID = vendorMicrosoftID
      · obtain ⟨tlvs, htl⟩ := hp hm
        have h1 : microsoftTLVs x [avp] = tlvs := by
          simp [microsoftTLVs, ht, hv, hm, htl]
        rw [h1, extractLoop]
        simp only [ne_eq, ht, not_true_eq_false, if_false, hv, hm, htl]
        exact ih hrest _
      · have h1 : microsoftTLVs x [avp] = [] := by
          simp [microsoftTLVs, ht, hv, hm]
        rw [h1, extractLoop]
        simp only [ne_eq, ht, not_true_eq_false, if_false, hv, hm, if_true]
        exact ih hrest _
    · have h1 : microsoftTLVs x [avp] = [] := by
        simp [microsoftTLVs, ht]
      rw [h1, extractLoop]
      simp only [ne_eq, ht, not_false_eq_true, if_true]
      exact ih hrest _

theorem applyTLVs_snoc (keys : MPPEKeys) (l : List vendorTLV) (t : vendorTLV) :
    applyTLVs keys (l ++ [t]) =
      if t.typ = msMPPESendKeyType then
        { applyTLVs keys l with SendKey := t.value, SendKeyPresent := true }
      else if t.typ = msMPPERecvKeyType then
        { applyTLVs keys l with RecvKey := t.value, RecvKeyPresent := true }
      else applyTLVs keys l := by
  unfold applyTLVs
  rw [List.foldl_append]
  rfl

/-- The keys after the inner loop, for one sub-attribute type: present iff
a TLV of the type was met or the key was present before, and the value is
that of the last such TLV. -/
theorem applyTLVs_send (keys : MPPEKeys) (l : List vendorTLV) :
    ((applyTLVs keys l).SendKeyPresent = (keys.SendKeyPresent || l.any fun t => t.typ = 16)) ∧
    (applyTLVs keys l).SendKey =
      match (l.filter fun t => t.typ = 16).getLast? with
      | some t => t.value
      | none => keys.SendKey := by
  induction l using List.reverseRecOn with
  | nil => simp [applyTLVs]
  | append_singleton l t ih =>
    rw [applyTLVs_snoc]
    by_cases h : t.typ = 16
    · simp [msMPPESendKeyType, h, List.filter_append, List.filter_cons]
    · by_cases h' : t.typ = 17
      · simp [msMPPESendKeyType, msMPPERecvKeyType, h, h', List.filter_append, List.filter_cons]
        simpa using ih
      · simp [msMPPESendKeyType, msMPPERecvKeyType, h, h', List.filter_append, List.filter_cons]
        simpa using ih

theorem applyTLVs_recv (keys : MPPEKeys) (l : List vendorTLV) :
    ((applyTLVs keys l).RecvKeyPresent = (keys.RecvKeyPresent || l.any fun t => t.typ = 17)) ∧
    (applyTLVs keys l).RecvKey =
      match (l.filter fun t => t.typ = 17).getLast? with
      | some t => t.value
      | none => keys.RecvKey := by
  induction l using List.reverseRecOn with
  | nil => simp [applyTLVs]
  | append_singleton l t ih =>
    rw [applyTLVs_snoc]
    by_cases h : t.typ = 16
    · have h' : ¬ t.typ = 17 := by omega
      simp [msMPPESendKeyType, h, h', List.filter_append, List.filter_cons]
      simpa using ih
    · by_cases h' : t.typ = 17
      · simp [msMPPESendKeyType, msMPPERecvKeyType, h, h', List.filter_append, List.filter_cons]
      · simp [msMPPESendKeyType, msMPPERecvKeyType, h, h', List.filter_append, List.filter_cons]
        simpa using ih

theorem mem_microsoftTLVs (x : Lib) (attrs : radius.Attributes) (tlv : vendorTLV) :
    tlv ∈ microsoftTLVs x attrs ↔
      ∃ avp ∈ attrs, ∃ value tlvs, avp.Type_ = rfc2865.VendorSpecific_Type ∧
        x.VendorSpecific avp.Attribute = .ok (vendorMicrosoftID, value) ∧
        parseVendorTLVs value = .ok tlvs ∧ tlv ∈ tlvs := by
  unfold microsoftTLVs
  rw [List.mem_flatMap]
  constructor
  · rintro ⟨avp, ha, hin⟩
    refine ⟨avp, ha, ?_⟩
    by_cases ht : avp.Type_ = rfc2865.VendorSpecific_Type
    · rw [if_pos ht] at hin
      cases hv : x.VendorSpecific avp.Attribute with
      | error e => rw [hv] at hin; simp at hin
      | ok r =>
        obtain ⟨vendorID, value⟩ := r
        rw [hv] at hin
        simp only at hin
        by_cases hm : vendorID = vendorMicrosoftID
        · rw [if_pos hm] at hin
          cases hp : parseVendorTLVs value with
          | error e => rw [hp] at hin; simp at hin
          | ok tlvs =>
            rw [hp] at hin
            subst hm
            exact ⟨value, tlvs, ht, rfl, hp, hin⟩
        · rw [if_neg hm] at hin
          simp at hin
    · rw [if_neg ht] at hin
      simp at hin
  · rintro ⟨avp, ha, value, tlvs, ht, hv, hp, hin⟩
    refine ⟨avp, ha, ?_⟩
    rw [if_pos ht, hv]
    simp only [if_true, hp]
    exact hin

theorem microsoftTLVs_filter (x : Lib) (attrs : radius.Attributes) :
    microsoftTLVs x (attrs.filter (isMicrosoftVSA x)) = microsoftTLVs x attrs := by
  induction attrs with
  | nil => rfl
  | cons avp rest ih =>
    have hh : ∀ l, microsoftTLVs x (avp :: l) = microsoftTLVs x [avp] ++ microsoftTLVs x l := by
      intro l
      simp [microsoftTLVs, List.flatMap_cons]
    rw [List.filter_cons]
    by_cases hm : isMicrosoftVSA x avp = true
    · rw [if_pos hm, hh, hh rest, ih]
    · rw [if_neg hm, hh rest, ih]
      have h1 : microsoftTLVs x [avp] = [] := by
        unfold isMicrosoftVSA at hm
        by_cases ht : avp.Type_ = rfc2865.VendorSpecific_Type
        · cases hv : x.VendorSpecific avp.Attribute with
          | error e => simp [microsoftTLVs, ht, hv]
          | ok r =>
            obtain ⟨vendorID, value⟩ := r
            rw [hv] at hm
            simp only [ht, decide_True, Bool.true_and, decide_eq_true_eq] at hm
            simp [microsoftTLVs, ht, hv, hm]
        · simp [microsoftTLVs, ht]
      rw [h1, List.nil_append]

/-- C26: on a packet whose Vendor-Specific attributes are well formed,
`ExtractMPPEKeys` returns keys; SendKeyPresent (resp. RecvKeyPresent) is true
iff some vendor-311 attribute holds a sub-attribute of type 16 (resp. 17);
the key is the value of the last such sub-attribute, and is empty when there
is none; a sub-attribute value is the bytes between its header and the next
sub-attribute; and removing every attribute that is not a vendor-311
Vendor-Specific attribute leaves the result unchanged. -/
theorem ExtractMPPEKeys_keys (x : Lib) (p : radius.Packet)
    (hwf : wellFormedVSAs x p.Attributes) :
    ∃ keys, ExtractMPPEKeys x (some p) = .ok keys ∧
      (keys.SendKeyPresent = true ↔
        ∃ avp ∈ p.Attributes, ∃ value tlvs tlv, avp.Type_ = rfc2865.VendorSpecific_Type ∧
          x.VendorSpecific avp.Attribute = .ok (311, value) ∧
          parseVendorTLVs value = .ok tlvs ∧ tlv ∈ tlvs ∧ tlv.typ = 16) ∧
      (keys.RecvKeyPresent = true ↔
        ∃ avp ∈ p.Attributes, ∃ value tlvs tlv, avp.Type_ = rfc2865.VendorSpecific_Type ∧
          x.VendorSpecific avp.Attribute = .ok (311, value) ∧
          parseVendorTLVs value = .ok tlvs ∧ tlv ∈ tlvs ∧ tlv.typ = 17) ∧
      keys.SendKey =
        (match ((microsoftTLVs x p.Attributes).filter fun t => t.typ = 16).getLast? with
          | some t => t.value
          | none => []) ∧
      keys.RecvKey =
        (match ((microsoftTLVs x p.Attributes).filter fun t => t.typ = 17).getLast? with
          | some t => t.value
          | none => []) ∧
      (∀ t v rest tlvs, parseVendorTLVs rest = .ok tlvs →
        parseVendorTLVs (t :: (v.length + 2) :: (v ++ rest)) =
          .ok ({ typ := t, value := v } :: tlvs)) ∧
      ExtractMPPEKeys x
        (some { p with Attributes := p.Attributes.filter (isMicrosoftVSA x) }) = .ok keys := by
  refine ⟨applyTLVs MPPEKeys.zero (microsoftTLVs x p.Attributes),
    extractLoop_eq x p.Attributes hwf _, ?_, ?_, ?_, ?_, ?_, ?_⟩
  · rw [(applyTLVs_send _ _).1]
    simp only [MPPEKeys.zero, Bool.false_or, List.any_eq_true, decide_eq_true_eq]
    constructor
    · rintro ⟨tlv, hin, ht⟩
      obtain ⟨avp, ha, value, tlvs, h1, h2, h3, h4⟩ := (mem_microsoftTLVs x _ tlv).mp hin
      exact ⟨avp, ha, value, tlvs, tlv, h1, h2, h3, h4, ht⟩
    · rintro ⟨avp, ha, value, tlvs, tlv, h1, h2, h3, h4, ht⟩
      exact ⟨tlv, (mem_microsoftTLVs x _ tlv).mpr ⟨avp, ha, value, tlvs, h1, h2, h3, h4⟩, ht⟩
  · rw [(applyTLVs_recv _ _).1]
    simp only [MPPEKeys.zero, Bool.false_or, List.any_eq_true, decide_eq_true_eq]
    constructor
    · rintro ⟨tlv, hin, ht⟩
      obtain ⟨avp, ha, value, tlvs, h1, h2, h3, h4⟩ := (mem_microsoftTLVs x _ tlv).mp hin
      exact ⟨avp, ha, value, tlvs, tlv, h1, h2, h3, h4, ht⟩
    · rintro ⟨avp, ha, value, tlvs, tlv, h1, h2, h3, h4, ht⟩
      exact ⟨tlv, (mem_microsoftTLVs x _ tlv).mpr ⟨avp, ha, value, tlvs, h1, h2, h3, h4⟩, ht⟩
  · exact (applyTLVs_send _ _).2
  · exact (applyTLVs_recv _ _).2
  · exact parseVendorTLVs_cons
  · have hwf2 : wellFormedVSAs x (p.Attributes.filter (isMicrosoftVSA x)) :=
      fun a ha => hwf a (List.mem_filter.mp ha).1
    have := extractLoop_eq x _ hwf2 MPPEKeys.zero
    rw [microsoftTLVs_filter] at this
    exact this

theorem parseVendorTLVs_sample :
    parseVendorTLVs [16, 6, 0x10, 0x20, 0x30, 0x40, 17, 5, 0xaa, 0xbb, 0xcc] =
      .ok [{ typ := 16, value := [0x10, 0x20, 0x30, 0x40] },
           { typ := 17, value := [0xaa, 0xbb, 0xcc] }] :=
  parseVendorTLVs_cons 16 [0x10, 0x20, 0x30, 0x40] [17, 5, 0xaa, 0xbb, 0xcc] _
    (parseVendorTLVs_cons 17 [0xaa, 0xbb, 0xcc] [] [] (parseLoop_nil []))

theorem sampleAccept_wellFormed : wellFormedVSAs sampleLib sampleAccept.Attributes := by
  intro avp ha _
  simp only [sampleAccept, List.mem_cons, List.mem_singleton, List.not_mem_nil, or_false] at ha
  rcases ha with rfl | rfl
  · exact ⟨9, [16, 3, 0xff], rfl, fun h => absurd h (by decide)⟩
  · exact ⟨311, _, rfl, fun _ => ⟨_, parseVendorTLVs_sample⟩⟩

/-- The packet of the test: the send key and the receive key of the vendor-311
attribute are returned, the attribute of vendor 9 is passed over. -/
theorem ExtractMPPEKeys_sampleAccept :
    ExtractMPPEKeys sampleLib (some sampleAccept) =
      .ok { SendKey := [0x10, 0x20, 0x30, 0x40], RecvKey := [0xaa, 0xbb, 0xcc],
            SendKeyPresent := true, RecvKeyPresent := true } := by
  have h : microsoftTLVs sampleLib sampleAccept.Attributes =
      [{ typ := 16, value := [0x10, 0x20, 0x30, 0x40] },
       { typ := 17, value := [0xaa, 0xbb, 0xcc] }] := by
    have h1 : sampleLib.VendorSpecific [0, 0, 0, 9, 16, 3, 0xff] = .ok (9, [16, 3, 0xff]) := rfl
    have h2 : sampleLib.VendorSpecific
        [0, 0, 1, 55, 16, 6, 0x10, 0x20, 0x30, 0x40, 17, 5, 0xaa, 0xbb, 0xcc] =
        .ok (311, [16, 6, 0x10, 0x20, 0x30, 0x40, 17, 5, 0xaa, 0xbb, 0xcc]) := rfl
    simp [microsoftTLVs, sampleAccept, h1, h2, parseVendorTLVs_sample]
  unfold ExtractMPPEKeys
  simp only
  rw [extractLoop_eq sampleLib _ sampleAccept_wellFormed, h]
  rfl

theorem ExtractMPPEKeys_keys_witness :
    ∃ keys, ExtractMPPEKeys sampleLib (some sampleAccept) = .ok keys ∧
      (keys.SendKeyPresent = true ↔
        ∃ avp ∈ sampleAccept.Attributes, ∃ value tlvs tlv,
          avp.Type_ = rfc2865.VendorSpecific_Type ∧
          sampleLib.VendorSpecific avp.Attribute = .ok (311, value) ∧
          parseVendorTLVs value = .ok tlvs ∧ tlv ∈ tlvs ∧ tlv.typ = 16) ∧
      (keys.RecvKeyPresent = true ↔
        ∃ avp ∈ sampleAccept.Attributes, ∃ value tlvs tlv,
          avp.Type_ = rfc2865.VendorSpecific_Type ∧
          sampleLib.VendorSpecific avp.Attribute = .ok (311, value) ∧
          parseVendorTLVs value = .ok tlvs ∧ tlv ∈ tlvs ∧ tlv.typ = 17) ∧
      keys.SendKey =
        (match ((microsoftTLVs sampleLib sampleAccept.Attributes).filter
            fun t => t.typ = 16).getLast? with
          | some t => t.value
          | none => []) ∧
      keys.RecvKey =
        (match ((microsoftTLVs sampleLib sampleAccept.Attributes).filter
            fun t => t.typ = 17).getLast? with
          | some t => t.value
          | none => []) ∧
      (∀ t v rest tlvs, parseVendorTLVs rest = .ok tlvs →
        parseVendorTLVs (t :: (v.length + 2) :: (v ++ rest)) =
          .ok ({ typ := t, value := v } :: tlvs)) ∧
      ExtractMPPEKeys sampleLib
        (some { sampleAccept with
          Attributes := sampleAccept.Attributes.filter (isMicrosoftVSA sampleLib) }) =
        .ok keys :=
  ExtractMPPEKeys_keys sampleLib sampleAccept sampleAccept_wellFormed

end radiusc

/-! ## Properties of the verdict -/

namespace app

theorem fail_isVerdict (message : String) : isVerdict (fail 1 message) :=
  Or.inr ⟨Or.inl rfl, _, rfl, rfl⟩

theorem wrap_isVerdict (err message : String) : isVerdict (wrap 2 (some err) message) :=
  Or.inr ⟨Or.inr rfl, _, rfl, rfl⟩

theorem fail_code (message : String) (h : (fail 1 message).1 = 2) (P : Prop) : P :=
  absurd (show (1 : Int) = 2 from h) (by decide)

theorem pass_isVerdict : isVerdict (0, none) :=
  Or.inl ⟨rfl, rfl⟩

theorem expectRecvKey_verdict (x : Lib) (tc : testcase.Case) (r : radiusc.Response) :
    ∃ res, expectRecvKey x tc (some r) = some res ∧ isVerdict res ∧
      (res.1 = 2 → keyLiteralFails x tc) := by
  unfold expectRecvKey
  by_cases hk : tc.Expect.MPPE.RecvKey = ""
  · rw [if_neg (not_not.mpr hk)]
    exact ⟨_, rfl, pass_isVerdict, fun h => absurd (show (0 : Int) = 2 from h) (by decide)⟩
  · rw [if_pos hk]
    cases hd : decodeKey x tc.Expect.MPPE.RecvKey with
    | error err =>
      exact ⟨_, rfl, wrap_isVerdict _ _, fun _ => Or.inr ⟨hk, err, hd⟩⟩
    | ok value =>
      simp only
      split
      · exact ⟨_, rfl, fail_isVerdict _, fun h => fail_code _ h _⟩
      · exact ⟨_, rfl, pass_isVerdict, fun h => absurd (show (0 : Int) = 2 from h) (by decide)⟩

theorem expectSendKey_verdict (x : Lib) (tc : testcase.Case) (r : radiusc.Response) :
    ∃ res, expectSendKey x tc (some r) = some res ∧ isVerdict res ∧
      (res.1 = 2 → keyLiteralFails x tc) := by
  unfold expectSendKey
  by_cases hk : tc.Expect.MPPE.SendKey = ""
  · rw [if_neg (not_not.mpr hk)]
    exact expectRecvKey_verdict x tc r
  · rw [if_pos hk]
    cases hd : decodeKey x tc.Expect.MPPE.SendKey with
    | error err =>
      exact ⟨_, rfl, wrap_isVerdict _ _, fun _ => Or.inl ⟨hk, err, hd⟩⟩
    | ok value =>
      simp only
      split
      · exact ⟨_, rfl, fail_isVerdict _, fun h => fail_code _ h _⟩
      · exact expectRecvKey_verdict x tc r

theorem expectPresence_verdict (x : Lib) (tc : testcase.Case) (r : radiusc.Response)
    (expectedAccept : Bool) :
    ∃ res, expectPresence x tc (some r) expectedAccept = some res ∧ isVerdict res ∧
      (res.1 = 2 → keyLiteralFails x tc) := by
  unfold expectPresence
  simp only
  split
  · split
    · exact ⟨_, rfl, fail_isVerdict _, fun h => fail_code _ h _⟩
    · exact expectSendKey_verdict x tc r
  · exact expectSendKey_verdict x tc r

theorem evaluateExpect_verdict (x : Lib) (tc : testcase.Case) (r : radiusc.Response)
    (accepted : Bool) :
    ∃ res, evaluateExpect x tc (some r) accepted = some res ∧ isVerdict res ∧
      (res.1 = 2 → keyLiteralFails x tc) := by
  unfold evaluateExpect
  simp only
  split
  · exact ⟨_, rfl, fail_isVerdict _, fun h => fail_code _ h _⟩
  · split
    · split
      · exact ⟨_, rfl, fail_isVerdict _, fun h => fail_code _ h _⟩
      · split
        · exact ⟨_, rfl, fail_isVerdict _, fun h => fail_code _ h _⟩
        · exact expectPresence_verdict x tc r _
    · exact expectPresence_verdict x tc r _

/-- C27: for every case, response and accepted flag, `evaluateExpect`
returns, and the result is exit code 0 with a nil error, or exit code 1 or 2
with a `RunError` carrying the same code; the code is 1, whatever the
response pointer, when `accepted` differs from `expect.result = "accept"`;
and the code is 2 only when an expected MPPE key literal is set and cannot be
decoded. -/
theorem evaluateExpect_codes (x : Lib) (tc : testcase.Case) (r : radiusc.Response)
    (accepted : Bool) :
    (∃ code err, evaluateExpect x tc (some r) accepted = some (code, err) ∧
      ((code = 0 ∧ err = none) ∨
        ((code = 1 ∨ code = 2) ∧ ∃ e : RunError, err = some e ∧ e.Code = code)) ∧
      (code = 2 →
        (tc.Expect.MPPE.SendKey ≠ "" ∧
          ∃ e, decodeKey x tc.Expect.MPPE.SendKey = .error e) ∨
        (tc.Expect.MPPE.RecvKey ≠ "" ∧
          ∃ e, decodeKey x tc.Expect.MPPE.RecvKey = .error e))) ∧
    (∀ resp, accepted ≠ decide (tc.Expect.Result = "accept") →
      evaluateExpect x tc resp accepted =
        some (1, some
          { Code := 1,
            Err := "app: " ++ ("expect result=" ++ tc.Expect.Result ++ " got=" ++
              (if accepted then "accept" else "reject")) })) := by
  constructor
  · obtain ⟨res, h1, h2, h3⟩ := evaluateExpect_verdict x tc r accepted
    exact ⟨res.1, res.2, h1, h2, h3⟩
  · intro resp h
    unfold evaluateExpect
    simp only
    rw [if_pos h]
    rfl

end app
/-! ## Properties of the verdict: reject hint and key presence -/

namespace app

/-- `strings.Contains` holds exactly when the string is the substring between
some text before and some text after. -/
theorem Contains_iff (s substr : String) :
    strings.Contains s substr = true ↔ ∃ pre post : String, s = pre ++ substr ++ post := by
  unfold strings.Contains
  rw [List.any_eq_true]
  constructor
  · rintro ⟨t, ht, hp⟩
    rw [List.mem_tails] at ht
    rw [List.isPrefixOf_iff_prefix] at hp
    obtain ⟨post, hpost⟩ := hp
    obtain ⟨pre, hpre⟩ := ht
    refine ⟨⟨pre⟩, ⟨post⟩, ?_⟩
    apply String.ext
    simp only [String.data_append]
    rw [← hpre, ← hpost, List.append_assoc]
  · rintro ⟨pre, post, h⟩
    refine ⟨substr.data ++ post.data, ?_, ?_⟩
    · rw [List.mem_tails]
      refine ⟨pre.data, ?_⟩
      rw [h]
      simp only [String.data_append, List.append_assoc]
    · rw [List.isPrefixOf_iff_prefix]
      exact ⟨post.data, rfl⟩

/-- C28: for a rejected outcome and a case that expects a reject with a
non-empty `reject_hint_contains`: with an empty Reply-Message text the
verdict is the exit-code-1 failure of the missing Reply-Message; with a text
that does not contain the hint it is the exit-code-1 failure of the
mismatch; with a text that contains the hint the verdict is that of the same
case without the hint, which is exit code 0 when `require_present` is not
true and no key literal is expected. -/
theorem evaluateExpect_reject_hint (x : Lib) (tc : testcase.Case) (r : radiusc.Response)
    (hres : tc.Expect.Result = "reject") (hh : tc.Expect.RejectHintContains ≠ "") :
    (x.ReplyMessage_GetString r.Packet = "" →
      evaluateExpect x tc (some r) false =
        some (1, some { Code := 1, Err := "app: reject_hint_contains missing Reply-Message" })) ∧
    (x.ReplyMessage_GetString r.Packet ≠ "" →
      (¬ ∃ pre post : String,
        x.ReplyMessage_GetString r.Packet = pre ++ tc.Expect.RejectHintContains ++ post) →
      ∃ e, evaluateExpect x tc (some r) false = some (1, some e) ∧ e.Code = 1 ∧
        e.Err = "app: " ++ ("reject_hint_contains mismatch: want " ++
          x.Quote tc.Expect.RejectHintContains ++ " got " ++
          x.Quote (x.ReplyMessage_GetString r.Packet))) ∧
    (x.ReplyMessage_GetString r.Packet ≠ "" →
      (∃ pre post : String,
        x.ReplyMessage_GetString r.Packet = pre ++ tc.Expect.RejectHintContains ++ post) →
      evaluateExpect x tc (some r) false =
        evaluateExpect x
          { tc with Expect := { tc.Expect with RejectHintContains := "" } } (some r) false ∧
      (tc.Expect.MPPE.RequirePresent ≠ some true → tc.Expect.MPPE.SendKey = "" →
        tc.Expect.MPPE.RecvKey = "" → evaluateExpect x tc (some r) false = some (0, none))) := by
  have hna : ¬ tc.Expect.Result = "accept" := by
    rw [hres]
    decide
  have hd : decide (tc.Expect.Result = "accept") = false := decide_eq_false hna
  have hpres : evaluateExpect x
      { tc with Expect := { tc.Expect with RejectHintContains := "" } } (some r) false =
      expectPresence x tc (some r) false := by
    unfold evaluateExpect
    simp only [hd]
    rfl
  refine ⟨?_, ?_, ?_⟩
  · intro h0
    unfold evaluateExpect
    simp only [hd, h0]
    simp [hh, fail]
  · intro h0 hc
    have hcf : strings.Contains (x.ReplyMessage_GetString r.Packet)
        tc.Expect.RejectHintContains = false := by
      rw [← Bool.not_eq_true, Contains_iff]
      exact hc
    refine ⟨{ Code := 1, Err := "app: " ++ ("reject_hint_contains mismatch: want " ++
          x.Quote tc.Expect.RejectHintContains ++ " got " ++
          x.Quote (x.ReplyMessage_GetString r.Packet)) }, ?_, rfl, rfl⟩
    unfold evaluateExpect
    simp only [hd]
    simp [hh, h0, hcf, fail]
  · intro h0 hc
    have hct := (Contains_iff _ _).mpr hc
    have hev : evaluateExpect x tc (some r) false = expectPresence x tc (some r) false := by
      unfold evaluateExpect
      simp only [hd]
      simp [hh, h0, hct]
    refine ⟨by rw [hev, hpres], ?_⟩
    intro hr hs hrk
    rw [hev]
    unfold expectPresence expectSendKey expectRecvKey
    cases hq : tc.Expect.MPPE.RequirePresent with
    | none => simp [hs, hrk]
    | some b =>
      cases b with
      | true => exact absurd hq hr
      | false => simp [hs, hrk]

theorem evaluateExpect_reject_hint_witness :
    evaluateExpect sampleLib sampleCaseReject (some sampleReject) false =
        evaluateExpect sampleLib
          { sampleCaseReject with
            Expect := { sampleCaseReject.Expect with RejectHintContains := "" } }
          (some sampleReject) false ∧
      evaluateExpect sampleLib sampleCaseReject (some sampleReject) false = some (0, none) :=
  have h := (evaluateExpect_reject_hint sampleLib sampleCaseReject sampleReject rfl
    (by decide)).2.2 (by decide) ⟨"user ", "", by decide⟩
  ⟨h.1, h.2 (by decide) rfl rfl⟩

/-- C29: once the result matches the expectation, MPPE presence is required
iff `require_present` is true, or it is unset and the expected result is
accept. When it is required and the send key or the receive key is absent,
the exit code is 1, by the failure of the missing keys when the hint check
passed. When it is not required and no key literal is expected, the verdict
is exit code 0 whenever the hint check passed, whether or not the keys are
present. -/
theorem evaluateExpect_mppe_presence (x : Lib) (tc : testcase.Case) (r : radiusc.Response)
    (accepted : Bool) (hm : accepted = decide (tc.Expect.Result = "accept")) :
    (((tc.Expect.MPPE.RequirePresent = some true ∨
        (tc.Expect.MPPE.RequirePresent = none ∧ tc.Expect.Result = "accept")) →
      (r.MPPE.SendKeyPresent = false ∨ r.MPPE.RecvKeyPresent = false) →
      (∃ e, evaluateExpect x tc (some r) accepted = some (1, some e) ∧ e.Code = 1) ∧
      ((accepted = true ∨ tc.Expect.RejectHintContains = "" ∨
          (x.ReplyMessage_GetString r.Packet ≠ "" ∧
            strings.Contains (x.ReplyMessage_GetString r.Packet)
              tc.Expect.RejectHintContains = true)) →
        evaluateExpect x tc (some r) accepted =
          some (1, some { Code := 1, Err := "app: mppe keys missing" }))) ∧
    (¬ (tc.Expect.MPPE.RequirePresent = some true ∨
        (tc.Expect.MPPE.RequirePresent = none ∧ tc.Expect.Result = "accept")) →
      tc.Expect.MPPE.SendKey = "" → tc.Expect.MPPE.RecvKey = "" →
      (accepted = true ∨ tc.Expect.RejectHintContains = "" ∨
          (x.ReplyMessage_GetString r.Packet ≠ "" ∧
            strings.Contains (x.ReplyMessage_GetString r.Packet)
              tc.Expect.RejectHintContains = true)) →
      evaluateExpect x tc (some r) accepted = some (0, none))) := by
  have hreq : ∀ b : Bool,
      ((match tc.Expect.MPPE.RequirePresent with
        | some b => b
        | none => decide (tc.Expect.Result = "accept")) = b) →
      (b = true ↔ (tc.Expect.MPPE.RequirePresent = some true ∨
        (tc.Expect.MPPE.RequirePresent = none ∧ tc.Expect.Result = "accept"))) := by
    intro b hb
    cases hq : tc.Expect.MPPE.RequirePresent with
    | none =>
      rw [hq] at hb
      simp only at hb
      rw [← hb]
      simp
    | some c =>
      rw [hq] at hb
      simp only at hb
      rw [← hb]
      simp
  have hpass : (accepted = true ∨ tc.Expect.RejectHintContains = "" ∨
      (x.ReplyMessage_GetString r.Packet ≠ "" ∧
        strings.Contains (x.ReplyMessage_GetString r.Packet)
          tc.Expect.RejectHintContains = true)) →
      evaluateExpect x tc (some r) accepted =
        expectPresence x tc (some r) (decide (tc.Expect.Result = "accept")) := by
    intro hp
    unfold evaluateExpect
    simp only
    rw [if_neg (not_not.mpr hm)]
    rcases hp with hp | hp | ⟨hp1, hp2⟩
    · simp [hp]
    · simp [hp]
    · cases accepted with
      | true => simp
      | false => simp [hp1, hp2]
  constructor
  · intro hrq habs
    have hb := (hreq _ rfl).mpr hrq
    have hmiss : expectPresence x tc (some r) (decide (tc.Expect.Result = "accept")) =
        some (1, some { Code := 1, Err := "app: mppe keys missing" }) := by
      unfold expectPresence
      simp only [hb, if_true]
      rcases habs with h | h
      · simp [h, fail]
      · simp [h, fail]
    constructor
    · unfold evaluateExpect
      simp only
      rw [if_neg (not_not.mpr hm)]
      split
      · split
        · exact ⟨_, rfl, rfl⟩
        · split
          · exact ⟨_, rfl, rfl⟩
          · rw [hmiss]
            exact ⟨_, rfl, rfl⟩
      · rw [hmiss]
        exact ⟨_, rfl, rfl⟩
    · intro hp
      rw [hpass hp, hmiss]
  · intro hrq hs hrk hp
    have hb : (match tc.Expect.MPPE.RequirePresent with
        | some b => b
        | none => decide (tc.Expect.Result = "accept")) = false := by
      rw [← Bool.not_eq_true]
      intro h
      exact hrq ((hreq _ rfl).mp h)
    rw [hpass hp]
    unfold expectPresence expectSendKey expectRecvKey
    simp [hb, hs, hrk]

theorem evaluateExpect_mppe_presence_witness :
    evaluateExpect sampleLib sampleCaseAccept (some sampleAcceptNoKeys) true =
      some (1, some { Code := 1, Err := "app: mppe keys missing" }) :=
  ((evaluateExpect_mppe_presence sampleLib sampleCaseAccept sampleAcceptNoKeys true rfl).1
    (Or.inr ⟨rfl, rfl⟩) (Or.inl rfl)).2 (Or.inl rfl)

end app
/-! ## Properties of the file store: save and load -/

namespace sqnstore

theorem hexValue_hexChar (d : Nat) (h : d < 16) : hexValue (hexChar d) = some d := by
  interval_cases d <;> rfl

theorem utf8Size_hexChar (d : Nat) (h : d < 16) : (hexChar d).utf8Size = 1 := by
  interval_cases d <;> rfl

theorem utf8ByteSize_hex (ds : List Nat) (h : ∀ d ∈ ds, d < 16) :
    (String.mk (ds.map hexChar)).utf8ByteSize = ds.length := by
  induction ds with
  | nil => rfl
  | cons d ds ih =>
    have h1 := utf8Size_hexChar d (h d (List.mem_cons_self _ _))
    have h2 := ih fun e he => h e (List.mem_cons_of_mem _ he)
    simp only [String.utf8ByteSize, List.map_cons, String.utf8ByteSize.go, List.length_cons,
      h1] at h2 ⊢
    rw [h2]

theorem foldl_hex (ds : List Nat) (h : ∀ d ∈ ds, d < 16) : ∀ acc : Nat,
    (ds.map hexChar).foldl
      (fun acc c =>
        match acc, hexValue c with
        | some n, some d => some (n * 16 + d)
        | _, _ => none)
      (some acc) = some (ds.foldl (fun n d => n * 16 + d) acc) := by
  induction ds with
  | nil =>
    intro acc
    rfl
  | cons d ds ih =>
    intro acc
    have h1 := hexValue_hexChar d (h d (List.mem_cons_self _ _))
    simp only [List.map_cons, List.foldl_cons, h1]
    exact ih (fun e he => h e (List.mem_cons_of_mem _ he)) _

/-- The twelve hexadecimal digits of a value of at most 48 bits. -/
theorem hex_digits_sum (v : Nat) (hv : v < 281474976710656) :
    [v / 17592186044416 % 16, v / 1099511627776 % 16, v / 68719476736 % 16,
      v / 4294967296 % 16, v / 268435456 % 16, v / 16777216 % 16, v / 1048576 % 16,
      v / 65536 % 16, v / 4096 % 16, v / 256 % 16, v / 16 % 16, v / 1 % 16].foldl
      (fun n d => n * 16 + d) 0 = v := by
  have key : ∀ a : Nat, v / a = 16 * (v / (a * 16)) + v / a % 16 := by
    intro a
    have h := Nat.div_add_mod (v / a) 16
    rw [Nat.div_div_eq_div_mul] at h
    omega
  have k0 := key 1
  have k1 := key 16
  have k2 := key 256
  have k3 := key 4096
  have k4 := key 65536
  have k5 := key 1048576
  have k6 := key 16777216
  have k7 := key 268435456
  have k8 := key 4294967296
  have k9 := key 68719476736
  have k10 := key 1099511627776
  have k11 := key 17592186044416
  have top : v / 281474976710656 = 0 := Nat.div_eq_of_lt hv
  simp only [Nat.reduceMul] at k0 k1 k2 k3 k4 k5 k6 k7 k8 k9 k10 k11
  rw [top] at k11
  simp only [List.foldl, Nat.div_one] at k0 ⊢
  generalize v / 17592186044416 % 16 = d11 at *
  generalize v / 1099511627776 % 16 = d10 at *
  generalize v / 68719476736 % 16 = d9 at *
  generalize v / 4294967296 % 16 = d8 at *
  generalize v / 268435456 % 16 = d7 at *
  generalize v / 16777216 % 16 = d6 at *
  generalize v / 1048576 % 16 = d5 at *
  generalize v / 65536 % 16 = d4 at *
  generalize v / 4096 % 16 = d3 at *
  generalize v / 256 % 16 = d2 at *
  generalize v / 16 % 16 = d1 at *
  generalize v % 16 = d0 at *
  generalize v / 17592186044416 = q11 at *
  generalize v / 1099511627776 = q10 at *
  generalize v / 68719476736 = q9 at *
  generalize v / 4294967296 = q8 at *
  generalize v / 268435456 = q7 at *
  generalize v / 16777216 = q6 at *
  generalize v / 1048576 = q5 at *
  generalize v / 65536 = q4 at *
  generalize v / 4096 = q3 at *
  generalize v / 256 = q2 at *
  generalize v / 16 = q1 at *
  omega

/-- The text of `FormatSQNHex` parses back to the value. -/
theorem Parse_Format_SQNHex (v : Nat) (h : v ≤ MaxSQN) :
    ∃ str, FormatSQNHex v = .ok str ∧ ParseSQNHex str = .ok v := by
  have hv : v < 281474976710656 := by
    have : MaxSQN = 281474976710655 := by decide
    omega
  have hlist : ((List.range SQNHexLen).map fun i =>
      hexChar (v / 16 ^ (SQNHexLen - 1 - i) % 16)) =
      [v / 17592186044416 % 16, v / 1099511627776 % 16, v / 68719476736 % 16,
        v / 4294967296 % 16, v / 268435456 % 16, v / 16777216 % 16, v / 1048576 % 16,
        v / 65536 % 16, v / 4096 % 16, v / 256 % 16, v / 16 % 16, v / 1 % 16].map hexChar := by
    have hr : List.range SQNHexLen = [0, 1, 2, 3, 4, 5, 6, 7, 8, 9, 10, 11] := by decide
    rw [hr]
    simp only [List.map_cons, List.map_nil]
    norm_num [SQNHexLen]
  have hd : ∀ d ∈ [v / 17592186044416 % 16, v / 1099511627776 % 16, v / 68719476736 % 16,
        v / 4294967296 % 16, v / 268435456 % 16, v / 16777216 % 16, v / 1048576 % 16,
        v / 65536 % 16, v / 4096 % 16, v / 256 % 16, v / 16 % 16, v / 1 % 16], d < 16 := by
    intro d hd
    simp only [List.mem_cons, List.mem_singleton, List.not_mem_nil, or_false] at hd
    rcases hd with h | h | h | h | h | h | h | h | h | h | h | h <;> rw [h] <;>
      exact Nat.mod_lt _ (by decide)
  refine ⟨_, by unfold FormatSQNHex; rw [if_neg (by omega)], ?_⟩
  rw [hlist]
  unfold ParseSQNHex
  have hsz : (String.mk ([v / 17592186044416 % 16, v / 1099511627776 % 16,
      v / 68719476736 % 16, v / 4294967296 % 16, v / 268435456 % 16, v / 16777216 % 16,
      v / 1048576 % 16, v / 65536 % 16, v / 4096 % 16, v / 256 % 16, v / 16 % 16,
      v / 1 % 16].map hexChar)).utf8ByteSize = SQNHexLen := utf8ByteSize_hex _ hd
  rw [if_neg (not_not.mpr hsz)]
  unfold parseUintHex
  rw [if_neg (by simp), foldl_hex _ hd, hex_digits_sum v hv]
  simp only
  rw [if_pos (by omega)]
  simp only
  rw [if_neg (Nat.not_lt.mpr h)]

theorem ofFn_getD (f : Fin ArraySize → Nat) :
    (fun i : Fin ArraySize => (List.ofFn f).getD i.val 0) = f := by
  funext i
  have hi : i.val < (List.ofFn f).length := by
    rw [List.length_ofFn]
    exact i.isLt
  rw [List.getD_eq_getElem _ _ hi, List.getElem_ofFn]

/-- The record of a state and back: the sequence numbers and the highest SQN
are kept; the time stamp comes back as its whole seconds in UTC. -/
theorem toState_fromState (x : time.Lib) (s : SubscriberState) (h : s.SQNMS ≤ MaxSQN)
    (ht : s.UpdatedAt.IsZero = true ∨ x.roundTrips s.UpdatedAt) :
    ∃ rec, fromState x s = .ok rec ∧
      rec.toState x = .ok
        { SeqMS := s.SeqMS, SQNMS := s.SQNMS,
          UpdatedAt := { sec := s.UpdatedAt.sec, nsec := 0, offset := 0 } } := by
  obtain ⟨str, hf, hp⟩ := Parse_Format_SQNHex s.SQNMS h
  unfold fromState
  rw [hf]
  refine ⟨_, rfl, ?_⟩
  unfold subscriberJSON.toState
  simp only
  rw [if_neg (by rw [List.length_ofFn]; exact fun hne => hne rfl), hp]
  simp only [ofFn_getD]
  by_cases hz : s.UpdatedAt.IsZero = true
  · have hsec : s.UpdatedAt.sec = 0 := by
      unfold time.Time.IsZero at hz
      exact (of_decide_eq_true hz).1
    simp only [hz, Bool.not_true, Bool.false_eq_true, if_false, ne_eq, not_true_eq_false, hsec]
    rfl
  · have hrt : x.roundTrips s.UpdatedAt := by
      rcases ht with ht | ht
      · exact absurd ht hz
      · exact ht
    have hz' : s.UpdatedAt.IsZero = false := by
      rw [← Bool.not_eq_true]
      exact hz
    simp only [hz', Bool.not_false, if_true, ne_eq, hrt.1, not_false_eq_true, hrt.2]

theorem loadFile_shape (fs : FileStore) (w : Disk) (data : fileData)
    (h : fs.loadFile w = .ok data) :
    data.Version = storeVersion ∧ data.IndBits = IndBits ∧ data.ArraySize = ArraySize ∧
      ∃ m, data.Subscribers = some m := by
  unfold FileStore.loadFile at h
  cases hf : w.files fs.Path with
  | absent =>
    rw [hf] at h
    simp only [Except.ok.injEq] at h
    rw [← h]
    exact ⟨rfl, rfl, rfl, _, rfl⟩
  | unreadable err => rw [hf] at h; simp at h
  | malformed err => rw [hf] at h; simp at h
  | document d =>
    rw [hf] at h
    simp only at h
    by_cases h1 : d.Version ≠ storeVersion
    · rw [if_pos h1] at h
      simp at h
    · rw [if_neg h1] at h
      by_cases h2 : d.IndBits ≠ IndBits ∨ d.ArraySize ≠ ArraySize
      · rw [if_pos h2] at h
        simp at h
      · rw [if_neg h2] at h
        have h1' : d.Version = storeVersion := not_not.mp h1
        have h2' : d.IndBits = IndBits ∧ d.ArraySize = ArraySize := by
          constructor
          · exact not_not.mp fun hne => h2 (Or.inl hne)
          · exact not_not.mp fun hne => h2 (Or.inr hne)
        cases hs : d.Subscribers with
        | none =>
          rw [hs] at h
          simp only [Except.ok.injEq] at h
          rw [← h]
          exact ⟨h1', h2'.1, h2'.2, _, rfl⟩
        | some m =>
          rw [hs] at h
          simp only [Except.ok.injEq] at h
          rw [← h]
          exact ⟨h1', h2'.1, h2'.2, m, hs⟩

/-- A successful `Save` followed by `Load` of the same IMSI on the same
path. -/
theorem Save_then_Load (x : time.Lib) (fs : FileStore) (w w' : Disk) (imsi : String)
    (s : SubscriberState) (hsave : FileStore.Save x fs w imsi s = (w', none))
    (hclock : (fs.clock w).IsZero = true ∨ x.roundTrips (fs.clock w)) :
    imsi ≠ "" ∧ s.SQNMS ≤ MaxSQN ∧ w.writeError fs.Path = none ∧
      FileStore.Load x fs w' imsi = .ok
        ({ SeqMS := s.SeqMS, SQNMS := s.SQNMS,
           UpdatedAt := { sec := (fs.clock w).sec, nsec := 0, offset := 0 } }, true) := by
  unfold FileStore.Save at hsave
  by_cases hi : imsi = ""
  · rw [if_pos hi] at hsave
    simp at hsave
  rw [if_neg hi] at hsave
  cases hl : fs.loadFile w with
  | error err =>
    rw [hl] at hsave
    simp at hsave
  | ok data =>
    rw [hl] at hsave
    simp only at hsave
    obtain ⟨hv, hb, ha, m, hm⟩ := loadFile_shape fs w data hl
    by_cases hq : s.SQNMS ≤ MaxSQN
    · obtain ⟨rec, hr, ht⟩ := toState_fromState x
        { s with UpdatedAt := fs.clock w } hq hclock
      rw [hr, hm] at hsave
      simp only at hsave
      unfold FileStore.saveFile at hsave
      simp only at hsave
      cases he : w.writeError fs.Path with
      | some err =>
        rw [he] at hsave
        simp at hsave
      | none =>
        rw [he] at hsave
        simp only [Prod.mk.injEq, and_true] at hsave
        refine ⟨hi, hq, rfl, ?_⟩
        unfold FileStore.Load
        rw [if_neg hi]
        have hl' : fs.loadFile w' = .ok
            { data with
              Subscribers := some fun key => if key = imsi then some rec else m key } := by
          unfold FileStore.loadFile
          rw [← hsave]
          simp only [if_true]
          rw [if_neg (not_not.mpr hv), if_neg (by rw [hb, ha]; simp)]
        rw [hl']
        simp only [Option.bind, if_true, ht]
    · have hfmt : ∃ err, fromState x { s with UpdatedAt := fs.clock w } = .error err := by
        unfold fromState FormatSQNHex
        rw [if_pos (Nat.lt_of_not_le hq)]
        exact ⟨_, rfl⟩
      obtain ⟨err, hfe⟩ := hfmt
      rw [hfe] at hsave
      simp at hsave

/-- With the wall clock at 2025-01-02T03:04:05.5Z and no clock function,
`Save` succeeds and `Load` finds the record, but the loaded time stamp is
2025-01-02T03:04:05Z: it is not the value of the clock at save time, and it
is not the same instant either. -/
theorem Save_Load_drops_fraction :
    ∃ w' loaded,
      FileStore.Save time.rfc3339 sampleFileStoreWallClock emptyDisk "440100123456789"
        sampleStateSaved = (w', none) ∧
      FileStore.Load time.rfc3339 sampleFileStoreWallClock w' "440100123456789" =
        .ok (loaded, true) ∧
      sampleFileStoreWallClock.clock emptyDisk =
        { sec := 63871383845, nsec := 500000000, offset := 0 } ∧
      loaded.UpdatedAt = { sec := 63871383845, nsec := 0, offset := 0 } ∧
      loaded.UpdatedAt ≠ sampleFileStoreWallClock.clock emptyDisk ∧
      loaded.UpdatedAt.Equal (sampleFileStoreWallClock.clock emptyDisk) = false :=
  ⟨(FileStore.Save time.rfc3339 sampleFileStoreWallClock emptyDisk "440100123456789"
      sampleStateSaved).1, _, rfl,
    (Save_then_Load time.rfc3339 sampleFileStoreWallClock emptyDisk _ "440100123456789"
      sampleStateSaved rfl (Or.inr ⟨by decide, rfl⟩)).2.2.2,
    rfl, rfl, by decide, by decide⟩

/-- C30 (amended): when `Save(imsi, s)` succeeds and the value of the store
clock is zero or is formatted to a text that parses back to its whole
seconds, `Load(imsi)` on the same path returns found = true with the 32
SeqMS entries and the SQNMS of `s`, and with UpdatedAt the whole seconds of
the clock value in UTC, which is the instant of the clock exactly when the
clock value has no fraction of a second. At the record level, for every
state with SQNMS at most 2^48-1 whose UpdatedAt is zero or round-trips
through the layout, `toState(fromState(s))` has the SeqMS and SQNMS of `s`
and the whole seconds of its UpdatedAt in UTC. -/
theorem FileStore_Save_Load (x : time.Lib) (fs : FileStore) (w w' : Disk) (imsi : String)
    (s : SubscriberState) (hsave : FileStore.Save x fs w imsi s = (w', none))
    (hclock : (fs.clock w).IsZero = true ∨ x.roundTrips (fs.clock w)) :
    (∃ loaded, FileStore.Load x fs w' imsi = .ok (loaded, true) ∧
      loaded.SeqMS = s.SeqMS ∧ loaded.SQNMS = s.SQNMS ∧
      loaded.UpdatedAt = { sec := (fs.clock w).sec, nsec := 0, offset := 0 } ∧
      (loaded.UpdatedAt.Equal (fs.clock w) = true ↔ (fs.clock w).nsec = 0) ∧
      imsi ≠ "" ∧ s.SQNMS ≤ MaxSQN) ∧
    (∀ t : SubscriberState, t.SQNMS ≤ MaxSQN →
      (t.UpdatedAt.IsZero = true ∨ x.roundTrips t.UpdatedAt) →
      ∃ rec, fromState x t = .ok rec ∧
        rec.toState x = .ok
          { SeqMS := t.SeqMS, SQNMS := t.SQNMS,
            UpdatedAt := { sec := t.UpdatedAt.sec, nsec := 0, offset := 0 } }) := by
  obtain ⟨hi, hq, _, hload⟩ := Save_then_Load x fs w w' imsi s hsave hclock
  refine ⟨⟨_, hload, rfl, rfl, rfl, ?_, hi, hq⟩, fun t ht hz => toState_fromState x t ht hz⟩
  unfold time.Time.Equal
  simp only [true_and, decide_eq_true_eq]
  exact eq_comm

theorem FileStore_Save_Load_witness :
    ∃ loaded,
      FileStore.Load time.rfc3339 sampleFileStore
        (FileStore.Save time.rfc3339 sampleFileStore emptyDisk "440100123456789"
          sampleStateSaved).1 "440100123456789" = .ok (loaded, true) ∧
      loaded.SeqMS = sampleStateSaved.SeqMS ∧ loaded.SQNMS = 0x1234 ∧
      loaded.UpdatedAt = { sec := 63871383845, nsec := 0, offset := 0 } :=
  have h := (FileStore_Save_Load time.rfc3339 sampleFileStore emptyDisk _ "440100123456789"
    sampleStateSaved rfl (Or.inr ⟨by decide, rfl⟩)).1
  h.elim fun loaded hl => ⟨loaded, hl.1, hl.2.1, hl.2.2.1, hl.2.2.2.1⟩

end sqnstore

/-! ## Properties of the SQN text form -/

namespace sqnstore

theorem utf8Size_of_le (c : Char) (h : c.val.toNat ≤ 127) : c.utf8Size = 1 := by
  unfold Char.utf8Size
  have h3 : c.val ≤ UInt32.ofNatCore 127 (by decide) := h
  simp only
  rw [if_pos h3]

theorem hexValue_some_size (c : Char) (d : Nat) (h : hexValue c = some d) : c.utf8Size = 1 := by
  apply utf8Size_of_le
  unfold hexValue at h
  have e9 : ('9' : Char).val.toNat = 57 := rfl
  have ef : ('f' : Char).val.toNat = 102 := rfl
  have eF : ('F' : Char).val.toNat = 70 := rfl
  by_cases h1 : '0' ≤ c ∧ c ≤ '9'
  · have : c.val.toNat ≤ ('9' : Char).val.toNat := h1.2
    omega
  · rw [if_neg h1] at h
    by_cases h2 : 'a' ≤ c ∧ c ≤ 'f'
    · have : c.val.toNat ≤ ('f' : Char).val.toNat := h2.2
      omega
    · rw [if_neg h2] at h
      by_cases h3 : 'A' ≤ c ∧ c ≤ 'F'
      · have : c.val.toNat ≤ ('F' : Char).val.toNat := h3.2
        omega
      · rw [if_neg h3] at h
        exact absurd h (by simp)

theorem foldl_hex_none (cs : List Char) :
    cs.foldl
      (fun acc c =>
        match acc, hexValue c with
        | some n, some d => some (n * 16 + d)
        | _, _ => none)
      none = none := by
  induction cs with
  | nil => rfl
  | cons c cs ih =>
    simp only [List.foldl_cons]
    exact ih

theorem foldl_hex_some (cs : List Char) : ∀ (acc v : Nat),
    cs.foldl
      (fun acc c =>
        match acc, hexValue c with
        | some n, some d => some (n * 16 + d)
        | _, _ => none)
      (some acc) = some v → ∀ c ∈ cs, ∃ d, hexValue c = some d := by
  induction cs with
  | nil =>
    intro acc v _ c hc
    exact absurd hc (List.not_mem_nil c)
  | cons a cs ih =>
    intro acc v h c hc
    simp only [List.foldl_cons] at h
    cases ha : hexValue a with
    | none =>
      rw [ha] at h
      simp only at h
      rw [foldl_hex_none] at h
      exact absurd h (by simp)
    | some d =>
      rw [ha] at h
      simp only at h
      rcases List.mem_cons.mp hc with hc | hc
      · exact ⟨d, by rw [hc]; exact ha⟩
      · exact ih _ _ h c hc

theorem utf8ByteSize_ascii (cs : List Char) (h : ∀ c ∈ cs, c.utf8Size = 1) :
    (String.mk cs).utf8ByteSize = cs.length := by
  induction cs with
  | nil => rfl
  | cons c cs ih =>
    have h1 := h c (List.mem_cons_self _ _)
    have h2 := ih fun e he => h e (List.mem_cons_of_mem _ he)
    simp only [String.utf8ByteSize, String.utf8ByteSize.go, List.length_cons, h1] at h2 ⊢
    rw [h2]

/-- A text that `ParseSQNHex` accepts has twelve characters, all of them
hexadecimal digits. -/
theorem ParseSQNHex_ok_length (s : String) (v : Nat) (h : ParseSQNHex s = .ok v) :
    s.length = 12 ∧ ∀ c ∈ s.data, ∃ d, hexValue c = some d := by
  unfold ParseSQNHex at h
  by_cases hs : s.utf8ByteSize ≠ SQNHexLen
  · rw [if_pos hs] at h
    exact absurd h (by simp)
  · rw [if_neg hs] at h
    have hs' : s.utf8ByteSize = 12 := not_not.mp hs
    unfold parseUintHex at h
    by_cases hn : s.data = []
    · rw [if_pos hn] at h
      exact absurd h (by simp)
    · rw [if_neg hn] at h
      cases hf : s.data.foldl
          (fun acc c =>
            match acc, hexValue c with
            | some n, some d => some (n * 16 + d)
            | _, _ => none)
          (some 0) with
      | none =>
        rw [hf] at h
        exact absurd h (by simp)
      | some w =>
        have hall := foldl_hex_some s.data 0 w hf
        have hsz := utf8ByteSize_ascii s.data fun c hc =>
          (hall c hc).elim fun d hd => hexValue_some_size c d hd
        have hl : s.length = s.data.length := rfl
        have hmk : String.mk s.data = s := rfl
        rw [hmk] at hsz
        exact ⟨by omega, hall⟩

theorem hexChar_mem (d : Nat) (h : d < 16) : hexChar d ∈ "0123456789abcdef".data := by
  interval_cases d <;> decide

/-- C34: for every value of at most 2^48-1, `FormatSQNHex` succeeds with a
text of exactly 12 hexadecimal digits (12 bytes, 12 characters, each one of
0-9 and a-f) and `ParseSQNHex` of that text succeeds with the value;
`FormatSQNHex` fails for every larger value; `ParseSQNHex` fails for every
string whose length, in bytes or in characters, is not 12. -/
theorem SQNHex_format_parse (v : Nat) (s : String) :
    (v ≤ 2 ^ 48 - 1 →
      ∃ str, FormatSQNHex v = .ok str ∧ str.utf8ByteSize = 12 ∧ str.length = 12 ∧
        (∀ c ∈ str.data, c ∈ "0123456789abcdef".data) ∧ ParseSQNHex str = .ok v) ∧
    (v > 2 ^ 48 - 1 → FormatSQNHex v = .error "sqnstore: sqn exceeds 48 bits") ∧
    (s.utf8ByteSize ≠ 12 → ParseSQNHex s = .error "sqnstore: sqn hex length must be 12") ∧
    (s.length ≠ 12 → ∃ err, ParseSQNHex s = .error err) := by
  have hmax : MaxSQN = 2 ^ 48 - 1 := by decide
  refine ⟨?_, ?_, ?_, ?_⟩
  · intro hv
    obtain ⟨str, hf, hp⟩ := Parse_Format_SQNHex v (by rw [hmax]; exact hv)
    have hf' : FormatSQNHex v = .ok (String.mk ((List.range SQNHexLen).map fun i =>
        hexChar (v / 16 ^ (SQNHexLen - 1 - i) % 16))) := by
      unfold FormatSQNHex
      rw [if_neg (by rw [hmax]; omega)]
    have hstr : str = String.mk ((List.range SQNHexLen).map fun i =>
        hexChar (v / 16 ^ (SQNHexLen - 1 - i) % 16)) := by
      rw [hf] at hf'
      exact Except.ok.inj hf'
    have hlen := (ParseSQNHex_ok_length str v hp).1
    refine ⟨str, hf, ?_, hlen, ?_, hp⟩
    · unfold ParseSQNHex at hp
      by_cases hs : str.utf8ByteSize ≠ SQNHexLen
      · rw [if_pos hs] at hp
        exact absurd hp (by simp)
      · exact not_not.mp hs
    · intro c hc
      rw [hstr] at hc
      simp only [List.mem_map, List.mem_range] at hc
      obtain ⟨i, _, hi⟩ := hc
      rw [← hi]
      exact hexChar_mem _ (Nat.mod_lt _ (by decide))
  · intro hv
    unfold FormatSQNHex
    rw [if_pos (by rw [hmax]; exact hv)]
  · intro hs
    unfold ParseSQNHex
    rw [if_pos hs]
  · intro hs
    cases hp : ParseSQNHex s with
    | error err => exact ⟨err, rfl⟩
    | ok w => exact absurd (ParseSQNHex_ok_length s w hp).1 hs

end sqnstore

/-! ## Properties of the file store: corrupt documents and Reset -/

namespace sqnstore

theorem loadFile_corrupt (fs : FileStore) (w : Disk) (data : fileData)
    (hdoc : w.files fs.Path = .document data)
    (hbad : data.Version ≠ 1 ∨ data.IndBits ≠ 5 ∨ data.ArraySize ≠ 32) :
    ∃ err, fs.loadFile w = .error err := by
  unfold FileStore.loadFile
  rw [hdoc]
  simp only
  by_cases h1 : data.Version ≠ storeVersion
  · rw [if_pos h1]
    exact ⟨_, rfl⟩
  · rw [if_neg h1]
    have h2 : data.IndBits ≠ IndBits ∨ data.ArraySize ≠ ArraySize := by
      rcases hbad with h | h | h
      · exact absurd h h1
      · exact Or.inl h
      · exact Or.inr h
    rw [if_pos h2]
    exact ⟨_, rfl⟩

/-- C31: when the stored document has a version other than 1, an ind_bits
other than 5 or an a other than 32, `Load`, `Save` and `Reset` return an
error and leave the disk as it is; and `Load(imsi)` returns an error when
the record of the IMSI has a seqms array of a length other than 32. -/
theorem FileStore_rejects_corrupt (x : time.Lib) (fs : FileStore) (w : Disk)
    (data : fileData) (imsi : String) (state : SubscriberState)
    (hdoc : w.files fs.Path = .document data) :
    ((data.Version ≠ 1 ∨ data.IndBits ≠ 5 ∨ data.ArraySize ≠ 32) →
      (∃ err, FileStore.Load x fs w imsi = .error err) ∧
      (∃ err, FileStore.Save x fs w imsi state = (w, some err)) ∧
      (∃ err, FileStore.Reset fs w imsi = (w, some err))) ∧
    (∀ m rec, data.Subscribers = some m → m imsi = some rec → rec.SeqMS.length ≠ 32 →
      ∃ err, FileStore.Load x fs w imsi = .error err) := by
  constructor
  · intro hbad
    obtain ⟨err, he⟩ := loadFile_corrupt fs w data hdoc hbad
    refine ⟨?_, ?_, ?_⟩
    · unfold FileStore.Load
      by_cases hi : imsi = ""
      · rw [if_pos hi]
        exact ⟨_, rfl⟩
      · rw [if_neg hi, he]
        exact ⟨_, rfl⟩
    · unfold FileStore.Save
      by_cases hi : imsi = ""
      · rw [if_pos hi]
        exact ⟨_, rfl⟩
      · rw [if_neg hi, he]
        exact ⟨_, rfl⟩
    · unfold FileStore.Reset
      by_cases hi : imsi = ""
      · rw [if_pos hi]
        exact ⟨_, rfl⟩
      · rw [if_neg hi, he]
        exact ⟨_, rfl⟩
  · intro m rec hm hrec hlen
    unfold FileStore.Load
    by_cases hi : imsi = ""
    · rw [if_pos hi]
      exact ⟨_, rfl⟩
    · rw [if_neg hi]
      cases hl : fs.loadFile w with
      | error err => exact ⟨_, rfl⟩
      | ok fd =>
        have hfd : fd.Subscribers = some m := by
          unfold FileStore.loadFile at hl
          rw [hdoc] at hl
          simp only at hl
          by_cases h1 : data.Version ≠ storeVersion
          · rw [if_pos h1] at hl
            exact absurd hl (by simp)
          · rw [if_neg h1] at hl
            by_cases h2 : data.IndBits ≠ IndBits ∨ data.ArraySize ≠ ArraySize
            · rw [if_pos h2] at hl
              exact absurd hl (by simp)
            · rw [if_neg h2, hm] at hl
              simp only [Except.ok.injEq] at hl
              rw [← hl]
              exact hm
        simp only [hfd, Option.bind, hrec]
        unfold subscriberJSON.toState
        have hlen' : rec.SeqMS.length ≠ ArraySize := hlen
        rw [if_pos hlen']
        exact ⟨_, rfl⟩

theorem FileStore_rejects_corrupt_witness :
    (∃ err, FileStore.Load time.rfc3339 sampleFileStore corruptDisk "440100123456789" =
      .error err) ∧
    (∃ err, FileStore.Save time.rfc3339 sampleFileStore corruptDisk "440100123456789"
      sampleStateSaved = (corruptDisk, some err)) ∧
    (∃ err, FileStore.Reset sampleFileStore corruptDisk "440100123456789" =
      (corruptDisk, some err)) :=
  (FileStore_rejects_corrupt time.rfc3339 sampleFileStore corruptDisk
    { newFileData with Version := 2 } "440100123456789" sampleStateSaved rfl).1
    (Or.inl (by decide))

/-- A record with three sequence numbers is refused by `Load`. -/
theorem Load_short_record :
    FileStore.Load time.rfc3339 sampleFileStore shortRecordDisk "440100123456789" =
      .error "sqnstore: seqms length must be 32" := rfl

end sqnstore

/-! ## Properties of Reset on the two stores -/

namespace sqnstore

theorem saveFile_ok (fs : FileStore) (data : fileData) (w : Disk)
    (m : String → Option subscriberJSON) (hm : data.Subscribers = some m)
    (he : w.writeError fs.Path = none) :
    fs.saveFile data w =
      ({ w with files := fun path => if path = fs.Path then .document data else w.files path },
        none) := by
  unfold FileStore.saveFile
  simp only [hm, he]

theorem loadFile_after_write (fs : FileStore) (data : fileData) (w : Disk)
    (m : String → Option subscriberJSON) (hm : data.Subscribers = some m)
    (hv : data.Version = storeVersion) (hb : data.IndBits = IndBits)
    (ha : data.ArraySize = ArraySize) :
    fs.loadFile
      { w with files := fun path => if path = fs.Path then .document data else w.files path } =
      .ok data := by
  unfold FileStore.loadFile
  simp only [if_true]
  rw [if_neg (not_not.mpr hv), if_neg (by rw [hb, ha]; simp), hm]

/-- What a successful `Reset` of the file store leaves: the document that
was loaded, without the record of the IMSI. -/
theorem Reset_ok (fs : FileStore) (w w' : Disk) (imsi : String)
    (h : FileStore.Reset fs w imsi = (w', none)) :
    imsi ≠ "" ∧ w.writeError fs.Path = none ∧
    ∃ fd m, fs.loadFile w = .ok fd ∧ fd.Subscribers = some m ∧
      w' = { w with files := fun path =>
        if path = fs.Path then
          (File.document
            { fd with Subscribers := some (fun key => if key = imsi then none else m key) })
        else w.files path } := by
  unfold FileStore.Reset at h
  by_cases hi : imsi = ""
  · rw [if_pos hi] at h
    simp at h
  rw [if_neg hi] at h
  cases hl : fs.loadFile w with
  | error err =>
    rw [hl] at h
    simp at h
  | ok fd =>
    rw [hl] at h
    simp only at h
    obtain ⟨_, _, _, m, hm⟩ := loadFile_shape fs w fd hl
    cases he : w.writeError fs.Path with
    | some err =>
      unfold FileStore.saveFile at h
      simp only [hm, Option.map, he] at h
      simp at h
    | none =>
      rw [saveFile_ok fs _ w (fun key => if key = imsi then none else m key)
        (by rw [hm]; rfl) he] at h
      simp only [Prod.mk.injEq, and_true] at h
      refine ⟨hi, rfl, fd, m, rfl, hm, ?_⟩
      rw [← h, hm]
      rfl

/-- C32: for a non-empty IMSI. On the memory store `Reset` succeeds whether
or not a record exists, `Load` of the IMSI then returns found = false, a
second `Reset` leaves the same store, and `Load` of every other IMSI returns
what it returned before. On the file store `Reset` succeeds exactly when
the file loads and can be written, whether or not a record exists; after a
successful `Reset`, `Load` of the IMSI returns found = false, a second
`Reset` succeeds and leaves the same disk, and `Load` of every other IMSI
returns what it returned before. -/
theorem Reset_removes (x : time.Lib) (fs : FileStore) (w : Disk) (m : MemoryStore)
    (imsi : String) (hi : imsi ≠ "") :
    (∃ m', MemoryStore.Reset (some m) imsi = (m', none) ∧
      MemoryStore.Load m' imsi = .ok (SubscriberState.zero, false) ∧
      MemoryStore.Reset m' imsi = (m', none) ∧
      ∀ other, other ≠ imsi → MemoryStore.Load m' other = MemoryStore.Load (some m) other) ∧
    ((∃ w', FileStore.Reset fs w imsi = (w', none)) ↔
      ((∃ fd, fs.loadFile w = .ok fd) ∧ w.writeError fs.Path = none)) ∧
    (∀ w', FileStore.Reset fs w imsi = (w', none) →
      FileStore.Load x fs w' imsi = .ok (SubscriberState.zero, false) ∧
      FileStore.Reset fs w' imsi = (w', none) ∧
      ∀ other, other ≠ imsi → FileStore.Load x fs w' other = FileStore.Load x fs w other) := by
  refine ⟨?_, ?_, ?_⟩
  · unfold MemoryStore.Reset
    rw [if_neg hi]
    cases hd : m.data with
    | none =>
      refine ⟨some m, by simp only [hd], ?_, ?_, fun other _ => rfl⟩
      · unfold MemoryStore.Load
        rw [if_neg hi]
        simp only [hd]
      · simp only [hd, if_neg hi]
    | some data =>
      refine ⟨some { data := some fun key => if key = imsi then none else data key },
        by simp only [hd], ?_, ?_, ?_⟩
      · unfold MemoryStore.Load
        rw [if_neg hi]
        simp only [if_true]
      · simp only [if_neg hi]
        have hf : (fun key => if key = imsi then none else
            if key = imsi then none else data key) =
            fun key => if key = imsi then none else data key := by
          funext key
          by_cases hk : key = imsi
          · simp only [hk, if_true]
          · simp only [hk, if_false]
        rw [hf]
      · intro other ho
        unfold MemoryStore.Load
        simp only [hd, ho, if_false]
  · constructor
    · rintro ⟨w', h⟩
      obtain ⟨_, he, fd, _, hl, _, _⟩ := Reset_ok fs w w' imsi h
      exact ⟨⟨fd, hl⟩, he⟩
    · rintro ⟨⟨fd, hl⟩, he⟩
      obtain ⟨_, _, _, mm, hm⟩ := loadFile_shape fs w fd hl
      unfold FileStore.Reset
      rw [if_neg hi, hl]
      simp only
      rw [saveFile_ok fs _ w (fun key => if key = imsi then none else mm key)
        (by rw [hm]; rfl) he]
      exact ⟨_, rfl⟩
  · intro w' h
    obtain ⟨_, he, fd, mm, hl, hm, hw⟩ := Reset_ok fs w w' imsi h
    obtain ⟨hv, hb, ha, _, _⟩ := loadFile_shape fs w fd hl
    have hl' : fs.loadFile w' = .ok
        { fd with Subscribers := some fun key => if key = imsi then none else mm key } := by
      rw [hw]
      exact loadFile_after_write fs
        { fd with Subscribers := some fun key => if key = imsi then none else mm key } w
        (fun key => if key = imsi then none else mm key) rfl hv hb ha
    refine ⟨?_, ?_, ?_⟩
    · unfold FileStore.Load
      rw [if_neg hi, hl']
      simp only [Option.bind, if_true]
    · unfold FileStore.Reset
      rw [if_neg hi, hl']
      simp only [Option.map]
      have he' : w'.writeError fs.Path = none := by
        rw [hw]
        exact he
      rw [saveFile_ok fs _ w' (fun key => if key = imsi then none else
        (fun key => if key = imsi then none else mm key) key) rfl he']
      simp only [Prod.mk.injEq, and_true]
      rw [hw]
      simp only [Disk.mk.injEq, and_true]
      funext path
      by_cases hp : path = fs.Path
      · simp only [hp, if_true]
        congr 3
        funext key
        by_cases hk : key = imsi
        · simp only [hk, if_true]
        · simp only [hk, if_false]
      · simp only [hp, if_false]
    · intro other ho
      unfold FileStore.Load
      by_cases hoe : other = ""
      · rw [if_pos hoe, if_pos hoe]
      · rw [if_neg hoe, if_neg hoe, hl', hl]
        simp only [Option.bind, hm, ho, if_false]

theorem Reset_removes_witness :
    FileStore.Load time.rfc3339 sampleFileStore
        (FileStore.Reset sampleFileStore emptyDisk "440100123456789").1 "440100123456789" =
      .ok (SubscriberState.zero, false) ∧
    MemoryStore.Reset (some NewMemoryStore) "440100123456789" =
      ((MemoryStore.Reset (some NewMemoryStore) "440100123456789").1, none) :=
  have h := Reset_removes time.rfc3339 sampleFileStore emptyDisk NewMemoryStore
    "440100123456789" (by decide)
  ⟨(h.2.2 _ rfl).1, rfl⟩

end sqnstore

/-! ## The memory store and the file store side by side -/

namespace sqnstore

theorem clock_after_write (fs : FileStore) (w : Disk) (f : String → File) :
    fs.clock { w with files := f } = fs.clock w := rfl

/-- One call keeps the two stores on the same records and returns alike up
to the time stamp. -/
theorem stepStore_agree (x : time.Lib) (fs : FileStore) (m : Option MemoryStore) (w : Disk)
    (op : Op) (hs : savesWithin48 [op]) (h : sameRecords x fs m w) :
    Obs.agree (stepStore memoryStore m op).2 (stepStore (fileStore x fs) w op).2 ∧
      sameRecords x fs (stepStore memoryStore m op).1 (stepStore (fileStore x fs) w op).1 := by
  obtain ⟨he, hc, mm, fd, fm, hm, hl, hfm, hrel⟩ := h
  obtain ⟨hv, hb, ha, _, _⟩ := loadFile_shape fs w fd hl
  subst hm
  cases op with
  | load imsi =>
    refine ⟨?_, he, hc, mm, fd, fm, rfl, hl, hfm, hrel⟩
    show Obs.agree (.loaded (MemoryStore.Load (some { data := some mm }) imsi))
      (.loaded (FileStore.Load x fs w imsi))
    unfold MemoryStore.Load FileStore.Load
    by_cases hi : imsi = ""
    · rw [if_pos hi, if_pos hi]
      trivial
    · rw [if_neg hi, if_neg hi, hl]
      simp only [hfm, Option.bind]
      rcases hrel imsi with ⟨h1, h2⟩ | ⟨s, rec, s', h1, h2, h3, h4, h5⟩
      · rw [h1, h2]
        exact ⟨rfl, rfl, rfl⟩
      · rw [h1, h2]
        simp only [h3]
        exact ⟨rfl, h4.symm, h5.symm⟩
  | save imsi state =>
    have hq : state.SQNMS ≤ MaxSQN := hs.1
    show Obs.agree (.done (MemoryStore.Save (some { data := some mm }) imsi state).2)
        (.done (FileStore.Save x fs w imsi state).2) ∧
      sameRecords x fs (MemoryStore.Save (some { data := some mm }) imsi state).1
        (FileStore.Save x fs w imsi state).1
    unfold MemoryStore.Save FileStore.Save
    by_cases hi : imsi = ""
    · rw [if_pos hi, if_pos hi]
      exact ⟨trivial, he, hc, mm, fd, fm, rfl, hl, hfm, hrel⟩
    · obtain ⟨rec, hr, ht⟩ := toState_fromState x { state with UpdatedAt := fs.clock w } hq hc
      rw [if_neg hi, if_neg hi, hl]
      simp only [hr, hfm]
      rw [saveFile_ok fs _ w (fun key => if key = imsi then some rec else fm key) rfl he]
      refine ⟨trivial, he, hc, _, _, _, rfl,
        loadFile_after_write fs
          { fd with Subscribers := some fun key => if key = imsi then some rec else fm key } w
          (fun key => if key = imsi then some rec else fm key) rfl hv hb ha, rfl, ?_⟩
      intro key
      by_cases hk : key = imsi
      · refine Or.inr ⟨state, rec, _, ?_, ?_, ht, rfl, rfl⟩
        · simp only [hk, if_true]
        · simp only [hk, if_true]
      · simp only [hk, if_false]
        exact hrel key
  | reset imsi =>
    show Obs.agree (.done (MemoryStore.Reset (some { data := some mm }) imsi).2)
        (.done (FileStore.Reset fs w imsi).2) ∧
      sameRecords x fs (MemoryStore.Reset (some { data := some mm }) imsi).1
        (FileStore.Reset fs w imsi).1
    unfold MemoryStore.Reset FileStore.Reset
    by_cases hi : imsi = ""
    · rw [if_pos hi, if_pos hi]
      exact ⟨trivial, he, hc, mm, fd, fm, rfl, hl, hfm, hrel⟩
    · rw [if_neg hi, if_neg hi, hl]
      simp only [hfm, Option.map]
      rw [saveFile_ok fs _ w (fun key => if key = imsi then none else fm key) rfl he]
      refine ⟨trivial, he, hc, _, _, _, rfl,
        loadFile_after_write fs
          { fd with Subscribers := some fun key => if key = imsi then none else fm key } w
          (fun key => if key = imsi then none else fm key) rfl hv hb ha, rfl, ?_⟩
      intro key
      by_cases hk : key = imsi
      · refine Or.inl ⟨?_, ?_⟩
        · simp only [hk, if_true]
        · simp only [hk, if_true]
      · simp only [hk, if_false]
        exact hrel key

theorem savesWithin48_cons (op : Op) (rest : List Op) (h : savesWithin48 (op :: rest)) :
    savesWithin48 [op] ∧ savesWithin48 rest := by
  cases op with
  | load imsi => exact ⟨trivial, h⟩
  | save imsi state => exact ⟨⟨h.1, trivial⟩, h.2⟩
  | reset imsi => exact ⟨trivial, h⟩

theorem runStore_agree (x : time.Lib) (fs : FileStore) (ops : List Op) :
    ∀ (m : Option MemoryStore) (w : Disk), savesWithin48 ops → sameRecords x fs m w →
      List.Forall₂ Obs.agree (runStore memoryStore m ops).2
        (runStore (fileStore x fs) w ops).2 := by
  induction ops with
  | nil =>
    intro m w _ _
    exact List.Forall₂.nil
  | cons op rest ih =>
    intro m w hs h
    obtain ⟨h1, h2⟩ := savesWithin48_cons op rest hs
    obtain ⟨ha, hr⟩ := stepStore_agree x fs m w op h1 h
    exact List.Forall₂.cons ha (ih _ _ h2 hr)

theorem sameRecords_initial (x : time.Lib) (fs : FileStore) (w : Disk)
    (habsent : w.files fs.Path = .absent) (hio : w.writeError fs.Path = none)
    (hclock : (fs.clock w).IsZero = true ∨ x.roundTrips (fs.clock w)) :
    sameRecords x fs (some NewMemoryStore) w := by
  refine ⟨hio, hclock, fun _ => none, newFileData, fun _ => none, rfl, ?_, rfl,
    fun _ => Or.inl ⟨rfl, rfl⟩⟩
  unfold FileStore.loadFile
  rw [habsent]

/-- After `Save` of a state with a zero time stamp, `Load` on the memory
store returns the zero time stamp and `Load` on the file store returns the
clock of the store, 2025-01-02T03:04:05Z; and `Save` of a state whose SQNMS
is 2^48 succeeds on the memory store and fails on the file store. Both runs
start from an empty memory store and an absent file, and no write fails. -/
theorem stores_differ :
    (∃ sm sf,
      (runStore memoryStore (some NewMemoryStore)
        [.save "440100123456789" sampleStateSaved, .load "440100123456789"]).2 =
        [.done none, .loaded (.ok (sm, true))] ∧
      (runStore (fileStore time.rfc3339 sampleFileStore) emptyDisk
        [.save "440100123456789" sampleStateSaved, .load "440100123456789"]).2 =
        [.done none, .loaded (.ok (sf, true))] ∧
      sm.UpdatedAt = { sec := 0, nsec := 0, offset := 0 } ∧
      sf.UpdatedAt = { sec := 63871383845, nsec := 0, offset := 0 }) ∧
    (runStore memoryStore (some NewMemoryStore)
      [.save "440100123456789" { sampleStateSaved with SQNMS := 2 ^ 48 }]).2 = [.done none] ∧
    (runStore (fileStore time.rfc3339 sampleFileStore) emptyDisk
      [.save "440100123456789" { sampleStateSaved with SQNMS := 2 ^ 48 }]).2 =
      [.done (some "sqnstore: sqn exceeds 48 bits")] := by
  refine ⟨⟨sampleStateSaved,
    { SeqMS := sampleStateSaved.SeqMS, SQNMS := sampleStateSaved.SQNMS,
      UpdatedAt := { sec := 63871383845, nsec := 0, offset := 0 } },
    rfl, ?_, rfl, rfl⟩, rfl, rfl⟩
  have hload := (Save_then_Load time.rfc3339 sampleFileStore emptyDisk
    (FileStore.Save time.rfc3339 sampleFileStore emptyDisk "440100123456789"
      sampleStateSaved).1 "440100123456789"
    sampleStateSaved rfl (Or.inr ⟨by decide, rfl⟩)).2.2.2
  show [Obs.done (FileStore.Save time.rfc3339 sampleFileStore emptyDisk "440100123456789"
      sampleStateSaved).2,
    Obs.loaded (FileStore.Load time.rfc3339 sampleFileStore
      (FileStore.Save time.rfc3339 sampleFileStore emptyDisk "440100123456789"
        sampleStateSaved).1 "440100123456789")] = _
  rw [hload]
  rfl

/-- C33 (amended): starting from an empty memory store and an absent file,
with no write failure and a store clock that is zero or round-trips through
the time layout, for every sequence of Load, Save and Reset calls in which
every saved state has an SQNMS of at most 2^48-1, each call returns the
same success or failure on both stores and each Load returns the same found
flag, the same 32 SeqMS entries and the same SQNMS. The time stamp is not
part of the agreement. -/
theorem stores_agree (x : time.Lib) (fs : FileStore) (w : Disk) (ops : List Op)
    (habsent : w.files fs.Path = .absent) (hio : w.writeError fs.Path = none)
    (hclock : (fs.clock w).IsZero = true ∨ x.roundTrips (fs.clock w))
    (hsaves : savesWithin48 ops) :
    List.Forall₂ Obs.agree (runStore memoryStore (some NewMemoryStore) ops).2
      (runStore (fileStore x fs) w ops).2 :=
  runStore_agree x fs ops _ w hsaves (sameRecords_initial x fs w habsent hio hclock)

theorem stores_agree_witness :
    List.Forall₂ Obs.agree
      (runStore memoryStore (some NewMemoryStore)
        [.save "440100123456789" sampleStateSaved, .load "440100123456789",
         .reset "440100123456789", .load "440100123456789"]).2
      (runStore (fileStore time.rfc3339 sampleFileStore) emptyDisk
        [.save "440100123456789" sampleStateSaved, .load "440100123456789",
         .reset "440100123456789", .load "440100123456789"]).2 :=
  stores_agree time.rfc3339 sampleFileStore emptyDisk _ rfl rfl (Or.inr ⟨by decide, rfl⟩)
    ⟨by decide, trivial⟩

end sqnstore

/-! ## Properties of the merge of a testcase into the configuration -/

namespace config

theorem ite_config (c : Prop) [Decidable c] (a b : Config) :
    (if c then a else b) =
      { Radius := if c then a.Radius else b.Radius
        RadiusAttrs := if c then a.RadiusAttrs else b.RadiusAttrs
        EAP := if c then a.EAP else b.EAP
        Identity := if c then a.Identity else b.Identity
        SIM := if c then a.SIM else b.SIM
        SQNStore := if c then a.SQNStore else b.SQNStore } := by
  split <;> rfl

theorem ite_attrs (c : Prop) [Decidable c] (a b : RadiusAttrs) :
    (if c then a else b) =
      { NASIPAddress := if c then a.NASIPAddress else b.NASIPAddress
        NASIdentifier := if c then a.NASIdentifier else b.NASIdentifier
        CalledStationID := if c then a.CalledStationID else b.CalledStationID
        CallingStationID := if c then a.CallingStationID else b.CallingStationID } := by
  split <;> rfl

theorem ite_eap (c : Prop) [Decidable c] (a b : EAPConfig) :
    (if c then a else b) =
      { MethodMismatchPolicy := if c then a.MethodMismatchPolicy else b.MethodMismatchPolicy
        OuterIdentityUpdateOnPermanentReq :=
          if c then a.OuterIdentityUpdateOnPermanentReq else b.OuterIdentityUpdateOnPermanentReq
        PermanentIDPolicy := if c then a.PermanentIDPolicy else b.PermanentIDPolicy
        AKAPrime := if c then a.AKAPrime else b.AKAPrime } := by
  split <;> rfl

theorem ite_prime (c : Prop) [Decidable c] (a b : AKAPrimeConfig) :
    (if c then a else b) = { NetName := if c then a.NetName else b.NetName } := by
  split <;> rfl

/-- C35: `ApplyTestcase` returns the base with exactly these fields replaced
by the value of the testcase when the testcase sets it: timeout_ms, retries
and the outer-identity update when not nil; NAS-IP, NAS-Identifier,
Called-Station-ID, Calling-Station-ID, method_mismatch_policy,
permanent_id_policy and the AKA-prime net_name when not empty. Server
address, secret, realm, SIM material and SQN store settings are those of the
base, and a testcase that sets none of the fields yields the base. -/
theorem ApplyTestcase_fields (base : Config) (tc : testcase.Case) :
    ApplyTestcase base tc =
      { Radius :=
          { ServerAddr := base.Radius.ServerAddr
            Secret := base.Radius.Secret
            TimeoutMS := tc.Radius.TimeoutMS.getD base.Radius.TimeoutMS
            Retries := tc.Radius.Retries.getD base.Radius.Retries }
        RadiusAttrs :=
          { NASIPAddress :=
              if tc.Radius.Attrs.NASIPAddress ≠ "" then tc.Radius.Attrs.NASIPAddress
              else base.RadiusAttrs.NASIPAddress
            NASIdentifier :=
              if tc.Radius.Attrs.NASIdentifier ≠ "" then tc.Radius.Attrs.NASIdentifier
              else base.RadiusAttrs.NASIdentifier
            CalledStationID :=
              if tc.Radius.Attrs.CalledStationID ≠ "" then tc.Radius.Attrs.CalledStationID
              else base.RadiusAttrs.CalledStationID
            CallingStationID :=
              if tc.Radius.Attrs.CallingStationID ≠ "" then tc.Radius.Attrs.CallingStationID
              else base.RadiusAttrs.CallingStationID }
        EAP :=
          { MethodMismatchPolicy :=
              if tc.EAP.MethodMismatchPolicy ≠ "" then tc.EAP.MethodMismatchPolicy
              else base.EAP.MethodMismatchPolicy
            OuterIdentityUpdateOnPermanentReq :=
              match tc.EAP.OuterIdentityUpdateOnPermanentReq with
              | some v => some v
              | none => base.EAP.OuterIdentityUpdateOnPermanentReq
            PermanentIDPolicy :=
              if tc.EAP.PermanentIDPolicy ≠ "" then tc.EAP.PermanentIDPolicy
              else base.EAP.PermanentIDPolicy
            AKAPrime :=
              { NetName :=
                  if tc.EAP.AKAPrime.NetName ≠ "" then tc.EAP.AKAPrime.NetName
                  else base.EAP.AKAPrime.NetName } }
        Identity := base.Identity
        SIM := base.SIM
        SQNStore := base.SQNStore } ∧
    (tc.Radius.TimeoutMS = none → tc.Radius.Retries = none →
      tc.EAP.OuterIdentityUpdateOnPermanentReq = none →
      tc.Radius.Attrs.NASIPAddress = "" → tc.Radius.Attrs.NASIdentifier = "" →
      tc.Radius.Attrs.CalledStationID = "" → tc.Radius.Attrs.CallingStationID = "" →
      tc.EAP.MethodMismatchPolicy = "" → tc.EAP.PermanentIDPolicy = "" →
      tc.EAP.AKAPrime.NetName = "" → ApplyTestcase base tc = base) := by
  obtain ⟨ver, name, desc, ident, ⟨tmo, ret, ⟨a1, a2, a3, a4⟩⟩, ⟨mm, ou, pp, po, ⟨nn⟩⟩, sqn,
    expect, trace⟩ := tc
  obtain ⟨⟨r1, r2, r3, r4⟩, ⟨b1, b2, b3, b4⟩, ⟨e1, e2, e3, ⟨e4⟩⟩, idn, sim, st⟩ := base
  constructor
  · cases tmo <;> cases ret <;> cases ou <;>
      simp only [ApplyTestcase, ite_config, ite_attrs, ite_eap, ite_prime, ite_self,
        Option.getD]
  · intro a b c d e f g h i j
    simp only at a b c d e f g h i j
    subst a b c d e f g h i j
    rfl

end config

/-! ## Properties of the validation of a testcase -/

namespace testcase

/-- `TrimSpace` leaves nothing exactly when every character is white space. -/
theorem TrimSpace_eq_empty (s : String) :
    strings.TrimSpace s = "" ↔ ∀ c ∈ s.data, unicode.IsSpace c = true := by
  unfold strings.TrimSpace
  constructor
  · intro h
    have h1 : ((s.data.dropWhile unicode.IsSpace).reverse.dropWhile unicode.IsSpace).reverse =
        [] := congrArg String.data h
    rw [List.reverse_eq_nil_iff, List.dropWhile_eq_nil_iff] at h1
    by_cases hd : s.data.dropWhile unicode.IsSpace = []
    · exact List.dropWhile_eq_nil_iff.mp hd
    · have hhead := List.head_dropWhile_not unicode.IsSpace s.data hd
      have hmem : (s.data.dropWhile unicode.IsSpace).head hd ∈
          (s.data.dropWhile unicode.IsSpace).reverse :=
        List.mem_reverse.mpr (List.head_mem hd)
      rw [h1 _ hmem] at hhead
      exact absurd hhead (by simp)
  · intro h
    have hd : s.data.dropWhile unicode.IsSpace = [] := List.dropWhile_eq_nil_iff.mpr h
    rw [hd]
    rfl

theorem HasPrefix_iff (s pre : String) :
    strings.HasPrefix s pre = true ↔ ∃ rest : String, s = pre ++ rest := by
  unfold strings.HasPrefix
  rw [List.isPrefixOf_iff_prefix]
  constructor
  · rintro ⟨t, ht⟩
    exact ⟨⟨t⟩, String.ext (by rw [String.data_append, ht])⟩
  · rintro ⟨rest, h⟩
    exact ⟨rest.data, by rw [h, String.data_append]⟩

theorem isOneOf_iff (value : String) (allowed : List String) :
    isOneOf value allowed = true ↔ value ∈ allowed := by
  induction allowed with
  | nil => simp [isOneOf]
  | cons v rest ih =>
    unfold isOneOf
    by_cases h : value = v
    · simp [h]
    · rw [if_neg h, ih]
      simp [h]

/-- C36: `Validate` accepts a case (returns the nil error) iff the version
is 1, the identity has a character that is not white space, expect.result
is accept or reject, each of eap.method_mismatch_policy,
eap.permanent_id_policy and trace.level is empty or one of its allowed
values, and each non-empty key literal of expect.mppe starts with hex: or
b64:; in every other case it returns an error. -/
theorem Validate_accepts_iff (c : Case) :
    (c.Validate = none ↔
      (c.Version = 1 ∧ (∃ ch ∈ c.Identity.data, unicode.IsSpace ch = false) ∧
        (c.Expect.Result = "accept" ∨ c.Expect.Result = "reject") ∧
        (c.EAP.MethodMismatchPolicy = "" ∨
          c.EAP.MethodMismatchPolicy ∈ ["strict", "warn", "allow"]) ∧
        (c.EAP.PermanentIDPolicy = "" ∨
          c.EAP.PermanentIDPolicy ∈ ["always", "conservative", "deny"]) ∧
        (c.Trace.Level = "" ∨ c.Trace.Level ∈ ["normal", "verbose"]) ∧
        (c.Expect.MPPE.SendKey = "" ∨
          (∃ rest : String, c.Expect.MPPE.SendKey = "hex:" ++ rest) ∨
          (∃ rest : String, c.Expect.MPPE.SendKey = "b64:" ++ rest)) ∧
        (c.Expect.MPPE.RecvKey = "" ∨
          (∃ rest : String, c.Expect.MPPE.RecvKey = "hex:" ++ rest) ∨
          (∃ rest : String, c.Expect.MPPE.RecvKey = "b64:" ++ rest)))) ∧
    (c.Validate ≠ none → ∃ err, c.Validate = some err) := by
  have hblank : strings.TrimSpace c.Identity = "" ↔
      ¬ ∃ ch ∈ c.Identity.data, unicode.IsSpace ch = false := by
    rw [TrimSpace_eq_empty]
    constructor
    · rintro h ⟨ch, hc, hs⟩
      rw [h ch hc] at hs
      exact absurd hs (by simp)
    · intro h ch hc
      by_contra hn
      exact h ⟨ch, hc, by simpa using hn⟩
  have hkey : ∀ v : String, hasKeyPrefix v = true ↔
      ((∃ rest : String, v = "hex:" ++ rest) ∨ (∃ rest : String, v = "b64:" ++ rest)) := by
    intro v
    unfold hasKeyPrefix
    rw [Bool.or_eq_true, HasPrefix_iff, HasPrefix_iff]
  constructor
  · unfold Case.Validate
    by_cases h1 : c.Version ≠ 1
    · rw [if_pos h1]
      simp only [reduceCtorEq, false_iff, not_and]
      intro hv
      exact absurd hv h1
    rw [if_neg h1]
    have h1' : c.Version = 1 := not_not.mp h1
    by_cases h2 : strings.TrimSpace c.Identity = ""
    · rw [if_pos h2]
      simp only [reduceCtorEq, false_iff]
      rintro ⟨_, hid, _⟩
      exact (hblank.mp h2) hid
    rw [if_neg h2]
    have h2' : ∃ ch ∈ c.Identity.data, unicode.IsSpace ch = false := by
      by_contra hn
      exact h2 (hblank.mpr hn)
    by_cases h3 : ¬ (c.Expect.Result = "accept" ∨ c.Expect.Result = "reject")
    · rw [if_pos h3]
      simp only [reduceCtorEq, false_iff]
      rintro ⟨_, _, hr, _⟩
      exact h3 hr
    rw [if_neg h3]
    have h3' := not_not.mp h3
    by_cases h4 : c.EAP.MethodMismatchPolicy ≠ "" ∧
        (!isOneOf c.EAP.MethodMismatchPolicy ["strict", "warn", "allow"]) = true
    · rw [if_pos h4]
      simp only [reduceCtorEq, false_iff]
      rintro ⟨_, _, _, hp, _⟩
      rcases hp with hp | hp
      · exact h4.1 hp
      · have := (isOneOf_iff _ _).mpr hp
        rw [this] at h4
        exact absurd h4.2 (by simp)
    rw [if_neg h4]
    have h4' : c.EAP.MethodMismatchPolicy = "" ∨
        c.EAP.MethodMismatchPolicy ∈ ["strict", "warn", "allow"] := by
      by_cases he : c.EAP.MethodMismatchPolicy = ""
      · exact Or.inl he
      · right
        rw [← isOneOf_iff]
        by_contra hn
        exact h4 ⟨he, by simpa using hn⟩
    by_cases h5 : c.EAP.PermanentIDPolicy ≠ "" ∧
        (!isOneOf c.EAP.PermanentIDPolicy ["always", "conservative", "deny"]) = true
    · rw [if_pos h5]
      simp only [reduceCtorEq, false_iff]
      rintro ⟨_, _, _, _, hp, _⟩
      rcases hp with hp | hp
      · exact h5.1 hp
      · have := (isOneOf_iff _ _).mpr hp
        rw [this] at h5
        exact absurd h5.2 (by simp)
    rw [if_neg h5]
    have h5' : c.EAP.PermanentIDPolicy = "" ∨
        c.EAP.PermanentIDPolicy ∈ ["always", "conservative", "deny"] := by
      by_cases he : c.EAP.PermanentIDPolicy = ""
      · exact Or.inl he
      · right
        rw [← isOneOf_iff]
        by_contra hn
        exact h5 ⟨he, by simpa using hn⟩
    by_cases h6 : c.Trace.Level ≠ "" ∧ (!isOneOf c.Trace.Level ["normal", "verbose"]) = true
    · rw [if_pos h6]
      simp only [reduceCtorEq, false_iff]
      rintro ⟨_, _, _, _, _, hp, _⟩
      rcases hp with hp | hp
      · exact h6.1 hp
      · have := (isOneOf_iff _ _).mpr hp
        rw [this] at h6
        exact absurd h6.2 (by simp)
    rw [if_neg h6]
    have h6' : c.Trace.Level = "" ∨ c.Trace.Level ∈ ["normal", "verbose"] := by
      by_cases he : c.Trace.Level = ""
      · exact Or.inl he
      · right
        rw [← isOneOf_iff]
        by_contra hn
        exact h6 ⟨he, by simpa using hn⟩
    by_cases h7 : c.Expect.MPPE.SendKey ≠ "" ∧ (!hasKeyPrefix c.Expect.MPPE.SendKey) = true
    · rw [if_pos h7]
      simp only [reduceCtorEq, false_iff]
      rintro ⟨_, _, _, _, _, _, hp, _⟩
      rcases hp with hp | hp
      · exact h7.1 hp
      · have := (hkey _).mpr hp
        rw [this] at h7
        exact absurd h7.2 (by simp)
    rw [if_neg h7]
    have h7' : c.Expect.MPPE.SendKey = "" ∨
        (∃ rest : String, c.Expect.MPPE.SendKey = "hex:" ++ rest) ∨
        (∃ rest : String, c.Expect.MPPE.SendKey = "b64:" ++ rest) := by
      by_cases he : c.Expect.MPPE.SendKey = ""
      · exact Or.inl he
      · right
        rw [← hkey]
        by_contra hn
        exact h7 ⟨he, by simpa using hn⟩
    by_cases h8 : c.Expect.MPPE.RecvKey ≠ "" ∧ (!hasKeyPrefix c.Expect.MPPE.RecvKey) = true
    · rw [if_pos h8]
      simp only [reduceCtorEq, false_iff]
      rintro ⟨_, _, _, _, _, _, _, hp⟩
      rcases hp with hp | hp
      · exact h8.1 hp
      · have := (hkey _).mpr hp
        rw [this] at h8
        exact absurd h8.2 (by simp)
    rw [if_neg h8]
    have h8' : c.Expect.MPPE.RecvKey = "" ∨
        (∃ rest : String, c.Expect.MPPE.RecvKey = "hex:" ++ rest) ∨
        (∃ rest : String, c.Expect.MPPE.RecvKey = "b64:" ++ rest) := by
      by_cases he : c.Expect.MPPE.RecvKey = ""
      · exact Or.inl he
      · right
        rw [← hkey]
        by_contra hn
        exact h8 ⟨he, by simpa using hn⟩
    simp only [true_iff]
    exact ⟨h1', h2', h3', h4', h5', h6', h7', h8'⟩
  · intro h
    cases hv : c.Validate with
    | none => exact absurd hv h
    | some err => exact ⟨err, rfl⟩

/-- The cases of the tests: the valid case is accepted, a case without
identity and a case with a key literal `raw:deadbeef` are refused. -/
theorem Validate_samples :
    sampleCaseValid.Validate = none ∧
    ({ sampleCaseValid with Identity := "" } : Case).Validate =
      some "testcase: identity is required" ∧
    ({ sampleCaseValid with
        Expect :=
          { sampleCaseValid.Expect with
            MPPE := { RequirePresent := none, SendKey := "raw:deadbeef", RecvKey := "" } } } :
      Case).Validate = some "testcase: expect.mppe.send_key must start with hex: or b64:" := by
  refine ⟨by decide, by decide, by decide⟩

end testcase

/-! ## Properties of the EAP codec: encoding a parsed packet -/

namespace eap

theorem put_declaredLength (hi lo : Nat) (h0 : hi < 256) (h1 : lo < 256) :
    bigEndianPutUint16 ((256 * hi + lo) % 2 ^ 16) = (hi, lo) := by
  have e : (256 * hi + lo) % 2 ^ 16 = 256 * hi + lo := Nat.mod_eq_of_lt (by omega)
  rw [e]
  simp only [bigEndianPutUint16, Nat.shiftRight_eq_div_pow, Prod.mk.injEq]
  constructor <;> omega

/-- C38: for every byte string that `Parse` accepts. With Code Request or
Response, `Encode` of the parsed packet is the first L bytes of the input,
L being the declared length, so the bytes beyond L are ignored. With any
other Code, Success and Failure among them, the parsed Type is 0, the
TypeData is empty and `Encode` of the parsed packet is the 4-byte header
with the Code and Identifier of the input and length 4. -/
theorem Encode_Parse (b : List Nat) (p : Packet) (hb : ∀ x ∈ b, x < 256)
    (hp : Parse b = .ok p) :
    p.Code = b.getD 0 0 ∧ p.Identifier = b.getD 1 0 ∧
    ((p.Code = CodeRequest ∨ p.Code = CodeResponse) →
      p.Encode = .ok (b.take (declaredLength b)) ∧ 5 ≤ declaredLength b ∧
      declaredLength b ≤ b.length) ∧
    (¬ (p.Code = CodeRequest ∨ p.Code = CodeResponse) →
      p.Type_ = 0 ∧ p.TypeData = [] ∧ p.Encode = .ok [b.getD 0 0, b.getD 1 0, 0, 4]) := by
  have hL := lengthField_eq_declaredLength b hb
  have h2 := getD_byte b hb 2
  have h3 := getD_byte b hb 3
  rw [Parse_eq, hL] at hp
  by_cases c1 : b.length < 4
  · rw [if_pos c1] at hp
    exact absurd hp (by simp)
  rw [if_neg c1] at hp
  by_cases c2 : declaredLength b < 4
  · rw [if_pos c2] at hp
    exact absurd hp (by simp)
  rw [if_neg c2] at hp
  by_cases c3 : declaredLength b > b.length
  · rw [if_pos c3] at hp
    exact absurd hp (by simp)
  rw [if_neg c3] at hp
  by_cases c4 : b.getD 0 0 = CodeRequest ∨ b.getD 0 0 = CodeResponse
  · rw [if_pos c4] at hp
    by_cases c5 : declaredLength b < 5
    · rw [if_pos c5] at hp
      exact absurd hp (by simp)
    rw [if_neg c5] at hp
    have hp' := Except.ok.inj hp
    subst hp'
    refine ⟨rfl, rfl, fun _ => ⟨?_, by omega, by omega⟩, fun hn => absurd c4 hn⟩
    rw [Encode_reqresp _ c4]
    simp only
    rcases b with _ | ⟨a0, _ | ⟨a1, _ | ⟨a2, _ | ⟨a3, _ | ⟨a4, rest⟩⟩⟩⟩⟩
    · simp at c1
    · simp at c1
    · simp at c1
    · simp at c1
    · simp only [List.length_cons, List.length_nil] at c3
      omega
    · have hdl : declaredLength (a0 :: a1 :: a2 :: a3 :: a4 :: rest) = 256 * a2 + a3 := rfl
      have g2 : (a0 :: a1 :: a2 :: a3 :: a4 :: rest).getD 2 0 = a2 := rfl
      have g3 : (a0 :: a1 :: a2 :: a3 :: a4 :: rest).getD 3 0 = a3 := rfl
      rw [g2] at h2
      rw [g3] at h3
      rw [hdl] at c3 c5 ⊢
      simp only [List.length_cons] at c3
      obtain ⟨k, hk⟩ : ∃ k, 256 * a2 + a3 = k + 5 := ⟨256 * a2 + a3 - 5, by omega⟩
      have hkl : k ≤ rest.length := by omega
      have htake : (a0 :: a1 :: a2 :: a3 :: a4 :: rest).take (k + 5) =
          a0 :: a1 :: a2 :: a3 :: a4 :: rest.take k := rfl
      have htd : (if k + 5 > 5 then (a0 :: a1 :: a2 :: a3 :: a4 :: rest.take k).drop 5 else []) =
          rest.take k := by
        by_cases hk0 : k + 5 > 5
        · rw [if_pos hk0]
          rfl
        · rw [if_neg hk0]
          have : k = 0 := by omega
          subst this
          rfl
      rw [hk, htake, htd]
      have hlen : 5 + (rest.take k).length = 256 * a2 + a3 := by
        rw [List.length_take, Nat.min_eq_left hkl]
        omega
      rw [hlen, put_declaredLength a2 a3 h2 h3]
      rfl
  · rw [if_neg c4] at hp
    have hp' := Except.ok.inj hp
    subst hp'
    refine ⟨rfl, rfl, fun h => absurd h c4, fun _ => ⟨rfl, rfl, ?_⟩⟩
    rw [Encode_other _ c4]
    rfl

theorem Encode_Parse_witness :
    (({ Code := 1, Identifier := 7, Type_ := 23, TypeData := [1, 2] } : Packet).Encode =
      .ok (([1, 7, 0, 7, 23, 1, 2, 99, 99] : List Nat).take
        (declaredLength [1, 7, 0, 7, 23, 1, 2, 99, 99]))) ∧
    (({ Code := 3, Identifier := 7, Type_ := 0, TypeData := [] } : Packet).Encode =
      .ok [([3, 7, 0, 6, 1, 2] : List Nat).getD 0 0, ([3, 7, 0, 6, 1, 2] : List Nat).getD 1 0,
        0, 4]) :=
  ⟨((Encode_Parse [1, 7, 0, 7, 23, 1, 2, 99, 99]
      { Code := 1, Identifier := 7, Type_ := 23, TypeData := [1, 2] } (by decide) rfl).2.2.1
      (Or.inl rfl)).1,
   ((Encode_Parse [3, 7, 0, 6, 1, 2] { Code := 3, Identifier := 7, Type_ := 0, TypeData := [] }
      (by decide) rfl).2.2.2 (by decide)).2.2⟩

end eap

/-! ## Properties of the vendor TLV reader -/

namespace radiusc

theorem take_two_drop (b : List Nat) (n : Nat) (h2 : 2 ≤ n) (hn : n ≤ b.length) :
    b.getD 0 0 :: b.getD 1 0 :: (b.take n).drop 2 = b.take n := by
  rcases b with _ | ⟨a0, _ | ⟨a1, rest⟩⟩
  · simp only [List.length_nil] at hn
    omega
  · simp only [List.length_cons, List.length_nil] at hn
    omega
  · obtain ⟨k, hk⟩ : ∃ k, n = k + 2 := ⟨n - 2, by omega⟩
    subst hk
    rfl

/-- What the reader returns is a list of TLVs whose encoding is the input. -/
theorem parse_encode (n : Nat) : ∀ (b : List Nat) (tlvs : List vendorTLV),
    b.length ≤ n → (∀ x ∈ b, x < 256) → parseVendorTLVs b = .ok tlvs →
    encodeTLVs tlvs = b ∧ ∀ tlv ∈ tlvs, 2 + tlv.value.length < 256 := by
  induction n with
  | zero =>
    intro b tlvs h _ hp
    have hb : b = [] := List.eq_nil_of_length_eq_zero (by omega)
    subst hb
    unfold parseVendorTLVs at hp
    rw [parseLoop_nil] at hp
    rw [← Except.ok.inj hp]
    exact ⟨rfl, fun _ hm => absurd hm (List.not_mem_nil _)⟩
  | succ n ih =>
    intro b tlvs h hb hp
    unfold parseVendorTLVs at hp
    by_cases h0 : b.length = 0
    · have hb0 : b = [] := List.eq_nil_of_length_eq_zero h0
      subst hb0
      rw [parseLoop_nil] at hp
      rw [← Except.ok.inj hp]
      exact ⟨rfl, fun _ hm => absurd hm (List.not_mem_nil _)⟩
    · by_cases h1 : b.length = 1
      · rw [parseLoop_short b [] h1] at hp
        exact absurd hp (by simp)
      · by_cases hl : b.getD 1 0 < 2 ∨ b.getD 1 0 > b.length
        · rw [parseLoop_invalid b [] (by omega) hl] at hp
          exact absurd hp (by simp)
        · have hge : 2 ≤ b.getD 1 0 := by omega
          have hle : b.getD 1 0 ≤ b.length := by omega
          have hlt : b.getD 1 0 < 256 := eap.getD_byte b hb 1
          rw [parseLoop_step b [] hge hle, parseLoop_acc _ _ _ (Nat.le_refl _)] at hp
          cases hr : parseVendorTLVsLoop (b.drop (b.getD 1 0)) [] with
          | error e =>
            rw [hr] at hp
            exact absurd hp (by simp [Except.map])
          | ok rest =>
            rw [hr] at hp
            simp only [Except.map, List.nil_append, List.singleton_append,
              Except.ok.injEq] at hp
            have hd : (b.drop (b.getD 1 0)).length ≤ n := by
              rw [List.length_drop]
              omega
            obtain ⟨he, hbd⟩ := ih (b.drop (b.getD 1 0)) rest hd
              (fun x hx => hb x (List.mem_of_mem_drop hx)) hr
            have hvl : 2 + ((b.take (b.getD 1 0)).drop 2).length = b.getD 1 0 := by
              rw [List.length_drop, List.length_take, Nat.min_eq_left hle]
              omega
            rw [← hp]
            constructor
            · unfold encodeTLVs at he ⊢
              rw [List.flatMap_cons, he]
              unfold makeTLV
              simp only
              have hlt' : b.getD 1 0 < 2 ^ 8 := hlt
              rw [hvl, Nat.mod_eq_of_lt hlt']
              simp only [List.cons_append, List.nil_append]
              have e2 := List.take_append_drop (b.getD 1 0) b
              rw [← take_two_drop b (b.getD 1 0) hge hle] at e2
              exact e2
            · intro tlv hm
              rcases List.mem_cons.mp hm with hm | hm
              · rw [hm]
                simp only
                omega
              · exact hbd tlv hm

/-- The encoding of TLVs whose length fits a byte is read back as the
TLVs. -/
theorem parse_of_encode (tlvs : List vendorTLV)
    (h : ∀ tlv ∈ tlvs, 2 + tlv.value.length < 256) :
    parseVendorTLVs (encodeTLVs tlvs) = .ok tlvs := by
  induction tlvs with
  | nil =>
    unfold parseVendorTLVs
    exact parseLoop_nil []
  | cons tlv rest ih =>
    have h1 := h tlv (List.mem_cons_self _ _)
    have h2 := ih fun t ht => h t (List.mem_cons_of_mem _ ht)
    have h1' : 2 + tlv.value.length < 2 ^ 8 := h1
    have he : encodeTLVs (tlv :: rest) =
        tlv.typ :: (tlv.value.length + 2) :: (tlv.value ++ encodeTLVs rest) := by
      unfold encodeTLVs makeTLV
      rw [List.flatMap_cons, Nat.mod_eq_of_lt h1', Nat.add_comm 2 tlv.value.length]
      rfl
    rw [he]
    exact parseVendorTLVs_cons tlv.typ tlv.value _ rest h2

/-- C40: `parseVendorTLVs` returns on every input; on a byte string it
succeeds iff the input is the concatenation of TLVs, each made of a type
byte, a length byte of at least 2 that counts the two header bytes and the
value, and the value; and when it succeeds, encoding every returned
(type, value) as type, len(value)+2, value, in order, gives the input. -/
theorem parseVendorTLVs_iff (b : List Nat) (hb : ∀ x ∈ b, x < 256) :
    ((∃ tlvs, parseVendorTLVs b = .ok tlvs) ∨ (∃ err, parseVendorTLVs b = .error err)) ∧
    ((∃ tlvs, parseVendorTLVs b = .ok tlvs) ↔
      ∃ tlvs : List vendorTLV, (∀ tlv ∈ tlvs, 2 + tlv.value.length < 256) ∧
        b = encodeTLVs tlvs) ∧
    (∀ tlvs, parseVendorTLVs b = .ok tlvs →
      (tlvs.flatMap fun tlv => tlv.typ :: (tlv.value.length + 2) :: tlv.value) = b ∧
      encodeTLVs tlvs = b) := by
  refine ⟨?_, ?_, ?_⟩
  · cases parseVendorTLVs b with
    | ok tlvs => exact Or.inl ⟨tlvs, rfl⟩
    | error err => exact Or.inr ⟨err, rfl⟩
  · constructor
    · rintro ⟨tlvs, hp⟩
      obtain ⟨he, hbd⟩ := parse_encode b.length b tlvs (Nat.le_refl _) hb hp
      exact ⟨tlvs, hbd, he.symm⟩
    · rintro ⟨tlvs, hbd, he⟩
      exact ⟨tlvs, by rw [he]; exact parse_of_encode tlvs hbd⟩
  · intro tlvs hp
    obtain ⟨he, hbd⟩ := parse_encode b.length b tlvs (Nat.le_refl _) hb hp
    refine ⟨?_, he⟩
    rw [← he]
    unfold encodeTLVs makeTLV
    apply List.flatMap_congr
    intro tlv hm
    have h1' : 2 + tlv.value.length < 2 ^ 8 := hbd tlv hm
    rw [Nat.mod_eq_of_lt h1', Nat.add_comm 2 tlv.value.length]
    rfl

theorem parseVendorTLVs_iff_witness :
    (([{ typ := 16, value := [0x10, 0x20, 0x30, 0x40] },
        { typ := 17, value := [0xaa, 0xbb, 0xcc] }] : List vendorTLV).flatMap
      fun tlv => tlv.typ :: (tlv.value.length + 2) :: tlv.value) =
      [16, 6, 0x10, 0x20, 0x30, 0x40, 17, 5, 0xaa, 0xbb, 0xcc] ∧
    encodeTLVs
      [{ typ := 16, value := [0x10, 0x20, 0x30, 0x40] },
       { typ := 17, value := [0xaa, 0xbb, 0xcc] }] =
      [16, 6, 0x10, 0x20, 0x30, 0x40, 17, 5, 0xaa, 0xbb, 0xcc] :=
  (parseVendorTLVs_iff [16, 6, 0x10, 0x20, 0x30, 0x40, 17, 5, 0xaa, 0xbb, 0xcc]
    (by decide)).2.2 _ parseVendorTLVs_sample

end radiusc

/-! ## Properties of the peer built from configuration and testcase -/

namespace app

/-- A peer without a pinned method whose methods never return a mismatch
error never returns one itself. -/
theorem Handle_no_mismatch {ω : Type} (p : eap.Peer ω) (hexp : p.ExpectedMethod = none)
    (hm : ∀ t m, p.Methods t = some m →
      ∀ req sess w e, (m.Handle req sess w).2 ≠ .error (.mismatch e))
    (req : eap.Packet) (w : ω) (e : eap.MethodMismatchError) :
    (eap.Peer.Handle (some p) req w).result ≠ .error (.mismatch e) := by
  unfold eap.Peer.Handle
  simp only
  by_cases h1 : req.Code = eap.CodeSuccess ∨ req.Code = eap.CodeFailure
  · rw [if_pos h1]
    simp
  rw [if_neg h1]
  by_cases h2 : req.Code ≠ eap.CodeRequest
  · rw [if_pos h2]
    simp
  rw [if_neg h2]
  by_cases h3 : req.Type_ = eap.TypeIdentity
  · rw [if_pos h3]
    simp only
    unfold eap.identityResponse
    split <;> simp
  rw [if_neg h3]
  cases hmeth : p.Methods req.Type_ with
  | none => simp
  | some method =>
    simp only [hexp]
    unfold eap.Peer.invoke
    simp only
    exact hm _ _ hmeth _ _ _ _

theorem akaMethod_no_mismatch {σ : Type} (ax : aka.Lib) (m : aka.Method σ) (req : eap.Packet)
    (sess : eap.Session) (w : σ) (e : eap.MethodMismatchError) :
    ((akaMethod ax m).Handle req sess w).2 ≠ .error (.mismatch e) := by
  unfold akaMethod
  simp only
  cases (aka.Method.Handle ax (some m) req (some sess) w).result with
  | ok p => simp
  | error msg => simp

/-- The shape of a peer `BuildPeer` returns: the peer of `NewPeer` on the
session of the testcase identity and the two methods, with some policy. -/
theorem BuildPeer_shape {σ : Type} (x : Lib) (ax : aka.Lib) (cfg : config.Config)
    (tc : testcase.Case) (store : Option (sqnstore.Store σ)) (peer : eap.Peer σ)
    (h : BuildPeer x ax cfg tc store = .ok peer) :
    ∃ (akaM akaPrimeM : aka.Method σ) (policy : String),
      peer =
        { eap.NewPeer (some { OuterIdentity := tc.Identity, InnerIdentity := "" })
            [some (akaMethod ax akaM), some (akaMethod ax akaPrimeM)] with
          MethodPolicy := policy } := by
  unfold BuildPeer at h
  simp only at h
  split at h
  · exact absurd h (by simp)
  split at h
  · exact absurd h (by simp)
  split at h
  · exact absurd h (by simp)
  split at h
  · exact absurd h (by simp)
  split at h
  · exact absurd h (by simp)
  split at h
  · exact absurd h (by simp)
  split at h
  · exact ⟨_, _, _, (Except.ok.inj h).symm⟩
  · exact ⟨_, _, "", (Except.ok.inj h).symm⟩

/-- C37: a peer returned by `BuildPeer` has no expected method pinned;
hence, with whatever session the peer has come to hold, `Peer.Handle`
returns no `MethodMismatchError` on any request, whatever
method_mismatch_policy is configured, and the challenge case of the runner
never returns through its exit-code-1 branch: every verdict it returns has
exit code 2. -/
theorem BuildPeer_never_mismatch {σ : Type} (x : Lib) (ax : aka.Lib) (cfg : config.Config)
    (tc : testcase.Case) (store : Option (sqnstore.Store σ)) (peer : eap.Peer σ)
    (h : BuildPeer x ax cfg tc store = .ok peer) :
    peer.ExpectedMethod = none ∧
    (∀ (sess : Option eap.Session) (req : eap.Packet) (w : σ) (e : eap.MethodMismatchError),
      (eap.Peer.Handle (some { peer with Session := sess }) req w).result ≠
        .error (.mismatch e)) ∧
    (∀ (sess : Option eap.Session) (eapMessage : List Nat) (w : σ)
      (verdict : Int × Option RunError),
      (challengeStep { peer with Session := sess } eapMessage w).2 = .error verdict →
        verdict.1 = 2) := by
  obtain ⟨akaM, akaPrimeM, policy, hpeer⟩ := BuildPeer_shape x ax cfg tc store peer h
  have hexp : peer.ExpectedMethod = none := by
    rw [hpeer]
    rfl
  have hmeth : ∀ t m, peer.Methods t = some m →
      ∀ req sess w e, (m.Handle req sess w).2 ≠ .error (.mismatch e) := by
    intro t m hm
    rw [hpeer] at hm
    simp only [eap.NewPeer, List.foldl] at hm
    by_cases h1 : t = (akaMethod ax akaPrimeM).Type_
    · rw [if_pos h1] at hm
      rw [← Option.some.inj hm]
      exact akaMethod_no_mismatch ax akaPrimeM
    · rw [if_neg h1] at hm
      by_cases h2 : t = (akaMethod ax akaM).Type_
      · rw [if_pos h2] at hm
        rw [← Option.some.inj hm]
        exact akaMethod_no_mismatch ax akaM
      · rw [if_neg h2] at hm
        exact absurd hm (by simp)
  have hno : ∀ (sess : Option eap.Session) (req : eap.Packet) (w : σ)
      (e : eap.MethodMismatchError),
      (eap.Peer.Handle (some { peer with Session := sess }) req w).result ≠
        .error (.mismatch e) :=
    fun sess req w e => Handle_no_mismatch { peer with Session := sess } hexp hmeth req w e
  refine ⟨hexp, hno, ?_⟩
  intro sess eapMessage w verdict hv
  unfold challengeStep at hv
  by_cases h0 : eapMessage.length = 0
  · rw [if_pos h0] at hv
    simp only [Except.error.injEq] at hv
    rw [← hv]
    rfl
  rw [if_neg h0] at hv
  cases hp : eap.Parse eapMessage with
  | error err =>
    rw [hp] at hv
    simp only [Except.error.injEq] at hv
    rw [← hv]
    rfl
  | ok reqPkt =>
    rw [hp] at hv
    simp only at hv
    cases hr : (eap.Peer.Handle (some { peer with Session := sess }) reqPkt w).result with
    | error err =>
      cases err with
      | mismatch e => exact absurd hr (hno sess reqPkt w e)
      | errorf msg =>
        rw [hr] at hv
        simp only [Except.error.injEq] at hv
        rw [← hv]
        rfl
    | ok res =>
      cases res with
      | none =>
        rw [hr] at hv
        simp only [Except.error.injEq] at hv
        rw [← hv]
        rfl
      | some pkt =>
        rw [hr] at hv
        exact absurd hv (by simp)

end app
/-! ## Properties of the SIM material of a validated configuration -/

namespace app

theorem isHexChar_cases (c : Char) (h : isHexChar c = true) :
    (48 ≤ c.toNat ∧ c.toNat ≤ 57) ∨ (97 ≤ c.toNat ∧ c.toNat ≤ 102) ∨
      (65 ≤ c.toNat ∧ c.toNat ≤ 70) := by
  simp only [isHexChar, Bool.or_eq_true, decide_eq_true_eq] at h
  rcases h with (⟨h1, h2⟩ | ⟨h1, h2⟩) | ⟨h1, h2⟩
  · have a : ('0' : Char).val.toNat ≤ c.val.toNat := h1
    have b : c.val.toNat ≤ ('9' : Char).val.toNat := h2
    exact Or.inl ⟨a, b⟩
  · have a : ('a' : Char).val.toNat ≤ c.val.toNat := h1
    have b : c.val.toNat ≤ ('f' : Char).val.toNat := h2
    exact Or.inr (Or.inl ⟨a, b⟩)
  · have a : ('A' : Char).val.toNat ≤ c.val.toNat := h1
    have b : c.val.toNat ≤ ('F' : Char).val.toNat := h2
    exact Or.inr (Or.inr ⟨a, b⟩)

theorem char_le_iff (a c : Char) : a ≤ c ↔ a.toNat ≤ c.toNat := Iff.rfl

theorem isHexChar_size (c : Char) (h : isHexChar c = true) : c.utf8Size = 1 := by
  apply sqnstore.utf8Size_of_le
  have hc := isHexChar_cases c h
  have e : c.toNat = c.val.toNat := rfl
  omega

theorem isHexChar_value (c : Char) (h : isHexChar c = true) :
    ∃ d, sqnstore.hexValue c = some d ∧ d < 16 := by
  have hc := isHexChar_cases c h
  have e0 : ('0' : Char).toNat = 48 := rfl
  have e9 : ('9' : Char).toNat = 57 := rfl
  have ea : ('a' : Char).toNat = 97 := rfl
  have ef : ('f' : Char).toNat = 102 := rfl
  have eA : ('A' : Char).toNat = 65 := rfl
  have eF : ('F' : Char).toNat = 70 := rfl
  unfold sqnstore.hexValue
  simp only [char_le_iff, e0, e9, ea, ef, eA, eF]
  by_cases h1 : 48 ≤ c.toNat ∧ c.toNat ≤ 57
  · rw [if_pos h1]
    exact ⟨_, rfl, by omega⟩
  · rw [if_neg h1]
    by_cases h2 : 97 ≤ c.toNat ∧ c.toNat ≤ 102
    · rw [if_pos h2]
      exact ⟨_, rfl, by omega⟩
    · rw [if_neg h2]
      have h3 : 65 ≤ c.toNat ∧ c.toNat ≤ 70 := by omega
      rw [if_pos h3]
      exact ⟨_, rfl, by omega⟩

theorem isHexChar_digit (c : Char) (h : isHexChar c = true) : ∃ d, hexDigit c = some d := by
  have hc := isHexChar_cases c h
  have e0 : ('0' : Char).toNat = 48 := rfl
  have e9 : ('9' : Char).toNat = 57 := rfl
  have ea : ('a' : Char).toNat = 97 := rfl
  have ef : ('f' : Char).toNat = 102 := rfl
  have eA : ('A' : Char).toNat = 65 := rfl
  have eF : ('F' : Char).toNat = 70 := rfl
  unfold hexDigit
  simp only [char_le_iff, e0, e9, ea, ef, eA, eF]
  by_cases h1 : 48 ≤ c.toNat ∧ c.toNat ≤ 57
  · rw [if_pos h1]
    exact ⟨_, rfl⟩
  · rw [if_neg h1]
    by_cases h2 : 97 ≤ c.toNat ∧ c.toNat ≤ 102
    · rw [if_pos h2]
      exact ⟨_, rfl⟩
    · rw [if_neg h2]
      have h3 : 65 ≤ c.toNat ∧ c.toNat ≤ 70 := by omega
      rw [if_pos h3]
      exact ⟨_, rfl⟩

theorem hexDecode_ok (n : Nat) : ∀ l : List Char, l.length = 2 * n →
    (∀ c ∈ l, isHexChar c = true) → ∃ b, hexDecode l = .ok b ∧ b.length = n := by
  induction n with
  | zero =>
    intro l hl _
    have : l = [] := List.eq_nil_of_length_eq_zero (by omega)
    subst this
    exact ⟨[], rfl, rfl⟩
  | succ n ih =>
    intro l hl hall
    rcases l with _ | ⟨a, _ | ⟨b, rest⟩⟩
    · simp at hl
    · simp only [List.length_cons, List.length_nil] at hl
      omega
    · obtain ⟨da, ha⟩ := isHexChar_digit a (hall a (by simp))
      obtain ⟨db, hdb⟩ := isHexChar_digit b (hall b (by simp))
      obtain ⟨out, ho, hlen⟩ := ih rest
        (by simp only [List.length_cons] at hl; omega)
        (fun c hc => hall c (by simp [hc]))
      refine ⟨(da * 16 + db) :: out, ?_, by simp [hlen]⟩
      simp only [hexDecode, ha, hdb, ho]

theorem sampleLib_decodesHex : sampleLib.decodesHex := by
  intro s hs hall
  obtain ⟨b, hb, hlen⟩ := hexDecode_ok (s.length / 2) s.data
    (by
      have : s.data.length = s.length := rfl
      omega)
    hall
  exact ⟨b, hb, hlen⟩

theorem validateHexLen_none (v : String) (n : Nat) (h : config.validateHexLen v n = none) :
    (strings.TrimSpace v).utf8ByteSize = n ∧
      ∀ c ∈ (strings.TrimSpace v).data, isHexChar c = true := by
  unfold config.validateHexLen at h
  simp only at h
  by_cases h1 : strings.TrimSpace v = ""
  · rw [if_pos h1] at h
    exact absurd h (by simp)
  rw [if_neg h1] at h
  by_cases h2 : (strings.TrimSpace v).utf8ByteSize ≠ n
  · rw [if_pos h2] at h
    exact absurd h (by simp)
  rw [if_neg h2] at h
  by_cases h3 : (strings.TrimSpace v).utf8ByteSize % 2 ≠ 0
  · rw [if_pos h3] at h
    exact absurd h (by simp)
  rw [if_neg h3] at h
  by_cases h4 : ((strings.TrimSpace v).data.all fun r =>
      decide ('0' ≤ r ∧ r ≤ '9') || decide ('a' ≤ r ∧ r ≤ 'f') ||
        decide ('A' ≤ r ∧ r ≤ 'F')) = true
  · refine ⟨not_not.mp h2, ?_⟩
    intro c hc
    exact List.all_eq_true.mp h4 c hc
  · rw [if_neg h4] at h
    exact absurd h (by simp)

/-- A validated text without surrounding white space has as many characters
as bytes, all of them hexadecimal digits. -/
theorem valid_hex_text (v : String) (n : Nat) (hv : config.validateHexLen v n = none)
    (ht : strings.TrimSpace v = v) :
    v.utf8ByteSize = n ∧ v.length = n ∧ ∀ c ∈ v.data, isHexChar c = true := by
  obtain ⟨h1, h2⟩ := validateHexLen_none v n hv
  rw [ht] at h1 h2
  have hsz := sqnstore.utf8ByteSize_ascii v.data fun c hc => isHexChar_size c (h2 c hc)
  have hmk : String.mk v.data = v := rfl
  rw [hmk] at hsz
  have hl : v.length = v.data.length := rfl
  exact ⟨h1, by omega, h2⟩

theorem decodeHex_of_valid (x : Lib) (hx : x.decodesHex) (label v : String) (n : Nat)
    (hv : config.validateHexLen v (2 * n) = none) (ht : strings.TrimSpace v = v) :
    ∃ b, decodeHex x label v n = .ok b ∧ b.length = n := by
  obtain ⟨_, hlen, hall⟩ := valid_hex_text v (2 * n) hv ht
  obtain ⟨b, hb, hbl⟩ := hx v (by omega) hall
  have hbn : b.length = n := by omega
  refine ⟨b, ?_, hbn⟩
  unfold decodeHex
  rw [hb]
  simp only
  rw [if_neg (not_not.mpr hbn)]

theorem foldl_hex_bound (cs : List Char) (hall : ∀ c ∈ cs, isHexChar c = true) :
    ∀ acc : Nat, ∃ v,
      cs.foldl
        (fun acc c =>
          match acc, sqnstore.hexValue c with
          | some n, some d => some (n * 16 + d)
          | _, _ => none)
        (some acc) = some v ∧ v < (acc + 1) * 16 ^ cs.length := by
  induction cs with
  | nil =>
    intro acc
    exact ⟨acc, rfl, by simp⟩
  | cons c cs ih =>
    intro acc
    obtain ⟨d, hd, hd16⟩ := isHexChar_value c (hall c (List.mem_cons_self _ _))
    obtain ⟨v, hv, hb⟩ := ih (fun e he => hall e (List.mem_cons_of_mem _ he)) (acc * 16 + d)
    refine ⟨v, ?_, ?_⟩
    · simp only [List.foldl_cons, hd]
      exact hv
    · have h1 : (acc * 16 + d + 1) * 16 ^ cs.length ≤ ((acc + 1) * 16) * 16 ^ cs.length :=
        Nat.mul_le_mul_right _ (by omega)
      have h2 : (acc + 1) * 16 ^ (c :: cs).length = ((acc + 1) * 16) * 16 ^ cs.length := by
        rw [List.length_cons, Nat.pow_succ, Nat.mul_assoc, Nat.mul_comm (16 ^ cs.length) 16]
      omega

theorem ParseSQNHex_of_valid (v : String) (hv : config.validateHexLen v 12 = none)
    (ht : strings.TrimSpace v = v) :
    ∃ sqn, sqnstore.ParseSQNHex v = .ok sqn ∧ sqn ≤ 2 ^ 48 - 1 := by
  obtain ⟨hsz, hlen, hall⟩ := valid_hex_text v 12 hv ht
  obtain ⟨w, hw, hb⟩ := foldl_hex_bound v.data hall 0
  have hl : v.data.length = 12 := hlen
  rw [hl] at hb
  have hb' : w < 281474976710656 := by
    have : (0 + 1) * 16 ^ 12 = 281474976710656 := by norm_num
    omega
  have hmax : sqnstore.MaxSQN = 281474976710655 := by decide
  refine ⟨w, ?_, by omega⟩
  unfold sqnstore.ParseSQNHex
  have hsz' : ¬ v.utf8ByteSize ≠ sqnstore.SQNHexLen := not_not.mpr hsz
  rw [if_neg hsz']
  unfold sqnstore.parseUintHex
  have hne : ¬ v.data = [] := by
    intro he
    rw [he] at hl
    simp at hl
  rw [if_neg hne, hw]
  simp only
  rw [if_pos (by omega)]
  simp only
  rw [if_neg (by rw [hmax]; omega)]

theorem Validate_none (c : config.Config) (h : c.Validate = none) :
    strings.TrimSpace c.SIM.IMSI ≠ "" ∧ config.validateHexLen c.SIM.KI 32 = none ∧
      config.validateHexLen c.SIM.OPC 32 = none ∧ config.validateHexLen c.SIM.AMF 4 = none ∧
      config.validateHexLen c.SIM.SQNInitialHex 12 = none := by
  unfold config.Config.Validate at h
  by_cases h1 : strings.TrimSpace c.Radius.ServerAddr = ""
  · rw [if_pos h1] at h
    exact absurd h (by simp)
  rw [if_neg h1] at h
  by_cases h2 : strings.TrimSpace c.Radius.Secret = ""
  · rw [if_pos h2] at h
    exact absurd h (by simp)
  rw [if_neg h2] at h
  by_cases h3 : strings.TrimSpace c.SIM.IMSI = ""
  · rw [if_pos h3] at h
    exact absurd h (by simp)
  rw [if_neg h3] at h
  cases k1 : config.validateHexLen c.SIM.KI 32 with
  | some err =>
    rw [k1] at h
    exact absurd h (by simp)
  | none =>
    rw [k1] at h
    simp only at h
    cases k2 : config.validateHexLen c.SIM.OPC 32 with
    | some err =>
      rw [k2] at h
      exact absurd h (by simp)
    | none =>
      rw [k2] at h
      simp only at h
      cases k3 : config.validateHexLen c.SIM.AMF 4 with
      | some err =>
        rw [k3] at h
        exact absurd h (by simp)
      | none =>
        rw [k3] at h
        simp only at h
        cases k4 : config.validateHexLen c.SIM.SQNInitialHex 12 with
        | some err =>
          rw [k4] at h
          exact absurd h (by simp)
        | none => exact ⟨h3, rfl, rfl, rfl, rfl⟩

theorem ApplyTestcase_SIM (base : config.Config) (tc : testcase.Case) :
    (config.ApplyTestcase base tc).SIM = base.SIM := by
  obtain ⟨ver, name, desc, ident, ⟨tmo, ret, ⟨a1, a2, a3, a4⟩⟩, ⟨mm, ou, pp, po, ⟨nn⟩⟩, sqn,
    expect, trace⟩ := tc
  obtain ⟨⟨r1, r2, r3, r4⟩, ⟨b1, b2, b3, b4⟩, ⟨e1, e2, e3, ⟨e4⟩⟩, idn, sim, st⟩ := base
  cases tmo <;> cases ret <;> cases ou <;>
    simp only [config.ApplyTestcase, config.ite_config, config.ite_attrs, config.ite_eap,
      config.ite_prime, ite_self]

theorem New_ok_of {σ : Type} (opts : aka.Options σ)
    (h1 : opts.MethodType = eap.TypeAKA ∨ opts.MethodType = eap.TypeAKAPrime)
    (h2 : opts.KI.length = 16) (h3 : opts.OPC.length = 16) (h4 : opts.AMF.length = 2)
    (h5 : opts.IMSI ≠ "") : ∃ m, aka.New opts = .ok m := by
  have n1 : ¬ (opts.MethodType ≠ eap.TypeAKA ∧ opts.MethodType ≠ eap.TypeAKAPrime) := by
    rintro ⟨ha, hb⟩
    rcases h1 with h | h
    · exact ha h
    · exact hb h
  unfold aka.New
  rw [if_neg n1, if_neg (not_not.mpr h2), if_neg (not_not.mpr h3), if_neg (not_not.mpr h4),
    if_neg h5]
  exact ⟨_, rfl⟩

/-- `BuildPeer` on a validated configuration whose SIM texts carry no
surrounding white space. -/
theorem BuildPeer_succeeds {σ : Type} (x : Lib) (ax : aka.Lib) (cfg : config.Config)
    (tc : testcase.Case) (store : Option (sqnstore.Store σ)) (hx : x.decodesHex)
    (hv : cfg.Validate = none)
    (hki : strings.TrimSpace cfg.SIM.KI = cfg.SIM.KI)
    (hopc : strings.TrimSpace cfg.SIM.OPC = cfg.SIM.OPC)
    (hamf : strings.TrimSpace cfg.SIM.AMF = cfg.SIM.AMF)
    (hsqn : strings.TrimSpace cfg.SIM.SQNInitialHex = cfg.SIM.SQNInitialHex) :
    (∃ ki, decodeHex x "ki" cfg.SIM.KI 16 = .ok ki ∧ ki.length = 16) ∧
    (∃ opc, decodeHex x "opc" cfg.SIM.OPC 16 = .ok opc ∧ opc.length = 16) ∧
    (∃ amf, decodeHex x "amf" cfg.SIM.AMF 2 = .ok amf ∧ amf.length = 2) ∧
    (∃ sqn, sqnstore.ParseSQNHex cfg.SIM.SQNInitialHex = .ok sqn ∧ sqn ≤ 2 ^ 48 - 1) ∧
    ∃ peer, BuildPeer x ax cfg tc store = .ok peer := by
  obtain ⟨himsi, v1, v2, v3, v4⟩ := Validate_none cfg hv
  obtain ⟨ki, hk, hkl⟩ := decodeHex_of_valid x hx "ki" cfg.SIM.KI 16 v1 hki
  obtain ⟨opc, ho, hol⟩ := decodeHex_of_valid x hx "opc" cfg.SIM.OPC 16 v2 hopc
  obtain ⟨amf, ha, hal⟩ := decodeHex_of_valid x hx "amf" cfg.SIM.AMF 2 v3 hamf
  obtain ⟨sqn, hs, hsl⟩ := ParseSQNHex_of_valid cfg.SIM.SQNInitialHex v4 hsqn
  have hne : cfg.SIM.IMSI ≠ "" := by
    intro he
    rw [he] at himsi
    exact himsi (by decide)
  refine ⟨⟨ki, hk, hkl⟩, ⟨opc, ho, hol⟩, ⟨amf, ha, hal⟩, ⟨sqn, hs, hsl⟩, ?_⟩
  unfold BuildPeer
  simp only [ApplyTestcase_SIM, hk, ho, ha, hs]
  obtain ⟨m1, hm1⟩ := New_ok_of (σ := σ)
    { MethodType := eap.TypeAKA
      IMSI := cfg.SIM.IMSI
      KI := ki
      OPC := opc
      AMF := amf
      NetName := ""
      Realm := (config.ApplyTestcase cfg tc).Identity.Realm
      InitialSQN := sqn
      SQNStore := store
      PermanentIDPolicy := (config.ApplyTestcase cfg tc).EAP.PermanentIDPolicy
      PermanentIdentityOverride := tc.EAP.PermanentIdentityOverride
      OuterIdentityUpdateOnPermanentReq :=
        (config.ApplyTestcase cfg tc).EAP.OuterIdentityUpdateOnPermanentReq }
    (Or.inl rfl) hkl hol hal hne
  obtain ⟨m2, hm2⟩ := New_ok_of (σ := σ)
    { MethodType := eap.TypeAKAPrime
      IMSI := cfg.SIM.IMSI
      KI := ki
      OPC := opc
      AMF := amf
      NetName := (config.ApplyTestcase cfg tc).EAP.AKAPrime.NetName
      Realm := (config.ApplyTestcase cfg tc).Identity.Realm
      InitialSQN := sqn
      SQNStore := store
      PermanentIDPolicy := (config.ApplyTestcase cfg tc).EAP.PermanentIDPolicy
      PermanentIdentityOverride := tc.EAP.PermanentIdentityOverride
      OuterIdentityUpdateOnPermanentReq :=
        (config.ApplyTestcase cfg tc).EAP.OuterIdentityUpdateOnPermanentReq }
    (Or.inr rfl) hkl hol hal hne
  rw [hm1]
  simp only
  rw [hm2]
  exact ⟨_, rfl⟩

/-- The same validated configuration at the sample inputs: the four texts
decode and `BuildPeer` returns a peer. -/
theorem BuildPeer_succeeds_sample :
    (∃ ki, decodeHex sampleLib "ki" config.sampleConfig.SIM.KI 16 = .ok ki ∧ ki.length = 16) ∧
    (∃ opc, decodeHex sampleLib "opc" config.sampleConfig.SIM.OPC 16 = .ok opc ∧
      opc.length = 16) ∧
    (∃ amf, decodeHex sampleLib "amf" config.sampleConfig.SIM.AMF 2 = .ok amf ∧
      amf.length = 2) ∧
    (∃ sqn, sqnstore.ParseSQNHex config.sampleConfig.SIM.SQNInitialHex = .ok sqn ∧
      sqn ≤ 2 ^ 48 - 1) ∧
    ∃ peer, BuildPeer sampleLib aka.sampleLib config.sampleConfig sampleCaseOverride
      (none : Option (sqnstore.Store Unit)) = .ok peer :=
  BuildPeer_succeeds sampleLib aka.sampleLib config.sampleConfig sampleCaseOverride none
    sampleLib_decodesHex (by decide) (by decide) (by decide) (by decide) (by decide)

/-- The decoder `hexDecode` refuses a text with an odd number of
characters. -/
theorem hexDecode_odd (n : Nat) : ∀ l : List Char, l.length = 2 * n + 1 →
    ∃ err, hexDecode l = .error err := by
  induction n with
  | zero =>
    intro l hl
    rcases l with _ | ⟨a, _ | ⟨b, rest⟩⟩
    · simp at hl
    · exact ⟨_, rfl⟩
    · simp only [List.length_cons] at hl
      omega
  | succ n ih =>
    intro l hl
    rcases l with _ | ⟨a, _ | ⟨b, rest⟩⟩
    · simp at hl
    · simp only [List.length_cons, List.length_nil] at hl
      omega
    · obtain ⟨e, he⟩ := ih rest (by
        simp only [List.length_cons] at hl
        omega)
      unfold hexDecode
      rw [he]
      cases hexDigit a <;> cases hexDigit b <;> exact ⟨_, rfl⟩

theorem sampleLib_refusesOddHex : sampleLib.refusesOddHex := by
  intro s hs
  exact hexDecode_odd (s.length / 2) s.data (by
    have : s.data.length = s.length := rfl
    omega)

/-- The error of `decodeHex` on the KI is what `BuildPeer` returns. -/
theorem BuildPeer_ki_error {σ : Type} (x : Lib) (ax : aka.Lib) (cfg : config.Config)
    (tc : testcase.Case) (store : Option (sqnstore.Store σ)) (err : String)
    (h : decodeHex x "ki" cfg.SIM.KI 16 = .error err) :
    BuildPeer x ax cfg tc store = .error err := by
  unfold BuildPeer
  simp only [ApplyTestcase_SIM, h]

/-- With a decoder that refuses a text with an odd number of characters,
`decodeHex` returns an error on such a text. -/
theorem decodeHex_odd (x : Lib) (hx : x.refusesOddHex) (label value : String)
    (expected : Nat) (h : value.length % 2 = 1) :
    ∃ err, decodeHex x label value expected = .error err := by
  obtain ⟨e, he⟩ := hx value h
  unfold decodeHex
  rw [he]
  exact ⟨_, rfl⟩

/-- C39, where the code departs from it: the configuration whose sim.ki is
a space followed by 32 hexadecimal digits is accepted by `Validate`, since
`validateHexLen` checks the trimmed text, and is refused by `BuildPeer`,
which hands the text as it stands to `decodeHex`. With the sample decoder
`decodeHex` returns the error of an invalid byte and `BuildPeer` returns that
error and no peer, for every AKA library, testcase and store; the sample
decoder refuses a text with an odd number of characters, and with every
decoder that does so `BuildPeer` returns an error on this configuration. -/
theorem BuildPeer_padded_ki :
    config.sampleConfigPaddedKI.Validate = none ∧
    decodeHex sampleLib "ki" config.sampleConfigPaddedKI.SIM.KI 16 =
      .error "app: invalid ki hex: encoding/hex: invalid byte" ∧
    (∀ (σ : Type) (ax : aka.Lib) (tc : testcase.Case) (store : Option (sqnstore.Store σ)),
      BuildPeer sampleLib ax config.sampleConfigPaddedKI tc store =
        .error "app: invalid ki hex: encoding/hex: invalid byte") ∧
    sampleLib.refusesOddHex ∧
    ∀ x : Lib, x.refusesOddHex →
      ∀ (σ : Type) (ax : aka.Lib) (tc : testcase.Case) (store : Option (sqnstore.Store σ)),
        ∃ err, BuildPeer x ax config.sampleConfigPaddedKI tc store = .error err :=
  ⟨by decide, rfl,
    fun _ ax tc store => BuildPeer_ki_error sampleLib ax _ tc store _ rfl,
    sampleLib_refusesOddHex,
    fun x hx _ ax tc store =>
      (decodeHex_odd x hx "ki" config.sampleConfigPaddedKI.SIM.KI 16 (by decide)).elim
        fun err he => ⟨err, BuildPeer_ki_error x ax _ tc store err he⟩⟩

theorem BuildPeer_never_mismatch_witness :
    ∃ peer, BuildPeer sampleLib aka.sampleLib config.sampleConfig sampleCaseOverride
        (none : Option (sqnstore.Store Unit)) = .ok peer ∧
      peer.ExpectedMethod = none ∧
      (∀ (sess : Option eap.Session) (req : eap.Packet) (w : Unit)
        (e : eap.MethodMismatchError),
        (eap.Peer.Handle (some { peer with Session := sess }) req w).result ≠
          .error (.mismatch e)) ∧
      (∀ (sess : Option eap.Session) (eapMessage : List Nat) (w : Unit)
        (verdict : Int × Option RunError),
        (challengeStep { peer with Session := sess } eapMessage w).2 = .error verdict →
          verdict.1 = 2) :=
  (BuildPeer_succeeds sampleLib aka.sampleLib config.sampleConfig sampleCaseOverride
    (none : Option (sqnstore.Store Unit)) sampleLib_decodesHex (by decide) (by decide)
    (by decide) (by decide) (by decide)).2.2.2.2.elim
    fun peer hp =>
      ⟨peer, hp,
        BuildPeer_never_mismatch sampleLib aka.sampleLib config.sampleConfig
          sampleCaseOverride none peer hp⟩

end app
